import Mathlib

/-!
# RECC: command parsing and make-rule parsing

A shallow embedding of `src/src/deps.cpp`, `src/src/parsedcommand.cpp`,
`src/src/parsedcommand.h` and `src/src/parsedcommandfactory.cpp`.

`std::string` is a list of characters, `std::vector` and `std::list` are lists,
`std::set` is a `Finset`.
-/

namespace recc

/-- A `std::string`. -/
abbrev Str := List Char

/-! ## Deps::dependencies_from_make_rules (deps.cpp:38-91) -/

/-- The local variables of `Deps::dependencies_from_make_rules`. -/
structure MakeRulesState where
  result : Finset Str
  saw_colon_on_line : Bool
  saw_backslash : Bool
  current_filename : Str

/-- The statement pair `if (!current_filename.empty()) result.insert(current_filename);`
that occurs three times in the function (deps.cpp:62-64, 74-76, 85-87). -/
def insertIfNonEmpty (current_filename : Str) (result : Finset Str) : Finset Str :=
  if current_filename ≠ [] then insert current_filename result else result

/-- One iteration of the loop `for (const char &character : rules)` (deps.cpp:47-83). -/
def makeRulesStep (is_sun_format : Bool) (s : MakeRulesState) (character : Char) :
    MakeRulesState :=
  if s.saw_backslash then
    { s with
      saw_backslash := false
      current_filename :=
        if character ≠ '\n' ∧ s.saw_colon_on_line = true then s.current_filename ++ [character]
        else s.current_filename }
  else if character = '\\' then
    { s with saw_backslash := true }
  else if character = ':' ∧ s.saw_colon_on_line = false then
    { s with saw_colon_on_line := true }
  else if character = '\n' then
    { s with
      saw_colon_on_line := false
      result := insertIfNonEmpty s.current_filename s.result
      current_filename := [] }
  else if character = ' ' then
    if is_sun_format then
      if s.current_filename ≠ [] ∧ s.saw_colon_on_line = true then
        { s with current_filename := s.current_filename ++ [character] }
      else s
    else
      { s with
        result := insertIfNonEmpty s.current_filename s.result
        current_filename := [] }
  else if s.saw_colon_on_line then
    { s with current_filename := s.current_filename ++ [character] }
  else s

/-- The state before the first character (deps.cpp:42-46). -/
def makeRulesInit : MakeRulesState :=
  { result := ∅, saw_colon_on_line := false, saw_backslash := false, current_filename := [] }

/-- The whole loop, started in state `s`. -/
def makeRulesRun (is_sun_format : Bool) (s : MakeRulesState) (rules : Str) : MakeRulesState :=
  rules.foldl (makeRulesStep is_sun_format) s

/-- What is returned when the loop ends in state `s` (deps.cpp:85-90). -/
def makeRulesFinish (s : MakeRulesState) : Finset Str :=
  insertIfNonEmpty s.current_filename s.result

/-- `Deps::dependencies_from_make_rules(rules, is_sun_format)`. -/
def dependencies_from_make_rules (rules : Str) (is_sun_format : Bool) : Finset Str :=
  makeRulesFinish (makeRulesRun is_sun_format makeRulesInit rules)

/-! ### The inputs the make-rule claims quantify over -/

/-- Lines joined by single newlines. -/
def joinLines : List Str → Str
  | [] => []
  | [l] => l
  | l :: l2 :: ls => l ++ '\n' :: joinLines (l2 :: ls)

/-- A text of lines, with or without a final newline. -/
def makeText (lines : List Str) (finalNewline : Bool) : Str :=
  joinLines lines ++ (if finalNewline then ['\n'] else [])

/-- What stands before a dependency name in a GNU rule: `n + 1` spaces, or
`m + 1` spaces, a backslash, a newline and `n` spaces. -/
inductive GnuSep where
  | spaces (n : Nat)
  | continuation (m n : Nat)

/-- The characters of a separator. -/
def GnuSep.render : GnuSep → Str
  | .spaces n => List.replicate (n + 1) ' '
  | .continuation m n => List.replicate (m + 1) ' ' ++ '\\' :: '\n' :: List.replicate n ' '

/-- A GNU rule `target: dep1 dep2 ...`: each dependency comes with the separator before it. -/
structure GnuRule where
  target : Str
  deps : List (GnuSep × Str)

/-- The characters of a GNU rule. -/
def GnuRule.render (r : GnuRule) : Str :=
  r.target ++ ':' :: (r.deps.map (fun p => p.1.render ++ p.2)).flatten

/-- A non-empty name without space, colon, backslash or newline. -/
def PlainName (s : Str) : Prop :=
  s ≠ [] ∧ ∀ c ∈ s, c ≠ ' ' ∧ c ≠ ':' ∧ c ≠ '\\' ∧ c ≠ '\n'

instance : DecidablePred PlainName := fun s => by
  unfold PlainName
  infer_instance

/-- All dependency names of a list of GNU rules. -/
def gnuDeps (rs : List GnuRule) : List Str :=
  (rs.map (fun r => r.deps.map Prod.snd)).flatten

/-- A Sun line `target : dep`. -/
structure SunLine where
  target : Str
  dep : Str

/-- The characters of a Sun line. -/
def SunLine.render (l : SunLine) : Str :=
  l.target ++ ' ' :: ':' :: ' ' :: l.dep

/-- A Sun target: no colon, backslash or newline. -/
def SunTarget (s : Str) : Prop :=
  ∀ c ∈ s, c ≠ ':' ∧ c ≠ '\\' ∧ c ≠ '\n'

/-- A Sun dependency: non-empty, neither begins nor ends with a space, no backslash or
newline. -/
def SunDep (s : Str) : Prop :=
  s ≠ [] ∧ s.head? ≠ some ' ' ∧ s.getLast? ≠ some ' ' ∧ ∀ c ∈ s, c ≠ '\\' ∧ c ≠ '\n'

instance : DecidablePred SunTarget := fun s => by
  unfold SunTarget
  infer_instance

instance : DecidablePred SunDep := fun s => by
  unfold SunDep
  infer_instance

/-! ## What the parser uses and the sources do not contain

`compilerdefaults.h`, `env.h`, `fileutils.h`, `parsedcommandfactory.h` and the buildbox-common
library are not among the sources. Their constants and functions are the fields of `Env`. -/

/-- The parse functions a rule table maps to (the functions of `ParseRule`). -/
inductive ParseRule where
  | parseInterfersWithDepsOption
  | parseIsInputPathOption
  | parseIsEqualInputPathOption
  | parseIsCompileOption
  | parseOptionRedirectsOutput
  | parseOptionRedirectsDepsOutput
  | parseOptionDepsRuleTarget
  | parseIsPreprocessorArgOption
  | parseIsMacro
  | parseOptionSetsGccLanguage
  | parseOptionIsUnsupported
  deriving DecidableEq, Repr

/-- `ParsedCommandFactory::CompilerParseRulesMap`, a map from option to parse function: its
entries, in the order of the initialiser. No key occurs twice in the tables of the program. -/
abbrev CompilerParseRulesMap := List (Str × ParseRule)

/-- The constants, configuration values and library functions the command parser reads. -/
structure Env where
  /-- `FileUtils::modifyPathForRemote(path, workingDirectory, normalizePath)`; the third
  argument is `true` where the caller leaves it out. -/
  modifyPathForRemote : Str → Str → Bool → Str
  /-- `buildboxcommon::FileUtils::normalizePath`. -/
  normalizePath : Str → Str
  /-- `buildboxcommon::FileUtils::isDirectory`, a look at the local file system. -/
  isDirectory : Str → Bool
  /-- `SupportedCompilers::Gcc`. -/
  Gcc : List Str
  /-- `SupportedCompilers::GccPreprocessor`. -/
  GccPreprocessor : List Str
  /-- `SupportedCompilers::SunCPP`. -/
  SunCPP : List Str
  /-- `SupportedCompilers::AIX`. -/
  AIX : List Str
  /-- `SupportedCompilers::CCompilers`. -/
  CCompilers : List Str
  /-- `SupportedCompilers::GccDefaultDeps`. -/
  GccDefaultDeps : List Str
  /-- `SupportedCompilers::SunCPPDefaultDeps`. -/
  SunCPPDefaultDeps : List Str
  /-- `SupportedCompilers::AIXDefaultDeps`. -/
  AIXDefaultDeps : List Str
  /-- `SupportedCompilers::GccSupportedLanguages`. -/
  GccSupportedLanguages : List Str
  /-- The compile-time macro `RECC_PLATFORM_COMPILER`, `none` when it is not defined. -/
  RECC_PLATFORM_COMPILER : Option Str
  /-- The configuration value `RECC_DEPS_GLOBAL_PATHS`. -/
  RECC_DEPS_GLOBAL_PATHS : Bool
  /-- The name of the `buildboxcommon::TemporaryFile` made for an AIX compiler. -/
  temporaryFileName : Str
  /-- The order in which `for (const auto &option_map_val : options)` visits the entries of a
  `CompilerParseRulesMap`: it is fixed by the container type, which `parsedcommandfactory.h`
  declares. -/
  iterationOrder : CompilerParseRulesMap → CompilerParseRulesMap

/-- The iteration over a rule table visits the entries of the table, each once. -/
def Env.IteratesEntries (E : Env) : Prop :=
  ∀ options : CompilerParseRulesMap, (E.iterationOrder options).Perm options

/-! ## ParsedCommand (parsedcommand.h, parsedcommand.cpp) -/

/-- The data members of `class ParsedCommand` (parsedcommand.h:140-158);
`d_dependencyFileAIX` holds the name of the temporary file, `none` for `nullptr`. -/
structure ParsedCommand where
  d_compilerCommand : Bool
  d_md_option_set : Bool
  d_isGcc : Bool
  d_isClang : Bool
  d_isSunStudio : Bool
  d_producesSunMakeRules : Bool
  d_containsUnsupportedOptions : Bool
  d_upload_all_include_dirs : Bool
  d_compiler : Str
  d_originalCommand : List Str
  d_defaultDepsCommand : List Str
  d_preProcessorOptions : List Str
  d_command : List Str
  d_dependenciesCommand : List Str
  d_inputFiles : List Str
  d_commandProducts : Finset Str
  d_commandDepsProducts : Finset Str
  d_includeDirs : Finset Str
  d_dependencyFileAIX : Option Str

/-- The default constructor `ParsedCommand()` (parsedcommand.h:35-40). -/
def ParsedCommand.empty : ParsedCommand :=
  { d_compilerCommand := false
    d_md_option_set := false
    d_isGcc := false
    d_isClang := false
    d_isSunStudio := false
    d_producesSunMakeRules := false
    d_containsUnsupportedOptions := false
    d_upload_all_include_dirs := false
    d_compiler := []
    d_originalCommand := []
    d_defaultDepsCommand := []
    d_preProcessorOptions := []
    d_command := []
    d_dependenciesCommand := []
    d_inputFiles := []
    d_commandProducts := ∅
    d_commandDepsProducts := ∅
    d_includeDirs := ∅
    d_dependencyFileAIX := none }

/-- The lambda `is_version_character` of `commandBasename` (parsedcommand.cpp:137-139). -/
def is_version_character (character : Char) : Bool :=
  character.isDigit || character == '.' || character == '-'

/-- The loop `while (length > 0 && is_version_character(basename[length - 1])) --length;`
(parsedcommand.cpp:141-143): the value of `length` when it ends. -/
def dropVersionCharacters (basename : Str) : Nat → Nat
  | 0 => 0
  | n + 1 =>
    if is_version_character (basename.getD n ' ') then dropVersionCharacters basename n
    else n + 1

/-- `ParsedCommand::commandBasename` (parsedcommand.cpp:119-146). -/
def commandBasename (path : Str) : Str :=
  let basename := (path.reverse.takeWhile (fun c => c != '/')).reverse
  let length := basename.length
  let rSuffix : Str := ['_', 'r']
  let length :=
    if length > 2 ∧ basename.drop (length - rSuffix.length) = rSuffix then length - 2
    else if length > 3 ∧ (basename.drop (length - 3)).take rSuffix.length = rSuffix then
      length - 3
    else length
  basename.take (dropVersionCharacters basename length)

/-- The chain `if (SupportedCompilers::Gcc.count(d_compiler)) ... else if ...` of the
constructor (parsedcommand.cpp:38-89): `d_compiler`, the default deps command and the dialect
flags. -/
def ParsedCommand.classifyDialect (E : Env) (d_compiler : Str) : ParsedCommand :=
  let c : ParsedCommand := { ParsedCommand.empty with d_compiler := d_compiler }
  if d_compiler ∈ E.Gcc then
    let isClang : Bool := d_compiler = "clang".toList ∨ d_compiler = "clang++".toList
    { c with
      d_defaultDepsCommand := E.GccDefaultDeps
      d_isClang := isClang
      d_isGcc := !isClang }
  else if d_compiler ∈ E.SunCPP then
    { c with
      d_defaultDepsCommand := E.SunCPPDefaultDeps
      d_producesSunMakeRules := true
      d_isSunStudio := true }
  else if d_compiler ∈ E.AIX then
    { c with
      d_defaultDepsCommand := E.AIXDefaultDeps ++ [E.temporaryFileName]
      d_producesSunMakeRules := true
      d_dependencyFileAIX := some E.temporaryFileName }
  else
    match E.RECC_PLATFORM_COMPILER with
    | none => c
    | some platform =>
      if d_compiler ∈ E.CCompilers then
        if platform = "CC".toList then
          { c with
            d_defaultDepsCommand := E.SunCPPDefaultDeps
            d_producesSunMakeRules := true
            d_isSunStudio := true }
        else if platform = "clang".toList then
          { c with d_defaultDepsCommand := E.GccDefaultDeps, d_isClang := true }
        else if platform = "gcc".toList then
          { c with d_defaultDepsCommand := E.GccDefaultDeps, d_isGcc := true }
        else if platform = "xlc".toList then
          { c with
            d_defaultDepsCommand := E.AIXDefaultDeps ++ [E.temporaryFileName]
            d_producesSunMakeRules := true
            d_dependencyFileAIX := some E.temporaryFileName }
        else c
      else c

/-- The part of the constructor that depends on the compiler name alone
(parsedcommand.cpp:38-95): the chain above, then `-v` for clang under
`RECC_DEPS_GLOBAL_PATHS`. -/
def ParsedCommand.classify (E : Env) (d_compiler : Str) : ParsedCommand :=
  let c := ParsedCommand.classifyDialect E d_compiler
  { c with
    d_defaultDepsCommand :=
      if c.d_isClang && E.RECC_DEPS_GLOBAL_PATHS then c.d_defaultDepsCommand ++ ["-v".toList]
      else c.d_defaultDepsCommand }

/-- The constructor `ParsedCommand(command, workingDirectory)` (parsedcommand.cpp:22-117). -/
def ParsedCommand.construct (E : Env) (command : List Str) (workingDirectory : Str) :
    ParsedCommand :=
  match command with
  | [] => ParsedCommand.empty
  | compiler :: rest =>
    if compiler = [] then ParsedCommand.empty
    else
      let c := ParsedCommand.classify E (commandBasename compiler)
      { c with
        d_command := c.d_command ++ [E.modifyPathForRemote compiler workingDirectory false]
        d_dependenciesCommand := c.d_dependenciesCommand ++ [compiler]
        d_originalCommand := rest ++ c.d_originalCommand }

/-! `ParsedCommand::get_dependencies_command` (parsedcommand.h:78-86) has no embedding: as
written its body is not well-formed C++ (the block of the range-for is not closed, and the
`return` inside it names the loop variable, a `std::string`, in a function that returns a
vector). What its comment says it returns is the member `d_dependenciesCommand`. -/

/-- `ParsedCommand::get_command` (parsedcommand.h:71). -/
def ParsedCommand.get_command (c : ParsedCommand) : List Str := c.d_command

/-- `ParsedCommand::is_compiler_command` (parsedcommand.h:45). -/
def ParsedCommand.is_compiler_command (c : ParsedCommand) : Bool := c.d_compilerCommand

/-- `ParsedCommand::get_products` (parsedcommand.h:115-117). -/
def ParsedCommand.get_products (c : ParsedCommand) : Finset Str := c.d_commandProducts

/-- `ParsedCommand::get_deps_products` (parsedcommand.h:122-125). -/
def ParsedCommand.get_deps_products (c : ParsedCommand) : Finset Str := c.d_commandDepsProducts

/-! ## ParsedCommandFactory (parsedcommandfactory.cpp) -/

/-- `GccRules` (parsedcommandfactory.cpp:32-72). -/
def GccRules : CompilerParseRulesMap :=
  [ ("-MD".toList, .parseInterfersWithDepsOption),
    ("-MMD".toList, .parseInterfersWithDepsOption),
    ("-MG".toList, .parseInterfersWithDepsOption),
    ("-MP".toList, .parseInterfersWithDepsOption),
    ("-MV".toList, .parseInterfersWithDepsOption),
    ("-Wmissing-include-dirs".toList, .parseInterfersWithDepsOption),
    ("-Werror=missing-include-dirs".toList, .parseInterfersWithDepsOption),
    ("-c".toList, .parseIsCompileOption),
    ("-D".toList, .parseIsMacro),
    ("-o".toList, .parseOptionRedirectsOutput),
    ("-MF".toList, .parseOptionRedirectsDepsOutput),
    ("-MT".toList, .parseOptionDepsRuleTarget),
    ("-MQ".toList, .parseOptionDepsRuleTarget),
    ("-include".toList, .parseIsInputPathOption),
    ("-imacros".toList, .parseIsInputPathOption),
    ("-I".toList, .parseIsInputPathOption),
    ("-iquote".toList, .parseIsInputPathOption),
    ("-isystem".toList, .parseIsInputPathOption),
    ("-idirafter".toList, .parseIsInputPathOption),
    ("-iprefix".toList, .parseIsInputPathOption),
    ("-isysroot".toList, .parseIsInputPathOption),
    ("--sysroot".toList, .parseIsEqualInputPathOption),
    ("-Wp,".toList, .parseIsPreprocessorArgOption),
    ("-Xpreprocessor".toList, .parseIsPreprocessorArgOption),
    ("-x".toList, .parseOptionSetsGccLanguage),
    ("-fprofile-use".toList, .parseOptionIsUnsupported),
    ("-fauto-profile".toList, .parseOptionIsUnsupported),
    ("-specs".toList, .parseOptionIsUnsupported),
    ("-M".toList, .parseOptionIsUnsupported),
    ("-MM".toList, .parseOptionIsUnsupported),
    ("-E".toList, .parseOptionIsUnsupported) ]

/-- `GccPreprocessorRules` (parsedcommandfactory.cpp:74-99). -/
def GccPreprocessorRules : CompilerParseRulesMap :=
  [ ("-MD".toList, .parseInterfersWithDepsOption),
    ("-MMD".toList, .parseInterfersWithDepsOption),
    ("-M".toList, .parseOptionIsUnsupported),
    ("-MM".toList, .parseOptionIsUnsupported),
    ("-MG".toList, .parseInterfersWithDepsOption),
    ("-MP".toList, .parseInterfersWithDepsOption),
    ("-MV".toList, .parseInterfersWithDepsOption),
    ("-o".toList, .parseOptionRedirectsOutput),
    ("-MF".toList, .parseOptionRedirectsDepsOutput),
    ("-MT".toList, .parseOptionDepsRuleTarget),
    ("-MQ".toList, .parseOptionDepsRuleTarget),
    ("-include".toList, .parseIsInputPathOption),
    ("-imacros".toList, .parseIsInputPathOption),
    ("-I".toList, .parseIsInputPathOption),
    ("-iquote".toList, .parseIsInputPathOption),
    ("-isystem".toList, .parseIsInputPathOption),
    ("-idirafter".toList, .parseIsInputPathOption),
    ("-iprefix".toList, .parseIsInputPathOption),
    ("-isysroot".toList, .parseIsInputPathOption),
    ("--sysroot".toList, .parseIsEqualInputPathOption) ]

/-- `SunCPPRules` (parsedcommandfactory.cpp:101-122). -/
def SunCPPRules : CompilerParseRulesMap :=
  [ ("-xMD".toList, .parseInterfersWithDepsOption),
    ("-xMMD".toList, .parseInterfersWithDepsOption),
    ("-D".toList, .parseIsMacro),
    ("-o".toList, .parseOptionRedirectsOutput),
    ("-xMF".toList, .parseOptionRedirectsOutput),
    ("-I".toList, .parseIsInputPathOption),
    ("-include".toList, .parseIsInputPathOption),
    ("-c".toList, .parseIsCompileOption),
    ("-xpch".toList, .parseOptionIsUnsupported),
    ("-xprofile".toList, .parseOptionIsUnsupported),
    ("-###".toList, .parseOptionIsUnsupported),
    ("-xM".toList, .parseOptionIsUnsupported),
    ("-xM1".toList, .parseOptionIsUnsupported),
    ("-E".toList, .parseOptionIsUnsupported) ]

/-- `AixRules` (parsedcommandfactory.cpp:124-147). -/
def AixRules : CompilerParseRulesMap :=
  [ ("-qsyntaxonly".toList, .parseInterfersWithDepsOption),
    ("-D".toList, .parseIsMacro),
    ("-o".toList, .parseOptionRedirectsOutput),
    ("-MF".toList, .parseOptionRedirectsOutput),
    ("-qexpfile".toList, .parseOptionRedirectsOutput),
    ("-qinclude".toList, .parseIsInputPathOption),
    ("-I".toList, .parseIsInputPathOption),
    ("-qcinc".toList, .parseIsInputPathOption),
    ("-c".toList, .parseIsCompileOption),
    ("-#".toList, .parseOptionIsUnsupported),
    ("-qshowpdf".toList, .parseOptionIsUnsupported),
    ("-qdump_class_hierachy".toList, .parseOptionIsUnsupported),
    ("-E".toList, .parseOptionIsUnsupported),
    ("-M".toList, .parseOptionIsUnsupported),
    ("-qmakedep".toList, .parseOptionIsUnsupported),
    ("-qmakedep=gcc".toList, .parseOptionIsUnsupported) ]

/-- The C function `isspace` in the "C" locale. -/
def isspace (c : Char) : Bool :=
  c == ' ' || c == '\t' || c == '\n' || c == '\x0b' || c == '\x0c' || c == '\r'

/-- The value of `tempOption` when `matchCompilerOptions` looks it up
(parsedcommandfactory.cpp:356-362): `option` up to its first `=`, whitespace erased. -/
def strippedOption (option : Str) : Str :=
  (option.takeWhile (fun c => c != '=')).filter (fun c => !isspace c)

/-- A flag without `=` and without whitespace. -/
def PlainFlag (k : Str) : Prop := ∀ c ∈ k, c ≠ '=' ∧ isspace c = false

instance : DecidablePred PlainFlag := fun k => by
  unfold PlainFlag
  infer_instance

/-- `ParseRuleHelper::matchCompilerOptions` (parsedcommandfactory.cpp:345-380); `none` is the
pair of the empty string and `nullptr`. -/
def matchCompilerOptions (E : Env) (option : Str) (options : CompilerParseRulesMap) :
    Option (Str × ParseRule) :=
  match option with
  | '-' :: _ =>
    let tempOption := strippedOption option
    match options.find? (fun option_map_val => option_map_val.1 = tempOption) with
    | some option_map_val => some (tempOption, option_map_val.2)
    | none =>
      (E.iterationOrder options).find?
        (fun option_map_val => option.take option_map_val.1.length = option_map_val.1)
  | _ => none

/-- `ParseRuleHelper::appendAndRemoveOption` (parsedcommandfactory.cpp:606-648). `none`:
`front()` of the empty `d_originalCommand`, which is undefined. -/
def appendAndRemoveOption (E : Env) (workingDirectory : Str)
    (isPath toDeps isOutput depsOutput : Bool) (command : ParsedCommand) :
    Option ParsedCommand :=
  match command.d_originalCommand with
  | [] => none
  | option :: rest =>
    if isPath then
      let replacedPath := E.modifyPathForRemote option workingDirectory true
      let local_normalized_path := E.normalizePath option
      some
        { command with
          d_includeDirs :=
            if E.isDirectory local_normalized_path then insert replacedPath command.d_includeDirs
            else command.d_includeDirs
          d_dependenciesCommand :=
            if toDeps then command.d_dependenciesCommand ++ [option]
            else command.d_dependenciesCommand
          d_command := command.d_command ++ [replacedPath]
          d_commandProducts :=
            if isOutput && !depsOutput then insert replacedPath command.d_commandProducts
            else command.d_commandProducts
          d_commandDepsProducts :=
            if isOutput && !depsOutput then command.d_commandDepsProducts
            else if isOutput then insert replacedPath command.d_commandDepsProducts
            else command.d_commandDepsProducts
          d_originalCommand := rest }
    else
      some
        { command with
          d_command := command.d_command ++ [option]
          d_dependenciesCommand :=
            if toDeps then command.d_dependenciesCommand ++ [option]
            else command.d_dependenciesCommand
          d_originalCommand := rest }

/-- `ParseRuleHelper::parseGccOption` (parsedcommandfactory.cpp:552-604). The callers that
leave arguments out get `toDeps = true`, `isOutput = false`, `depsOutput = false`: the
defaults are declared in `parsedcommandfactory.h`, and these are the values under which the
tests `testInputPathsAndGCC` and `testPreprocessor` hold. -/
def parseGccOption (E : Env) (workingDirectory option : Str)
    (toDeps isOutput depsOutput : Bool) (command : ParsedCommand) : Option ParsedCommand :=
  match command.d_originalCommand with
  | [] => none
  | val :: rest =>
    if val = option then
      (appendAndRemoveOption E workingDirectory false toDeps false false command).bind
        (appendAndRemoveOption E workingDirectory true toDeps isOutput depsOutput)
    else
      let equalPos := val.indexOf '='
      let modifiedOption := if equalPos < val.length then option ++ ['='] else option
      let optionPath :=
        if equalPos < val.length then val.drop (equalPos + 1) else val.drop option.length
      let replacedPath := E.modifyPathForRemote optionPath workingDirectory true
      let local_normalized_path := E.normalizePath optionPath
      some
        { command with
          d_includeDirs :=
            if E.isDirectory local_normalized_path then insert replacedPath command.d_includeDirs
            else command.d_includeDirs
          d_command := command.d_command ++ [modifiedOption ++ replacedPath]
          d_commandProducts :=
            if isOutput && !depsOutput then insert replacedPath command.d_commandProducts
            else command.d_commandProducts
          d_commandDepsProducts :=
            if isOutput && !depsOutput then command.d_commandDepsProducts
            else if isOutput then insert replacedPath command.d_commandDepsProducts
            else command.d_commandDepsProducts
          d_dependenciesCommand :=
            if isOutput && !depsOutput then command.d_dependenciesCommand
            else if isOutput then command.d_dependenciesCommand
            else if toDeps then command.d_dependenciesCommand ++ [modifiedOption ++ optionPath]
            else command.d_dependenciesCommand
          d_originalCommand := rest }

/-- The loop of `ParseRuleHelper::parseStageOptionList` (parsedcommandfactory.cpp:655-666):
the state is `quoted`, `current` and `*result`. -/
def parseStageOptionListStep (s : Bool × Str × List Str) (character : Char) :
    Bool × Str × List Str :=
  if character = '\'' then (!s.1, s.2.1, s.2.2)
  else if character = ',' ∧ s.1 = false then (s.1, [], s.2.2 ++ [s.2.1])
  else (s.1, s.2.1 ++ [character], s.2.2)

/-- `ParseRuleHelper::parseStageOptionList` (parsedcommandfactory.cpp:650-668): the value
of `*result` on return. -/
def parseStageOptionList (option : Str) (result : List Str) : List Str :=
  let s := option.foldl parseStageOptionListStep (false, [], result)
  s.2.2 ++ [s.2.1]

/-- `ParseRule::parseInterfersWithDepsOption` (parsedcommandfactory.cpp:382-399). -/
def parseInterfersWithDepsOption (command : ParsedCommand) : Option ParsedCommand :=
  match command.d_originalCommand with
  | [] => none
  | front :: rest =>
    some
      { command with
        d_md_option_set :=
          if front = "-MMD".toList ∨ front = "-MD".toList then true
          else command.d_md_option_set
        d_upload_all_include_dirs :=
          if front = "-MMD".toList ∨ front = "-MD".toList then
            command.d_upload_all_include_dirs
          else if front = "-Wmissing-include-dirs".toList ∨
              front = "-Werror=missing-include-dirs".toList then true
          else command.d_upload_all_include_dirs
        d_command := command.d_command ++ [front]
        d_originalCommand := rest }

/-- `ParseRule::parseIsCompileOption` (parsedcommandfactory.cpp:415-423). -/
def parseIsCompileOption (E : Env) (workingDirectory : Str) (command : ParsedCommand) :
    Option ParsedCommand :=
  appendAndRemoveOption E workingDirectory false true false false
    { command with d_compilerCommand := true }

/-- `ParseRule::parseIsPreprocessorArgOption` (parsedcommandfactory.cpp:448-468). -/
def parseIsPreprocessorArgOption (option : Str) (command : ParsedCommand) :
    Option ParsedCommand :=
  match command.d_originalCommand with
  | [] => none
  | val :: rest =>
    if option = "-Wp,".toList then
      let optionList := val.drop option.length
      some
        { command with
          d_preProcessorOptions := parseStageOptionList optionList command.d_preProcessorOptions
          d_originalCommand := rest }
    else if option = "-Xpreprocessor".toList then
      match rest with
      | [] => none
      | next :: rest2 =>
        some
          { command with
            d_preProcessorOptions := command.d_preProcessorOptions ++ [next]
            d_originalCommand := rest2 }
    else some { command with d_originalCommand := rest }

/-- `ParseRule::parseIsMacro` (parsedcommandfactory.cpp:470-493). -/
def parseIsMacro (option : Str) (command : ParsedCommand) : Option ParsedCommand :=
  match command.d_originalCommand with
  | [] => none
  | token :: rest =>
    if token = option then
      match rest with
      | [] => none
      | arg :: rest2 =>
        some
          { command with
            d_command := command.d_command ++ [token] ++ [arg]
            d_dependenciesCommand := command.d_dependenciesCommand ++ [token] ++ [arg]
            d_originalCommand := rest2 }
    else
      some
        { command with
          d_command := command.d_command ++ [token]
          d_dependenciesCommand := command.d_dependenciesCommand ++ [token]
          d_originalCommand := rest }

/-- `ParseRule::parseOptionSetsGccLanguage` (parsedcommandfactory.cpp:495-531). -/
def parseOptionSetsGccLanguage (E : Env) (workingDirectory option : Str)
    (command : ParsedCommand) : Option ParsedCommand :=
  match command.d_originalCommand with
  | [] => none
  | originalCommandOption :: rest =>
    if originalCommandOption = option ∧ rest = [] then
      some { command with d_containsUnsupportedOptions := true, d_originalCommand := rest }
    else
      let language :=
        if originalCommandOption = option then rest.headD []
        else originalCommandOption.drop option.length
      parseGccOption E workingDirectory option true false false
        { command with
          d_originalCommand := originalCommandOption :: rest
          d_containsUnsupportedOptions :=
            if language ∈ E.GccSupportedLanguages then command.d_containsUnsupportedOptions
            else true }

/-- `ParseRule::parseOptionIsUnsupported` (parsedcommandfactory.cpp:533-550). -/
def parseOptionIsUnsupported (command : ParsedCommand) : Option ParsedCommand :=
  some
    { command with
      d_containsUnsupportedOptions := true
      d_dependenciesCommand := command.d_dependenciesCommand ++ command.d_originalCommand
      d_command := command.d_command ++ command.d_originalCommand
      d_originalCommand := [] }

/-- The call `optionModifier.second(command, workingDirectory, optionModifier.first)` of
`parseCommand`, by the function the rule table gave. -/
def ParseRule.apply (E : Env) (workingDirectory option : Str) (command : ParsedCommand) :
    ParseRule → Option ParsedCommand
  | .parseInterfersWithDepsOption => recc.parseInterfersWithDepsOption command
  | .parseIsInputPathOption => parseGccOption E workingDirectory option true false false command
  | .parseIsEqualInputPathOption =>
    parseGccOption E workingDirectory option true false false command
  | .parseIsCompileOption => recc.parseIsCompileOption E workingDirectory command
  | .parseOptionRedirectsOutput =>
    parseGccOption E workingDirectory option false true false command
  | .parseOptionRedirectsDepsOutput =>
    parseGccOption E workingDirectory option false true true command
  | .parseOptionDepsRuleTarget =>
    parseGccOption E workingDirectory option false false false command
  | .parseIsPreprocessorArgOption => recc.parseIsPreprocessorArgOption option command
  | .parseIsMacro => recc.parseIsMacro option command
  | .parseOptionSetsGccLanguage => recc.parseOptionSetsGccLanguage E workingDirectory option command
  | .parseOptionIsUnsupported => recc.parseOptionIsUnsupported command

/-- One iteration of the loop of `ParsedCommandFactory::parseCommand`
(parsedcommandfactory.cpp:281-310), entered with a non-empty `d_originalCommand`. `none`: the
iteration reads `front()` of an empty list, which is undefined. -/
def parseCommandStep (E : Env) (parseRules : CompilerParseRulesMap) (workingDirectory : Str)
    (command : ParsedCommand) : Option ParsedCommand :=
  match command.d_originalCommand with
  | [] => none
  | currToken :: rest =>
    match matchCompilerOptions E currToken parseRules with
    | some optionModifier =>
      optionModifier.2.apply E workingDirectory optionModifier.1 command
    | none =>
      if currToken = "-".toList then
        some { command with d_containsUnsupportedOptions := true, d_originalCommand := rest }
      else if currToken.head? = some '-' then
        appendAndRemoveOption E workingDirectory false true false false command
      else
        some
          { command with
            d_command := command.d_command ++
              [E.modifyPathForRemote currToken workingDirectory true]
            d_dependenciesCommand := command.d_dependenciesCommand ++ [currToken]
            d_inputFiles := command.d_inputFiles ++ [currToken]
            d_originalCommand := rest }

/-- The loop `while (!command->d_originalCommand.empty())` run for at most `fuel`
iterations. -/
def parseCommandLoop (E : Env) (parseRules : CompilerParseRulesMap) (workingDirectory : Str) :
    Nat → ParsedCommand → Option ParsedCommand
  | 0, command => some command
  | fuel + 1, command =>
    match command.d_originalCommand with
    | [] => some command
    | _ :: _ =>
      (parseCommandStep E parseRules workingDirectory command).bind
        (parseCommandLoop E parseRules workingDirectory fuel)

/-- `ParsedCommandFactory::parseCommand` (parsedcommandfactory.cpp:274-312). Every iteration
takes at least one token off `d_originalCommand`, so the length of the list bounds the number
of iterations. -/
def parseCommand (E : Env) (parseRules : CompilerParseRulesMap) (workingDirectory : Str)
    (command : ParsedCommand) : Option ParsedCommand :=
  parseCommandLoop E parseRules workingDirectory command.d_originalCommand.length command

/-- What every parse function keeps: it takes tokens off the front of the work queue, at
least one, it never clears `d_containsUnsupportedOptions`, and it leaves
`d_defaultDepsCommand` alone. -/
structure StepKeeps (c c2 : ParsedCommand) : Prop where
  queue : ∃ pre, pre ≠ [] ∧ c.d_originalCommand = pre ++ c2.d_originalCommand
  unsupported : c.d_containsUnsupportedOptions = true → c2.d_containsUnsupportedOptions = true
  defaultDeps : c2.d_defaultDepsCommand = c.d_defaultDepsCommand

/-- What every parse function leaves of the two commands: what they held stays, in place,
and tokens are added behind it. -/
structure StepGrows (c c2 : ParsedCommand) : Prop where
  command : c.d_command <+: c2.d_command
  dependenciesCommand : c.d_dependenciesCommand <+: c2.d_dependenciesCommand

/-- The states of `parseCommand` at the head of its loop: `ParserReaches E rules wd c s` when
`s` is `c` after some number of iterations. The parser reaches a token as an option when it
is the first of `d_originalCommand` in such a state. -/
inductive ParserReaches (E : Env) (parseRules : CompilerParseRulesMap) (workingDirectory : Str)
    (command : ParsedCommand) : ParsedCommand → Prop
  | start : ParserReaches E parseRules workingDirectory command command
  | next (s s2 : ParsedCommand) :
    ParserReaches E parseRules workingDirectory command s →
    parseCommandStep E parseRules workingDirectory s = some s2 →
    ParserReaches E parseRules workingDirectory command s2

/-- The work queue of `c` begins with a token of `tokens` and the table maps that token to
the rule `parseInterfersWithDepsOption`. -/
def InterferesFront (E : Env) (parseRules : CompilerParseRulesMap) (tokens : List Str)
    (c : ParsedCommand) : Prop :=
  ∃ t q flag, c.d_originalCommand = t :: q ∧ t ∈ tokens ∧
    matchCompilerOptions E t parseRules = some (flag, .parseInterfersWithDepsOption)

/-- The parser, started in `c` under a rule table, reaches the token `t` as an option: `t`
is the first token of the work queue at the head of the loop. -/
def ReachesToken (E : Env) (parseRules : CompilerParseRulesMap) (workingDirectory : Str)
    (c : ParsedCommand) (t : Str) : Prop :=
  ∃ s, ParserReaches E parseRules workingDirectory c s ∧ s.d_originalCommand.head? = some t

/-- The fronts of the work queue that the claim on rejected gcc commands lists: the token
`-`; one of `-E`, `-M`, `-MM`, `-fprofile-use`, `-fauto-profile`; one of `-fprofile-use=`,
`-fauto-profile=`, `-specs=` followed by a value; `-x` followed by a language outside
`GccSupportedLanguages`, in a token of its own or glued; `-x` as the last token. -/
inductive RejectedGccFront (E : Env) : List Str → Prop
  | standardInput (q : List Str) : RejectedGccFront E ("-".toList :: q)
  | unsupportedFlag (t : Str) (q : List Str) :
    t ∈ ["-E".toList, "-M".toList, "-MM".toList, "-fprofile-use".toList,
      "-fauto-profile".toList] →
    RejectedGccFront E (t :: q)
  | unsupportedEquals (k value : Str) (q : List Str) :
    k ∈ ["-fprofile-use".toList, "-fauto-profile".toList, "-specs".toList] →
    RejectedGccFront E ((k ++ '=' :: value) :: q)
  | languageSplit (language : Str) (q : List Str) :
    language ∉ E.GccSupportedLanguages →
    RejectedGccFront E ("-x".toList :: language :: q)
  | languageGlued (language : Str) (q : List Str) :
    language ≠ [] → language ∉ E.GccSupportedLanguages →
    RejectedGccFront E (("-x".toList ++ language) :: q)
  | languageMissing : RejectedGccFront E ["-x".toList]

/-- The tokens that `GccRules` maps to the compile rule: those that begin with `-c`, and
those that begin with `-` and are `-c` once cut at their first `=` and stripped of
whitespace. -/
def MatchesCompileOption (t : Str) : Prop :=
  t.take 2 = "-c".toList ∨ (t.head? = some '-' ∧ strippedOption t = "-c".toList)

instance : DecidablePred MatchesCompileOption := fun t => by
  unfold MatchesCompileOption
  infer_instance

/-- `ParsedCommandFactory::getParsedCommandMap` (parsedcommandfactory.cpp:334-343), the
entries in the order of the initialiser. -/
def getParsedCommandMap (E : Env) : List (List Str × CompilerParseRulesMap) :=
  [ (E.Gcc, GccRules),
    (E.GccPreprocessor, GccPreprocessorRules),
    (E.SunCPP, SunCPPRules),
    (E.AIX, AixRules) ]

/-- The value of `rulesToUse` when `createParsedCommand` calls `parseCommand`
(parsedcommandfactory.cpp:165-192). -/
def rulesToUse (E : Env) (d_compiler : Str) : CompilerParseRulesMap :=
  let found : CompilerParseRulesMap :=
    match (getParsedCommandMap E).find? (fun val => d_compiler ∈ val.1) with
    | some val => val.2
    | none => []
  match E.RECC_PLATFORM_COMPILER with
  | none => found
  | some platform =>
    if d_compiler ∈ E.CCompilers then
      if platform = "CC".toList then SunCPPRules
      else if platform = "gcc".toList ∨ platform = "clang".toList then GccRules
      else if platform = "xlc".toList then AixRules
      else found
    else found

/-- A compiler name of `SupportedCompilers::Gcc` and of no other list of compilers: in
whatever order the map of `getParsedCommandMap` is searched, `rulesToUse` is `GccRules`. -/
def GccDialect (E : Env) (d_compiler : Str) : Prop :=
  d_compiler ∈ E.Gcc ∧ d_compiler ∉ E.GccPreprocessor ∧ d_compiler ∉ E.SunCPP ∧
    d_compiler ∉ E.AIX ∧ d_compiler ∉ E.CCompilers

instance (E : Env) : DecidablePred (GccDialect E) := fun d_compiler => by
  unfold GccDialect
  infer_instance

/-- The tokens `"-Xpreprocessor", preproArg` for each `preproArg`
(parsedcommandfactory.cpp:219-228). -/
def withXpreprocessor (args : List Str) : List Str :=
  (args.map (fun preproArg => ["-Xpreprocessor".toList, preproArg])).flatten

/-- The block of `createParsedCommand` that handles the collected preprocessor options
(parsedcommandfactory.cpp:207-241): they are parsed as a command of their own under
`GccPreprocessorRules`, and what that gives is added to `parsedCommand`. -/
def mergePreprocessorOptions (E : Env) (workingDirectory : Str) (parsedCommand : ParsedCommand) :
    Option ParsedCommand :=
  if parsedCommand.d_preProcessorOptions.length > 0 then
    let preprocessorCommand : ParsedCommand :=
      { ParsedCommand.empty with d_originalCommand := parsedCommand.d_preProcessorOptions }
    (parseCommand E GccPreprocessorRules workingDirectory preprocessorCommand).map
      fun preprocessorCommand =>
        { parsedCommand with
          d_command := parsedCommand.d_command ++
            withXpreprocessor preprocessorCommand.d_command
          d_dependenciesCommand := parsedCommand.d_dependenciesCommand ++
            withXpreprocessor preprocessorCommand.d_dependenciesCommand
          d_commandProducts := parsedCommand.d_commandProducts ∪
            preprocessorCommand.d_commandProducts
          d_commandDepsProducts := parsedCommand.d_commandDepsProducts ∪
            preprocessorCommand.d_commandDepsProducts
          d_md_option_set := preprocessorCommand.d_md_option_set ||
            parsedCommand.d_md_option_set }
  else some parsedCommand

/-- What `createParsedCommand` does with the result of `parseCommand`
(parsedcommandfactory.cpp:197-258). -/
def finishParsedCommand (E : Env) (command : List Str) (workingDirectory : Str)
    (parsedCommand : ParsedCommand) : Option ParsedCommand :=
  if parsedCommand.d_containsUnsupportedOptions then
    some { parsedCommand with d_compilerCommand := false }
  else
    (mergePreprocessorOptions E workingDirectory parsedCommand).map fun parsedCommand =>
      { parsedCommand with
        d_dependenciesCommand := parsedCommand.d_dependenciesCommand ++
          parsedCommand.d_defaultDepsCommand
        d_originalCommand := command ++ parsedCommand.d_originalCommand }

/-- `ParsedCommandFactory::createParsedCommand(command, workingDirectory)`
(parsedcommandfactory.cpp:149-259). -/
def createParsedCommand (E : Env) (command : List Str) (workingDirectory : Str) :
    Option ParsedCommand :=
  if command = [] then some ParsedCommand.empty
  else
    let parsedCommand := ParsedCommand.construct E command workingDirectory
    (parseCommand E (rulesToUse E parsedCommand.d_compiler) workingDirectory parsedCommand).bind
      (finishParsedCommand E command workingDirectory)

/-! ## Deps::determine_products (deps.cpp:201-268) -/

/-- Two results of a function that may throw are compared as values. -/
instance instDecidableEqExcept {ε α : Type} [DecidableEq ε] [DecidableEq α] :
    DecidableEq (Except ε α) := fun a b =>
  match a, b with
  | .ok x, .ok y =>
    if h : x = y then isTrue (by rw [h]) else isFalse (fun h2 => h (by cases h2; rfl))
  | .error x, .error y =>
    if h : x = y then isTrue (by rw [h]) else isFalse (fun h2 => h (by cases h2; rfl))
  | .ok _, .error _ => isFalse (fun h2 => by cases h2)
  | .error _, .ok _ => isFalse (fun h2 => by cases h2)

/-- `Deps::is_header_file` (deps.cpp:246-256). -/
def is_header_file (file : Str) : Bool :=
  let header_suffixes : Finset Str :=
    {"h".toList, "hh".toList, "H".toList, "hp".toList, "hxx".toList, "hpp".toList,
      "HPP".toList, "h++".toList, "tcc".toList}
  if '.' ∈ file then
    let suffix := (file.reverse.takeWhile (fun c => c != '.')).reverse
    decide (suffix ∈ header_suffixes)
  else false

/-- `Deps::is_source_file` (deps.cpp:258-268). -/
def is_source_file (file : Str) : Bool :=
  let source_suffixes : Finset Str :=
    {"cc".toList, "c".toList, "cp".toList, "cxx".toList, "cpp".toList, "CPP".toList,
      "c++".toList, "C".toList}
  if '.' ∈ file then
    let suffix := (file.reverse.takeWhile (fun c => c != '.')).reverse
    decide (suffix ∈ source_suffixes)
  else false

/-- The variable `sourceFile` of the loop of `determine_products` (deps.cpp:213-217): the
input file from behind its last `/`, the whole of it when it has none. -/
def sourceFile (optionValue : Str) : Str :=
  if '/' ∈ optionValue then (optionValue.reverse.takeWhile (fun c => c != '/')).reverse
  else optionValue

/-- The variable `sourceName` of the loop of `determine_products` (deps.cpp:219-223):
`sourceFile` up to its last `.`, the whole of it when it has none. -/
def sourceName (sourceFile : Str) : Str :=
  if '.' ∈ sourceFile then ((sourceFile.reverse.dropWhile (fun c => c != '.')).drop 1).reverse
  else sourceFile

/-- The body of the loop of `determine_products` (deps.cpp:211-241) for the input file
`optionValue`: the new value of `result`, or the message of the `std::invalid_argument` that
the body throws. -/
def determineProductsStep (parsedCommand : ParsedCommand) (result : Finset Str)
    (optionValue : Str) : Except Str (Finset Str) :=
  let result :=
    if parsedCommand.d_md_option_set ∧ parsedCommand.d_commandDepsProducts = ∅ then
      insert (sourceName (sourceFile optionValue) ++ ".d".toList) result
    else result
  if is_header_file (sourceFile optionValue) then
    .ok (insert (sourceFile optionValue ++ ".gch".toList) result)
  else if is_source_file (sourceFile optionValue) then
    .ok (insert (sourceName (sourceFile optionValue) ++ ".o".toList) result)
  else
    .error ("File ".toList ++ sourceFile optionValue ++
      " uses a file suffix unsupported for caching".toList)

/-- `Deps::determine_products` (deps.cpp:201-244): the set it returns, or the message of the
exception it throws. -/
def determine_products (parsedCommand : ParsedCommand) : Except Str (Finset Str) :=
  if !parsedCommand.is_compiler_command then .ok {"a.out".toList}
  else parsedCommand.d_inputFiles.foldlM (determineProductsStep parsedCommand) ∅

/-! ## Exceptions -/

/-- The codes of `grpc::StatusCode`. -/
inductive StatusCode where
  | OK
  | CANCELLED
  | UNKNOWN
  | INVALID_ARGUMENT
  | DEADLINE_EXCEEDED
  | NOT_FOUND
  | ALREADY_EXISTS
  | PERMISSION_DENIED
  | RESOURCE_EXHAUSTED
  | FAILED_PRECONDITION
  | ABORTED
  | OUT_OF_RANGE
  | UNIMPLEMENTED
  | INTERNAL
  | UNAVAILABLE
  | DATA_LOSS
  | UNAUTHENTICATED
  deriving DecidableEq, Repr

/-- The exceptions that the program throws and catches, by the classes its `catch` clauses
tell apart; all of them derive from `std::exception`. `what` is the message. -/
inductive Exception where
  /-- `std::invalid_argument`. -/
  | invalid_argument (what : Str)
  /-- `buildboxcommon::GrpcError` with its `status.error_code()`; a `std::runtime_error`. -/
  | GrpcError (error_code : StatusCode) (what : Str)
  /-- `subprocess_failed_error` of `subprocess.h` with its exit code; a
  `std::runtime_error`. -/
  | subprocess_failed_error (d_error_code : Int)
  /-- `std::runtime_error`, and the classes that derive from it other than the two above. -/
  | runtime_error (what : Str)
  /-- `std::out_of_range`, as `std::vector::at` throws it. -/
  | out_of_range (what : Str)
  /-- Every other class that derives from `std::exception`. -/
  | exception (what : Str)
  deriving DecidableEq, Repr

/-- The message `e.what()`; for `subprocess_failed_error` the sources do not show it. -/
def Exception.what : Exception → Str
  | .invalid_argument what => what
  | .GrpcError _ what => what
  | .subprocess_failed_error _ => []
  | .runtime_error what => what
  | .out_of_range what => what
  | .exception what => what

/-- Whether `catch (const std::runtime_error &)` catches the exception. -/
def Exception.isRuntimeError : Exception → Bool
  | .GrpcError _ _ => true
  | .subprocess_failed_error _ => true
  | .runtime_error _ => true
  | _ => false

/-- Whether `catch (const std::invalid_argument &)` catches the exception. -/
def Exception.isInvalidArgument : Exception → Bool
  | .invalid_argument _ => true
  | _ => false

/-! ## Deps::crtbegin_from_clang_v and Deps::get_file_info (deps.cpp:93-199) -/

/-- The places in `rest` where the literal `Selected multilib: ` of the regular expression
begins, each with the longest text `([^;\n]*)` can match behind it. -/
def multilibMatches (rest : Str) : List (Nat × Str) :=
  (List.range (rest.length + 1)).filterMap fun j =>
    if "Selected multilib: ".toList <+: rest.drop j then
      some (j, (rest.drop (j + "Selected multilib: ".toList.length)).takeWhile
        (fun c => c != ';' && c != '\n'))
    else none

/-- The match of
`Selected GCC installation: ([^\n]*).*Selected multilib: ([^;\n]*)` that begins with the
first character of `t`, if there is one, as the pair of `m[1]` and `m[2]`. The expression is
compiled with `std::regex::extended`: `.` matches every character, a newline too, and of the
matches that begin at one place the longest is taken; among these the first group is as long
as it can be, then `.*` is. -/
def regexMatchAt (t : Str) : Option (Str × Str) :=
  if "Selected GCC installation: ".toList <+: t then
    let rest := t.drop "Selected GCC installation: ".toList.length
    match multilibMatches rest with
    | [] => none
    | first :: others =>
      let best := others.foldl
        (fun best c => if best.1 + best.2.length ≤ c.1 + c.2.length then c else best) first
      some ((rest.takeWhile (fun c => c != '\n')).take best.1, best.2)
  else none

/-- `std::regex_search(str, m, re)` for the expression of `crtbegin_from_clang_v`
(deps.cpp:104-108): the match that begins first in `str`. -/
def regex_search (str : Str) : Option (Str × Str) :=
  str.tails.findSome? regexMatchAt

/-- `Deps::crtbegin_from_clang_v` (deps.cpp:93-125). -/
def crtbegin_from_clang_v (str : Str) : Str :=
  match regex_search str with
  | none => []
  | some m =>
    m.1 ++ (if m.2 ≠ ".".toList then "/".toList ++ m.2 else []) ++ "/crtbegin.o".toList

/-- `SubprocessResult` of `subprocess.h`, by the members the sources read. -/
structure SubprocessResult where
  d_exitCode : Int
  d_stdOut : Str
  d_stdErr : Str
  deriving DecidableEq, Repr

/-- `CommandFileInfo` of `deps.h`, by the members the sources write. -/
structure CommandFileInfo where
  d_dependencies : Finset Str
  d_possibleProducts : Finset Str
  deriving DecidableEq

/-- `ParsedCommand::is_clang` (parsedcommand.h). -/
def ParsedCommand.is_clang (c : ParsedCommand) : Bool := c.d_isClang

/-- `ParsedCommand::is_AIX` (parsedcommand.h:65). -/
def ParsedCommand.is_AIX (c : ParsedCommand) : Bool := c.d_dependencyFileAIX.isSome

/-- `ParsedCommand::produces_sun_make_rules` (parsedcommand.h:132). -/
def ParsedCommand.produces_sun_make_rules (c : ParsedCommand) : Bool :=
  c.d_producesSunMakeRules

/-- `Deps::get_file_info` (deps.cpp:127-199). `subprocessResult` is what
`Subprocess::execute` returned for the dependencies command, and `aixFileContents` what
`getFileContents` reads from the AIX dependency file; both calls leave the program. The
result is the `CommandFileInfo`, or the exception the function throws. -/
def get_file_info (E : Env) (subprocessResult : SubprocessResult) (aixFileContents : Str)
    (parsedCommand : ParsedCommand) : Except Exception CommandFileInfo :=
  let is_clang := parsedCommand.is_clang
  if subprocessResult.d_exitCode ≠ 0 then
    .error (.subprocess_failed_error subprocessResult.d_exitCode)
  else
    let dependencies :=
      if parsedCommand.is_AIX then aixFileContents else subprocessResult.d_stdOut
    let d_dependencies :=
      dependencies_from_make_rules dependencies parsedCommand.produces_sun_make_rules
    let d_dependencies :=
      if E.RECC_DEPS_GLOBAL_PATHS ∧ is_clang then
        let crtbegin := crtbegin_from_clang_v subprocessResult.d_stdErr
        if crtbegin ≠ [] then insert crtbegin d_dependencies else d_dependencies
      else d_dependencies
    let deps_products : Finset Str :=
      if parsedCommand.get_deps_products = ∅ ∧ parsedCommand.d_md_option_set then
        parsedCommand.get_products.image fun product =>
          let base_name :=
            if '.' ∈ product then
              ((product.reverse.dropWhile (fun c => c != '.')).drop 1).reverse
            else product
          base_name ++ ".d".toList
      else parsedCommand.get_deps_products
    let products : Except Str (Finset Str) :=
      if parsedCommand.get_products.card > 0 then .ok parsedCommand.get_products
      else determine_products parsedCommand
    match products with
    | .error what => .error (.invalid_argument what)
    | .ok products =>
      .ok
        { d_dependencies := d_dependencies
          d_possibleProducts := (products ∪ deps_products).image E.normalizePath }

/-! ## main (bin/recc.m.cpp:208-291) -/

/-- `RC_OK` of `enum ReturnCode` (recc.m.cpp:208-213). -/
def RC_OK : Int := 0

/-- `RC_USAGE` of `enum ReturnCode`. -/
def RC_USAGE : Int := 100

/-- `RC_EXEC_FAILURE` of `enum ReturnCode`. -/
def RC_EXEC_FAILURE : Int := 101

/-- `RC_GRPC_ERROR` of `enum ReturnCode`. -/
def RC_GRPC_ERROR : Int := 102

/-- What `main` does that is seen from outside it, in the order of the statements. -/
inductive MainEvent where
  /-- `Env::setup_logger_from_environment(argv[0])`. -/
  | setup_logger_from_environment (argv0 : Option Str)
  /-- One statement `std::cerr << ... << std::endl`, with the text written. -/
  | cerr (text : Str)
  /-- One statement `std::cout << ... << std::endl`, with the text written. -/
  | cout (text : Str)
  /-- `Signal::setup_signal_handler(SIGINT, setSigintReceived)`. -/
  | setup_signal_handler
  /-- `context.execute(argc - 1, &argv[1])`, which parses the command and runs it. -/
  | execute (command : List Str)
  deriving DecidableEq, Repr

/-- How the process ends: `main` returns `status`, or `exit(status)` is called. -/
inductive ProcessEnd where
  | returned (status : Int)
  | exited (status : Int)
  deriving DecidableEq, Repr

/-- A run of `main`: what it did and how the process ended. -/
structure MainRun where
  events : List MainEvent
  finish : ProcessEnd
  deriving DecidableEq, Repr

/-- The `try` block of `main` with its three `catch` clauses (recc.m.cpp:264-290);
`execute` is `ExecutionContext::execute` on the command: the value it returns, or the
exception it throws. -/
def mainDispatch (execute : List Str → Except Exception Int) (command : List Str) :
    ProcessEnd :=
  match execute command with
  | .ok status => .returned status
  | .error (.invalid_argument _) => .returned RC_USAGE
  | .error (.GrpcError error_code _) =>
    if error_code = .CANCELLED then .exited 130 else .returned RC_GRPC_ERROR
  | .error _ => .returned RC_EXEC_FAILURE

/-- `main(argc, argv)` (recc.m.cpp:224-291); `argv` holds the `argc` arguments, the name of
the program first. `HELP` is the help text and `version` is
`RequestMetadataGenerator::RECC_METADATA_TOOL_VERSION`, both built from constants that the
sources do not hold. -/
def main (HELP version : Str) (execute : List Str → Except Exception Int)
    (argv : List Str) : MainRun :=
  let logger := MainEvent.setup_logger_from_environment argv.head?
  let usage : MainRun :=
    { events := [logger, .cerr "USAGE: recc <command>\n".toList,
        .cerr "(run \"recc --help\" for details)\n".toList]
      finish := .returned RC_USAGE }
  match argv with
  | [] => usage
  | [_] => usage
  | _ :: argv1 :: rest =>
    if argv1 = "--help".toList ∨ argv1 = "-h".toList then
      { events := [logger, .cout (HELP ++ "\n".toList)], finish := .returned RC_OK }
    else if argv1 = "--version".toList ∨ argv1 = "-v".toList then
      { events := [logger, .cout ("recc version: ".toList ++ version ++ "\n".toList)]
        finish := .returned RC_OK }
    else if argv1 = "--deps".toList then
      { events := [logger,
          .cerr ("recc: recognized custome compiler option '".toList ++ argv1 ++
            "'\n".toList),
          .cerr "USAGE: recc --deps <command>\n".toList]
        finish := .returned RC_OK }
    else if argv1.head? = some '-' then
      { events := [logger,
          .cerr ("recc: unrecognized option '".toList ++ argv1 ++ "'\n".toList),
          .cerr "USAGE: recc <command>\n".toList,
          .cerr "(run \"recc --help\" for details)\n".toList]
        finish := .returned RC_USAGE }
    else
      { events := [logger, .setup_signal_handler, .execute (argv1 :: rest)]
        finish := mainDispatch execute (argv1 :: rest) }

/-! ## ExecutionContext (executioncontext.cpp) and RemoteExecutionClient
(remoteexecutionclient.cpp)

`execute` talks to the configuration, the local file system, a subprocess and three remote
services, none of which the sources hold. The model takes what each such call answers from an
`ExecutionWorld` and records the calls, the log lines and the writes to the members of the
context as a list of `Event`s in the order of the statements. The timers
(`MetricTeeGuard`), the publisher of the metrics and the set-up of the three `GrpcClient`s
(`init`, `setToolDetails`, `setRequestMetadata`) are left out. -/

/-- `proto::Digest`. -/
structure Digest where
  hash : Str
  size_bytes : Int
  deriving DecidableEq, Repr

/-- `proto::OutputFile`. -/
structure OutputFile where
  path : Str
  digest : Digest
  is_executable : Bool
  deriving DecidableEq, Repr

/-- `proto::OutputDirectory`. -/
structure OutputDirectory where
  path : Str
  tree_digest : Digest
  deriving DecidableEq, Repr

/-- `proto::ActionResult`, by the fields the sources read and write; `none` for a digest
that is not set, and the symlinks by their paths. -/
structure ActionResult where
  exit_code : Int
  output_files : List OutputFile
  output_symlinks : List Str
  output_directories : List OutputDirectory
  stdout_digest : Option Digest
  stderr_digest : Option Digest
  stdout_raw : Str
  stderr_raw : Str
  deriving DecidableEq, Repr

/-- The `proto::ActionResult` that the default constructor makes. -/
def ActionResult.empty : ActionResult :=
  { exit_code := 0
    output_files := []
    output_symlinks := []
    output_directories := []
    stdout_digest := none
    stderr_digest := none
    stdout_raw := []
    stderr_raw := [] }

/-- `proto::Action`, by what the sources ask of it. -/
structure Action where
  SerializeAsString : Str
  ShortDebugString : Str
  deriving DecidableEq, Repr

/-- `buildboxcommon::digest_string_map`: the entries of the map, no key twice, in the order
in which the map is iterated. -/
abbrev digest_string_map := List (Digest × Str)

/-- The assignment `map[key] = value`. -/
def digest_string_map.assign (map : digest_string_map) (key : Digest) (value : Str) :
    digest_string_map :=
  if map.any (fun entry => entry.1 = key) then
    map.map (fun entry => if entry.1 = key then (key, value) else entry)
  else map ++ [(key, value)]

/-- `map.at(key)`, for a key of the map. -/
def digest_string_map.at? (map : digest_string_map) (key : Digest) : Option Str :=
  (map.find? (fun entry => entry.1 = key)).map Prod.snd

/-- `buildboxcommon::CASClient::UploadRequest`: built from the data, or `from_path`. -/
inductive UploadRequest where
  | data (digest : Digest) (data : Str)
  | from_path (digest : Digest) (path : Str)
  deriving DecidableEq, Repr

/-- The levels of the `BUILDBOX_LOG_` macros that the sources use. -/
inductive LogLevel where
  | DEBUG
  | INFO
  | WARNING
  | ERROR
  deriving DecidableEq, Repr

/-- What `ActionBuilder::BuildAction` hands back: the pointer it returns (`none` for a null
pointer) and what it has written to `blobs`, `digest_to_filepaths` and `products`, the set
`products` by its elements in their order. -/
structure BuildActionResult where
  actionPtr : Option Action
  blobs : digest_string_map
  digest_to_filepaths : digest_string_map
  products : List Str
  deriving DecidableEq, Repr

/-- What `execute` does that is seen from outside it. -/
inductive Event where
  /-- A line of one of the `BUILDBOX_LOG_` macros. -/
  | log (level : LogLevel) (message : Str)
  /-- `CountingMetricUtil::recordCounterMetric(name, value)` and the assignment
  `d_counterMetrics[name] = value` that follows it. -/
  | counterMetric (name : Str) (value : Int)
  /-- `actionBuilder.BuildAction(command, cwd, ...)`. -/
  | BuildAction (d_command : List Str) (cwd : Str)
  /-- `Subprocess::execute(command, pipeStdOut, pipeStdErr)`: the command is run locally. -/
  | Subprocess_execute (command : List Str) (pipeStdOut pipeStdErr : Bool)
  /-- `GrpcChannels::get_channels_from_config()`. -/
  | get_channels_from_config
  /-- `d_casClient->init(RECC_CAS_GET_CAPABILITIES)`. -/
  | casClient_init
  /-- `reClient.init()`. -/
  | reClient_init
  /-- `reClient.fetchFromActionCache(actionDigest, outputs, &result)`. -/
  | fetchFromActionCache (actionDigest : Digest) (outputs : Finset Str)
  /-- `d_casClient->findMissingBlobs(digests)`. -/
  | findMissingBlobs (digests : List Digest)
  /-- `d_casClient->uploadBlobs(requests)`. -/
  | uploadBlobs (requests : List UploadRequest)
  /-- `buildboxcommon::RemoteExecutionClient::executeAction(actionDigest, stop_requested,
  skipCache)`. -/
  | executeAction (actionDigest : Digest) (skipCache : Bool)
  /-- `reClient.updateActionCache(actionDigest, actionResult)`. -/
  | updateActionCache (actionDigest : Digest) (actionResult : ActionResult)
  /-- `open(root, O_RDONLY | O_DIRECTORY)` in `writeFilesToDisk`. -/
  | open_root (root : Str)
  /-- `downloadOutputs(d_casClient.get(), result, root_dirfd.get())`. -/
  | downloadOutputs (result : ActionResult)
  /-- Text written to `std::cout`. -/
  | cout (text : Str)
  /-- Text written to `std::cerr`. -/
  | cerr (text : Str)
  /-- `unlink(path)`. -/
  | unlink (path : Str)
  /-- The assignment `this->d_actionDigest = actionDigest`. -/
  | d_actionDigest (actionDigest : Digest)
  /-- The assignment `this->d_actionResult = result`. -/
  | d_actionResult (result : ActionResult)
  deriving DecidableEq

/-- The events that are a call to one of the remote services: the action cache, the CAS, the
execution service, and the set-up of the channels to them. -/
def Event.isRemote : Event → Bool
  | .get_channels_from_config => true
  | .casClient_init => true
  | .reClient_init => true
  | .fetchFromActionCache _ _ => true
  | .findMissingBlobs _ => true
  | .uploadBlobs _ => true
  | .executeAction _ _ => true
  | .updateActionCache _ _ => true
  | .downloadOutputs _ => true
  | _ => false

/-- The events of `uploadResources` and of the call of `Execute`. -/
def Event.isUploadOrExecute : Event → Bool
  | .findMissingBlobs _ => true
  | .uploadBlobs _ => true
  | .executeAction _ _ => true
  | _ => false

/-- The events of `uploadResources` and of the call of `UpdateActionResult`. -/
def Event.isUploadOrUpdate : Event → Bool
  | .findMissingBlobs _ => true
  | .uploadBlobs _ => true
  | .updateActionCache _ _ => true
  | _ => false

/-- The events that are a local run of a command. -/
def Event.isLocalRun : Event → Bool
  | .Subprocess_execute _ _ _ => true
  | _ => false

/-- A piece of a run: the events so far, and the value it gives or the exception it throws. -/
structure Run (α : Type) where
  events : List Event
  outcome : Except Exception α

/-- A statement that does nothing seen from outside and gives `a`. -/
def Run.pure {α : Type} (a : α) : Run α := ⟨[], .ok a⟩

/-- One piece after the other; an exception ends the run. -/
def Run.bind {α β : Type} (r : Run α) (f : α → Run β) : Run β :=
  match r.outcome with
  | .error e => ⟨r.events, .error e⟩
  | .ok a => ⟨r.events ++ (f a).events, (f a).outcome⟩

instance : Monad Run where
  pure := Run.pure
  bind := Run.bind

/-- A statement that is seen from outside and gives nothing. -/
def emit (event : Event) : Run Unit := ⟨[event], .ok ()⟩

/-- A call that leaves the program: the event, and what the world answers. -/
def call {α : Type} (event : Event) (answer : Except Exception α) : Run α := ⟨[event], answer⟩

/-- The statement `throw e`. -/
def throwException {α : Type} (e : Exception) : Run α := ⟨[], .error e⟩

/-- A `try` block with one `catch` clause: `handler` says what the clause does with an
exception, and rethrows what the clause does not catch. -/
def Run.tryCatch {α : Type} (body : Run α) (handler : Exception → Run α) : Run α :=
  match body.outcome with
  | .ok _ => body
  | .error e => ⟨body.events ++ (handler e).events, (handler e).outcome⟩

/-- One line of a `BUILDBOX_LOG_` macro. -/
def log (level : LogLevel) (message : Str) : Run Unit := emit (.log level message)

/-- An integer as `operator<<` writes it. -/
def showInt (n : Int) : Str := (toString n).toList

/-- What `execute` reads from outside the program: the configuration after
`Env::parse_config_variables`, and the answer to each call that leaves the program. A call
answers with a value or with the exception it throws. -/
structure ExecutionWorld where
  /-- The constants and configuration values of the command parser. -/
  E : Env
  RECC_FORCE_REMOTE : Bool
  RECC_NO_EXECUTE : Bool
  RECC_SKIP_CACHE : Bool
  RECC_CACHE_ONLY : Bool
  RECC_CACHE_UPLOAD_LOCAL_BUILD : Bool
  RECC_ACTION_UNCACHEABLE : Bool
  RECC_CACHE_UPLOAD_FAILED_BUILD : Bool
  RECC_DONT_SAVE_OUTPUT : Bool
  RECC_VERBOSE : Bool
  RECC_REAPI_VERSION : Str
  RECC_ACTION_CACHE_SERVER : Str
  RECC_CAS_SERVER : Str
  RECC_SERVER : Str
  /-- `Env::set_config_locations(); Env::parse_config_variables();`. -/
  parse_config_variables : Except Exception Unit
  /-- `get_statsdpublisher_from_config()`. -/
  get_statsdpublisher_from_config : Except Exception Unit
  /-- `FileUtils::getCurrentWorkingDirectory()`. -/
  getCurrentWorkingDirectory : Str
  /-- `ActionBuilder::BuildAction(command, cwd, &blobs, &digest_to_filepaths, &products)`. -/
  BuildAction : ParsedCommand → Str → Except Exception BuildActionResult
  /-- `DigestGenerator::make_digest(action)`. -/
  make_digest_action : Action → Digest
  /-- `DigestGenerator::make_digest(string)`. -/
  make_digest : Str → Digest
  /-- A digest as `operator<<` writes it. -/
  showDigest : Digest → Str
  /-- `GrpcChannels::get_channels_from_config()`. -/
  get_channels_from_config : Except Exception Unit
  /-- `DigestGenerator::stringToDigestFunctionMap().at(RECC_CAS_DIGEST_FUNCTION)`. -/
  configured_digest_function : Except Exception Unit
  /-- `d_casClient->init(RECC_CAS_GET_CAPABILITIES)`. -/
  casClient_init : Except Exception Unit
  /-- `reClient.init()`. -/
  reClient_init : Except Exception Unit
  /-- `reClient.fetchFromActionCache(actionDigest, outputs, &result)`: the value returned and
  the value of `result` after the call. -/
  fetchFromActionCache : Digest → Finset Str → Except Exception (Bool × ActionResult)
  /-- `Subprocess::execute(command, pipeStdOut, pipeStdErr)`. -/
  Subprocess_execute : List Str → Bool → Bool → Except Exception SubprocessResult
  /-- `buildboxcommon::FileUtils::isRegularFile(path)`, after the local run. -/
  isRegularFile : Str → Bool
  /-- `buildboxcommon::File(path)`: its `d_digest` and `d_executable`. -/
  File : Str → Except Exception (Digest × Bool)
  /-- `d_casClient->findMissingBlobs(digests)`. -/
  findMissingBlobs : List Digest → Except Exception (List Digest)
  /-- `d_casClient->uploadBlobs(requests)`. -/
  uploadBlobs : List UploadRequest → Except Exception Unit
  /-- `buildboxcommon::RemoteExecutionClient::executeAction(actionDigest, stop_requested,
  skipCache)`. -/
  executeAction : Digest → Bool → Except Exception ActionResult
  /-- `reClient.updateActionCache(actionDigest, actionResult)`. -/
  updateActionCache : Digest → ActionResult → Except Exception Unit
  /-- Whether `open(root, O_RDONLY | O_DIRECTORY)` gives a descriptor. -/
  open_root : Str → Bool
  /-- `downloadOutputs(d_casClient.get(), result, root_dirfd.get())`. -/
  downloadOutputs : ActionResult → Except Exception Unit
  /-- `getRandomString()` (executioncontext.cpp:206-214). -/
  getRandomString : Str
  /-- The contents of a file, as `std::ifstream` reads them after the download. -/
  readFile : Str → Str

/-- `ExecutionContext::execLocally` (executioncontext.cpp:61-70). -/
def execLocally (W : ExecutionWorld) (argv : List Str) : Run Int := do
  let subprocessResult ←
    call (.Subprocess_execute argv false false) (W.Subprocess_execute argv false false)
  return subprocessResult.d_exitCode

/-- The loop over `products` of `execLocallyWithActionResult` (executioncontext.cpp:100-110). -/
def addOutputFiles (W : ExecutionWorld) :
    List Str → digest_string_map × ActionResult →
      Except Exception (digest_string_map × ActionResult)
  | [], state => .ok state
  | outputPath :: products, (digest_to_filepaths, actionResult) =>
    if W.isRegularFile outputPath then
      match W.File outputPath with
      | .error e => .error e
      | .ok file =>
        addOutputFiles W products
          (digest_to_filepaths.assign file.1 outputPath,
            { actionResult with
              output_files := actionResult.output_files ++
                [({ path := outputPath, digest := file.1, is_executable := file.2 } :
                  OutputFile)] })
    else addOutputFiles W products (digest_to_filepaths, actionResult)

/-- `ExecutionContext::execLocallyWithActionResult` (executioncontext.cpp:72-113): the action
result, and `blobs` and `digest_to_filepaths` as the function leaves them. -/
def execLocallyWithActionResult (W : ExecutionWorld) (argv : List Str)
    (blobs digest_to_filepaths : digest_string_map) (products : List Str) :
    Run (ActionResult × digest_string_map × digest_string_map) := do
  let subprocessResult ←
    call (.Subprocess_execute argv true true) (W.Subprocess_execute argv true true)
  emit (.cout subprocessResult.d_stdOut)
  emit (.cerr subprocessResult.d_stdErr)
  let actionResult := { ActionResult.empty with exit_code := subprocessResult.d_exitCode }
  let stdoutDigest := W.make_digest subprocessResult.d_stdOut
  let stderrDigest := W.make_digest subprocessResult.d_stdErr
  let blobs := blobs.assign stdoutDigest subprocessResult.d_stdOut
  let blobs := blobs.assign stderrDigest subprocessResult.d_stdErr
  let actionResult :=
    { actionResult with stdout_digest := some stdoutDigest, stderr_digest := some stderrDigest }
  match addOutputFiles W products (digest_to_filepaths, actionResult) with
  | .error e => throwException e
  | .ok (digest_to_filepaths, actionResult) =>
    return (actionResult, blobs, digest_to_filepaths)

/-- The loop of `uploadResources` that builds the upload requests
(executioncontext.cpp:144-160). -/
def uploadRequests (blobs digest_to_filepaths : digest_string_map) :
    List Digest → Except Exception (List UploadRequest)
  | [] => .ok []
  | digest :: missingDigests =>
    match blobs.at? digest with
    | some data =>
      (uploadRequests blobs digest_to_filepaths missingDigests).map
        (fun requests => UploadRequest.data digest data :: requests)
    | none =>
      match digest_to_filepaths.at? digest with
      | some path =>
        (uploadRequests blobs digest_to_filepaths missingDigests).map
          (fun requests => UploadRequest.from_path digest path :: requests)
      | none => .error (.runtime_error "FindMissingBlobs returned non-existent digest".toList)

/-- `ExecutionContext::uploadResources` (executioncontext.cpp:121-183). -/
def uploadResources (W : ExecutionWorld) (blobs digest_to_filepaths : digest_string_map) :
    Run Unit := do
  let digestsToUpload := blobs.map Prod.fst ++ digest_to_filepaths.map Prod.fst
  let missingDigests ←
    call (.findMissingBlobs digestsToUpload) (W.findMissingBlobs digestsToUpload)
  match uploadRequests blobs digest_to_filepaths missingDigests with
  | .error e => throwException e
  | .ok upload_requests =>
    call (.uploadBlobs upload_requests) (W.uploadBlobs upload_requests)
    let uploadCacheHits : Int := (digestsToUpload.length : Int) - missingDigests.length
    let uploadCacheMisses : Int := missingDigests.length
    emit (.counterMetric "recc.upload_blobs_cache_hit".toList uploadCacheHits)
    emit (.counterMetric "recc.upload_blobs_cache_miss".toList uploadCacheMisses)

/-- `ExecutionContext::calculateTotalSize` (executioncontext.cpp:185-199). -/
def calculateTotalSize (blobs digest_to_filepaths : digest_string_map) : Int :=
  let totalSize := blobs.foldl (fun totalSize i => totalSize + i.1.size_bytes) 0
  digest_to_filepaths.foldl (fun totalSize i => totalSize + i.1.size_bytes) totalSize

/-- `RemoteExecutionClient::executeAction` (remoteexecutionclient.cpp:33-61). -/
def executeAction (W : ExecutionWorld) (actionDigest : Digest) (skipCache : Bool) :
    Run ActionResult := do
  let resultProto ←
    call (.executeAction actionDigest skipCache) (W.executeAction actionDigest skipCache)
  if W.RECC_VERBOSE then
    log .DEBUG ("Action result contains: [Files=".toList ++
      showInt resultProto.output_files.length ++ "], [Directories=".toList ++
      showInt resultProto.output_directories.length ++ "]".toList)
    for fileProto in resultProto.output_files do
      log .DEBUG ("File digest=[".toList ++ fileProto.digest.hash ++ "/".toList ++
        showInt fileProto.digest.size_bytes ++ "] : path=[".toList ++ fileProto.path ++
        "]".toList)
    for dirProto in resultProto.output_directories do
      log .DEBUG ("Directory tree digest=[".toList ++ dirProto.tree_digest.hash ++
        "/".toList ++ showInt dirProto.tree_digest.size_bytes ++ "] : path=[".toList ++
        dirProto.path ++ "]".toList)
  return resultProto

/-- `RemoteExecutionClient::writeFilesToDisk(result, ".")` (remoteexecutionclient.cpp:63-80). -/
def writeFilesToDisk (W : ExecutionWorld) (result : ActionResult) : Run Unit := do
  emit (.open_root ".".toList)
  if W.open_root ".".toList then
    call (.downloadOutputs result) (W.downloadOutputs result)
  else
    throwException (.runtime_error "Error opening directory at path \".\"".toList)

/-- The statements of `execute` from the query of the action cache to the call of `Execute`
(executioncontext.cpp:361-496), for the cache-only mode: the command is run locally. The
value is the exit code that `execute` returns. -/
def executeCacheOnly (W : ExecutionWorld) (argv : List Str) (actionDigest : Digest)
    (blobs : digest_string_map) (products : List Str) : Run Int := do
  let cache_upload_local_build :=
    W.RECC_CACHE_UPLOAD_LOCAL_BUILD && !W.RECC_ACTION_UNCACHEABLE
  log .INFO "Action not cached and running in cache-only mode, executing locally".toList
  if !cache_upload_local_build then
    execLocally W argv
  else
    let digest_to_filepaths : digest_string_map := []
    let localRun ← execLocallyWithActionResult W argv blobs digest_to_filepaths products
    let actionResult := localRun.1
    let blobs := localRun.2.1
    let digest_to_filepaths := localRun.2.2
    let number_of_outputs := actionResult.output_files.length
    if actionResult.exit_code ≠ 0 ∧ !W.RECC_CACHE_UPLOAD_FAILED_BUILD then
      log .WARNING ("Not uploading actionResult due to exit_code = ".toList ++
        showInt actionResult.exit_code ++ ", RECC_CACHE_UPLOAD_FAILED_BUILD = ".toList ++
        (if W.RECC_CACHE_UPLOAD_FAILED_BUILD then "true".toList else "false".toList))
      emit (.d_actionResult actionResult)
      return actionResult.exit_code
    else if number_of_outputs ≠ products.length then
      log .WARNING ("Not uploading actionResult due to ".toList ++
        showInt ((products.length : Int) - number_of_outputs) ++
        " of the requested output files not being found".toList)
      emit (.d_actionResult actionResult)
      return actionResult.exit_code
    else
      log .DEBUG "Uploading local build...".toList
      let uploaded ← (do uploadResources W blobs digest_to_filepaths; pure true).tryCatch
        fun e => do
          log .WARNING ("Error while uploading local build to CAS at \"".toList ++
            W.RECC_CAS_SERVER ++ "\": ".toList ++ e.what)
          pure false
      if !uploaded then
        return actionResult.exit_code
      else
        (do
          call (.updateActionCache actionDigest actionResult)
            (W.updateActionCache actionDigest actionResult)
          log .INFO "Action cache updated".toList).tryCatch
          fun e =>
            log .WARNING ("Error while calling `UpdateActionCache()` on \"".toList ++
              W.RECC_ACTION_CACHE_SERVER ++ "\": ".toList ++ e.what)
        emit (.d_actionResult actionResult)
        return actionResult.exit_code

/-- The statements of `execute` behind the upload and the call of `Execute`
(executioncontext.cpp:498-576): the result is stored, checked and downloaded, and its exit
code returned. -/
def executeDownload (W : ExecutionWorld) (result : ActionResult) (products : List Str) :
    Run Int := do
  emit (.d_actionResult result)
  let exitCode := result.exit_code
  if exitCode = 0 ∧ result.output_files.length = 0 ∧ products.length ≠ 0 then
    throwException
      (.runtime_error "Action produced none of the of the expected output_files".toList)
  else
    (do
      let result :=
        if W.RECC_DONT_SAVE_OUTPUT then
          { result with output_files := [], output_symlinks := [], output_directories := [] }
        else result
      let randomStr := W.getRandomString
      let stdoutFilename := ".recc-stdout-".toList ++ randomStr
      let stderrFilename := ".recc-stderr-".toList ++ randomStr
      let fetchStdout :=
        match result.stdout_digest with
        | some digest => decide (digest.size_bytes > 0)
        | none => false
      let fetchStderr :=
        match result.stderr_digest with
        | some digest => decide (digest.size_bytes > 0)
        | none => false
      let result :=
        match fetchStdout, result.stdout_digest with
        | true, some digest =>
          { result with
            output_files := result.output_files ++
              [({ path := stdoutFilename, digest := digest, is_executable := false } :
                OutputFile)] }
        | _, _ => result
      let result :=
        match fetchStderr, result.stderr_digest with
        | true, some digest =>
          { result with
            output_files := result.output_files ++
              [({ path := stderrFilename, digest := digest, is_executable := false } :
                OutputFile)] }
        | _, _ => result
      writeFilesToDisk W result
      if fetchStdout then
        emit (.cout (W.readFile stdoutFilename))
        emit (.unlink stdoutFilename)
      else
        emit (.cout result.stdout_raw)
      if fetchStderr then
        emit (.cerr (W.readFile stderrFilename))
        emit (.unlink stderrFilename)
      else
        emit (.cerr result.stderr_raw)
      pure exitCode).tryCatch
      fun e => do
        log .ERROR e.what
        throwException e

/-- The statements of `execute` for an action that is not in the action cache, outside the
cache-only mode (executioncontext.cpp:466-496): the upload and the call of `Execute`; then
the download of the result. -/
def executeUpload (W : ExecutionWorld) (actionDigest : Digest)
    (blobs digest_to_filepaths : digest_string_map) (products : List Str) : Run Int := do
  log .INFO ("Executing action remotely... [actionDigest=".toList ++
    W.showDigest actionDigest ++ "]".toList)
  log .DEBUG "Uploading resources...".toList
  (uploadResources W blobs digest_to_filepaths).tryCatch
    fun e => do
      log .ERROR ("Error while uploading resources to CAS at \"".toList ++
        W.RECC_CAS_SERVER ++ "\": ".toList ++ e.what)
      throwException e
  let result ←
    (do
      let result ← executeAction W actionDigest W.RECC_SKIP_CACHE
      log .INFO ("Remote execution finished with exit code ".toList ++
        showInt result.exit_code)
      pure result).tryCatch
      fun e => do
        log .ERROR ("Error while calling `Execute()` on \"".toList ++ W.RECC_SERVER ++
          "\": ".toList ++ e.what)
        throwException e
  executeDownload W result products

/-- The statements of `execute` once an `Action` is built and `RECC_NO_EXECUTE` is not set
(executioncontext.cpp:306-576): the channels, the query of the action cache, the upload and
the call of `Execute`, or the local run in cache-only mode, and the download. -/
def executeRemote (W : ExecutionWorld) (argv : List Str) (command : ParsedCommand)
    (action : Action) (actionDigest : Digest)
    (blobs digest_to_filepaths : digest_string_map) (products : List Str) : Run Int := do
  (call .get_channels_from_config W.get_channels_from_config).tryCatch
    fun e => do
      if e.isRuntimeError then
        log .ERROR ("Invalid argument in channel config: ".toList ++ e.what)
      throwException e
  match W.configured_digest_function with
  | .error e => throwException e
  | .ok _ => pure ()
  call .casClient_init W.casClient_init
  call .reClient_init W.reClient_init
  let probe : Bool × ActionResult ←
    if !W.RECC_SKIP_CACHE then
      (do
        let answer ← call (.fetchFromActionCache actionDigest command.get_products)
          (W.fetchFromActionCache actionDigest command.get_products)
        if answer.1 then
          emit (.counterMetric "recc.action_cache_hit".toList 1)
          log .INFO ("Action Cache hit for [".toList ++ W.showDigest actionDigest ++
            "]".toList)
        else
          emit (.counterMetric "recc.action_cache_miss".toList 1)
        pure answer).tryCatch
        fun e => do
          log .ERROR ("Error while querying action cache at \"".toList ++
            W.RECC_ACTION_CACHE_SERVER ++ "\": ".toList ++ e.what)
          pure (false, ActionResult.empty)
    else pure (false, ActionResult.empty)
  let action_in_cache := probe.1
  let result := probe.2
  if !action_in_cache then
    let blobs := blobs.assign actionDigest action.SerializeAsString
    if W.RECC_CACHE_ONLY then
      executeCacheOnly W argv actionDigest blobs products
    else
      executeUpload W actionDigest blobs digest_to_filepaths products
  else
    executeDownload W result products

/-- The statements of `execute` behind the parsing of the command
(executioncontext.cpp:250-576). -/
def executeCommand (W : ExecutionWorld) (argv : List Str) (command : ParsedCommand) :
    Run Int := do
  let cwd := W.getCurrentWorkingDirectory
  let built : BuildActionResult ←
    if command.is_compiler_command || W.RECC_FORCE_REMOTE then
      (do
        let built ← (call (.BuildAction command.get_command cwd)
            (W.BuildAction command cwd)).tryCatch
          fun e => do
            if e.isInvalidArgument then
              match command.get_command with
              | [] => throwException (.out_of_range "vector::at".toList)
              | argv0 :: _ =>
                log .ERROR ("Invalid `argv[0]` value in command: \"".toList ++ argv0 ++
                  ("\". The Remote Execution API requires it to specify " ++
                    "either a relative or absolute path to an executable.").toList)
            throwException e
        let inputSize := calculateTotalSize built.blobs built.digest_to_filepaths
        emit (.counterMetric "recc.input_size_bytes".toList inputSize)
        pure built)
    else
      (do
        log .INFO ("Not a compiler command, so running locally. (Use " ++
          "RECC_FORCE_REMOTE=1 to force remote execution)").toList
        pure ({ actionPtr := none, blobs := [], digest_to_filepaths := [], products := [] } :
          BuildActionResult))
  match built.actionPtr with
  | none =>
    if W.RECC_NO_EXECUTE then
      log .INFO
        "Command would have run locally but RECC_NO_EXECUTE is enabled, exiting.".toList
      return 0
    else execLocally W argv
  | some action =>
    let actionDigest := W.make_digest_action action
    emit (.d_actionDigest actionDigest)
    log .DEBUG ("Action Digest: ".toList ++ W.showDigest actionDigest ++
      " Action Contents: ".toList ++ action.ShortDebugString)
    if W.RECC_NO_EXECUTE then
      log .INFO "RECC_NO_EXECUTE is enabled, exiting.".toList
      return 0
    else
      executeRemote W argv command action actionDigest built.blobs
        built.digest_to_filepaths built.products

/-- The statements of `execute` before the parsing of the command
(executioncontext.cpp:218-244): the configuration is read. -/
def executeConfigure (W : ExecutionWorld) : Run Unit := do
  (match W.parse_config_variables with
    | .error e => throwException e
    | .ok _ => pure ()).tryCatch
    fun e => do
      if e.isInvalidArgument then
        log .ERROR ("Error parsing config: ".toList ++ e.what)
      throwException e
  log .DEBUG ("RECC_REAPI_VERSION == '".toList ++ W.RECC_REAPI_VERSION ++ "'".toList)
  (match W.get_statsdpublisher_from_config with
    | .error e => throwException e
    | .ok _ => pure ()).tryCatch
    fun e => do
      if e.isRuntimeError then
        log .ERROR ("Could not initialize statsD publisher: ".toList ++ e.what)
      throwException e

/-- The line that `ParsedCommandFactory::vectorFromArgv` writes to the log
(parsedcommandfactory.cpp:314-332): the header, then a line for each token, numbered from 1
since `i` is incremented before the token is written; `std::endl` is a newline. -/
def vectorFromArgvLog (argv : List Str) : Str :=
  "Parsing command:\n".toList ++
    ((argv.enumFrom 1).map fun arg =>
      "argv[".toList ++ showInt arg.1 ++ "] = ".toList ++ arg.2 ++ "\n".toList).flatten

/-- The warning that `ParseRule::parseOptionSetsGccLanguage` writes to the log, if any
(parsedcommandfactory.cpp:505-527), by the state in which it is entered. -/
def parseOptionSetsGccLanguageLog (E : Env) (option : Str) (command : ParsedCommand) :
    List Event :=
  match command.d_originalCommand with
  | [] => []
  | originalCommandOption :: rest =>
    if originalCommandOption = option ∧ rest = [] then
      [.log .WARNING "gcc's \"-x\" flag requires an argument".toList]
    else
      let language :=
        if originalCommandOption = option then rest.headD []
        else originalCommandOption.drop option.length
      if language ∈ E.GccSupportedLanguages then []
      else [.log .WARNING ("recc does not support the language [".toList ++ language ++
        "].".toList)]

/-- The warning that one iteration of the loop of `parseCommand` writes to the log, if any
(parsedcommandfactory.cpp:281-310), by the state in which the iteration is entered: the one
of the `-x` rule, or the one for the token `-`. No other parse function writes to the log. -/
def parseCommandStepLog (E : Env) (parseRules : CompilerParseRulesMap)
    (command : ParsedCommand) : List Event :=
  match command.d_originalCommand with
  | [] => []
  | currToken :: _ =>
    match matchCompilerOptions E currToken parseRules with
    | some optionModifier =>
      if optionModifier.2 = .parseOptionSetsGccLanguage then
        parseOptionSetsGccLanguageLog E optionModifier.1 command
      else []
    | none =>
      if currToken = "-".toList then
        [.log .WARNING "recc does not support standard input".toList]
      else []

/-- The warnings of the loop of `parseCommand` run for at most `fuel` iterations, in the
order of the iterations. -/
def parseCommandLoopLog (E : Env) (parseRules : CompilerParseRulesMap)
    (workingDirectory : Str) : Nat → ParsedCommand → List Event
  | 0, _ => []
  | fuel + 1, command =>
    match command.d_originalCommand with
    | [] => []
    | _ :: _ =>
      parseCommandStepLog E parseRules command ++
        match parseCommandStep E parseRules workingDirectory command with
        | none => []
        | some next => parseCommandLoopLog E parseRules workingDirectory fuel next

/-- The warnings that `ParsedCommandFactory::parseCommand` writes to the log
(parsedcommandfactory.cpp:274-312). -/
def parseCommandLog (E : Env) (parseRules : CompilerParseRulesMap) (workingDirectory : Str)
    (command : ParsedCommand) : List Event :=
  parseCommandLoopLog E parseRules workingDirectory command.d_originalCommand.length command

/-- The warnings that `ParsedCommandFactory::createParsedCommand(command, workingDirectory)`
writes to the log (parsedcommandfactory.cpp:149-259): those of the parse of the command and,
when that found no unsupported option and collected preprocessor options, those of the parse
of these options under `GccPreprocessorRules`. -/
def createParsedCommandLog (E : Env) (command : List Str) (workingDirectory : Str) :
    List Event :=
  if command = [] then []
  else
    let parsedCommand := ParsedCommand.construct E command workingDirectory
    parseCommandLog E (rulesToUse E parsedCommand.d_compiler) workingDirectory parsedCommand ++
      match parseCommand E (rulesToUse E parsedCommand.d_compiler) workingDirectory
        parsedCommand with
      | none => []
      | some parsedCommand =>
        if parsedCommand.d_containsUnsupportedOptions then []
        else if parsedCommand.d_preProcessorOptions.length > 0 then
          parseCommandLog E GccPreprocessorRules workingDirectory
            { ParsedCommand.empty with d_originalCommand := parsedCommand.d_preProcessorOptions }
        else []

/-- The call `ParsedCommandFactory::createParsedCommand(argv, cwd.c_str())` of `execute`
(executioncontext.cpp:247-248, parsedcommandfactory.cpp:261-266) as a run: the line of
`vectorFromArgv`, then the warnings of the parser. The value is not in the run; `execute`
takes it from `createParsedCommand`. -/
def executeParse (W : ExecutionWorld) (argv : List Str) : Run Unit := do
  log .DEBUG (vectorFromArgvLog argv)
  ⟨createParsedCommandLog W.E argv W.getCurrentWorkingDirectory, .ok ()⟩

/-- `ExecutionContext::execute(argc, argv)` (executioncontext.cpp:216-577); `argv` holds the
`argc` tokens of the command. `none`: the parsing of the command is undefined. -/
def execute (W : ExecutionWorld) (argv : List Str) : Option (Run Int) :=
  match (executeConfigure W).outcome with
  | .error e => some ⟨(executeConfigure W).events, .error e⟩
  | .ok _ =>
    (createParsedCommand W.E argv W.getCurrentWorkingDirectory).map fun command =>
      (executeConfigure W).bind fun _ =>
        (executeParse W argv).bind fun _ => executeCommand W argv command

/-! ## Descriptions to compare the code with -/

/-- The description of `commandBasename` that the claim on it gives, in its words: take the
part after the last `/`, drop one trailing `_r` if present, then drop the trailing run of
characters in `[0-9.-]`. -/
def commandBasenameAsClaimed (path : Str) : Str :=
  let basename := path.rtakeWhile (fun c => c != '/')
  let withoutR :=
    if "_r".toList <:+ basename then basename.take (basename.length - 2) else basename
  withoutR.rdropWhile is_version_character

/-- The parse functions that, at a token equal to the option of the table, read the token
behind it as the argument of the option: `parseIsMacro` (parsedcommandfactory.cpp:485-490)
and the callers of `parseGccOption` (parsedcommandfactory.cpp:559-565). -/
def ParseRule.takesArgument : ParseRule → Bool
  | .parseIsInputPathOption => true
  | .parseIsEqualInputPathOption => true
  | .parseOptionRedirectsOutput => true
  | .parseOptionRedirectsDepsOutput => true
  | .parseOptionDepsRuleTarget => true
  | .parseIsMacro => true
  | _ => false

/-- The keys of a rule table whose parse function reads the token behind the option. -/
def argumentKeys (parseRules : CompilerParseRulesMap) : List Str :=
  (parseRules.filter (fun option_map_val => option_map_val.2.takesArgument)).map Prod.fst

/-- A token at which the parse function of the table reads the token behind it without a
look at the length of the work queue: the token is the option of a function of
`ParseRule.takesArgument`, or the table matches it to `-Xpreprocessor`
(parsedcommandfactory.cpp:460-464). -/
def takesFollowingToken (E : Env) (parseRules : CompilerParseRulesMap) (token : Str) : Bool :=
  match matchCompilerOptions E token parseRules with
  | some optionModifier =>
    (optionModifier.2.takesArgument && decide (token = optionModifier.1)) ||
      (decide (optionModifier.2 = .parseIsPreprocessorArgOption) &&
        decide (optionModifier.1 = "-Xpreprocessor".toList))
  | none => false

/-! ## FileUtils::hasPathPrefix

`fileutils.cpp` is not among the sources; its tests (fileutils.t.cpp:50-94) are. -/

/-- Modelled from the spec: the segments of a path for the segment-wise prefix test of
`FileUtils::hasPathPrefix`, which is not among the sources: the pieces between the `/` of the
path, a trailing `/` ignored. An absolute path has the empty piece first; `..` is a piece
like any other, as the tests `HasPathPrefixTest` expect. -/
def prefixSegments (path : Str) : List Str :=
  (if path.getLast? = some '/' then path.dropLast else path).splitOn '/'

/-- Modelled from the spec: `FileUtils::hasPathPrefix(path, prefix)` (fileutils.cpp) is not
among the sources. The "segment-wise prefix test" of §4.A: the segments of `prefix` are the
leading segments of `path`, and the two are both absolute or both relative. -/
def hasPathPrefix (path pathPrefix : Str) : Bool :=
  decide ((path.head? = some '/') ↔ (pathPrefix.head? = some '/')) &&
    decide (prefixSegments pathPrefix <+: prefixSegments path)

/-! ## A sample environment -/

/-- Modelled from the spec: path normalization is not among the sources. The segments of a
path once `.`, `..` and empty segments are resolved (§4.A step 4), most recent segment first
in `acc`. -/
def normalSegments (absolute : Bool) : List Str → List Str → List Str
  | acc, [] => acc.reverse
  | acc, seg :: segs =>
    if seg = [] ∨ seg = ['.'] then normalSegments absolute acc segs
    else if seg = ['.', '.'] then
      match acc with
      | [] => normalSegments absolute (if absolute then [] else [seg]) segs
      | last :: acc2 =>
        if last = ['.', '.'] then normalSegments absolute (seg :: acc) segs
        else normalSegments absolute acc2 segs
    else normalSegments absolute (seg :: acc) segs

/-- Modelled from the spec: the normal segments of a path, on which §4.A compares paths. -/
def pathSegments (path : Str) : List Str :=
  normalSegments (path.head? = some '/') [] (path.splitOn '/')

/-- Modelled from the spec: segments joined by `/`, the way back from segments to a path. -/
def joinSegments : List Str → Str
  | [] => []
  | [seg] => seg
  | seg :: seg2 :: segs => seg ++ '/' :: joinSegments (seg2 :: segs)

/-- Modelled from the spec: `normalizePath` of buildbox-common is not among the sources;
"collapse `.`/`..`/duplicate slashes" (§4.A step 4). -/
def sampleNormalizePath (path : Str) : Str :=
  if path.head? = some '/' then '/' :: joinSegments (pathSegments path)
  else if pathSegments path = [] then ['.']
  else joinSegments (pathSegments path)

/-- Modelled from the spec: the relative path of §4.A step 2, which "may traverse upward
with `..`". The segments that lead from directory `wd` to `path`, both given by their normal
segments: up with `..` out of what `wd` does not share with `path`, then down. -/
def relativeSegments : List Str → List Str → List Str
  | p :: ps, w :: ws =>
    if p = w then relativeSegments ps ws
    else List.replicate (w :: ws).length ['.', '.'] ++ p :: ps
  | ps, ws => List.replicate ws.length ['.', '.'] ++ ps

/-- Modelled from the spec: `FileUtils::modifyPathForRemote` (fileutils.cpp) is not among the
sources. §4.A with an empty prefix map and path rewriting on: a path that is absolute and
lies, segment-wise, under `projectRoot` becomes relative to `workingDirectory`; any other
path is left as it is; the result is normalized if `normalize` is set. -/
def sampleModifyPathForRemote (projectRoot path workingDirectory : Str) (normalize : Bool) :
    Str :=
  if path.head? = some '/' ∧ pathSegments projectRoot <+: pathSegments path then
    let relative := joinSegments
      (relativeSegments (pathSegments path) (pathSegments workingDirectory))
    if normalize then sampleNormalizePath relative else relative
  else if normalize ∧ path ≠ [] then sampleNormalizePath path
  else path

/-- Modelled from the spec: `compilerdefaults.h` and `env.h` are not among the sources. A
sample environment with the values the spec and the tests give (the GCC family `gcc`,
`g++`, `clang`, `clang++` with the deps tail `-M`, the language `c` accepted and `assembler`
not, project root `/home/nobody/`, no platform compiler, no directory on the file system), the
rest chosen; the rule tables are iterated in the order of their initialisers. -/
def sampleEnv : Env :=
  { modifyPathForRemote := sampleModifyPathForRemote "/home/nobody/".toList
    normalizePath := sampleNormalizePath
    isDirectory := fun _ => false
    Gcc := ["gcc".toList, "g++".toList, "clang".toList, "clang++".toList]
    GccPreprocessor := ["gcc-preprocessor".toList]
    SunCPP := ["CC".toList]
    AIX := ["xlc".toList]
    CCompilers := ["cc".toList]
    GccDefaultDeps := ["-M".toList]
    SunCPPDefaultDeps := ["-xM".toList]
    AIXDefaultDeps := ["-qmakedep".toList]
    GccSupportedLanguages := ["c".toList, "c++".toList]
    RECC_PLATFORM_COMPILER := none
    RECC_DEPS_GLOBAL_PATHS := false
    temporaryFileName := "/tmp/recc-deps".toList
    iterationOrder := fun options => options }

/-! ## Sample inputs -/

/-- A state of the parser with nothing built yet and the work queue `q`. -/
def queueOnly (q : List Str) : ParsedCommand :=
  { ParsedCommand.empty with d_originalCommand := q }

/-- The two rules of the test `DepsFromMakeRulesTest.GccStyleMakefile`. -/
def gnuSampleRules : List GnuRule :=
  [ { target := "sample.o".toList
      deps := [(.spaces 0, "sample.c".toList), (.spaces 0, "sample.h".toList),
               (.spaces 0, "/usr/include/cstring.h".toList),
               (.continuation 0 3, "subdir/sample.h".toList)] },
    { target := "rule2.o".toList
      deps := [(.spaces 0, "sample.h".toList)] } ]

/-- The six lines of the test `DepsFromMakeRulesTest.SunStyleMakefile`. -/
def sunSampleLines : List SunLine :=
  [ ⟨"sample.o".toList, "./sample.c".toList⟩,
    ⟨"sample.o".toList, "./sample.h".toList⟩,
    ⟨"sample.o".toList, "/usr/include/cstring.h".toList⟩,
    ⟨"sample.o".toList, "./subdir/sample.h".toList⟩,
    ⟨"rule2.o".toList, "./sample.h".toList⟩,
    ⟨"rule3.o".toList, "./sample with spaces.c".toList⟩ ]

/-- A world for the examples: the configuration of `sampleEnv` with every switch off, the
working directory `/home/nobody/`, every call answering without an exception, an `Action`
built with the one product `hello.o`, an action cache without the action, and a local run
and a remote execution that end with exit code 0. -/
def sampleWorld : ExecutionWorld :=
  { E := sampleEnv
    RECC_FORCE_REMOTE := false
    RECC_NO_EXECUTE := false
    RECC_SKIP_CACHE := false
    RECC_CACHE_ONLY := false
    RECC_CACHE_UPLOAD_LOCAL_BUILD := false
    RECC_ACTION_UNCACHEABLE := false
    RECC_CACHE_UPLOAD_FAILED_BUILD := true
    RECC_DONT_SAVE_OUTPUT := false
    RECC_VERBOSE := false
    RECC_REAPI_VERSION := "2.0".toList
    RECC_ACTION_CACHE_SERVER := "localhost:8085".toList
    RECC_CAS_SERVER := "localhost:8085".toList
    RECC_SERVER := "localhost:8085".toList
    parse_config_variables := .ok ()
    get_statsdpublisher_from_config := .ok ()
    getCurrentWorkingDirectory := "/home/nobody/".toList
    BuildAction := fun _ _ =>
      .ok
        { actionPtr := some ⟨"action".toList, "action".toList⟩
          blobs := []
          digest_to_filepaths := []
          products := ["hello.o".toList] }
    make_digest_action := fun action => ⟨action.SerializeAsString, 6⟩
    make_digest := fun data => ⟨data, data.length⟩
    showDigest := fun digest => digest.hash
    get_channels_from_config := .ok ()
    configured_digest_function := .ok ()
    casClient_init := .ok ()
    reClient_init := .ok ()
    fetchFromActionCache := fun _ _ => .ok (false, ActionResult.empty)
    Subprocess_execute := fun _ _ _ => .ok ⟨0, [], []⟩
    isRegularFile := fun _ => true
    File := fun path => .ok (⟨path, 0⟩, false)
    findMissingBlobs := fun digests => .ok digests
    uploadBlobs := fun _ => .ok ()
    executeAction := fun _ _ =>
      .ok { ActionResult.empty with output_files := [⟨"hello.o".toList, ⟨[], 0⟩, false⟩] }
    updateActionCache := fun _ _ => .ok ()
    open_root := fun _ => true
    downloadOutputs := fun _ => .ok ()
    getRandomString := "0000002a".toList
    readFile := fun _ => [] }

/-- The text `clang_v_common` of the test `DepsTest.ClangCrtbegin` (deps.t.cpp:219-236). -/
def clang_v_common : Str :=
  ("clang version 9.0.0 (https://github.com/llvm/llvm-project/ " ++
    "67510fac36d27b2e22c7cd955fc167136b737b93)\n" ++
  "Target: x86_64-unknown-linux-gnu\n" ++
  "Thread model: posix\n" ++
  "InstalledDir: /home/user/clang/bin\n" ++
  "Found candidate GCC installation: /usr/lib/gcc/i686-linux-gnu/5\n" ++
  "Found candidate GCC installation: /usr/lib/gcc/i686-linux-gnu/5.4.0\n" ++
  "Found candidate GCC installation: /usr/lib/gcc/i686-linux-gnu/6\n" ++
  "Found candidate GCC installation: /usr/lib/gcc/i686-linux-gnu/6.0.0\n" ++
  "Found candidate GCC installation: /usr/lib/gcc/x86_64-linux-gnu/5\n" ++
  "Found candidate GCC installation: /usr/lib/gcc/x86_64-linux-gnu/5.4.0\n" ++
  "Found candidate GCC installation: /usr/lib/gcc/x86_64-linux-gnu/6\n" ++
  "Found candidate GCC installation: /usr/lib/gcc/x86_64-linux-gnu/6.0.0\n" ++
  "Selected GCC installation: /usr/lib/gcc/x86_64-linux-gnu/5.4.0\n" ++
  "Candidate multilib: .;@m64\n" ++
  "Candidate multilib: 32;@m32\n" ++
  "Candidate multilib: x32;@mx32\n").toList

/-! ## Make rules: lemmas -/

theorem makeRulesRun_append (b : Bool) (s : MakeRulesState) (x y : Str) :
    makeRulesRun b s (x ++ y) = makeRulesRun b (makeRulesRun b s x) y := by
  simp [makeRulesRun]

theorem makeRulesRun_cons (b : Bool) (s : MakeRulesState) (c : Char) (x : Str) :
    makeRulesRun b s (c :: x) = makeRulesRun b (makeRulesStep b s c) x := rfl

theorem makeRulesRun_nil (b : Bool) (s : MakeRulesState) : makeRulesRun b s [] = s := rfl

/-- After the colon, the characters of a plain name are appended to the current file name. -/
theorem gnu_run_name (d : Str) (hd : ∀ c ∈ d, c ≠ ' ' ∧ c ≠ ':' ∧ c ≠ '\\' ∧ c ≠ '\n')
    (R : Finset Str) (cur : Str) :
    makeRulesRun false ⟨R, true, false, cur⟩ d = ⟨R, true, false, cur ++ d⟩ := by
  induction d generalizing cur with
  | nil => simp [makeRulesRun]
  | cons c d ih =>
    have hc := hd c (by simp)
    have hstep : makeRulesStep false ⟨R, true, false, cur⟩ c = ⟨R, true, false, cur ++ [c]⟩ := by
      simp [makeRulesStep, hc]
    rw [makeRulesRun_cons, hstep, ih (fun c h => hd c (by simp [h]))]
    simp

/-- Before the colon, the characters of a plain name change nothing. -/
theorem gnu_run_target (t : Str) (ht : ∀ c ∈ t, c ≠ ' ' ∧ c ≠ ':' ∧ c ≠ '\\' ∧ c ≠ '\n')
    (R : Finset Str) :
    makeRulesRun false ⟨R, false, false, []⟩ t = ⟨R, false, false, []⟩ := by
  induction t with
  | nil => rfl
  | cons c t ih =>
    have hc := ht c (by simp)
    have hstep : makeRulesStep false ⟨R, false, false, []⟩ c = ⟨R, false, false, []⟩ := by
      simp [makeRulesStep, hc]
    rw [makeRulesRun_cons, hstep, ih (fun c h => ht c (by simp [h]))]

/-- Spaces with no current file name change nothing in GNU mode. -/
theorem gnu_run_spaces_idle (n : Nat) (R : Finset Str) (col : Bool) :
    makeRulesRun false ⟨R, col, false, []⟩ (List.replicate n ' ') = ⟨R, col, false, []⟩ := by
  induction n with
  | zero => rfl
  | succ n ih =>
    have hstep : makeRulesStep false ⟨R, col, false, []⟩ ' ' = ⟨R, col, false, []⟩ := by
      simp [makeRulesStep, insertIfNonEmpty]
    rw [List.replicate_succ, makeRulesRun_cons, hstep, ih]

/-- One or more spaces commit the current file name in GNU mode. -/
theorem gnu_run_spaces (n : Nat) (R : Finset Str) (col : Bool) (cur : Str) :
    makeRulesRun false ⟨R, col, false, cur⟩ (List.replicate (n + 1) ' ')
      = ⟨insertIfNonEmpty cur R, col, false, []⟩ := by
  have hstep : makeRulesStep false ⟨R, col, false, cur⟩ ' '
      = ⟨insertIfNonEmpty cur R, col, false, []⟩ := by
    simp [makeRulesStep]
  rw [List.replicate_succ, makeRulesRun_cons, hstep, gnu_run_spaces_idle]

/-- A separator commits the current file name and keeps the logical line open. -/
theorem gnu_run_sep (sep : GnuSep) (R : Finset Str) (cur : Str) :
    makeRulesRun false ⟨R, true, false, cur⟩ sep.render
      = ⟨insertIfNonEmpty cur R, true, false, []⟩ := by
  cases sep with
  | spaces n => exact gnu_run_spaces n R true cur
  | continuation m n =>
    have h1 : makeRulesStep false ⟨insertIfNonEmpty cur R, true, false, []⟩ '\\'
        = ⟨insertIfNonEmpty cur R, true, true, []⟩ := by
      simp [makeRulesStep]
    have h2 : makeRulesStep false ⟨insertIfNonEmpty cur R, true, true, []⟩ '\n'
        = ⟨insertIfNonEmpty cur R, true, false, []⟩ := by
      simp [makeRulesStep]
    rw [GnuSep.render, makeRulesRun_append, gnu_run_spaces, makeRulesRun_cons, h1,
      makeRulesRun_cons, h2, gnu_run_spaces_idle]

/-- The dependencies of one rule, read after its colon. -/
theorem gnu_run_deps (deps : List (GnuSep × Str)) (hd : ∀ p ∈ deps, PlainName p.2)
    (R : Finset Str) (cur : Str) :
    ∃ R2 cur2,
      makeRulesRun false ⟨R, true, false, cur⟩ (deps.map (fun p => p.1.render ++ p.2)).flatten
        = ⟨R2, true, false, cur2⟩ ∧
      insertIfNonEmpty cur2 R2 = insertIfNonEmpty cur R ∪ (deps.map Prod.snd).toFinset := by
  induction deps generalizing R cur with
  | nil => exact ⟨R, cur, rfl, by simp⟩
  | cons p deps ih =>
    have hp := hd p (by simp)
    obtain ⟨R2, cur2, hrun, hfin⟩ :=
      ih (fun q hq => hd q (by simp [hq])) (insertIfNonEmpty cur R) p.2
    refine ⟨R2, cur2, ?_, ?_⟩
    · rw [List.map_cons, List.flatten_cons, makeRulesRun_append, makeRulesRun_append,
        gnu_run_sep, gnu_run_name p.2 hp.2]
      simpa using hrun
    · rw [hfin]
      have : insertIfNonEmpty p.2 (insertIfNonEmpty cur R)
          = insert p.2 (insertIfNonEmpty cur R) := by
        simp [insertIfNonEmpty, hp.1]
      rw [this]
      ext x
      simp

/-- A whole GNU rule, read from the start of a line. -/
theorem gnu_run_rule (r : GnuRule) (ht : PlainName r.target) (hd : ∀ p ∈ r.deps, PlainName p.2)
    (R : Finset Str) :
    ∃ R2 cur2,
      makeRulesRun false ⟨R, false, false, []⟩ r.render = ⟨R2, true, false, cur2⟩ ∧
      insertIfNonEmpty cur2 R2 = R ∪ (r.deps.map Prod.snd).toFinset := by
  obtain ⟨R2, cur2, hrun, hfin⟩ := gnu_run_deps r.deps hd R []
  refine ⟨R2, cur2, ?_, ?_⟩
  · have hstep : makeRulesStep false ⟨R, false, false, []⟩ ':' = ⟨R, true, false, []⟩ := by
      simp [makeRulesStep]
    rw [GnuRule.render, makeRulesRun_append, gnu_run_target r.target ht.2, makeRulesRun_cons,
      hstep, hrun]
  · simpa [insertIfNonEmpty] using hfin

/-- An unescaped newline commits the current file name and ends the logical line. -/
theorem run_newline (b : Bool) (R : Finset Str) (col : Bool) (cur : Str) :
    makeRulesStep b ⟨R, col, false, cur⟩ '\n' = ⟨insertIfNonEmpty cur R, false, false, []⟩ := by
  simp [makeRulesStep]

/-- The make text of GNU rules, read from the start of a line with `R` already found. -/
theorem gnu_run_text (rs : List GnuRule) (fin : Bool)
    (h : ∀ r ∈ rs, PlainName r.target ∧ ∀ p ∈ r.deps, PlainName p.2) (R : Finset Str) :
    makeRulesFinish (makeRulesRun false ⟨R, false, false, []⟩
        (makeText (rs.map GnuRule.render) fin))
      = R ∪ (gnuDeps rs).toFinset := by
  induction rs generalizing R with
  | nil =>
    cases fin
    · simp [makeText, joinLines, makeRulesRun, makeRulesFinish, insertIfNonEmpty, gnuDeps]
    · simp [makeText, joinLines, makeRulesRun, makeRulesFinish, insertIfNonEmpty, gnuDeps,
        makeRulesStep]
  | cons r rs ih =>
    obtain ⟨R2, cur2, hrun, hfin⟩ := gnu_run_rule r (h r (by simp)).1 (h r (by simp)).2 R
    cases rs with
    | nil =>
      cases fin
      · simp [makeText, joinLines, hrun, makeRulesFinish, hfin, gnuDeps]
      · have hg : R ∪ (gnuDeps [r]).toFinset = insertIfNonEmpty cur2 R2 := by
          rw [hfin]; simp [gnuDeps]
        rw [hg]
        simp [makeText, joinLines, makeRulesRun_append, hrun, makeRulesRun_cons, run_newline,
          makeRulesRun_nil, makeRulesFinish, insertIfNonEmpty]
    | cons r2 rs =>
      have ih2 := ih (fun q hq => h q (by simp [hq])) (insertIfNonEmpty cur2 R2)
      have htext : makeText ((r :: r2 :: rs).map GnuRule.render) fin
          = r.render ++ '\n' :: makeText ((r2 :: rs).map GnuRule.render) fin := by
        simp [makeText, joinLines]
      rw [htext, makeRulesRun_append, hrun, makeRulesRun_cons, run_newline, ih2, hfin]
      ext x
      simp [gnuDeps]

/-- Before the colon, Sun mode ignores everything but colon, backslash and newline. -/
theorem sun_run_target (t : Str) (ht : SunTarget t) (R : Finset Str) :
    makeRulesRun true ⟨R, false, false, []⟩ t = ⟨R, false, false, []⟩ := by
  induction t with
  | nil => rfl
  | cons c t ih =>
    have hc := ht c (by simp)
    have hstep : makeRulesStep true ⟨R, false, false, []⟩ c = ⟨R, false, false, []⟩ := by
      simp [makeRulesStep, hc]
    rw [makeRulesRun_cons, hstep, ih (fun c h => ht c (by simp [h]))]

/-- After the colon and with a file name begun, Sun mode appends every character that is
neither backslash nor newline, spaces included. -/
theorem sun_run_name (d : Str) (hd : ∀ c ∈ d, c ≠ '\\' ∧ c ≠ '\n') (R : Finset Str)
    (cur : Str) (hcur : cur ≠ []) :
    makeRulesRun true ⟨R, true, false, cur⟩ d = ⟨R, true, false, cur ++ d⟩ := by
  induction d generalizing cur with
  | nil => simp [makeRulesRun]
  | cons c d ih =>
    have hc := hd c (by simp)
    have hstep : makeRulesStep true ⟨R, true, false, cur⟩ c = ⟨R, true, false, cur ++ [c]⟩ := by
      by_cases hsp : c = ' '
      · subst hsp; simp [makeRulesStep, hcur]
      · simp [makeRulesStep, hc, hsp]
    rw [makeRulesRun_cons, hstep, ih (fun c h => hd c (by simp [h])) _ (by simp)]
    simp

/-- A whole Sun line, read from the start of a line. -/
theorem sun_run_line (l : SunLine) (ht : SunTarget l.target) (hd : SunDep l.dep)
    (R : Finset Str) :
    makeRulesRun true ⟨R, false, false, []⟩ l.render = ⟨R, true, false, l.dep⟩ := by
  obtain ⟨hne, hhead, -, hchars⟩ := hd
  have h1 : makeRulesStep true ⟨R, false, false, []⟩ ' ' = ⟨R, false, false, []⟩ := by
    simp [makeRulesStep]
  have h2 : makeRulesStep true ⟨R, false, false, []⟩ ':' = ⟨R, true, false, []⟩ := by
    simp [makeRulesStep]
  have h3 : makeRulesStep true ⟨R, true, false, []⟩ ' ' = ⟨R, true, false, []⟩ := by
    simp [makeRulesStep]
  rw [SunLine.render, makeRulesRun_append, sun_run_target l.target ht, makeRulesRun_cons, h1,
    makeRulesRun_cons, h2, makeRulesRun_cons, h3]
  cases hdep : l.dep with
  | nil => exact absurd hdep hne
  | cons c d =>
    rw [hdep] at hhead hchars
    have hc := hchars c (by simp)
    have hsp : c ≠ ' ' := by simpa using hhead
    have h4 : makeRulesStep true ⟨R, true, false, []⟩ c = ⟨R, true, false, [c]⟩ := by
      simp [makeRulesStep, hc, hsp]
    rw [makeRulesRun_cons, h4, sun_run_name d (fun x hx => hchars x (by simp [hx])) R [c]
      (by simp)]
    simp

/-- The text of Sun lines, read from the start of a line with `R` already found. -/
theorem sun_run_text (ls : List SunLine) (fin : Bool)
    (h : ∀ l ∈ ls, SunTarget l.target ∧ SunDep l.dep) (R : Finset Str) :
    makeRulesFinish (makeRulesRun true ⟨R, false, false, []⟩
        (makeText (ls.map SunLine.render) fin))
      = R ∪ (ls.map SunLine.dep).toFinset := by
  induction ls generalizing R with
  | nil =>
    cases fin
    · simp [makeText, joinLines, makeRulesRun, makeRulesFinish, insertIfNonEmpty]
    · simp [makeText, joinLines, makeRulesRun, makeRulesFinish, insertIfNonEmpty,
        makeRulesStep]
  | cons l ls ih =>
    have hl := h l (by simp)
    have hrun := sun_run_line l hl.1 hl.2 R
    have hne : l.dep ≠ [] := hl.2.1
    cases ls with
    | nil =>
      cases fin
      · simp [makeText, joinLines, hrun, makeRulesFinish, insertIfNonEmpty, hne]
        ext x; simp; tauto
      · simp [makeText, joinLines, makeRulesRun_append, hrun, makeRulesRun_cons, run_newline,
          makeRulesRun_nil, makeRulesFinish, insertIfNonEmpty, hne]
        ext x; simp; tauto
    | cons l2 ls =>
      have ih2 := ih (fun q hq => h q (by simp [hq])) (insertIfNonEmpty l.dep R)
      have htext : makeText ((l :: l2 :: ls).map SunLine.render) fin
          = l.render ++ '\n' :: makeText ((l2 :: ls).map SunLine.render) fin := by
        simp [makeText, joinLines]
      rw [htext, makeRulesRun_append, hrun, makeRulesRun_cons, run_newline, ih2]
      ext x
      simp [insertIfNonEmpty, hne]
      tauto

/-! ## Make rules: the claims -/

/-- C1: in GNU mode, a text of rules `target: dep1 dep2 ...` with plain names, the
dependencies separated by spaces or by a backslash-newline continuation, the rules separated
by newlines (final newline optional), gives exactly the set of all dependency names; a
target is in the result only if it is also a dependency. -/
theorem C1_gnu_rules_exact (rs : List GnuRule) (fin : Bool)
    (h : ∀ r ∈ rs, PlainName r.target ∧ ∀ p ∈ r.deps, PlainName p.2) :
    dependencies_from_make_rules (makeText (rs.map GnuRule.render) fin) false
        = (gnuDeps rs).toFinset ∧
      ∀ r ∈ rs,
        r.target ∈ dependencies_from_make_rules (makeText (rs.map GnuRule.render) fin) false →
          r.target ∈ gnuDeps rs := by
  have hmain : dependencies_from_make_rules (makeText (rs.map GnuRule.render) fin) false
      = (gnuDeps rs).toFinset := by
    have := gnu_run_text rs fin h ∅
    simpa [dependencies_from_make_rules, makeRulesInit] using this
  refine ⟨hmain, fun r _ hr => ?_⟩
  rw [hmain] at hr
  simpa using hr

/-- C1 at the text of the test `DepsFromMakeRulesTest.GccStyleMakefile`. -/
theorem C1_gnu_rules_exact_witness :
    makeText (gnuSampleRules.map GnuRule.render) false
        = ("sample.o: sample.c sample.h /usr/include/cstring.h \\\n   subdir/sample.h\n"
            ++ "rule2.o: sample.h").toList ∧
      dependencies_from_make_rules (makeText (gnuSampleRules.map GnuRule.render) false) false
        = {"sample.c".toList, "sample.h".toList, "/usr/include/cstring.h".toList,
            "subdir/sample.h".toList} := by
  refine ⟨by decide, ?_⟩
  rw [(C1_gnu_rules_exact gnuSampleRules false (by decide)).1]
  decide

/-- C2: in Sun mode, a text of lines `target : dep` (final newline optional), the targets
without colon, backslash or newline, the dependencies non-empty, not beginning or ending
with a space and without backslash or newline, gives exactly the set of the dependencies,
interior spaces preserved. -/
theorem C2_sun_lines_exact (ls : List SunLine) (fin : Bool)
    (h : ∀ l ∈ ls, SunTarget l.target ∧ SunDep l.dep) :
    dependencies_from_make_rules (makeText (ls.map SunLine.render) fin) true
      = (ls.map SunLine.dep).toFinset := by
  have := sun_run_text ls fin h ∅
  simpa [dependencies_from_make_rules, makeRulesInit] using this

/-- C2 at the text of the test `DepsFromMakeRulesTest.SunStyleMakefile`. -/
theorem C2_sun_lines_exact_witness :
    makeText (sunSampleLines.map SunLine.render) false
        = ("sample.o : ./sample.c\nsample.o : ./sample.h\n"
            ++ "sample.o : /usr/include/cstring.h\nsample.o : ./subdir/sample.h\n"
            ++ "rule2.o : ./sample.h\nrule3.o : ./sample with spaces.c").toList ∧
      dependencies_from_make_rules (makeText (sunSampleLines.map SunLine.render) false) true
        = {"./sample.c".toList, "./sample.h".toList, "/usr/include/cstring.h".toList,
            "./subdir/sample.h".toList, "./sample with spaces.c".toList} := by
  refine ⟨by decide, ?_⟩
  rw [C2_sun_lines_exact sunSampleLines false (by decide)]
  decide

set_option maxRecDepth 100000 in
/-- C3: in GNU mode, after the first colon of a logical line, a backslash followed by a
character `c` other than newline appends `c` to the current file name and ends neither the
name nor the line; a backslash followed by newline appends nothing and ends neither. So
`a.o: header\ with\ spaces.h` gives `header with spaces.h` and `a.o: foo\<newline>bar` gives
`foobar`. -/
theorem C3_gnu_backslash :
    (∀ (R : Finset Str) (cur : Str) (c : Char), c ≠ '\n' →
        makeRulesRun false ⟨R, true, false, cur⟩ ['\\', c] = ⟨R, true, false, cur ++ [c]⟩) ∧
      (∀ (R : Finset Str) (cur : Str),
        makeRulesRun false ⟨R, true, false, cur⟩ ['\\', '\n'] = ⟨R, true, false, cur⟩) ∧
      dependencies_from_make_rules "a.o: header\\ with\\ spaces.h".toList false
        = {"header with spaces.h".toList} ∧
      dependencies_from_make_rules "a.o: foo\\\nbar".toList false = {"foobar".toList} := by
  refine ⟨fun R cur c hc => ?_, fun R cur => ?_, by decide, by decide⟩
  · simp [makeRulesRun, makeRulesStep, hc]
  · simp [makeRulesRun, makeRulesStep]

/-- C3 at an escaped space. -/
theorem C3_gnu_backslash_witness :
    makeRulesRun false ⟨∅, true, false, "header".toList⟩ ['\\', ' ']
      = ⟨∅, true, false, "header ".toList⟩ :=
  C3_gnu_backslash.1 ∅ "header".toList ' ' (by decide)

/-! ## The parser: what one iteration does to the work queue and the flags -/

/-- The first match of a list is the only element that matches. -/
theorem find?_eq_some_of_unique {α : Type} (p : α → Bool) (l : List α) (a : α) (ha : a ∈ l)
    (hp : p a = true) (hu : ∀ b ∈ l, p b = true → b = a) : l.find? p = some a := by
  induction l with
  | nil => simp at ha
  | cons x xs ih =>
    by_cases hx : p x = true
    · have : x = a := hu x (by simp) hx
      subst this
      simp [List.find?, hx]
    · have hne : a ≠ x := fun h => hx (h ▸ hp)
      have hmem : a ∈ xs := by
        rcases List.mem_cons.1 ha with h | h
        · exact absurd h hne
        · exact h
      have hx2 : p x = false := by simpa using hx
      simp only [List.find?, hx2]
      exact ih hmem (fun b hb => hu b (by simp [hb]))

theorem appendAndRemoveOption_keeps (E : Env) (wd : Str) (isPath toDeps isOutput depsOutput : Bool)
    (c c2 : ParsedCommand)
    (h : appendAndRemoveOption E wd isPath toDeps isOutput depsOutput c = some c2) :
    StepKeeps c c2 ∧ c2.d_compilerCommand = c.d_compilerCommand := by
  unfold appendAndRemoveOption at h
  cases hq : c.d_originalCommand with
  | nil => simp [hq] at h
  | cons t rest =>
    simp only [hq] at h
    split at h <;> (simp at h; subst h; exact ⟨⟨⟨[t], by simp, by simp [hq]⟩, id, rfl⟩, rfl⟩)

theorem parseGccOption_keeps (E : Env) (wd option : Str) (toDeps isOutput depsOutput : Bool)
    (c c2 : ParsedCommand)
    (h : parseGccOption E wd option toDeps isOutput depsOutput c = some c2) :
    StepKeeps c c2 ∧ c2.d_compilerCommand = c.d_compilerCommand := by
  unfold parseGccOption at h
  cases hq : c.d_originalCommand with
  | nil => simp [hq] at h
  | cons t rest =>
    simp only [hq] at h
    split at h
    · obtain ⟨c1, h1, h2⟩ := Option.bind_eq_some.1 h
      obtain ⟨⟨⟨p1, hp1, e1⟩, u1, d1⟩, k1⟩ := appendAndRemoveOption_keeps _ _ _ _ _ _ _ _ h1
      obtain ⟨⟨⟨p2, hp2, e2⟩, u2, d2⟩, k2⟩ := appendAndRemoveOption_keeps _ _ _ _ _ _ _ _ h2
      refine ⟨⟨⟨p1 ++ p2, by simp [hp1], ?_⟩, fun hu => u2 (u1 hu), d2.trans d1⟩, k2.trans k1⟩
      rw [e1, e2, List.append_assoc]
    · simp at h; subst h; exact ⟨⟨⟨[t], by simp, by simp [hq]⟩, id, rfl⟩, rfl⟩

/-- `appendAndRemoveOption` does not touch `d_containsUnsupportedOptions`. -/
theorem appendAndRemoveOption_unsupported (E : Env) (wd : Str)
    (isPath toDeps isOutput depsOutput : Bool) (c c2 : ParsedCommand)
    (h : appendAndRemoveOption E wd isPath toDeps isOutput depsOutput c = some c2) :
    c2.d_containsUnsupportedOptions = c.d_containsUnsupportedOptions := by
  unfold appendAndRemoveOption at h
  cases hq : c.d_originalCommand with
  | nil => simp [hq] at h
  | cons t rest =>
    simp only [hq] at h
    split at h <;> (simp at h; subst h; rfl)

/-- `parseGccOption` does not touch `d_containsUnsupportedOptions`. -/
theorem parseGccOption_unsupported (E : Env) (wd option : Str)
    (toDeps isOutput depsOutput : Bool) (c c2 : ParsedCommand)
    (h : parseGccOption E wd option toDeps isOutput depsOutput c = some c2) :
    c2.d_containsUnsupportedOptions = c.d_containsUnsupportedOptions := by
  unfold parseGccOption at h
  cases hq : c.d_originalCommand with
  | nil => simp [hq] at h
  | cons t rest =>
    simp only [hq] at h
    split at h
    · obtain ⟨c1, h1, h2⟩ := Option.bind_eq_some.1 h
      rw [appendAndRemoveOption_unsupported _ _ _ _ _ _ _ _ h2,
        appendAndRemoveOption_unsupported _ _ _ _ _ _ _ _ h1]
    · simp at h; subst h; rfl

theorem ParseRule_apply_keeps (E : Env) (wd option : Str) (rule : ParseRule)
    (c c2 : ParsedCommand) (hne : c.d_originalCommand ≠ [])
    (h : rule.apply E wd option c = some c2) :
    StepKeeps c c2 ∧
      (c2.d_compilerCommand = true →
        c.d_compilerCommand = true ∨ rule = .parseIsCompileOption) := by
  cases hq : c.d_originalCommand with
  | nil => exact absurd hq hne
  | cons t rest =>
    cases rule with
    | parseInterfersWithDepsOption =>
      simp only [ParseRule.apply, parseInterfersWithDepsOption, hq] at h
      simp at h; subst h
      exact ⟨⟨⟨[t], by simp, by simp [hq]⟩, id, rfl⟩, fun hc => Or.inl hc⟩
    | parseIsInputPathOption =>
      obtain ⟨hk, hcc⟩ := parseGccOption_keeps _ _ _ _ _ _ _ _ h
      exact ⟨hk, fun hc => Or.inl (hcc ▸ hc)⟩
    | parseIsEqualInputPathOption =>
      obtain ⟨hk, hcc⟩ := parseGccOption_keeps _ _ _ _ _ _ _ _ h
      exact ⟨hk, fun hc => Or.inl (hcc ▸ hc)⟩
    | parseIsCompileOption =>
      obtain ⟨⟨hq2, hu, hd⟩, -⟩ := appendAndRemoveOption_keeps _ _ _ _ _ _ _ _ h
      exact ⟨⟨hq2, hu, hd⟩, fun _ => Or.inr rfl⟩
    | parseOptionRedirectsOutput =>
      obtain ⟨hk, hcc⟩ := parseGccOption_keeps _ _ _ _ _ _ _ _ h
      exact ⟨hk, fun hc => Or.inl (hcc ▸ hc)⟩
    | parseOptionRedirectsDepsOutput =>
      obtain ⟨hk, hcc⟩ := parseGccOption_keeps _ _ _ _ _ _ _ _ h
      exact ⟨hk, fun hc => Or.inl (hcc ▸ hc)⟩
    | parseOptionDepsRuleTarget =>
      obtain ⟨hk, hcc⟩ := parseGccOption_keeps _ _ _ _ _ _ _ _ h
      exact ⟨hk, fun hc => Or.inl (hcc ▸ hc)⟩
    | parseIsPreprocessorArgOption =>
      simp only [ParseRule.apply, parseIsPreprocessorArgOption, hq] at h
      split at h
      · simp at h; subst h
        exact ⟨⟨⟨[t], by simp, by simp [hq]⟩, id, rfl⟩, fun hc => Or.inl hc⟩
      · split at h
        · cases rest with
          | nil => simp at h
          | cons next rest2 =>
            simp at h; subst h
            exact ⟨⟨⟨[t, next], by simp, by simp [hq]⟩, id, rfl⟩, fun hc => Or.inl hc⟩
        · simp at h; subst h
          exact ⟨⟨⟨[t], by simp, by simp [hq]⟩, id, rfl⟩, fun hc => Or.inl hc⟩
    | parseIsMacro =>
      simp only [ParseRule.apply, parseIsMacro, hq] at h
      split at h
      · cases rest with
        | nil => simp at h
        | cons arg rest2 =>
          simp at h; subst h
          exact ⟨⟨⟨[t, arg], by simp, by simp [hq]⟩, id, rfl⟩, fun hc => Or.inl hc⟩
      · simp at h; subst h
        exact ⟨⟨⟨[t], by simp, by simp [hq]⟩, id, rfl⟩, fun hc => Or.inl hc⟩
    | parseOptionSetsGccLanguage =>
      simp only [ParseRule.apply, parseOptionSetsGccLanguage, hq] at h
      split at h
      · simp at h; subst h
        exact ⟨⟨⟨[t], by simp, by simp_all⟩, fun _ => rfl, rfl⟩, fun hc => Or.inl hc⟩
      · obtain ⟨⟨hq2, hu, hd⟩, hcc⟩ := parseGccOption_keeps _ _ _ _ _ _ _ _ h
        simp only at hq2 hu hd hcc
        refine ⟨⟨hq ▸ hq2, fun hc => hu (by simp [hc]), hd⟩, fun hc => Or.inl (hcc ▸ hc)⟩
    | parseOptionIsUnsupported =>
      simp only [ParseRule.apply, parseOptionIsUnsupported] at h
      simp at h; subst h
      exact ⟨⟨⟨t :: rest, by simp, by simp [hq]⟩, fun _ => rfl, rfl⟩, fun hc => Or.inl hc⟩

/-- One iteration of the loop: tokens leave the front of the queue, the unsupported flag is
never cleared, and `d_compilerCommand` is set only by the compile rule. -/
theorem parseCommandStep_keeps (E : Env) (rules : CompilerParseRulesMap) (wd : Str)
    (c c2 : ParsedCommand) (h : parseCommandStep E rules wd c = some c2) :
    StepKeeps c c2 ∧
      (c2.d_compilerCommand = true →
        c.d_compilerCommand = true ∨
          ∃ flag, (c.d_originalCommand.head?.bind fun t => matchCompilerOptions E t rules)
            = some (flag, .parseIsCompileOption)) := by
  unfold parseCommandStep at h
  cases hq : c.d_originalCommand with
  | nil => simp [hq] at h
  | cons t rest =>
    simp only [hq] at h
    cases hm : matchCompilerOptions E t rules with
    | some om =>
      simp only [hm] at h
      obtain ⟨hk, hcc⟩ := ParseRule_apply_keeps E wd om.1 om.2 c c2 (by simp [hq]) h
      refine ⟨hk, fun hc => ?_⟩
      rcases hcc hc with h1 | h1
      · exact Or.inl h1
      · exact Or.inr ⟨om.1, by simp [← h1, hm]⟩
    | none =>
      simp only [hm] at h
      split at h
      · simp at h; subst h
        exact ⟨⟨⟨[t], by simp, by simp [hq]⟩, fun _ => rfl, rfl⟩, fun hc => Or.inl hc⟩
      · split at h
        · obtain ⟨hk, hcc⟩ := appendAndRemoveOption_keeps _ _ _ _ _ _ _ _ h
          exact ⟨hk, fun hc => Or.inl (hcc ▸ hc)⟩
        · simp at h; subst h
          exact ⟨⟨⟨[t], by simp, by simp [hq]⟩, id, rfl⟩, fun hc => Or.inl hc⟩

/-! ## The parser: the loop -/

theorem parseCommandStep_length (E : Env) (rules : CompilerParseRulesMap) (wd : Str)
    (c c2 : ParsedCommand) (h : parseCommandStep E rules wd c = some c2) :
    c2.d_originalCommand.length < c.d_originalCommand.length := by
  obtain ⟨pre, hpre, e⟩ := (parseCommandStep_keeps E rules wd c c2 h).1.queue
  rw [e, List.length_append]
  have : 0 < pre.length := List.length_pos.2 hpre
  omega

/-- More iterations than there are tokens change nothing. -/
theorem parseCommandLoop_fuel (E : Env) (rules : CompilerParseRulesMap) (wd : Str) (n m : Nat)
    (c : ParsedCommand) (hn : c.d_originalCommand.length ≤ n)
    (hm : c.d_originalCommand.length ≤ m) :
    parseCommandLoop E rules wd n c = parseCommandLoop E rules wd m c := by
  induction n generalizing m c with
  | zero =>
    have hq : c.d_originalCommand = [] := List.length_eq_zero.1 (Nat.le_zero.1 hn)
    cases m <;> simp [parseCommandLoop, hq]
  | succ n ih =>
    cases hq : c.d_originalCommand with
    | nil => cases m <;> simp [parseCommandLoop, hq]
    | cons t rest =>
      cases m with
      | zero => simp [hq] at hm
      | succ m =>
        simp only [parseCommandLoop, hq]
        cases hs : parseCommandStep E rules wd c with
        | none => rfl
        | some c1 =>
          have hlt := parseCommandStep_length E rules wd c c1 hs
          simp only [Option.some_bind]
          exact ih m c1 (by omega) (by omega)

/-- The loop of `parseCommand`, unfolded once. -/
theorem parseCommand_eq (E : Env) (rules : CompilerParseRulesMap) (wd : Str) (c : ParsedCommand) :
    parseCommand E rules wd c =
      match c.d_originalCommand with
      | [] => some c
      | _ :: _ => (parseCommandStep E rules wd c).bind (parseCommand E rules wd) := by
  unfold parseCommand
  cases hq : c.d_originalCommand with
  | nil => simp [parseCommandLoop]
  | cons t rest =>
    simp only [List.length_cons, parseCommandLoop, hq]
    cases hs : parseCommandStep E rules wd c with
    | none => rfl
    | some c1 =>
      have hlt := parseCommandStep_length E rules wd c c1 hs
      simp only [Option.some_bind]
      exact parseCommandLoop_fuel E rules wd _ _ c1 (by rw [hq] at hlt; simpa using Nat.lt_succ_iff.1 hlt) (le_refl _)

theorem parseCommand_nil (E : Env) (rules : CompilerParseRulesMap) (wd : Str) (c : ParsedCommand)
    (hq : c.d_originalCommand = []) : parseCommand E rules wd c = some c := by
  rw [parseCommand_eq, hq]

theorem parseCommand_cons (E : Env) (rules : CompilerParseRulesMap) (wd : Str) (c : ParsedCommand)
    (t : Str) (rest : List Str) (hq : c.d_originalCommand = t :: rest) :
    parseCommand E rules wd c
      = (parseCommandStep E rules wd c).bind (parseCommand E rules wd) := by
  rw [parseCommand_eq, hq]

/-- Induction over the iterations of `parseCommand`. -/
theorem parseCommand_induction (E : Env) (rules : CompilerParseRulesMap) (wd : Str)
    (P : ParsedCommand → ParsedCommand → Prop)
    (hnil : ∀ c, c.d_originalCommand = [] → P c c)
    (hstep : ∀ c c1 c2, parseCommandStep E rules wd c = some c1 →
      parseCommand E rules wd c1 = some c2 → P c1 c2 → P c c2)
    (c c2 : ParsedCommand) (h : parseCommand E rules wd c = some c2) : P c c2 := by
  generalize hn : c.d_originalCommand.length = n
  induction n using Nat.strong_induction_on generalizing c with
  | _ n ih =>
    cases hq : c.d_originalCommand with
    | nil =>
      rw [parseCommand_nil E rules wd c hq] at h
      cases h
      exact hnil _ hq
    | cons t rest =>
      rw [parseCommand_cons E rules wd c t rest hq] at h
      obtain ⟨c1, h1, h2⟩ := Option.bind_eq_some.1 h
      have hlt := parseCommandStep_length E rules wd c c1 h1
      exact hstep c c1 c2 h1 h2 (ih _ (hn ▸ hlt) c1 h2 rfl)

/-- What `parseCommand` keeps: it empties the work queue, never clears the unsupported flag,
leaves the default deps alone, and sets `d_compilerCommand` only at a token of the queue that
the table maps to the compile rule. -/
theorem parseCommand_keeps (E : Env) (rules : CompilerParseRulesMap) (wd : Str)
    (c c2 : ParsedCommand) (h : parseCommand E rules wd c = some c2) :
    c2.d_originalCommand = [] ∧
      (c.d_containsUnsupportedOptions = true → c2.d_containsUnsupportedOptions = true) ∧
      c2.d_defaultDepsCommand = c.d_defaultDepsCommand ∧
      (c2.d_compilerCommand = true →
        c.d_compilerCommand = true ∨
          ∃ t ∈ c.d_originalCommand, ∃ flag,
            matchCompilerOptions E t rules = some (flag, .parseIsCompileOption)) := by
  refine parseCommand_induction E rules wd
    (fun c c2 => c2.d_originalCommand = [] ∧
      (c.d_containsUnsupportedOptions = true → c2.d_containsUnsupportedOptions = true) ∧
      c2.d_defaultDepsCommand = c.d_defaultDepsCommand ∧
      (c2.d_compilerCommand = true →
        c.d_compilerCommand = true ∨
          ∃ t ∈ c.d_originalCommand, ∃ flag,
            matchCompilerOptions E t rules = some (flag, .parseIsCompileOption)))
    ?_ ?_ c c2 h
  · intro c hq
    exact ⟨hq, id, rfl, fun hc => Or.inl hc⟩
  · intro c c1 c2 h1 _ ⟨hq, hu, hd, hcc⟩
    obtain ⟨⟨⟨pre, hpre, e⟩, hu1, hd1⟩, hcc1⟩ := parseCommandStep_keeps E rules wd c c1 h1
    refine ⟨hq, fun hc => hu (hu1 hc), hd.trans hd1, fun hc => ?_⟩
    rcases hcc hc with h2 | ⟨t, ht, flag, hm⟩
    · rcases hcc1 h2 with h3 | ⟨flag, hm⟩
      · exact Or.inl h3
      · right
        cases hq0 : c.d_originalCommand with
        | nil => simp [hq0] at hm
        | cons t rest =>
          rw [hq0] at hm
          exact ⟨t, by simp, flag, by simpa using hm⟩
    · exact Or.inr ⟨t, by rw [e]; simp [ht], flag, hm⟩

/-- A state the parser reaches continues to the same result. -/
theorem parseCommand_of_reaches (E : Env) (rules : CompilerParseRulesMap) (wd : Str)
    (c s : ParsedCommand) (h : ParserReaches E rules wd c s) :
    parseCommand E rules wd c = parseCommand E rules wd s := by
  induction h with
  | start => rfl
  | next s s2 _ hstep ih =>
    rw [ih]
    cases hq : s.d_originalCommand with
    | nil => simp [parseCommandStep, hq] at hstep
    | cons t rest => rw [parseCommand_cons E rules wd s t rest hq, hstep, Option.some_bind]

/-! ## The constructor -/

/-- The chain over the lists of compilers touches nothing but the compiler name, the default
deps command and the dialect flags. -/
theorem classifyDialect_fields (E : Env) (d_compiler : Str) :
    (ParsedCommand.classifyDialect E d_compiler).d_compiler = d_compiler ∧
      (ParsedCommand.classifyDialect E d_compiler).d_compilerCommand = false ∧
      (ParsedCommand.classifyDialect E d_compiler).d_containsUnsupportedOptions = false ∧
      (ParsedCommand.classifyDialect E d_compiler).d_originalCommand = [] ∧
      (ParsedCommand.classifyDialect E d_compiler).d_command = [] ∧
      (ParsedCommand.classifyDialect E d_compiler).d_dependenciesCommand = [] ∧
      (ParsedCommand.classifyDialect E d_compiler).d_inputFiles = [] ∧
      (ParsedCommand.classifyDialect E d_compiler).d_preProcessorOptions = [] := by
  unfold ParsedCommand.classifyDialect
  cases E.RECC_PLATFORM_COMPILER <;> simp only [] <;> split_ifs <;>
    simp [ParsedCommand.empty]

/-- The same of the whole classification. -/
theorem classify_fields (E : Env) (d_compiler : Str) :
    (ParsedCommand.classify E d_compiler).d_compiler = d_compiler ∧
      (ParsedCommand.classify E d_compiler).d_compilerCommand = false ∧
      (ParsedCommand.classify E d_compiler).d_containsUnsupportedOptions = false ∧
      (ParsedCommand.classify E d_compiler).d_originalCommand = [] ∧
      (ParsedCommand.classify E d_compiler).d_command = [] ∧
      (ParsedCommand.classify E d_compiler).d_dependenciesCommand = [] ∧
      (ParsedCommand.classify E d_compiler).d_inputFiles = [] ∧
      (ParsedCommand.classify E d_compiler).d_preProcessorOptions = [] :=
  classifyDialect_fields E d_compiler

/-- The default deps command of a compiler of `SupportedCompilers::Gcc`. -/
theorem classify_defaultDeps_gcc (E : Env) (d_compiler : Str) (h : d_compiler ∈ E.Gcc) :
    (ParsedCommand.classify E d_compiler).d_defaultDepsCommand =
      E.GccDefaultDeps ++
        (if (d_compiler = "clang".toList ∨ d_compiler = "clang++".toList) ∧
            E.RECC_DEPS_GLOBAL_PATHS = true then ["-v".toList] else []) := by
  simp only [ParsedCommand.classify, ParsedCommand.classifyDialect, h, if_true]
  split_ifs <;> simp_all

/-- The state in which `createParsedCommand` enters `parseCommand`. -/
theorem construct_fields (E : Env) (compiler : Str) (rest : List Str) (wd : Str)
    (hne : compiler ≠ []) :
    (ParsedCommand.construct E (compiler :: rest) wd).d_compiler = commandBasename compiler ∧
      (ParsedCommand.construct E (compiler :: rest) wd).d_compilerCommand = false ∧
      (ParsedCommand.construct E (compiler :: rest) wd).d_containsUnsupportedOptions = false ∧
      (ParsedCommand.construct E (compiler :: rest) wd).d_originalCommand = rest ∧
      (ParsedCommand.construct E (compiler :: rest) wd).d_command
        = [E.modifyPathForRemote compiler wd false] ∧
      (ParsedCommand.construct E (compiler :: rest) wd).d_dependenciesCommand = [compiler] ∧
      (ParsedCommand.construct E (compiler :: rest) wd).d_inputFiles = [] ∧
      (ParsedCommand.construct E (compiler :: rest) wd).d_preProcessorOptions = [] ∧
      (ParsedCommand.construct E (compiler :: rest) wd).d_defaultDepsCommand
        = (ParsedCommand.classify E (commandBasename compiler)).d_defaultDepsCommand := by
  obtain ⟨h1, h2, h3, h4, h5, h6, h7, h8⟩ := classify_fields E (commandBasename compiler)
  simp [ParsedCommand.construct, hne, h1, h2, h3, h4, h5, h6, h7, h8]

/-! ## Positional inputs -/

/-- A token that does not begin with `-` matches no rule, whatever the table. -/
theorem matchCompilerOptions_positional (E : Env) (t : Str) (rules : CompilerParseRulesMap)
    (ht : t.head? ≠ some '-') : matchCompilerOptions E t rules = none := by
  unfold matchCompilerOptions
  split
  · simp at ht
  · rfl

/-- One iteration at a token that does not begin with `-`. -/
theorem parseCommandStep_positional (E : Env) (rules : CompilerParseRulesMap) (wd : Str)
    (c : ParsedCommand) (t : Str) (q : List Str) (hq : c.d_originalCommand = t :: q)
    (ht : t.head? ≠ some '-') :
    parseCommandStep E rules wd c = some
      { c with
        d_command := c.d_command ++ [E.modifyPathForRemote t wd true]
        d_dependenciesCommand := c.d_dependenciesCommand ++ [t]
        d_inputFiles := c.d_inputFiles ++ [t]
        d_originalCommand := q } := by
  have hdash : ¬ t = ['-'] := by
    intro h; rw [h] at ht; simp at ht
  simp [parseCommandStep, hq, matchCompilerOptions_positional E t rules ht, hdash, ht]

/-- The loop over a queue of tokens none of which begins with `-`. -/
theorem parseCommand_positional (E : Env) (rules : CompilerParseRulesMap) (wd : Str)
    (toks : List Str) (h : ∀ t ∈ toks, t.head? ≠ some '-') (c : ParsedCommand)
    (hq : c.d_originalCommand = toks) :
    parseCommand E rules wd c = some
      { c with
        d_command := c.d_command ++ toks.map (fun t => E.modifyPathForRemote t wd true)
        d_dependenciesCommand := c.d_dependenciesCommand ++ toks
        d_inputFiles := c.d_inputFiles ++ toks
        d_originalCommand := [] } := by
  induction toks generalizing c with
  | nil =>
    rw [parseCommand_nil E rules wd c hq]
    cases c
    simp at hq
    simp [hq]
  | cons t q ih =>
    rw [parseCommand_cons E rules wd c t q hq,
      parseCommandStep_positional E rules wd c t q hq (h t (by simp)), Option.some_bind,
      ih (fun x hx => h x (by simp [hx])) _ rfl]
    simp

/-- C4: for a gcc argv whose tokens after `argv[0]` do not begin with `-`, `input_files` is
`argv[1:]`, `dependencies_command` is argv followed by `-M`, `command` is the compiler path
rewritten without normalization followed by the rewritten tokens, and `is_compiler_command`
is false; and every token the parser reaches that does not begin with `-` adds its rewritten
form to `command` and its original form to `dependencies_command` and `input_files`. -/
theorem C4_positional_inputs (E : Env) (wd : Str) :
    (∀ (argv0 : Str) (rest : List Str),
        commandBasename argv0 = "gcc".toList → "gcc".toList ∈ E.Gcc →
        E.GccDefaultDeps = ["-M".toList] → (∀ t ∈ rest, t.head? ≠ some '-') →
        ∃ pc, createParsedCommand E (argv0 :: rest) wd = some pc ∧
          pc.d_inputFiles = rest ∧
          pc.d_dependenciesCommand = argv0 :: rest ++ ["-M".toList] ∧
          pc.d_command = E.modifyPathForRemote argv0 wd false ::
            rest.map (fun t => E.modifyPathForRemote t wd true) ∧
          pc.is_compiler_command = false) ∧
      (∀ (rules : CompilerParseRulesMap) (c : ParsedCommand) (t : Str) (q : List Str),
        c.d_originalCommand = t :: q → t.head? ≠ some '-' →
        ∃ c2, parseCommandStep E rules wd c = some c2 ∧
          c2.d_command = c.d_command ++ [E.modifyPathForRemote t wd true] ∧
          c2.d_dependenciesCommand = c.d_dependenciesCommand ++ [t] ∧
          c2.d_inputFiles = c.d_inputFiles ++ [t] ∧
          c2.d_originalCommand = q) := by
  constructor
  · intro argv0 rest hbase hgcc hdeps hrest
    have hne : argv0 ≠ [] := by
      intro h; rw [h] at hbase; revert hbase; decide
    obtain ⟨-, h2, h3, hq, h5, h6, h7, h8, h9⟩ := construct_fields E argv0 rest wd hne
    have hdd : (ParsedCommand.classify E (commandBasename argv0)).d_defaultDepsCommand
        = ["-M".toList] := by
      rw [classify_defaultDeps_gcc E (commandBasename argv0) (hbase ▸ hgcc), hbase, hdeps]
      simp
    simp only [createParsedCommand, List.cons_ne_nil, if_false, reduceIte]
    rw [parseCommand_positional E _ wd rest hrest _ hq]
    simp [finishParsedCommand, mergePreprocessorOptions, h2, h3, h5, h6, h7, h8, h9, hdd,
      ParsedCommand.is_compiler_command]
  · intro rules c t q hq ht
    exact ⟨_, parseCommandStep_positional E rules wd c t q hq ht, rfl, rfl, rfl, rfl⟩

set_option maxRecDepth 100000 in
/-- C4 at `gcc a.c /home/nobody/b.c` in `/home/nobody/`. -/
theorem C4_positional_inputs_witness :
    ∃ pc, createParsedCommand sampleEnv
        ["gcc".toList, "a.c".toList, "/home/nobody/b.c".toList] "/home/nobody/".toList = some pc ∧
      pc.d_inputFiles = ["a.c".toList, "/home/nobody/b.c".toList] ∧
      pc.d_dependenciesCommand
        = ["gcc".toList, "a.c".toList, "/home/nobody/b.c".toList, "-M".toList] ∧
      pc.d_command = ["gcc".toList, "a.c".toList, "b.c".toList] ∧
      pc.is_compiler_command = false := by
  obtain ⟨pc, h1, h2, h3, h4, h5⟩ :=
    (C4_positional_inputs sampleEnv "/home/nobody/".toList).1 "gcc".toList
      ["a.c".toList, "/home/nobody/b.c".toList] (by decide) (by decide) (by decide) (by decide)
  refine ⟨pc, h1, h2, h3, ?_, h5⟩
  rw [h4]
  decide

/-! ## Matching a token against a rule table -/

/-- The stripped form of a token that begins with a plain flag begins with that flag. -/
theorem strippedOption_take (k p : Str) (hk : PlainFlag k) :
    (strippedOption (k ++ p)).take k.length = k := by
  induction k with
  | nil => simp
  | cons c k ih =>
    have hc := hk c (by simp)
    have ih2 := ih (fun x hx => hk x (by simp [hx]))
    have h1 : (c != '=') = true := by simpa using hc.1
    have h2 : (!isspace c) = true := by simp [hc.2]
    simp only [strippedOption] at ih2 ⊢
    simp only [List.cons_append, List.takeWhile_cons, h1, List.filter_cons, h2, if_true,
      List.length_cons, List.take_succ_cons, ih2]

/-- The stripped form of `flag=value` is the flag. -/
theorem strippedOption_equals (k p : Str) (hk : PlainFlag k) :
    strippedOption (k ++ '=' :: p) = k := by
  induction k with
  | nil => simp [strippedOption]
  | cons c k ih =>
    have hc := hk c (by simp)
    have ih2 := ih (fun x hx => hk x (by simp [hx]))
    have h1 : (c != '=') = true := by simpa using hc.1
    have h2 : (!isspace c) = true := by simp [hc.2]
    simp only [strippedOption] at ih2 ⊢
    simp only [List.cons_append, List.takeWhile_cons, h1, List.filter_cons, h2, if_true,
      List.length_cons, List.take_succ_cons, ih2]

/-- A key that is a leading part of a token agrees with every shorter leading part of it. -/
theorem take_of_key (t key : Str) (n : Nat) (h : t.take key.length = key) (hn : n ≤ key.length) :
    key.take n = t.take n := by
  calc key.take n = (t.take key.length).take n := by rw [h]
    _ = t.take n := by rw [List.take_take, Nat.min_eq_left hn]

/-- An exact hit: the stripped token is a key of the table. -/
theorem matchCompilerOptions_exact (E : Env) (T : CompilerParseRulesMap) (t k : Str)
    (r : ParseRule) (hdash : t.head? = some '-') (hstrip : strippedOption t = k)
    (hk : (k, r) ∈ T) (huniq : ∀ b ∈ T, b.1 = k → b = (k, r)) :
    matchCompilerOptions E t T = some (k, r) := by
  cases t with
  | nil => simp at hdash
  | cons ch t2 =>
    have hch : ch = '-' := by simpa using hdash
    subst hch
    have hfind : T.find? (fun b => decide (b.1 = k)) = some (k, r) :=
      find?_eq_some_of_unique _ T (k, r) hk (by simp)
        (fun b hb hp => huniq b hb (by simpa using hp))
    simp only [matchCompilerOptions, hstrip, hfind]

/-- A token that begins with a plain flag `k` of the table, where no other key of the table
begins with `k` and none is shorter: the rule of `k`, by the exact hit or by the scan, in
whatever order the scan visits the table. -/
theorem matchCompilerOptions_glued (E : Env) (hE : E.IteratesEntries)
    (T : CompilerParseRulesMap) (k p : Str) (r : ParseRule) (hdash : k.head? = some '-')
    (hplain : PlainFlag k) (hk : (k, r) ∈ T)
    (huniq : ∀ b ∈ T, k.length ≤ b.1.length ∧ (b.1.take k.length = k → b = (k, r))) :
    matchCompilerOptions E (k ++ p) T = some (k, r) := by
  cases k with
  | nil => simp at hdash
  | cons ch k2 =>
    have hch : ch = '-' := by simpa using hdash
    subst hch
    simp only [matchCompilerOptions, List.cons_append]
    cases hfind : T.find? (fun b => decide (b.1 = strippedOption ('-' :: (k2 ++ p)))) with
    | some kv =>
      have hmem : kv ∈ T := List.mem_of_find?_eq_some hfind
      have hkey : kv.1 = strippedOption ('-' :: (k2 ++ p)) := by
        simpa using List.find?_some hfind
      have htake := strippedOption_take ('-' :: k2) p hplain
      rw [List.cons_append, ← hkey] at htake
      have := (huniq kv hmem).2 htake
      simp only
      rw [← hkey, this]
    | none =>
      simp only
      refine find?_eq_some_of_unique _ _ ('-' :: k2, r) ((hE T).mem_iff.2 hk) (by simp) ?_
      intro b hb hp
      have hbT : b ∈ T := (hE T).mem_iff.1 hb
      have hp2 : ('-' :: (k2 ++ p)).take b.1.length = b.1 := by simpa using hp
      have h1 := take_of_key _ _ ('-' :: k2).length hp2 (huniq b hbT).1
      refine (huniq b hbT).2 ?_
      rw [h1, ← List.cons_append]
      simp

/-- A token that begins with `-`, whose stripped form is no key and of which no key is a
leading part, matches no rule. -/
theorem matchCompilerOptions_none (E : Env) (hE : E.IteratesEntries)
    (T : CompilerParseRulesMap) (t : Str)
    (hexact : ∀ b ∈ T, b.1 ≠ strippedOption t)
    (hscan : ∀ b ∈ T, t.take b.1.length ≠ b.1) :
    matchCompilerOptions E t T = none := by
  by_cases hdash : t.head? = some '-'
  · cases t with
    | nil => simp at hdash
    | cons ch t2 =>
      have hch : ch = '-' := by simpa using hdash
      subst hch
      have h1 : T.find? (fun b => decide (b.1 = strippedOption ('-' :: t2))) = none := by
        rw [List.find?_eq_none]
        intro b hb; simpa using hexact b hb
      have h2 : (E.iterationOrder T).find?
          (fun b => decide (('-' :: t2).take b.1.length = b.1)) = none := by
        rw [List.find?_eq_none]
        intro b hb; simpa using hscan b ((hE T).mem_iff.1 hb)
      simp only [matchCompilerOptions, h1]
      exact h2
  · exact matchCompilerOptions_positional E t T hdash

/-! ## parseGccOption on the three forms of an option with a path -/

/-- The split form: the flag, then the path in a token of its own. -/
theorem parseGccOption_split (E : Env) (wd k : Str) (toDeps isOutput depsOutput : Bool)
    (c : ParsedCommand) (p : Str) (q : List Str) (hq : c.d_originalCommand = k :: p :: q) :
    ∃ c2, parseGccOption E wd k toDeps isOutput depsOutput c = some c2 ∧
      c2.d_command = c.d_command ++ [k, E.modifyPathForRemote p wd true] ∧
      c2.d_dependenciesCommand
        = (if toDeps then c.d_dependenciesCommand ++ [k, p] else c.d_dependenciesCommand) ∧
      c2.d_commandProducts
        = (if isOutput && !depsOutput then
            insert (E.modifyPathForRemote p wd true) c.d_commandProducts
          else c.d_commandProducts) ∧
      c2.d_commandDepsProducts
        = (if isOutput && depsOutput then
            insert (E.modifyPathForRemote p wd true) c.d_commandDepsProducts
          else c.d_commandDepsProducts) ∧
      c2.d_inputFiles = c.d_inputFiles ∧
      c2.d_originalCommand = q := by
  simp only [parseGccOption, hq, if_true, appendAndRemoveOption, Bool.false_eq_true, if_false,
    Option.some_bind]
  refine ⟨_, rfl, ?_⟩
  cases toDeps <;> cases isOutput <;> cases depsOutput <;> simp

/-- The glued form: the path follows the flag in the same token, without `=`. -/
theorem parseGccOption_glued (E : Env) (wd k : Str) (toDeps isOutput depsOutput : Bool)
    (c : ParsedCommand) (p : Str) (q : List Str) (hq : c.d_originalCommand = (k ++ p) :: q)
    (hp : p ≠ []) (heq : '=' ∉ k ++ p) :
    ∃ c2, parseGccOption E wd k toDeps isOutput depsOutput c = some c2 ∧
      c2.d_command = c.d_command ++ [k ++ E.modifyPathForRemote p wd true] ∧
      c2.d_dependenciesCommand
        = (if !isOutput && toDeps then c.d_dependenciesCommand ++ [k ++ p]
          else c.d_dependenciesCommand) ∧
      c2.d_commandProducts
        = (if isOutput && !depsOutput then
            insert (E.modifyPathForRemote p wd true) c.d_commandProducts
          else c.d_commandProducts) ∧
      c2.d_commandDepsProducts
        = (if isOutput && depsOutput then
            insert (E.modifyPathForRemote p wd true) c.d_commandDepsProducts
          else c.d_commandDepsProducts) ∧
      c2.d_inputFiles = c.d_inputFiles ∧
      c2.d_originalCommand = q := by
  have hne : k ++ p ≠ k := by
    intro h
    have := congrArg List.length h
    simp at this
    exact hp this
  have hidx : ¬ List.indexOf '=' (k ++ p) < (k ++ p).length := by
    rw [List.indexOf_lt_length]; exact heq
  simp only [parseGccOption, hq, hne, if_false, hidx]
  refine ⟨_, rfl, ?_⟩
  cases toDeps <;> cases isOutput <;> cases depsOutput <;> simp

/-- The equals form: flag, `=`, path in one token. -/
theorem parseGccOption_equals (E : Env) (wd k : Str) (toDeps isOutput depsOutput : Bool)
    (c : ParsedCommand) (p : Str) (q : List Str)
    (hq : c.d_originalCommand = (k ++ '=' :: p) :: q) (hk : '=' ∉ k) :
    ∃ c2, parseGccOption E wd k toDeps isOutput depsOutput c = some c2 ∧
      c2.d_command = c.d_command ++ [k ++ '=' :: E.modifyPathForRemote p wd true] ∧
      c2.d_dependenciesCommand
        = (if !isOutput && toDeps then c.d_dependenciesCommand ++ [k ++ '=' :: p]
          else c.d_dependenciesCommand) ∧
      c2.d_commandProducts
        = (if isOutput && !depsOutput then
            insert (E.modifyPathForRemote p wd true) c.d_commandProducts
          else c.d_commandProducts) ∧
      c2.d_commandDepsProducts
        = (if isOutput && depsOutput then
            insert (E.modifyPathForRemote p wd true) c.d_commandDepsProducts
          else c.d_commandDepsProducts) ∧
      c2.d_inputFiles = c.d_inputFiles ∧
      c2.d_originalCommand = q := by
  have hne : k ++ '=' :: p ≠ k := by
    intro h
    have := congrArg List.length h
    simp at this
  have hidx : List.indexOf '=' (k ++ '=' :: p) = k.length := by
    rw [List.indexOf_append_of_not_mem hk]; simp
  have hlt : k.length < (k ++ '=' :: p).length := by simp
  have hdrop : (k ++ '=' :: p).drop (k.length + 1) = p := by
    rw [← List.drop_drop]
    simp
  simp only [parseGccOption, hq, hne, if_false, hidx, hlt, if_true, hdrop]
  refine ⟨_, rfl, ?_⟩
  cases toDeps <;> cases isOutput <;> cases depsOutput <;> simp

/-! ## Options that carry a path -/

/-- What the table `GccRules` holds for `-I`: the input-path rule, and no other key begins
with `-I`. -/
theorem GccRules_dash_I :
    ("-I".toList, ParseRule.parseIsInputPathOption) ∈ GccRules ∧
      ∀ b ∈ GccRules, "-I".toList.length ≤ b.1.length ∧
        (b.1.take "-I".toList.length = "-I".toList →
          b = ("-I".toList, ParseRule.parseIsInputPathOption)) := by
  decide

/-- What the table `GccRules` holds for `-o`. -/
theorem GccRules_dash_o :
    ("-o".toList, ParseRule.parseOptionRedirectsOutput) ∈ GccRules ∧
      ∀ b ∈ GccRules, "-o".toList.length ≤ b.1.length ∧
        (b.1.take "-o".toList.length = "-o".toList →
          b = ("-o".toList, ParseRule.parseOptionRedirectsOutput)) := by
  decide

/-- What the table `GccRules` holds for `--sysroot`. -/
theorem GccRules_sysroot :
    ("--sysroot".toList, ParseRule.parseIsEqualInputPathOption) ∈ GccRules ∧
      ∀ b ∈ GccRules, b.1 = "--sysroot".toList →
        b = ("--sysroot".toList, ParseRule.parseIsEqualInputPathOption) := by
  decide

/-- What the table `GccRules` holds for `-MF`. -/
theorem GccRules_dash_MF :
    ("-MF".toList, ParseRule.parseOptionRedirectsDepsOutput) ∈ GccRules ∧
      ∀ b ∈ GccRules, b.1 = "-MF".toList →
        b = ("-MF".toList, ParseRule.parseOptionRedirectsDepsOutput) := by
  decide

/-- One iteration at a token that the table maps to a rule. -/
theorem parseCommandStep_matched (E : Env) (rules : CompilerParseRulesMap) (wd : Str)
    (c : ParsedCommand) (t : Str) (q : List Str) (k : Str) (r : ParseRule)
    (hq : c.d_originalCommand = t :: q) (hm : matchCompilerOptions E t rules = some (k, r)) :
    parseCommandStep E rules wd c = r.apply E wd k c := by
  simp only [parseCommandStep, hq, hm]

/-- C5, amended: in the gcc dialect, the split form `-I p` appends `-I` and the rewritten `p`
to `command` and `-I` and `p` to `dependencies_command`; the glued token `-Ip`, for a
non-empty `p` without `=`, appends `-I` with the rewritten `p` to `command` and the original
token to `dependencies_command`; the token `--sysroot=p` appends `--sysroot=` with the
rewritten `p` to `command` and the original token to `dependencies_command`. -/
theorem C5_input_path_options (E : Env) (wd : Str) (c : ParsedCommand) (p : Str)
    (q : List Str) :
    (c.d_originalCommand = "-I".toList :: p :: q →
        ∃ c2, parseCommandStep E GccRules wd c = some c2 ∧
          c2.d_command = c.d_command ++ ["-I".toList, E.modifyPathForRemote p wd true] ∧
          c2.d_dependenciesCommand = c.d_dependenciesCommand ++ ["-I".toList, p] ∧
          c2.d_originalCommand = q) ∧
      (E.IteratesEntries → p ≠ [] → '=' ∉ p →
        c.d_originalCommand = ("-I".toList ++ p) :: q →
        ∃ c2, parseCommandStep E GccRules wd c = some c2 ∧
          c2.d_command = c.d_command ++ ["-I".toList ++ E.modifyPathForRemote p wd true] ∧
          c2.d_dependenciesCommand = c.d_dependenciesCommand ++ ["-I".toList ++ p] ∧
          c2.d_originalCommand = q) ∧
      (c.d_originalCommand = ("--sysroot=".toList ++ p) :: q →
        ∃ c2, parseCommandStep E GccRules wd c = some c2 ∧
          c2.d_command = c.d_command ++ ["--sysroot=".toList ++ E.modifyPathForRemote p wd true] ∧
          c2.d_dependenciesCommand = c.d_dependenciesCommand ++ ["--sysroot=".toList ++ p] ∧
          c2.d_originalCommand = q) := by
  refine ⟨fun hq => ?_, fun hE hp heq hq => ?_, fun hq => ?_⟩
  · have hm : matchCompilerOptions E "-I".toList GccRules
        = some ("-I".toList, .parseIsInputPathOption) :=
      matchCompilerOptions_exact E GccRules _ _ _ (by decide) (by decide) GccRules_dash_I.1
        (fun b hb h => (GccRules_dash_I.2 b hb).2 (by rw [h]; decide))
    obtain ⟨c2, h1, h2, h3, -, -, -, h7⟩ :=
      parseGccOption_split E wd "-I".toList true false false c p q hq
    exact ⟨c2, by rw [parseCommandStep_matched E GccRules wd c _ _ _ _ hq hm]; exact h1, h2,
      by simpa using h3, h7⟩
  · have hm : matchCompilerOptions E ("-I".toList ++ p) GccRules
        = some ("-I".toList, .parseIsInputPathOption) :=
      matchCompilerOptions_glued E hE GccRules _ p _ (by decide) (by decide) GccRules_dash_I.1
        GccRules_dash_I.2
    obtain ⟨c2, h1, h2, h3, -, -, -, h7⟩ :=
      parseGccOption_glued E wd "-I".toList true false false c p q hq hp (by simpa using heq)
    exact ⟨c2, by rw [parseCommandStep_matched E GccRules wd c _ _ _ _ hq hm]; exact h1, h2,
      by simpa using h3, h7⟩
  · have hm : matchCompilerOptions E ("--sysroot".toList ++ '=' :: p) GccRules
        = some ("--sysroot".toList, .parseIsEqualInputPathOption) :=
      matchCompilerOptions_exact E GccRules _ _ _ rfl
        (strippedOption_equals _ p (by decide)) GccRules_sysroot.1 GccRules_sysroot.2
    have hq2 : c.d_originalCommand = ("--sysroot".toList ++ '=' :: p) :: q := by
      rw [hq]; rfl
    obtain ⟨c2, h1, h2, h3, -, -, -, h7⟩ :=
      parseGccOption_equals E wd "--sysroot".toList true false false c p q hq2 (by decide)
    refine ⟨c2, by rw [parseCommandStep_matched E GccRules wd c _ _ _ _ hq2 hm]; exact h1, ?_,
      ?_, h7⟩
    · rw [h2]; rfl
    · simp only [Bool.not_false, Bool.and_self, if_true] at h3
      rw [h3]; rfl

set_option maxRecDepth 100000 in
/-- C5, amended, at the tokens of the test `testEqualInputPaths`, project root and working
directory `/home/nobody/`. -/
theorem C5_input_path_options_witness :
    (∃ c2, parseCommandStep sampleEnv GccRules "/home/nobody/".toList
        (queueOnly ["-I/home/nobody/test/include/user.h".toList]) = some c2 ∧
      c2.d_command = ["-Itest/include/user.h".toList] ∧
      c2.d_dependenciesCommand = ["-I/home/nobody/test/include/user.h".toList]) ∧
    (∃ c2, parseCommandStep sampleEnv GccRules "/home/nobody/".toList
        (queueOnly ["--sysroot=/home/nobody/test".toList]) = some c2 ∧
      c2.d_command = ["--sysroot=test".toList] ∧
      c2.d_dependenciesCommand = ["--sysroot=/home/nobody/test".toList]) := by
  constructor
  · obtain ⟨c2, h1, h2, h3, -⟩ :=
      (C5_input_path_options sampleEnv "/home/nobody/".toList
        (queueOnly ["-I/home/nobody/test/include/user.h".toList])
        "/home/nobody/test/include/user.h".toList []).2.1
        (fun _ => List.Perm.refl _) (by decide) (by decide) rfl
    exact ⟨c2, h1, by rw [h2]; decide, by rw [h3]; rfl⟩
  · obtain ⟨c2, h1, h2, h3, -⟩ :=
      (C5_input_path_options sampleEnv "/home/nobody/".toList
        (queueOnly ["--sysroot=/home/nobody/test".toList])
        "/home/nobody/test".toList []).2.2 rfl
    exact ⟨c2, h1, by rw [h2]; decide, by rw [h3]; rfl⟩

set_option maxRecDepth 100000 in
/-- C5 as stated fails at the glued token `-Ia=b`: the claim gives `-I` with the rewritten
`a=b` in `command` and the token `-Ia=b` in `dependencies_command`; the code cuts the token
at its `=` and gives `-I=b` in both. -/
theorem C5_glued_equals_counterexample :
    (createParsedCommand sampleEnv ["gcc".toList, "-Ia=b".toList] []).map
        (fun pc => (pc.d_command, pc.d_dependenciesCommand))
      = some (["gcc".toList, "-I=b".toList], ["gcc".toList, "-I=b".toList, "-M".toList]) ∧
    "-I".toList ++ sampleEnv.modifyPathForRemote "a=b".toList [] true = "-Ia=b".toList ∧
    "-I=b".toList ≠ "-Ia=b".toList := by
  decide

/-- C6: in the gcc dialect, `-o p` and the glued `-op` (p non-empty, without `=`) add the
rewritten `p` to `products` and nothing to `deps_products`, and emit the option with the
rewritten path into `command`; `-MF p` adds the rewritten `p` to `deps_products` and nothing
to `products` and emits `-MF` and the rewritten path into `command`; in the three cases
nothing is appended to `dependencies_command` and nothing is added to `input_files`. -/
theorem C6_output_options (E : Env) (wd : Str) (c : ParsedCommand) (p : Str) (q : List Str) :
    (c.d_originalCommand = "-o".toList :: p :: q →
        ∃ c2, parseCommandStep E GccRules wd c = some c2 ∧
          c2.d_command = c.d_command ++ ["-o".toList, E.modifyPathForRemote p wd true] ∧
          c2.d_commandProducts = insert (E.modifyPathForRemote p wd true) c.d_commandProducts ∧
          c2.d_commandDepsProducts = c.d_commandDepsProducts ∧
          c2.d_dependenciesCommand = c.d_dependenciesCommand ∧
          c2.d_inputFiles = c.d_inputFiles ∧
          c2.d_originalCommand = q) ∧
      (E.IteratesEntries → p ≠ [] → '=' ∉ p →
        c.d_originalCommand = ("-o".toList ++ p) :: q →
        ∃ c2, parseCommandStep E GccRules wd c = some c2 ∧
          c2.d_command = c.d_command ++ ["-o".toList ++ E.modifyPathForRemote p wd true] ∧
          c2.d_commandProducts = insert (E.modifyPathForRemote p wd true) c.d_commandProducts ∧
          c2.d_commandDepsProducts = c.d_commandDepsProducts ∧
          c2.d_dependenciesCommand = c.d_dependenciesCommand ∧
          c2.d_inputFiles = c.d_inputFiles ∧
          c2.d_originalCommand = q) ∧
      (c.d_originalCommand = "-MF".toList :: p :: q →
        ∃ c2, parseCommandStep E GccRules wd c = some c2 ∧
          c2.d_command = c.d_command ++ ["-MF".toList, E.modifyPathForRemote p wd true] ∧
          c2.d_commandDepsProducts
            = insert (E.modifyPathForRemote p wd true) c.d_commandDepsProducts ∧
          c2.d_commandProducts = c.d_commandProducts ∧
          c2.d_dependenciesCommand = c.d_dependenciesCommand ∧
          c2.d_inputFiles = c.d_inputFiles ∧
          c2.d_originalCommand = q) := by
  refine ⟨fun hq => ?_, fun hE hp heq hq => ?_, fun hq => ?_⟩
  · have hm : matchCompilerOptions E "-o".toList GccRules
        = some ("-o".toList, .parseOptionRedirectsOutput) :=
      matchCompilerOptions_exact E GccRules _ _ _ (by decide) (by decide) GccRules_dash_o.1
        (fun b hb h => (GccRules_dash_o.2 b hb).2 (by rw [h]; decide))
    obtain ⟨c2, h1, h2, h3, h4, h5, h6, h7⟩ :=
      parseGccOption_split E wd "-o".toList false true false c p q hq
    exact ⟨c2, by rw [parseCommandStep_matched E GccRules wd c _ _ _ _ hq hm]; exact h1, h2,
      by simpa using h4, by simpa using h5, by simpa using h3, h6, h7⟩
  · have hm : matchCompilerOptions E ("-o".toList ++ p) GccRules
        = some ("-o".toList, .parseOptionRedirectsOutput) :=
      matchCompilerOptions_glued E hE GccRules _ p _ (by decide) (by decide) GccRules_dash_o.1
        GccRules_dash_o.2
    obtain ⟨c2, h1, h2, h3, h4, h5, h6, h7⟩ :=
      parseGccOption_glued E wd "-o".toList false true false c p q hq hp (by simpa using heq)
    exact ⟨c2, by rw [parseCommandStep_matched E GccRules wd c _ _ _ _ hq hm]; exact h1, h2,
      by simpa using h4, by simpa using h5, by simpa using h3, h6, h7⟩
  · have hm : matchCompilerOptions E "-MF".toList GccRules
        = some ("-MF".toList, .parseOptionRedirectsDepsOutput) :=
      matchCompilerOptions_exact E GccRules _ _ _ (by decide) (by decide) GccRules_dash_MF.1
        GccRules_dash_MF.2
    obtain ⟨c2, h1, h2, h3, h4, h5, h6, h7⟩ :=
      parseGccOption_split E wd "-MF".toList false true true c p q hq
    exact ⟨c2, by rw [parseCommandStep_matched E GccRules wd c _ _ _ _ hq hm]; exact h1, h2,
      by simpa using h5, by simpa using h4, by simpa using h3, h6, h7⟩

set_option maxRecDepth 100000 in
/-- C6 at the glued token `-o/home/nobody/test/hello.o` in `/home/nobody/test`. -/
theorem C6_output_options_witness :
    ∃ c2, parseCommandStep sampleEnv GccRules "/home/nobody/test".toList
        (queueOnly ["-o/home/nobody/test/hello.o".toList]) = some c2 ∧
      c2.d_command = ["-ohello.o".toList] ∧
      c2.d_commandProducts = {"hello.o".toList} ∧
      c2.d_commandDepsProducts = ∅ ∧
      c2.d_dependenciesCommand = [] ∧
      c2.d_inputFiles = [] := by
  obtain ⟨c2, h1, h2, h3, h4, h5, h6, -⟩ :=
    (C6_output_options sampleEnv "/home/nobody/test".toList
      (queueOnly ["-o/home/nobody/test/hello.o".toList])
      "/home/nobody/test/hello.o".toList []).2.1
      (fun _ => List.Perm.refl _) (by decide) (by decide) rfl
  exact ⟨c2, h1, by rw [h2]; decide, by rw [h3]; decide, by rw [h4]; rfl, by rw [h5]; rfl,
    by rw [h6]; rfl⟩

/-! ## The dependencies command and the compiler flag -/

set_option maxRecDepth 100000 in
/-- C7: the member `d_dependenciesCommand`, which `get_dependencies_command` is documented to
return, is composed as the claim says. For `gcc -c hello.c` it is `gcc -c hello.c -M`; for
`g++ -c hello.cpp -Xpreprocessor -DX -Wp,-DY` the default tail `-M` comes once, after the
re-emitted `-Xpreprocessor` pairs; for `clang -c hello.c` the tail is `-M`, and `-M -v` when
`RECC_DEPS_GLOBAL_PATHS` is set, while for `gcc` it stays `-M`. None of these commands holds
an unsupported option. -/
theorem C7_dependencies_command_composed :
    (createParsedCommand sampleEnv ["gcc".toList, "-c".toList, "hello.c".toList] []).map
        (fun pc => (pc.d_containsUnsupportedOptions, pc.d_dependenciesCommand))
      = some (false, ["gcc".toList, "-c".toList, "hello.c".toList, "-M".toList]) ∧
    (createParsedCommand sampleEnv ["g++".toList, "-c".toList, "hello.cpp".toList,
          "-Xpreprocessor".toList, "-DX".toList, "-Wp,-DY".toList] []).map
        (fun pc => (pc.d_containsUnsupportedOptions, pc.d_dependenciesCommand))
      = some (false, ["g++".toList, "-c".toList, "hello.cpp".toList,
          "-Xpreprocessor".toList, "-DX".toList, "-Xpreprocessor".toList, "-DY".toList,
          "-M".toList]) ∧
    (createParsedCommand sampleEnv ["clang".toList, "-c".toList, "hello.c".toList] []).map
        (fun pc => (pc.d_containsUnsupportedOptions, pc.d_dependenciesCommand))
      = some (false, ["clang".toList, "-c".toList, "hello.c".toList, "-M".toList]) ∧
    (createParsedCommand { sampleEnv with RECC_DEPS_GLOBAL_PATHS := true }
          ["clang++".toList, "-c".toList, "hello.cpp".toList] []).map
        (fun pc => (pc.d_containsUnsupportedOptions, pc.d_dependenciesCommand))
      = some (false, ["clang++".toList, "-c".toList, "hello.cpp".toList, "-M".toList,
          "-v".toList]) ∧
    (createParsedCommand { sampleEnv with RECC_DEPS_GLOBAL_PATHS := true }
          ["gcc".toList, "-c".toList, "hello.c".toList] []).map
        (fun pc => (pc.d_containsUnsupportedOptions, pc.d_dependenciesCommand))
      = some (false, ["gcc".toList, "-c".toList, "hello.c".toList, "-M".toList]) := by
  decide

/-- For a compiler of the gcc dialect the rules are `GccRules`. -/
theorem rulesToUse_gcc (E : Env) (d_compiler : Str) (h : GccDialect E d_compiler) :
    rulesToUse E d_compiler = GccRules := by
  obtain ⟨h1, -, -, -, h5⟩ := h
  unfold rulesToUse
  cases E.RECC_PLATFORM_COMPILER <;> simp [getParsedCommandMap, List.find?, h1, h5]

/-- The only key of `GccRules` with the compile rule is `-c`. -/
theorem GccRules_compile :
    ∀ b ∈ GccRules, b.2 = ParseRule.parseIsCompileOption → b.1 = "-c".toList := by
  decide

/-- A token that `GccRules` maps to the compile rule begins with `-c` or is `-c` once
stripped. -/
theorem matchCompilerOptions_compile (E : Env) (hE : E.IteratesEntries) (t flag : Str)
    (h : matchCompilerOptions E t GccRules = some (flag, .parseIsCompileOption)) :
    MatchesCompileOption t := by
  cases t with
  | nil => simp [matchCompilerOptions] at h
  | cons ch t2 =>
    by_cases hch : ch = '-'
    · subst hch
      simp only [matchCompilerOptions] at h
      cases hfind : GccRules.find? (fun b => decide (b.1 = strippedOption ('-' :: t2))) with
      | some kv =>
        rw [hfind] at h
        simp only [Option.some.injEq, Prod.mk.injEq] at h
        have hmem : kv ∈ GccRules := List.mem_of_find?_eq_some hfind
        have hkey : kv.1 = strippedOption ('-' :: t2) := by simpa using List.find?_some hfind
        right
        exact ⟨rfl, by rw [← hkey]; exact GccRules_compile kv hmem h.2⟩
      | none =>
        rw [hfind] at h
        simp only at h
        have hmem : (flag, ParseRule.parseIsCompileOption) ∈ GccRules :=
          (hE GccRules).mem_iff.1 (List.mem_of_find?_eq_some h)
        have hflag : flag = "-c".toList := GccRules_compile _ hmem rfl
        have hp : ('-' :: t2).take flag.length = flag := by simpa using List.find?_some h
        left
        rw [hflag] at hp
        exact hp
    · rw [matchCompilerOptions_positional E (ch :: t2) GccRules (by simpa using hch)] at h
      cases h

/-- The preprocessor block leaves the flags and the default deps command alone. -/
theorem mergePreprocessorOptions_fields (E : Env) (wd : Str) (pc pc2 : ParsedCommand)
    (h : mergePreprocessorOptions E wd pc = some pc2) :
    pc2.d_compilerCommand = pc.d_compilerCommand ∧
      pc2.d_containsUnsupportedOptions = pc.d_containsUnsupportedOptions ∧
      pc2.d_defaultDepsCommand = pc.d_defaultDepsCommand := by
  unfold mergePreprocessorOptions at h
  split_ifs at h
  · obtain ⟨pre, -, hpre⟩ := Option.map_eq_some'.1 h
    subst hpre
    exact ⟨rfl, rfl, rfl⟩
  · cases h
    exact ⟨rfl, rfl, rfl⟩

/-- The composed `d_dependenciesCommand` of a command without unsupported options ends with
the default deps command that the constructor chose. -/
theorem createParsedCommand_default_tail (E : Env) (argv : List Str) (wd : Str)
    (pc : ParsedCommand) (h : createParsedCommand E argv wd = some pc)
    (hu : pc.d_containsUnsupportedOptions = false) :
    ∃ body, pc.d_dependenciesCommand
      = body ++ (ParsedCommand.construct E argv wd).d_defaultDepsCommand := by
  cases argv with
  | nil =>
    simp only [createParsedCommand, if_true, Option.some.injEq] at h
    subst h
    exact ⟨[], rfl⟩
  | cons a0 rest =>
    simp only [createParsedCommand, List.cons_ne_nil, if_false] at h
    obtain ⟨pc1, hparse, hfin⟩ := Option.bind_eq_some.1 h
    obtain ⟨-, -, hd, -⟩ := parseCommand_keeps E _ wd _ pc1 hparse
    by_cases hu1 : pc1.d_containsUnsupportedOptions = true
    · rw [finishParsedCommand, if_pos hu1] at hfin
      cases hfin
      rw [hu1] at hu
      cases hu
    · rw [finishParsedCommand, if_neg hu1] at hfin
      obtain ⟨pc2, hpc2, hfin2⟩ := Option.map_eq_some'.1 hfin
      obtain ⟨-, -, hd2⟩ := mergePreprocessorOptions_fields E wd pc1 pc2 hpc2
      subst hfin2
      exact ⟨pc2.d_dependenciesCommand, by simp only [hd2, hd]⟩

/-- C8, amended: if `is_compiler_command` is true then `contains_unsupported_options` is
false and, in the gcc dialect, some token of `argv[1:]` is matched by the compile rule: it
begins with `-c`, or it begins with `-` and is `-c` once cut at its first `=` and stripped
of whitespace. `contains_unsupported_options = true` implies `is_compiler_command = false`,
and the empty argv gives an empty command, an empty dependencies command and
`is_compiler_command = false`. -/
theorem C8_compiler_command_sound (E : Env) (hE : E.IteratesEntries) (wd : Str) :
    (∀ (argv : List Str) (pc : ParsedCommand), createParsedCommand E argv wd = some pc →
        (pc.is_compiler_command = true →
          pc.d_containsUnsupportedOptions = false ∧
          (GccDialect E (ParsedCommand.construct E argv wd).d_compiler →
            ∃ t ∈ argv.tail, MatchesCompileOption t)) ∧
        (pc.d_containsUnsupportedOptions = true → pc.is_compiler_command = false)) ∧
      ∃ pc, createParsedCommand E [] wd = some pc ∧ pc.d_command = [] ∧
        pc.d_dependenciesCommand = [] ∧ pc.is_compiler_command = false := by
  refine ⟨fun argv pc h => ?_, ⟨ParsedCommand.empty, by simp [createParsedCommand], rfl, rfl, rfl⟩⟩
  cases argv with
  | nil =>
    simp only [createParsedCommand, if_true, Option.some.injEq] at h
    subst h
    simp [ParsedCommand.is_compiler_command, ParsedCommand.empty]
  | cons a0 rest =>
    simp only [createParsedCommand, List.cons_ne_nil, if_false] at h
    obtain ⟨pc1, hparse, hrest⟩ := Option.bind_eq_some.1 h
    obtain ⟨-, -, -, hcc⟩ := parseCommand_keeps E _ wd _ pc1 hparse
    have hinit : (ParsedCommand.construct E (a0 :: rest) wd).d_compilerCommand = false ∧
        ∀ t ∈ (ParsedCommand.construct E (a0 :: rest) wd).d_originalCommand, t ∈ rest := by
      by_cases hne : a0 = []
      · simp [ParsedCommand.construct, hne, ParsedCommand.empty]
      · obtain ⟨-, h2, -, h4, -⟩ := construct_fields E a0 rest wd hne
        exact ⟨h2, fun t ht => h4 ▸ ht⟩
    by_cases hu : pc1.d_containsUnsupportedOptions = true
    · rw [finishParsedCommand, if_pos hu] at hrest
      cases hrest
      simp [ParsedCommand.is_compiler_command]
    · have hpc : pc.d_compilerCommand = pc1.d_compilerCommand ∧
          pc.d_containsUnsupportedOptions = pc1.d_containsUnsupportedOptions := by
        rw [finishParsedCommand, if_neg hu] at hrest
        obtain ⟨pc2, hpc2, hrest2⟩ := Option.map_eq_some'.1 hrest
        obtain ⟨e1, e2, -⟩ := mergePreprocessorOptions_fields E wd pc1 pc2 hpc2
        subst hrest2
        exact ⟨e1, e2⟩
      have hu2 : pc1.d_containsUnsupportedOptions = false := by simpa using hu
      refine ⟨fun hc => ⟨by rw [hpc.2, hu2], fun hd => ?_⟩, fun hc => ?_⟩
      · rw [ParsedCommand.is_compiler_command, hpc.1] at hc
        rw [rulesToUse_gcc E _ hd] at hcc
        rcases hcc hc with h1 | ⟨t, ht, flag, hm⟩
        · rw [hinit.1] at h1; cases h1
        · exact ⟨t, hinit.2 t ht, matchCompilerOptions_compile E hE t flag hm⟩
      · rw [hpc.2, hu2] at hc; cases hc

/-- C8, amended, at `gcc -c hello.c`. -/
theorem C8_compiler_command_sound_witness :
    ∃ pc, createParsedCommand sampleEnv ["gcc".toList, "-c".toList, "hello.c".toList] []
        = some pc ∧
      pc.is_compiler_command = true ∧ pc.d_containsUnsupportedOptions = false ∧
      ∃ t ∈ ["-c".toList, "hello.c".toList], MatchesCompileOption t := by
  have hsome : (createParsedCommand sampleEnv
      ["gcc".toList, "-c".toList, "hello.c".toList] []).isSome = true := by decide
  obtain ⟨pc, hpc⟩ := Option.isSome_iff_exists.1 hsome
  have hcc : pc.is_compiler_command = true := by
    have : (createParsedCommand sampleEnv
        ["gcc".toList, "-c".toList, "hello.c".toList] []).map
          ParsedCommand.is_compiler_command = some true := by decide
    rw [hpc] at this
    simpa using this
  obtain ⟨h1, h2⟩ := ((C8_compiler_command_sound sampleEnv (fun _ => List.Perm.refl _) []).1
    _ pc hpc).1 hcc
  exact ⟨pc, hpc, hcc, h1, h2 (by decide)⟩

set_option maxRecDepth 100000 in
/-- C8 as stated fails at `gcc -cfoo`: `is_compiler_command` is true, the compiler is of the
gcc dialect, and the token `-c` does not occur in `argv[1:]`. -/
theorem C8_compile_prefix_counterexample :
    (createParsedCommand sampleEnv ["gcc".toList, "-cfoo".toList] []).map
        (fun pc => (pc.is_compiler_command, pc.d_containsUnsupportedOptions))
      = some (true, false) ∧
    GccDialect sampleEnv
      (ParsedCommand.construct sampleEnv ["gcc".toList, "-cfoo".toList] []).d_compiler ∧
    "-c".toList ∉ ["gcc".toList, "-cfoo".toList].tail := by
  decide

/-! ## Unsupported options -/

/-- One iteration at a token of an unsupported rule: the rest of the work queue goes to both
commands unchanged and the queue is emptied. -/
theorem parseCommandStep_unsupported (E : Env) (rules : CompilerParseRulesMap) (wd : Str)
    (c : ParsedCommand) (t : Str) (q : List Str) (k : Str)
    (hq : c.d_originalCommand = t :: q)
    (hm : matchCompilerOptions E t rules = some (k, .parseOptionIsUnsupported)) :
    parseCommandStep E rules wd c = some
      { c with
        d_containsUnsupportedOptions := true
        d_dependenciesCommand := c.d_dependenciesCommand ++ c.d_originalCommand
        d_command := c.d_command ++ c.d_originalCommand
        d_originalCommand := [] } := by
  rw [parseCommandStep_matched E rules wd c t q k _ hq hm]
  rfl

/-- The keys of `GccRules` with the unsupported rule that the claim lists. -/
theorem GccRules_unsupported :
    ∀ k ∈ ["-E".toList, "-M".toList, "-MM".toList, "-fprofile-use".toList,
        "-fauto-profile".toList, "-specs".toList],
      PlainFlag k ∧ k.head? = some '-' ∧ strippedOption k = k ∧
        (k, ParseRule.parseOptionIsUnsupported) ∈ GccRules ∧
        ∀ b ∈ GccRules, b.1 = k → b = (k, ParseRule.parseOptionIsUnsupported) := by
  decide

/-- What the table `GccRules` holds for `-x`. -/
theorem GccRules_dash_x :
    ("-x".toList, ParseRule.parseOptionSetsGccLanguage) ∈ GccRules ∧
      ∀ b ∈ GccRules, "-x".toList.length ≤ b.1.length ∧
        (b.1.take "-x".toList.length = "-x".toList →
          b = ("-x".toList, ParseRule.parseOptionSetsGccLanguage)) := by
  decide

/-- No key of `GccRules` is `-` or a leading part of `-`. -/
theorem GccRules_standardInput :
    (∀ b ∈ GccRules, b.1 ≠ strippedOption "-".toList) ∧
      ∀ b ∈ GccRules, "-".toList.take b.1.length ≠ b.1 := by
  decide

/-- An iteration of the gcc parser at one of the rejected fronts sets
`d_containsUnsupportedOptions`. -/
theorem parseCommandStep_rejected (E : Env) (hE : E.IteratesEntries) (wd : Str)
    (s s1 : ParsedCommand) (hrej : RejectedGccFront E s.d_originalCommand)
    (hstep : parseCommandStep E GccRules wd s = some s1) :
    s1.d_containsUnsupportedOptions = true := by
  generalize hq : s.d_originalCommand = queue at hrej
  cases hrej with
  | standardInput q =>
    have hm := matchCompilerOptions_none E hE GccRules "-".toList GccRules_standardInput.1
      GccRules_standardInput.2
    simp only [parseCommandStep, hq, hm, reduceIte, Option.some.injEq] at hstep
    subst hstep
    rfl
  | unsupportedFlag t q ht =>
    obtain ⟨-, h2, h3, h4, h5⟩ := GccRules_unsupported t (by
      simp only [List.mem_cons, List.mem_singleton, List.not_mem_nil, or_false] at ht ⊢
      tauto)
    have hm := matchCompilerOptions_exact E GccRules t t _ h2 h3 h4 h5
    rw [parseCommandStep_unsupported E GccRules wd s t q t hq hm] at hstep
    cases hstep
    rfl
  | unsupportedEquals k value q hk =>
    obtain ⟨h1, h2, -, h4, h5⟩ := GccRules_unsupported k (by
      simp only [List.mem_cons, List.mem_singleton, List.not_mem_nil, or_false] at hk ⊢
      tauto)
    have hdash : (k ++ '=' :: value).head? = some '-' := by
      cases k with
      | nil => simp at h2
      | cons ch k2 => simpa using h2
    have hm := matchCompilerOptions_exact E GccRules (k ++ '=' :: value) k _ hdash
      (strippedOption_equals k value h1) h4 h5
    rw [parseCommandStep_unsupported E GccRules wd s _ q k hq hm] at hstep
    cases hstep
    rfl
  | languageSplit language q hlang =>
    have hm : matchCompilerOptions E "-x".toList GccRules
        = some ("-x".toList, .parseOptionSetsGccLanguage) :=
      matchCompilerOptions_exact E GccRules _ _ _ (by decide) (by decide) GccRules_dash_x.1
        (fun b hb h => (GccRules_dash_x.2 b hb).2 (by rw [h]; decide))
    rw [parseCommandStep_matched E GccRules wd s _ _ _ _ hq hm] at hstep
    simp only [ParseRule.apply, parseOptionSetsGccLanguage, hq, true_and, reduceCtorEq,
      if_false, if_true, List.headD_cons, hlang] at hstep
    exact (parseGccOption_keeps _ _ _ _ _ _ _ _ hstep).1.unsupported rfl
  | languageGlued language q hne hlang =>
    have hm : matchCompilerOptions E ("-x".toList ++ language) GccRules
        = some ("-x".toList, .parseOptionSetsGccLanguage) :=
      matchCompilerOptions_glued E hE GccRules _ language _ (by decide) (by decide)
        GccRules_dash_x.1 GccRules_dash_x.2
    have hneq : ¬ "-x".toList ++ language = "-x".toList := by
      intro h
      have := congrArg List.length h
      simp at this
      exact hne this
    have hdrop : ("-x".toList ++ language).drop "-x".toList.length = language := by
      simp
    rw [parseCommandStep_matched E GccRules wd s _ _ _ _ hq hm] at hstep
    simp only [ParseRule.apply, parseOptionSetsGccLanguage, hq, hneq, false_and, if_false,
      hdrop, hlang] at hstep
    exact (parseGccOption_keeps _ _ _ _ _ _ _ _ hstep).1.unsupported rfl
  | languageMissing =>
    have hm : matchCompilerOptions E "-x".toList GccRules
        = some ("-x".toList, .parseOptionSetsGccLanguage) :=
      matchCompilerOptions_exact E GccRules _ _ _ (by decide) (by decide) GccRules_dash_x.1
        (fun b hb h => (GccRules_dash_x.2 b hb).2 (by rw [h]; decide))
    rw [parseCommandStep_matched E GccRules wd s _ _ _ _ hq hm] at hstep
    simp only [ParseRule.apply, parseOptionSetsGccLanguage, hq, and_self, if_true,
      Option.some.injEq] at hstep
    subst hstep
    rfl

/-- With an empty work queue the loop is not entered. -/
theorem parserReaches_of_nil (E : Env) (rules : CompilerParseRulesMap) (wd : Str)
    (c s : ParsedCommand) (hq : c.d_originalCommand = [])
    (h : ParserReaches E rules wd c s) : s = c := by
  induction h with
  | start => rfl
  | next s0 s2 _ hstep ih =>
    rw [ih] at hstep
    simp [parseCommandStep, hq] at hstep

/-- The final result of a gcc command in which the parser reaches a rejected front. -/
theorem createParsedCommand_rejected (E : Env) (hE : E.IteratesEntries) (argv : List Str)
    (wd : Str) (pc s : ParsedCommand)
    (hgcc : GccDialect E (ParsedCommand.construct E argv wd).d_compiler)
    (hreach : ParserReaches E GccRules wd (ParsedCommand.construct E argv wd) s)
    (hrej : RejectedGccFront E s.d_originalCommand)
    (h : createParsedCommand E argv wd = some pc) :
    pc.d_containsUnsupportedOptions = true ∧ pc.is_compiler_command = false := by
  cases argv with
  | nil =>
    exfalso
    have hs := parserReaches_of_nil E GccRules wd _ s rfl hreach
    rw [hs] at hrej
    cases hrej
  | cons a0 rest =>
    simp only [createParsedCommand, List.cons_ne_nil, if_false] at h
    rw [rulesToUse_gcc E _ hgcc, parseCommand_of_reaches E GccRules wd _ s hreach] at h
    obtain ⟨pc1, hparse, hfin⟩ := Option.bind_eq_some.1 h
    have hpc1 : pc1.d_containsUnsupportedOptions = true := by
      cases hq : s.d_originalCommand with
      | nil => rw [hq] at hrej; cases hrej
      | cons t q =>
        rw [parseCommand_cons E GccRules wd s t q hq] at hparse
        obtain ⟨s1, hstep, hparse1⟩ := Option.bind_eq_some.1 hparse
        exact (parseCommand_keeps E GccRules wd s1 pc1 hparse1).2.1
          (parseCommandStep_rejected E hE wd s s1 hrej hstep)
    rw [finishParsedCommand, if_pos hpc1] at hfin
    cases hfin
    exact ⟨hpc1, rfl⟩

/-- An iteration of the gcc parser at `-x` with a supported language, split or glued, leaves
`d_containsUnsupportedOptions` as it is. -/
theorem parseCommandStep_language_accepted (E : Env) (hE : E.IteratesEntries) (wd : Str)
    (s : ParsedCommand) (language : Str) (q : List Str)
    (hlang : language ∈ E.GccSupportedLanguages)
    (hq : s.d_originalCommand = "-x".toList :: language :: q ∨
      (language ≠ [] ∧ s.d_originalCommand = ("-x".toList ++ language) :: q)) :
    ∃ s1, parseCommandStep E GccRules wd s = some s1 ∧
      s1.d_containsUnsupportedOptions = s.d_containsUnsupportedOptions := by
  rcases hq with hq | ⟨hne, hq⟩
  · have hm : matchCompilerOptions E "-x".toList GccRules
        = some ("-x".toList, .parseOptionSetsGccLanguage) :=
      matchCompilerOptions_exact E GccRules _ _ _ (by decide) (by decide) GccRules_dash_x.1
        (fun b hb h => (GccRules_dash_x.2 b hb).2 (by rw [h]; decide))
    rw [parseCommandStep_matched E GccRules wd s _ _ _ _ hq hm]
    simp only [ParseRule.apply, parseOptionSetsGccLanguage, hq, true_and, reduceCtorEq,
      if_false, if_true, List.headD_cons, hlang]
    obtain ⟨s1, h1, -⟩ := parseGccOption_split E wd "-x".toList true false false
      { s with d_originalCommand := "-x".toList :: language :: q } language q rfl
    have hu := parseGccOption_unsupported _ _ _ _ _ _ _ _ h1
    exact ⟨s1, h1, hu⟩
  · have hm : matchCompilerOptions E ("-x".toList ++ language) GccRules
        = some ("-x".toList, .parseOptionSetsGccLanguage) :=
      matchCompilerOptions_glued E hE GccRules _ language _ (by decide) (by decide)
        GccRules_dash_x.1 GccRules_dash_x.2
    have hneq : ¬ "-x".toList ++ language = "-x".toList := by
      intro h
      have := congrArg List.length h
      simp at this
      exact hne this
    have hdrop : ("-x".toList ++ language).drop "-x".toList.length = language := by
      simp
    rw [parseCommandStep_matched E GccRules wd s _ _ _ _ hq hm]
    simp only [ParseRule.apply, parseOptionSetsGccLanguage, hq, hneq, false_and, if_false,
      hdrop, hlang, if_true]
    have hsome : ∃ s1, parseGccOption E wd "-x".toList true false false
        { s with d_originalCommand := ("-x".toList ++ language) :: q } = some s1 := by
      simp only [parseGccOption, hneq, if_false]
      exact ⟨_, rfl⟩
    obtain ⟨s1, h1⟩ := hsome
    have hu := parseGccOption_unsupported _ _ _ _ _ _ _ _ h1
    exact ⟨s1, h1, hu⟩

/-- C9: a gcc command in which the parser reaches, as an option, the token `-`, one of
`-E`, `-M`, `-MM`, `-fprofile-use[=path]`, `-fauto-profile[=path]`, `-specs=file`, `-x` with
a language outside the supported set (split or glued), or a final `-x`, has
`contains_unsupported_options = true` and `is_compiler_command = false`, whatever else the
command holds; `-x` with a supported language, split or glued, is accepted: it leaves
`contains_unsupported_options` as it was. -/
theorem C9_rejected_gcc_commands (E : Env) (hE : E.IteratesEntries) (wd : Str) :
    (∀ (argv : List Str) (pc s : ParsedCommand),
        GccDialect E (ParsedCommand.construct E argv wd).d_compiler →
        ParserReaches E GccRules wd (ParsedCommand.construct E argv wd) s →
        RejectedGccFront E s.d_originalCommand →
        createParsedCommand E argv wd = some pc →
        pc.d_containsUnsupportedOptions = true ∧ pc.is_compiler_command = false) ∧
      (∀ (s : ParsedCommand) (language : Str) (q : List Str),
        language ∈ E.GccSupportedLanguages →
        (s.d_originalCommand = "-x".toList :: language :: q ∨
          (language ≠ [] ∧ s.d_originalCommand = ("-x".toList ++ language) :: q)) →
        ∃ s1, parseCommandStep E GccRules wd s = some s1 ∧
          s1.d_containsUnsupportedOptions = s.d_containsUnsupportedOptions) :=
  ⟨fun argv pc s hgcc hreach hrej h =>
      createParsedCommand_rejected E hE argv wd pc s hgcc hreach hrej h,
    fun s language q hlang hq =>
      parseCommandStep_language_accepted E hE wd s language q hlang hq⟩

set_option maxRecDepth 100000 in
/-- C9 at `gcc -c -E hello.c`: the parser reaches `-E` after `-c`. -/
theorem C9_rejected_gcc_commands_witness :
    ∃ pc, createParsedCommand sampleEnv
        ["gcc".toList, "-c".toList, "-E".toList, "hello.c".toList] [] = some pc ∧
      pc.d_containsUnsupportedOptions = true ∧ pc.is_compiler_command = false := by
  have hsome : (createParsedCommand sampleEnv
      ["gcc".toList, "-c".toList, "-E".toList, "hello.c".toList] []).isSome = true := by decide
  obtain ⟨pc, hpc⟩ := Option.isSome_iff_exists.1 hsome
  have hstep : (parseCommandStep sampleEnv GccRules []
      (ParsedCommand.construct sampleEnv
        ["gcc".toList, "-c".toList, "-E".toList, "hello.c".toList] [])).map
      (fun s => s.d_originalCommand) = some ["-E".toList, "hello.c".toList] := by decide
  obtain ⟨s, hs, hq⟩ := Option.map_eq_some'.1 hstep
  exact ⟨pc, hpc,
    (C9_rejected_gcc_commands sampleEnv (fun _ => List.Perm.refl _) []).1 _ pc s (by decide)
      (ParserReaches.next _ s ParserReaches.start hs)
      (hq ▸ RejectedGccFront.unsupportedFlag _ _ (by decide)) hpc⟩

/-- C10: when the parser reaches a token matched by an unsupported rule, with the work queue
`t :: q` and the commands built so far in state `s`, `createParsedCommand` returns with
`command = s.command ++ t :: q` and `dependencies_command = s.dependencies_command ++ t :: q`:
the tokens are copied unchanged, parsing stops and nothing is appended afterwards. -/
theorem C10_unsupported_rule (E : Env) (argv : List Str) (wd : Str) (s : ParsedCommand)
    (t : Str) (q : List Str) (k : Str)
    (hreach : ParserReaches E (rulesToUse E (ParsedCommand.construct E argv wd).d_compiler) wd
      (ParsedCommand.construct E argv wd) s)
    (hq : s.d_originalCommand = t :: q)
    (hm : matchCompilerOptions E t (rulesToUse E (ParsedCommand.construct E argv wd).d_compiler)
      = some (k, .parseOptionIsUnsupported)) :
    ∃ pc, createParsedCommand E argv wd = some pc ∧
      pc.d_command = s.d_command ++ t :: q ∧
      pc.d_dependenciesCommand = s.d_dependenciesCommand ++ t :: q ∧
      pc.d_containsUnsupportedOptions = true ∧
      pc.is_compiler_command = false ∧
      pc.d_originalCommand = [] := by
  cases argv with
  | nil =>
    have hs := parserReaches_of_nil E _ wd _ s rfl hreach
    rw [hs] at hq
    simp [ParsedCommand.construct, ParsedCommand.empty] at hq
  | cons a0 rest =>
    simp only [createParsedCommand, List.cons_ne_nil, if_false]
    rw [parseCommand_of_reaches E _ wd _ s hreach, parseCommand_cons E _ wd s t q hq,
      parseCommandStep_unsupported E _ wd s t q k hq hm, Option.some_bind,
      parseCommand_nil E _ wd _ rfl, Option.some_bind, finishParsedCommand, if_pos rfl]
    exact ⟨_, rfl, by rw [hq], by rw [hq], rfl, rfl, rfl⟩

set_option maxRecDepth 100000 in
/-- C10 at `gcc -c -E /home/nobody/hello.c -o /home/nobody/hello.i` in `/home/nobody/`: the
tokens from `-E` on are copied without path rewriting and no `-M` follows. -/
theorem C10_unsupported_rule_witness :
    ∃ pc, createParsedCommand sampleEnv
        ["gcc".toList, "-c".toList, "-E".toList, "/home/nobody/hello.c".toList, "-o".toList,
          "/home/nobody/hello.i".toList] "/home/nobody/".toList = some pc ∧
      pc.d_command = ["gcc".toList, "-c".toList, "-E".toList, "/home/nobody/hello.c".toList,
        "-o".toList, "/home/nobody/hello.i".toList] ∧
      pc.d_dependenciesCommand = ["gcc".toList, "-c".toList, "-E".toList,
        "/home/nobody/hello.c".toList, "-o".toList, "/home/nobody/hello.i".toList] := by
  have hstep : (parseCommandStep sampleEnv GccRules "/home/nobody/".toList
      (ParsedCommand.construct sampleEnv
        ["gcc".toList, "-c".toList, "-E".toList, "/home/nobody/hello.c".toList, "-o".toList,
          "/home/nobody/hello.i".toList] "/home/nobody/".toList)).map
      (fun s => (s.d_originalCommand, s.d_command, s.d_dependenciesCommand))
        = some (["-E".toList, "/home/nobody/hello.c".toList, "-o".toList,
            "/home/nobody/hello.i".toList], ["gcc".toList, "-c".toList],
            ["gcc".toList, "-c".toList]) := by decide
  obtain ⟨s, hs, hfields⟩ := Option.map_eq_some'.1 hstep
  simp only [Prod.mk.injEq] at hfields
  obtain ⟨hq, hc, hd⟩ := hfields
  obtain ⟨pc, h1, h2, h3, -⟩ :=
    C10_unsupported_rule sampleEnv
      ["gcc".toList, "-c".toList, "-E".toList, "/home/nobody/hello.c".toList, "-o".toList,
        "/home/nobody/hello.i".toList] "/home/nobody/".toList s "-E".toList
      ["/home/nobody/hello.c".toList, "-o".toList, "/home/nobody/hello.i".toList] "-E".toList
      (ParserReaches.next _ s ParserReaches.start hs) hq (by decide)
  exact ⟨pc, h1, by rw [h2, hc]; rfl, by rw [h3, hd]; rfl⟩

/-! ## Options without a rule, macros and deps-rule targets -/

/-- One iteration at a token that begins with `-`, is not `-` and matches no rule. -/
theorem parseCommandStep_unmatched (E : Env) (rules : CompilerParseRulesMap) (wd : Str)
    (c : ParsedCommand) (t : Str) (q : List Str) (hq : c.d_originalCommand = t :: q)
    (hdash : t.head? = some '-') (hne : t ≠ "-".toList)
    (hm : matchCompilerOptions E t rules = none) :
    parseCommandStep E rules wd c = some
      { c with
        d_command := c.d_command ++ [t]
        d_dependenciesCommand := c.d_dependenciesCommand ++ [t]
        d_originalCommand := q } := by
  have hne2 : ¬ t = ['-'] := hne
  simp [parseCommandStep, hq, hm, hne2, hdash, appendAndRemoveOption]

/-- C11, amended: a token reached by the parser that begins with `-`, is not `-` and is
matched by no rule of the table is appended verbatim to `command` and to
`dependencies_command`, and to nothing else. -/
theorem C11_unmatched_options (E : Env) (rules : CompilerParseRulesMap) (wd : Str)
    (c : ParsedCommand) (t : Str) (q : List Str) (hq : c.d_originalCommand = t :: q)
    (hdash : t.head? = some '-') (hne : t ≠ "-".toList)
    (hm : matchCompilerOptions E t rules = none) :
    ∃ c2, parseCommandStep E rules wd c = some c2 ∧
      c2.d_command = c.d_command ++ [t] ∧
      c2.d_dependenciesCommand = c.d_dependenciesCommand ++ [t] ∧
      c2.d_inputFiles = c.d_inputFiles ∧
      c2.d_commandProducts = c.d_commandProducts ∧
      c2.d_commandDepsProducts = c.d_commandDepsProducts ∧
      c2.d_originalCommand = q :=
  ⟨_, parseCommandStep_unmatched E rules wd c t q hq hdash hne hm, rfl, rfl, rfl, rfl, rfl, rfl⟩

/-- C11, amended, at `-Werror` under `GccRules`. -/
theorem C11_unmatched_options_witness :
    ∃ c2, parseCommandStep sampleEnv GccRules [] (queueOnly ["-Werror".toList]) = some c2 ∧
      c2.d_command = ["-Werror".toList] ∧
      c2.d_dependenciesCommand = ["-Werror".toList] := by
  obtain ⟨c2, h1, h2, h3, -⟩ :=
    C11_unmatched_options sampleEnv GccRules [] (queueOnly ["-Werror".toList]) "-Werror".toList
      [] rfl (by decide) (by decide) (by decide)
  exact ⟨c2, h1, h2, h3⟩

set_option maxRecDepth 100000 in
/-- C11 as stated fails at `gcc -c empty.c -Werror`: `-Werror` is matched by no rule of
`GccRules` and is appended to `dependencies_command` as well. -/
theorem C11_unmatched_in_deps_counterexample :
    matchCompilerOptions sampleEnv "-Werror".toList GccRules = none ∧
    (createParsedCommand sampleEnv
        ["gcc".toList, "-c".toList, "empty.c".toList, "-Werror".toList] []).map
        (fun pc => (pc.d_command, pc.d_dependenciesCommand))
      = some (["gcc".toList, "-c".toList, "empty.c".toList, "-Werror".toList],
          ["gcc".toList, "-c".toList, "empty.c".toList, "-Werror".toList, "-M".toList]) := by
  decide

/-- What the table `GccRules` holds for `-D`. -/
theorem GccRules_dash_D :
    ("-D".toList, ParseRule.parseIsMacro) ∈ GccRules ∧
      ∀ b ∈ GccRules, "-D".toList.length ≤ b.1.length ∧
        (b.1.take "-D".toList.length = "-D".toList → b = ("-D".toList, ParseRule.parseIsMacro)) := by
  decide

/-- What the table `GccRules` holds for `-MT` and `-MQ`. -/
theorem GccRules_deps_rule_target :
    ∀ k ∈ ["-MT".toList, "-MQ".toList],
      k.head? = some '-' ∧ strippedOption k = k ∧
        (k, ParseRule.parseOptionDepsRuleTarget) ∈ GccRules ∧
        ∀ b ∈ GccRules, b.1 = k → b = (k, ParseRule.parseOptionDepsRuleTarget) := by
  decide

/-- C13: in the gcc dialect a macro option in one token, `-D` glued to a non-empty `name` or
`name=definition`, is appended unchanged to `command` and to `dependencies_command`; in the
split form `-D` and the token after it are both appended unchanged to both, and the value
token is consumed with the flag: it reaches neither the rules nor `input_files`. -/
theorem C13_macro_options (E : Env) (wd : Str) (c : ParsedCommand) (q : List Str) :
    (∀ body : Str, E.IteratesEntries → body ≠ [] →
        c.d_originalCommand = ("-D".toList ++ body) :: q →
        ∃ c2, parseCommandStep E GccRules wd c = some c2 ∧
          c2.d_command = c.d_command ++ ["-D".toList ++ body] ∧
          c2.d_dependenciesCommand = c.d_dependenciesCommand ++ ["-D".toList ++ body] ∧
          c2.d_inputFiles = c.d_inputFiles ∧
          c2.d_originalCommand = q) ∧
      (∀ value : Str, c.d_originalCommand = "-D".toList :: value :: q →
        ∃ c2, parseCommandStep E GccRules wd c = some c2 ∧
          c2.d_command = c.d_command ++ ["-D".toList, value] ∧
          c2.d_dependenciesCommand = c.d_dependenciesCommand ++ ["-D".toList, value] ∧
          c2.d_inputFiles = c.d_inputFiles ∧
          c2.d_compilerCommand = c.d_compilerCommand ∧
          c2.d_containsUnsupportedOptions = c.d_containsUnsupportedOptions ∧
          c2.d_commandProducts = c.d_commandProducts ∧
          c2.d_commandDepsProducts = c.d_commandDepsProducts ∧
          c2.d_preProcessorOptions = c.d_preProcessorOptions ∧
          c2.d_originalCommand = q) := by
  refine ⟨fun body hE hne hq => ?_, fun value hq => ?_⟩
  · have hm : matchCompilerOptions E ("-D".toList ++ body) GccRules
        = some ("-D".toList, .parseIsMacro) :=
      matchCompilerOptions_glued E hE GccRules _ body _ (by decide) (by decide) GccRules_dash_D.1
        GccRules_dash_D.2
    have hneq : ¬ "-D".toList ++ body = "-D".toList := by
      intro h
      have := congrArg List.length h
      simp at this
      exact hne this
    rw [parseCommandStep_matched E GccRules wd c _ _ _ _ hq hm]
    simp only [ParseRule.apply, parseIsMacro, hq, hneq, if_false]
    exact ⟨_, rfl, rfl, rfl, rfl, rfl⟩
  · have hm : matchCompilerOptions E "-D".toList GccRules = some ("-D".toList, .parseIsMacro) :=
      matchCompilerOptions_exact E GccRules _ _ _ (by decide) (by decide) GccRules_dash_D.1
        (fun b hb h => (GccRules_dash_D.2 b hb).2 (by rw [h]; decide))
    rw [parseCommandStep_matched E GccRules wd c _ _ _ _ hq hm]
    simp only [ParseRule.apply, parseIsMacro, hq, if_true]
    exact ⟨_, rfl, by simp, by simp, rfl, rfl, rfl, rfl, rfl, rfl, rfl⟩

set_option maxRecDepth 100000 in
/-- C13 at the four forms of the test `TestDashDArgs`, each inserted after `gcc` in
`gcc -c /home/nobody/test/hello.c -o /home/nobody/test/hello.o`, in `/home/nobody/test`. -/
theorem C13_macro_options_witness :
    (∃ c2, parseCommandStep sampleEnv GccRules "/home/nobody/test".toList
        (queueOnly ["-DSRCDIR=\"../../foo/src\"".toList]) = some c2 ∧
      c2.d_command = ["-DSRCDIR=\"../../foo/src\"".toList] ∧
      c2.d_dependenciesCommand = ["-DSRCDIR=\"../../foo/src\"".toList]) ∧
    (∀ form ∈ [["-DFOO".toList], ["-DSRCDIR=\"../../foo/src\"".toList],
        ["-D".toList, "FOO".toList], ["-D".toList, "SRCDIR=\"../../foo/src\"".toList]],
      (createParsedCommand sampleEnv
        ("gcc".toList :: form ++ ["-c".toList, "/home/nobody/test/hello.c".toList, "-o".toList,
          "/home/nobody/test/hello.o".toList]) "/home/nobody/test".toList).map
        (fun pc => (pc.d_command, pc.d_dependenciesCommand))
      = some ("gcc".toList :: form ++ ["-c".toList, "hello.c".toList, "-o".toList,
            "hello.o".toList],
          "gcc".toList :: form ++ ["-c".toList, "/home/nobody/test/hello.c".toList,
            "-M".toList])) := by
  constructor
  · obtain ⟨c2, h1, h2, h3, -⟩ :=
      (C13_macro_options sampleEnv "/home/nobody/test".toList
        (queueOnly ["-DSRCDIR=\"../../foo/src\"".toList]) []).1
        "SRCDIR=\"../../foo/src\"".toList (fun _ => List.Perm.refl _) (by decide) rfl
    exact ⟨c2, h1, h2, h3⟩
  · decide

/-- C14, amended: in the gcc dialect `-MT t` and `-MQ t` are retained in `command`, the
flag unchanged and `t` as `modifyPathForRemote` rewrites it; `t` is added to none of
`products`, `deps_products`, `input_files`, and neither the flag nor `t` is appended to
`dependencies_command`. -/
theorem C14_deps_rule_target (E : Env) (wd : Str) (c : ParsedCommand) (flag t : Str)
    (q : List Str) (hflag : flag ∈ ["-MT".toList, "-MQ".toList])
    (hq : c.d_originalCommand = flag :: t :: q) :
    ∃ c2, parseCommandStep E GccRules wd c = some c2 ∧
      c2.d_command = c.d_command ++ [flag, E.modifyPathForRemote t wd true] ∧
      c2.d_dependenciesCommand = c.d_dependenciesCommand ∧
      c2.d_commandProducts = c.d_commandProducts ∧
      c2.d_commandDepsProducts = c.d_commandDepsProducts ∧
      c2.d_inputFiles = c.d_inputFiles ∧
      c2.d_originalCommand = q := by
  obtain ⟨h1, h2, h3, h4⟩ := GccRules_deps_rule_target flag hflag
  have hm := matchCompilerOptions_exact E GccRules flag flag _ h1 h2 h3 h4
  obtain ⟨c2, e1, e2, e3, e4, e5, e6, e7⟩ :=
    parseGccOption_split E wd flag false false false c t q hq
  exact ⟨c2, by rw [parseCommandStep_matched E GccRules wd c _ _ _ _ hq hm]; exact e1, e2,
    by simpa using e3, by simpa using e4, by simpa using e5, e6, e7⟩

set_option maxRecDepth 100000 in
/-- C14, amended, at `-MT /home/nobody/test/foo.o` in `/home/nobody/test`. -/
theorem C14_deps_rule_target_witness :
    ∃ c2, parseCommandStep sampleEnv GccRules "/home/nobody/test".toList
        (queueOnly ["-MT".toList, "/home/nobody/test/foo.o".toList]) = some c2 ∧
      c2.d_command = ["-MT".toList, "foo.o".toList] ∧
      c2.d_dependenciesCommand = [] ∧
      c2.d_commandProducts = ∅ ∧ c2.d_commandDepsProducts = ∅ ∧ c2.d_inputFiles = [] := by
  obtain ⟨c2, h1, h2, h3, h4, h5, h6, -⟩ :=
    C14_deps_rule_target sampleEnv "/home/nobody/test".toList
      (queueOnly ["-MT".toList, "/home/nobody/test/foo.o".toList]) "-MT".toList
      "/home/nobody/test/foo.o".toList [] (by decide) rfl
  exact ⟨c2, h1, by rw [h2]; decide, by rw [h3]; rfl, by rw [h4]; rfl, by rw [h5]; rfl,
    by rw [h6]; rfl⟩

set_option maxRecDepth 100000 in
/-- C14 as stated fails at `gcc -c empty.c -MD -MT /home/nobody/test/foo.o` in
`/home/nobody/test`: the argument of `-MT` goes through `modifyPathForRemote` and `command`
holds `foo.o`, not the token as given. -/
theorem C14_target_rewritten_counterexample :
    (createParsedCommand sampleEnv
        ["gcc".toList, "-c".toList, "empty.c".toList, "-MD".toList, "-MT".toList,
          "/home/nobody/test/foo.o".toList] "/home/nobody/test".toList).map
        (fun pc => pc.d_command)
      = some ["gcc".toList, "-c".toList, "empty.c".toList, "-MD".toList, "-MT".toList,
          "foo.o".toList] ∧
    "foo.o".toList ≠ "/home/nobody/test/foo.o".toList := by
  decide

/-! ## matchCompilerOptions -/

/-- `appendAndRemoveOption` leaves the flags and the preprocessor list alone and adds behind
what the commands hold. -/
theorem appendAndRemoveOption_frame (E : Env) (wd : Str)
    (isPath toDeps isOutput depsOutput : Bool) (c c2 : ParsedCommand)
    (h : appendAndRemoveOption E wd isPath toDeps isOutput depsOutput c = some c2) :
    c2.d_md_option_set = c.d_md_option_set ∧
      c2.d_upload_all_include_dirs = c.d_upload_all_include_dirs ∧
      c2.d_preProcessorOptions = c.d_preProcessorOptions ∧ StepGrows c c2 := by
  unfold appendAndRemoveOption at h
  cases hq : c.d_originalCommand with
  | nil => simp [hq] at h
  | cons t rest =>
    simp only [hq] at h
    split at h <;>
      (simp only [Option.some.injEq] at h; subst h
       refine ⟨rfl, rfl, rfl, ⟨by simp, ?_⟩⟩
       simp only; split <;> simp)

/-- The same of `parseGccOption`. -/
theorem parseGccOption_frame (E : Env) (wd option : Str) (toDeps isOutput depsOutput : Bool)
    (c c2 : ParsedCommand) (h : parseGccOption E wd option toDeps isOutput depsOutput c = some c2) :
    c2.d_md_option_set = c.d_md_option_set ∧
      c2.d_upload_all_include_dirs = c.d_upload_all_include_dirs ∧
      c2.d_preProcessorOptions = c.d_preProcessorOptions ∧ StepGrows c c2 := by
  unfold parseGccOption at h
  cases hq : c.d_originalCommand with
  | nil => simp [hq] at h
  | cons t rest =>
    simp only [hq] at h
    split at h
    · obtain ⟨c1, h1, h2⟩ := Option.bind_eq_some.1 h
      obtain ⟨a1, a2, a3, a4, a5⟩ := appendAndRemoveOption_frame _ _ _ _ _ _ _ _ h1
      obtain ⟨b1, b2, b3, b4, b5⟩ := appendAndRemoveOption_frame _ _ _ _ _ _ _ _ h2
      exact ⟨b1.trans a1, b2.trans a2, b3.trans a3, ⟨a4.trans b4, a5.trans b5⟩⟩
    · simp only [Option.some.injEq] at h; subst h
      refine ⟨rfl, rfl, rfl, ⟨by simp, ?_⟩⟩
      simp only
      split_ifs <;> simp

/-- What a parse function does to `d_md_option_set` and `d_upload_all_include_dirs`: only
`parseInterfersWithDepsOption` sets them, the first at the tokens `-MD` and `-MMD`, the
second at `-Wmissing-include-dirs` and `-Werror=missing-include-dirs`; none clears them. -/
theorem ParseRule_apply_frame (E : Env) (wd option : Str) (rule : ParseRule)
    (c c2 : ParsedCommand) (t : Str) (q : List Str) (hq : c.d_originalCommand = t :: q)
    (h : rule.apply E wd option c = some c2) :
    (c2.d_md_option_set = true ↔ c.d_md_option_set = true ∨
        (rule = .parseInterfersWithDepsOption ∧ t ∈ ["-MD".toList, "-MMD".toList])) ∧
      (c2.d_upload_all_include_dirs = true ↔ c.d_upload_all_include_dirs = true ∨
        (rule = .parseInterfersWithDepsOption ∧
          t ∈ ["-Wmissing-include-dirs".toList, "-Werror=missing-include-dirs".toList])) ∧
      StepGrows c c2 := by
  have hgcc : ∀ toDeps isOutput depsOutput (c1 : ParsedCommand),
      parseGccOption E wd option toDeps isOutput depsOutput c1 = some c2 →
      c1.d_md_option_set = c.d_md_option_set →
      c1.d_upload_all_include_dirs = c.d_upload_all_include_dirs →
      c.d_command <+: c1.d_command → c.d_dependenciesCommand <+: c1.d_dependenciesCommand →
      c2.d_md_option_set = c.d_md_option_set ∧
        c2.d_upload_all_include_dirs = c.d_upload_all_include_dirs ∧ StepGrows c c2 := by
    intro toDeps isOutput depsOutput c1 hg e1 e2 e3 e4
    obtain ⟨a1, a2, -, a4, a5⟩ := parseGccOption_frame _ _ _ _ _ _ _ _ hg
    exact ⟨a1.trans e1, a2.trans e2, ⟨e3.trans a4, e4.trans a5⟩⟩
  have hsame : c2.d_md_option_set = c.d_md_option_set ∧
      c2.d_upload_all_include_dirs = c.d_upload_all_include_dirs ∧ StepGrows c c2 →
      rule ≠ .parseInterfersWithDepsOption →
      (c2.d_md_option_set = true ↔ c.d_md_option_set = true ∨
        (rule = .parseInterfersWithDepsOption ∧ t ∈ ["-MD".toList, "-MMD".toList])) ∧
      (c2.d_upload_all_include_dirs = true ↔ c.d_upload_all_include_dirs = true ∨
        (rule = .parseInterfersWithDepsOption ∧
          t ∈ ["-Wmissing-include-dirs".toList, "-Werror=missing-include-dirs".toList])) ∧
      StepGrows c c2 := by
    rintro ⟨e1, e2, e3⟩ hr
    simp [e1, e2, e3, hr]
  cases rule with
  | parseInterfersWithDepsOption =>
    clear hgcc hsame
    simp only [ParseRule.apply, parseInterfersWithDepsOption, hq, Option.some.injEq] at h
    subst h
    refine ⟨?_, ?_, ⟨by simp, by simp⟩⟩
    · simp only [List.mem_cons, List.mem_singleton, List.not_mem_nil, or_false, true_and]
      by_cases hmd : t = "-MMD".toList ∨ t = "-MD".toList
      · simp only [hmd, if_true, true_iff]; right; tauto
      · simp only [hmd, if_false]; constructor
        · exact fun h => Or.inl h
        · rintro (h | h)
          · exact h
          · exact absurd (by tauto) hmd
    · simp only [List.mem_cons, List.mem_singleton, List.not_mem_nil, or_false, true_and]
      by_cases hmd : t = "-MMD".toList ∨ t = "-MD".toList
      · simp only [hmd, if_true]
        constructor
        · exact fun h => Or.inl h
        · rintro (h | h)
          · exact h
          · exfalso
            rcases hmd with hmd | hmd <;> rcases h with h | h <;>
              (rw [hmd] at h; revert h; decide)
      · simp only [hmd, if_false]
        split_ifs with hw
        · simp only [true_iff]; right; exact hw
        · constructor
          · exact fun h => Or.inl h
          · rintro (h | h)
            · exact h
            · exact absurd h hw
  | parseIsInputPathOption =>
    exact hsame (hgcc _ _ _ c h rfl rfl (List.prefix_refl _) (List.prefix_refl _)) (by simp)
  | parseIsEqualInputPathOption =>
    exact hsame (hgcc _ _ _ c h rfl rfl (List.prefix_refl _) (List.prefix_refl _)) (by simp)
  | parseIsCompileOption =>
    obtain ⟨a1, a2, -, a4⟩ := appendAndRemoveOption_frame _ _ _ _ _ _ _ _ h
    exact hsame ⟨a1, a2, ⟨a4.command, a4.dependenciesCommand⟩⟩ (by simp)
  | parseOptionRedirectsOutput =>
    exact hsame (hgcc _ _ _ c h rfl rfl (List.prefix_refl _) (List.prefix_refl _)) (by simp)
  | parseOptionRedirectsDepsOutput =>
    exact hsame (hgcc _ _ _ c h rfl rfl (List.prefix_refl _) (List.prefix_refl _)) (by simp)
  | parseOptionDepsRuleTarget =>
    exact hsame (hgcc _ _ _ c h rfl rfl (List.prefix_refl _) (List.prefix_refl _)) (by simp)
  | parseIsPreprocessorArgOption =>
    refine hsame ?_ (by simp)
    simp only [ParseRule.apply, parseIsPreprocessorArgOption, hq] at h
    split at h
    · simp only [Option.some.injEq] at h; subst h
      exact ⟨rfl, rfl, ⟨List.prefix_refl _, List.prefix_refl _⟩⟩
    · split at h
      · cases q with
        | nil => simp at h
        | cons next rest2 =>
          simp only [Option.some.injEq] at h; subst h
          exact ⟨rfl, rfl, ⟨List.prefix_refl _, List.prefix_refl _⟩⟩
      · simp only [Option.some.injEq] at h; subst h
        exact ⟨rfl, rfl, ⟨List.prefix_refl _, List.prefix_refl _⟩⟩
  | parseIsMacro =>
    refine hsame ?_ (by simp)
    simp only [ParseRule.apply, parseIsMacro, hq] at h
    split at h
    · cases q with
      | nil => simp at h
      | cons arg rest2 =>
        simp only [Option.some.injEq] at h; subst h
        exact ⟨rfl, rfl, ⟨by simp [List.append_assoc], by simp [List.append_assoc]⟩⟩
    · simp only [Option.some.injEq] at h; subst h
      exact ⟨rfl, rfl, ⟨by simp, by simp⟩⟩
  | parseOptionSetsGccLanguage =>
    refine hsame ?_ (by simp)
    simp only [ParseRule.apply, parseOptionSetsGccLanguage, hq] at h
    split at h
    · simp only [Option.some.injEq] at h; subst h
      exact ⟨rfl, rfl, ⟨List.prefix_refl _, List.prefix_refl _⟩⟩
    · exact hgcc _ _ _ _ h rfl rfl (List.prefix_refl _) (List.prefix_refl _)
  | parseOptionIsUnsupported =>
    refine hsame ?_ (by simp)
    simp only [ParseRule.apply, parseOptionIsUnsupported, Option.some.injEq] at h
    subst h
    exact ⟨rfl, rfl, ⟨by simp, by simp⟩⟩

/-- One iteration of the loop: the two flags and the two commands. -/
theorem parseCommandStep_frame (E : Env) (rules : CompilerParseRulesMap) (wd : Str)
    (c c2 : ParsedCommand) (h : parseCommandStep E rules wd c = some c2) :
    (c2.d_md_option_set = true ↔ c.d_md_option_set = true ∨
        InterferesFront E rules ["-MD".toList, "-MMD".toList] c) ∧
      (c2.d_upload_all_include_dirs = true ↔ c.d_upload_all_include_dirs = true ∨
        InterferesFront E rules
          ["-Wmissing-include-dirs".toList, "-Werror=missing-include-dirs".toList] c) ∧
      StepGrows c c2 := by
  unfold parseCommandStep at h
  cases hq : c.d_originalCommand with
  | nil => simp [hq] at h
  | cons t q =>
    simp only [hq] at h
    have hfront : ∀ tokens : List Str, InterferesFront E rules tokens c ↔
        t ∈ tokens ∧ ∃ flag, matchCompilerOptions E t rules
          = some (flag, .parseInterfersWithDepsOption) := by
      intro tokens
      constructor
      · rintro ⟨t2, q2, flag, e1, e2, e3⟩
        rw [hq] at e1
        simp only [List.cons.injEq] at e1
        rw [e1.1]
        exact ⟨e2, flag, e3⟩
      · rintro ⟨e2, flag, e3⟩
        exact ⟨t, q, flag, hq, e2, e3⟩
    cases hm : matchCompilerOptions E t rules with
    | some om =>
      simp only [hm] at h
      obtain ⟨a1, a2, a3⟩ := ParseRule_apply_frame E wd om.1 om.2 c c2 t q hq h
      refine ⟨?_, ?_, a3⟩
      · rw [a1, hfront]
        simp only [hm, Option.some.injEq]
        constructor
        · rintro (h1 | ⟨h1, h2⟩)
          · exact Or.inl h1
          · exact Or.inr ⟨h2, om.1, by rw [← h1]⟩
        · rintro (h1 | ⟨h2, flag, h3⟩)
          · exact Or.inl h1
          · exact Or.inr ⟨by rw [h3], h2⟩
      · rw [a2, hfront]
        simp only [hm, Option.some.injEq]
        constructor
        · rintro (h1 | ⟨h1, h2⟩)
          · exact Or.inl h1
          · exact Or.inr ⟨h2, om.1, by rw [← h1]⟩
        · rintro (h1 | ⟨h2, flag, h3⟩)
          · exact Or.inl h1
          · exact Or.inr ⟨by rw [h3], h2⟩
    | none =>
      simp only [hm] at h
      have hno : ∀ tokens : List Str, ¬ InterferesFront E rules tokens c := by
        intro tokens hf
        obtain ⟨-, flag, e3⟩ := (hfront tokens).1 hf
        rw [hm] at e3
        cases e3
      have hsame : c2.d_md_option_set = c.d_md_option_set ∧
          c2.d_upload_all_include_dirs = c.d_upload_all_include_dirs ∧ StepGrows c c2 := by
        split at h
        · simp only [Option.some.injEq] at h; subst h
          exact ⟨rfl, rfl, ⟨List.prefix_refl _, List.prefix_refl _⟩⟩
        · split at h
          · obtain ⟨a1, a2, -, a4⟩ := appendAndRemoveOption_frame _ _ _ _ _ _ _ _ h
            exact ⟨a1, a2, a4⟩
          · simp only [Option.some.injEq] at h; subst h
            exact ⟨rfl, rfl, ⟨by simp, by simp⟩⟩
      obtain ⟨e1, e2, e3⟩ := hsame
      simp [e1, e2, e3, hno]

/-- A state reached from `c` is `c` or is reached from the state after the first iteration. -/
theorem parserReaches_cases (E : Env) (rules : CompilerParseRulesMap) (wd : Str)
    (c s : ParsedCommand) (h : ParserReaches E rules wd c s) :
    s = c ∨ ∃ c1, parseCommandStep E rules wd c = some c1 ∧ ParserReaches E rules wd c1 s := by
  induction h with
  | start => exact Or.inl rfl
  | next s0 s2 _ hstep ih =>
    rcases ih with h0 | ⟨c1, h1, h2⟩
    · rw [h0] at hstep
      exact Or.inr ⟨s2, hstep, ParserReaches.start⟩
    · exact Or.inr ⟨c1, h1, ParserReaches.next s0 s2 h2 hstep⟩

/-- A state reached from the state after the first iteration is reached from `c`. -/
theorem parserReaches_head (E : Env) (rules : CompilerParseRulesMap) (wd : Str)
    (c c1 s : ParsedCommand) (hstep : parseCommandStep E rules wd c = some c1)
    (h : ParserReaches E rules wd c1 s) : ParserReaches E rules wd c s := by
  induction h with
  | start => exact ParserReaches.next c c1 ParserReaches.start hstep
  | next s0 s2 _ hstep2 ih => exact ParserReaches.next s0 s2 ih hstep2

/-- A flag that an iteration sets exactly at the fronts `F` and never clears is set after
the loop exactly if it was set before or the parser reaches a state with front `F`. -/
theorem parseCommand_flag (E : Env) (rules : CompilerParseRulesMap) (wd : Str)
    (flag : ParsedCommand → Bool) (F : ParsedCommand → Prop)
    (hF : ∀ c, F c → c.d_originalCommand ≠ [])
    (hstep : ∀ c c1, parseCommandStep E rules wd c = some c1 →
      (flag c1 = true ↔ flag c = true ∨ F c))
    (c c2 : ParsedCommand) (h : parseCommand E rules wd c = some c2) :
    flag c2 = true ↔ flag c = true ∨ ∃ s, ParserReaches E rules wd c s ∧ F s := by
  refine parseCommand_induction E rules wd
    (fun c c2 => flag c2 = true ↔ flag c = true ∨ ∃ s, ParserReaches E rules wd c s ∧ F s)
    ?_ ?_ c c2 h
  · intro c hq
    constructor
    · exact fun h => Or.inl h
    · rintro (h | ⟨s, hs, hfs⟩)
      · exact h
      · rw [parserReaches_of_nil E rules wd c s hq hs] at hfs
        exact absurd hq (hF c hfs)
  · intro c c1 c2 h1 _ ih
    rw [ih, hstep c c1 h1]
    constructor
    · rintro ((h | h) | ⟨s, hs, hfs⟩)
      · exact Or.inl h
      · exact Or.inr ⟨c, ParserReaches.start, h⟩
      · exact Or.inr ⟨s, parserReaches_head E rules wd c c1 s h1 hs, hfs⟩
    · rintro (h | ⟨s, hs, hfs⟩)
      · exact Or.inl (Or.inl h)
      · rcases parserReaches_cases E rules wd c s hs with h0 | ⟨c1b, h1b, h2b⟩
        · rw [h0] at hfs
          exact Or.inl (Or.inr hfs)
        · rw [h1] at h1b
          cases h1b
          exact Or.inr ⟨s, h2b, hfs⟩

/-- The loop adds behind what the two commands hold. -/
theorem parseCommand_grows (E : Env) (rules : CompilerParseRulesMap) (wd : Str)
    (c c2 : ParsedCommand) (h : parseCommand E rules wd c = some c2) : StepGrows c c2 := by
  refine parseCommand_induction E rules wd (fun c c2 => StepGrows c c2) ?_ ?_ c c2 h
  · intro c _
    exact ⟨List.prefix_refl _, List.prefix_refl _⟩
  · intro c c1 c2 h1 _ ih
    obtain ⟨-, -, a⟩ := parseCommandStep_frame E rules wd c c1 h1
    exact ⟨a.command.trans ih.command, a.dependenciesCommand.trans ih.dependenciesCommand⟩

/-! ## Options that interfere with the deps command -/

/-- A hit of the scan: the stripped token is no key, and exactly one key is a leading part of
the token. -/
theorem matchCompilerOptions_scan (E : Env) (hE : E.IteratesEntries)
    (T : CompilerParseRulesMap) (t k : Str) (r : ParseRule) (hdash : t.head? = some '-')
    (hexact : ∀ b ∈ T, b.1 ≠ strippedOption t) (hk : (k, r) ∈ T)
    (hpre : t.take k.length = k)
    (huniq : ∀ b ∈ T, t.take b.1.length = b.1 → b = (k, r)) :
    matchCompilerOptions E t T = some (k, r) := by
  cases t with
  | nil => simp at hdash
  | cons ch t2 =>
    have hch : ch = '-' := by simpa using hdash
    subst hch
    have h1 : T.find? (fun b => decide (b.1 = strippedOption ('-' :: t2))) = none := by
      rw [List.find?_eq_none]
      intro b hb; simpa using hexact b hb
    simp only [matchCompilerOptions, h1]
    refine find?_eq_some_of_unique _ _ (k, r) ((hE T).mem_iff.2 hk) (by simpa using hpre) ?_
    intro b hb hp
    exact huniq b ((hE T).mem_iff.1 hb) (by simpa using hp)

set_option maxRecDepth 100000 in
/-- The six interfering options that `GccRules` holds as plain keys. -/
theorem GccRules_interferes_exact :
    ∀ t ∈ ["-MD".toList, "-MMD".toList, "-MG".toList, "-MP".toList, "-MV".toList,
        "-Wmissing-include-dirs".toList],
      t.head? = some '-' ∧ strippedOption t = t ∧
        (t, ParseRule.parseInterfersWithDepsOption) ∈ GccRules ∧
        ∀ b ∈ GccRules, b.1 = t → b = (t, ParseRule.parseInterfersWithDepsOption) := by
  decide

set_option maxRecDepth 100000 in
/-- The key `-Werror=missing-include-dirs` of `GccRules`: the stripped token `-Werror` is no
key, and the key is the only one that is a leading part of the token. -/
theorem GccRules_Werror_missing :
    (∀ b ∈ GccRules, b.1 ≠ strippedOption "-Werror=missing-include-dirs".toList) ∧
      ("-Werror=missing-include-dirs".toList, ParseRule.parseInterfersWithDepsOption)
        ∈ GccRules ∧
      (∀ b ∈ GccRules,
        "-Werror=missing-include-dirs".toList.take b.1.length = b.1 →
          b = ("-Werror=missing-include-dirs".toList,
            ParseRule.parseInterfersWithDepsOption)) := by
  decide

set_option maxRecDepth 100000 in
/-- The five interfering options of `GccPreprocessorRules`. -/
theorem GccPreprocessorRules_interferes_exact :
    ∀ t ∈ ["-MD".toList, "-MMD".toList, "-MG".toList, "-MP".toList, "-MV".toList],
      t.head? = some '-' ∧ strippedOption t = t ∧
        (t, ParseRule.parseInterfersWithDepsOption) ∈ GccPreprocessorRules ∧
        ∀ b ∈ GccPreprocessorRules, b.1 = t →
          b = (t, ParseRule.parseInterfersWithDepsOption) := by
  decide

/-- Each of the seven interfering options is matched by its own key of `GccRules`. -/
theorem matchCompilerOptions_interferes_gcc (E : Env) (hE : E.IteratesEntries) (t : Str)
    (ht : t ∈ ["-MD".toList, "-MMD".toList, "-MG".toList, "-MP".toList, "-MV".toList,
      "-Wmissing-include-dirs".toList, "-Werror=missing-include-dirs".toList]) :
    matchCompilerOptions E t GccRules = some (t, .parseInterfersWithDepsOption) := by
  by_cases hw : t = "-Werror=missing-include-dirs".toList
  · subst hw
    obtain ⟨h1, h2, h3⟩ := GccRules_Werror_missing
    exact matchCompilerOptions_scan E hE GccRules _ _ _ (by decide) h1 h2 (by decide) h3
  · have ht2 : t ∈ ["-MD".toList, "-MMD".toList, "-MG".toList, "-MP".toList, "-MV".toList,
        "-Wmissing-include-dirs".toList] := by
      simp only [List.mem_cons, List.mem_singleton, List.not_mem_nil, or_false] at ht ⊢
      tauto
    obtain ⟨h1, h2, h3, h4⟩ := GccRules_interferes_exact t ht2
    exact matchCompilerOptions_exact E GccRules t t _ h1 h2 h3 h4

/-- Each of `-MD`, `-MMD` is matched by its own key of `GccRules`, whatever the order of the
scan. -/
theorem matchCompilerOptions_md_gcc (E : Env) (t : Str)
    (ht : t ∈ ["-MD".toList, "-MMD".toList]) :
    matchCompilerOptions E t GccRules = some (t, .parseInterfersWithDepsOption) := by
  have ht2 : t ∈ ["-MD".toList, "-MMD".toList, "-MG".toList, "-MP".toList, "-MV".toList,
      "-Wmissing-include-dirs".toList] := by
    simp only [List.mem_cons, List.mem_singleton, List.not_mem_nil, or_false] at ht ⊢
    tauto
  obtain ⟨h1, h2, h3, h4⟩ := GccRules_interferes_exact t ht2
  exact matchCompilerOptions_exact E GccRules t t _ h1 h2 h3 h4

/-- Each of the five interfering options is matched by its own key of
`GccPreprocessorRules`. -/
theorem matchCompilerOptions_interferes_preprocessor (E : Env) (t : Str)
    (ht : t ∈ ["-MD".toList, "-MMD".toList, "-MG".toList, "-MP".toList, "-MV".toList]) :
    matchCompilerOptions E t GccPreprocessorRules
      = some (t, .parseInterfersWithDepsOption) := by
  obtain ⟨h1, h2, h3, h4⟩ := GccPreprocessorRules_interferes_exact t ht
  exact matchCompilerOptions_exact E GccPreprocessorRules t t _ h1 h2 h3 h4

/-- One iteration at a token that the table maps to the interfering rule. -/
theorem parseCommandStep_interferes (E : Env) (rules : CompilerParseRulesMap) (wd : Str)
    (c : ParsedCommand) (t : Str) (q : List Str) (k : Str)
    (hq : c.d_originalCommand = t :: q)
    (hm : matchCompilerOptions E t rules = some (k, .parseInterfersWithDepsOption)) :
    ∃ c2, parseCommandStep E rules wd c = some c2 ∧
      c2.d_command = c.d_command ++ [t] ∧
      c2.d_dependenciesCommand = c.d_dependenciesCommand ∧
      c2.d_originalCommand = q := by
  rw [parseCommandStep_matched E rules wd c t q k _ hq hm]
  simp only [ParseRule.apply, parseInterfersWithDepsOption, hq]
  exact ⟨_, rfl, rfl, rfl, rfl⟩

/-- With tokens that the table maps to the interfering rule, the parser reaches a state with
such a token in front exactly if it reaches the token. -/
theorem interferesFront_iff (E : Env) (rules : CompilerParseRulesMap) (wd : Str)
    (tokens : List Str) (c : ParsedCommand)
    (hm : ∀ t ∈ tokens,
      matchCompilerOptions E t rules = some (t, .parseInterfersWithDepsOption)) :
    (∃ s, ParserReaches E rules wd c s ∧ InterferesFront E rules tokens s) ↔
      ∃ t ∈ tokens, ReachesToken E rules wd c t := by
  constructor
  · rintro ⟨s, hs, t, q, flag, h1, h2, -⟩
    exact ⟨t, h2, s, hs, by rw [h1]; rfl⟩
  · rintro ⟨t, h2, s, hs, h1⟩
    cases hq : s.d_originalCommand with
    | nil => rw [hq] at h1; cases h1
    | cons t2 q =>
      rw [hq] at h1
      simp only [List.head?_cons, Option.some.injEq] at h1
      subst h1
      exact ⟨s, hs, t2, q, t2, hq, h2, hm t2 h2⟩

/-- A parser with nothing to read reaches no token. -/
theorem reachesToken_nil (E : Env) (rules : CompilerParseRulesMap) (wd : Str)
    (c : ParsedCommand) (t : Str) (hq : c.d_originalCommand = []) :
    ¬ ReachesToken E rules wd c t := by
  rintro ⟨s, hs, h1⟩
  rw [parserReaches_of_nil E rules wd c s hq hs, hq] at h1
  cases h1

/-- The two flags after `parseCommand`. -/
theorem parseCommand_flags (E : Env) (rules : CompilerParseRulesMap) (wd : Str)
    (c c2 : ParsedCommand) (h : parseCommand E rules wd c = some c2) :
    (c2.d_md_option_set = true ↔ c.d_md_option_set = true ∨
        ∃ s, ParserReaches E rules wd c s ∧
          InterferesFront E rules ["-MD".toList, "-MMD".toList] s) ∧
      (c2.d_upload_all_include_dirs = true ↔ c.d_upload_all_include_dirs = true ∨
        ∃ s, ParserReaches E rules wd c s ∧
          InterferesFront E rules
            ["-Wmissing-include-dirs".toList, "-Werror=missing-include-dirs".toList] s) := by
  have hF : ∀ tokens c, InterferesFront E rules tokens c → c.d_originalCommand ≠ [] := by
    rintro tokens c ⟨t, q, flag, h1, -, -⟩ h0
    rw [h0] at h1
    cases h1
  constructor
  · exact parseCommand_flag E rules wd (fun c => c.d_md_option_set) _ (hF _)
      (fun c c1 h1 => (parseCommandStep_frame E rules wd c c1 h1).1) c c2 h
  · exact parseCommand_flag E rules wd (fun c => c.d_upload_all_include_dirs) _ (hF _)
      (fun c c1 h1 => (parseCommandStep_frame E rules wd c c1 h1).2.1) c c2 h

/-- The constructor leaves the two flags unset. -/
theorem construct_flags (E : Env) (argv : List Str) (wd : Str) :
    (ParsedCommand.construct E argv wd).d_md_option_set = false ∧
      (ParsedCommand.construct E argv wd).d_upload_all_include_dirs = false := by
  have h1 : ∀ d, (ParsedCommand.classifyDialect E d).d_md_option_set = false ∧
      (ParsedCommand.classifyDialect E d).d_upload_all_include_dirs = false := by
    intro d
    unfold ParsedCommand.classifyDialect
    cases E.RECC_PLATFORM_COMPILER <;> simp only [] <;> split_ifs <;>
      simp [ParsedCommand.empty]
  cases argv with
  | nil => exact ⟨rfl, rfl⟩
  | cons a0 rest =>
    simp only [ParsedCommand.construct]
    split_ifs
    · exact ⟨rfl, rfl⟩
    · exact h1 _

/-- The two flags after the block that handles the collected preprocessor options. -/
theorem mergePreprocessorOptions_flags (E : Env) (wd : Str) (pc pc2 : ParsedCommand)
    (h : mergePreprocessorOptions E wd pc = some pc2) :
    (pc2.d_md_option_set = true ↔ pc.d_md_option_set = true ∨
        ∃ t ∈ ["-MD".toList, "-MMD".toList],
          ReachesToken E GccPreprocessorRules wd (queueOnly pc.d_preProcessorOptions) t) ∧
      pc2.d_upload_all_include_dirs = pc.d_upload_all_include_dirs := by
  unfold mergePreprocessorOptions at h
  split_ifs at h with hlen
  · obtain ⟨pre, hpre, hpc2⟩ := Option.map_eq_some'.1 h
    subst hpc2
    refine ⟨?_, rfl⟩
    have := (parseCommand_flags E GccPreprocessorRules wd _ pre hpre).1
    rw [interferesFront_iff E GccPreprocessorRules wd _ _
      (fun t ht => matchCompilerOptions_interferes_preprocessor E t (by
        simp only [List.mem_cons, List.mem_singleton, List.not_mem_nil, or_false] at ht ⊢
        tauto))] at this
    simp only [Bool.or_eq_true, this, queueOnly, ParsedCommand.empty]
    simp only [Bool.false_eq_true, false_or]
    exact or_comm
  · cases h
    refine ⟨?_, rfl⟩
    have hq : (queueOnly pc.d_preProcessorOptions).d_originalCommand = [] := by
      simpa [queueOnly] using hlen
    constructor
    · exact Or.inl
    · rintro (h | ⟨t, -, ht⟩)
      · exact h
      · exact absurd ht (reachesToken_nil E _ wd _ t hq)

/-- C12: in the gcc dialect, each of `-MD`, `-MMD`, `-MG`, `-MP`, `-MV`,
`-Wmissing-include-dirs`, `-Werror=missing-include-dirs` reached under `GccRules`, and each of
the first five reached in the reparse of the pass-through tokens under
`GccPreprocessorRules`, is appended unchanged to `command` and leaves `dependencies_command`
as it is. After `createParsedCommand`, `md_option_set` is true exactly if the parser reached
`-MD` or `-MMD` in the command line, or the command holds no unsupported option and the
reparse of the collected pass-through tokens reached one of them; `upload_all_include_dirs` is
true exactly if the parser reached `-Wmissing-include-dirs` or
`-Werror=missing-include-dirs` in the command line. -/
theorem C12_interferes_with_deps (E : Env) (hE : E.IteratesEntries) (wd : Str) :
    (∀ (c : ParsedCommand) (t : Str) (q : List Str),
      t ∈ ["-MD".toList, "-MMD".toList, "-MG".toList, "-MP".toList, "-MV".toList,
        "-Wmissing-include-dirs".toList, "-Werror=missing-include-dirs".toList] →
      c.d_originalCommand = t :: q →
      ∃ c2, parseCommandStep E GccRules wd c = some c2 ∧
        c2.d_command = c.d_command ++ [t] ∧
        c2.d_dependenciesCommand = c.d_dependenciesCommand ∧
        c2.d_originalCommand = q) ∧
    (∀ (c : ParsedCommand) (t : Str) (q : List Str),
      t ∈ ["-MD".toList, "-MMD".toList, "-MG".toList, "-MP".toList, "-MV".toList] →
      c.d_originalCommand = t :: q →
      ∃ c2, parseCommandStep E GccPreprocessorRules wd c = some c2 ∧
        c2.d_command = c.d_command ++ [t] ∧
        c2.d_dependenciesCommand = c.d_dependenciesCommand ∧
        c2.d_originalCommand = q) ∧
    (∀ (argv : List Str) (pc : ParsedCommand),
      GccDialect E (ParsedCommand.construct E argv wd).d_compiler →
      createParsedCommand E argv wd = some pc →
      (pc.d_md_option_set = true ↔
        (∃ t ∈ ["-MD".toList, "-MMD".toList],
          ReachesToken E GccRules wd (ParsedCommand.construct E argv wd) t) ∨
        (∃ pc1, parseCommand E GccRules wd (ParsedCommand.construct E argv wd) = some pc1 ∧
          pc1.d_containsUnsupportedOptions = false ∧
          ∃ t ∈ ["-MD".toList, "-MMD".toList],
            ReachesToken E GccPreprocessorRules wd (queueOnly pc1.d_preProcessorOptions) t)) ∧
      (pc.d_upload_all_include_dirs = true ↔
        ∃ t ∈ ["-Wmissing-include-dirs".toList, "-Werror=missing-include-dirs".toList],
          ReachesToken E GccRules wd (ParsedCommand.construct E argv wd) t)) := by
  refine ⟨?_, ?_, ?_⟩
  · intro c t q ht hq
    exact parseCommandStep_interferes E GccRules wd c t q t hq
      (matchCompilerOptions_interferes_gcc E hE t ht)
  · intro c t q ht hq
    exact parseCommandStep_interferes E GccPreprocessorRules wd c t q t hq
      (matchCompilerOptions_interferes_preprocessor E t ht)
  · intro argv pc hgcc h
    obtain ⟨hmd0, hup0⟩ := construct_flags E argv wd
    cases argv with
    | nil =>
      simp only [createParsedCommand, if_true, Option.some.injEq] at h
      subst h
      have hq : (ParsedCommand.construct E [] wd).d_originalCommand = [] := rfl
      constructor
      · constructor
        · intro h; cases h
        · rintro (⟨t, -, ht⟩ | ⟨pc1, hpc1, -, t, -, ht⟩)
          · exact absurd ht (reachesToken_nil E _ wd _ t hq)
          · rw [parseCommand_nil E _ wd _ hq] at hpc1
            cases hpc1
            exact absurd ht (reachesToken_nil E _ wd _ t rfl)
      · constructor
        · intro h; cases h
        · rintro ⟨t, -, ht⟩
          exact absurd ht (reachesToken_nil E _ wd _ t hq)
    | cons a0 rest =>
      simp only [createParsedCommand, List.cons_ne_nil, if_false] at h
      rw [rulesToUse_gcc E _ hgcc] at h
      obtain ⟨pc1, hparse, hfin⟩ := Option.bind_eq_some.1 h
      obtain ⟨hmd1, hup1⟩ := parseCommand_flags E GccRules wd _ pc1 hparse
      rw [interferesFront_iff E GccRules wd _ _
        (fun t ht => matchCompilerOptions_md_gcc E t ht), hmd0] at hmd1
      rw [interferesFront_iff E GccRules wd _ _
        (fun t ht => matchCompilerOptions_interferes_gcc E hE t (by
          simp only [List.mem_cons, List.mem_singleton, List.not_mem_nil, or_false] at ht ⊢
          tauto)), hup0] at hup1
      simp only [Bool.false_eq_true, false_or] at hmd1 hup1
      by_cases hu1 : pc1.d_containsUnsupportedOptions = true
      · rw [finishParsedCommand, if_pos hu1] at hfin
        cases hfin
        refine ⟨?_, hup1⟩
        simp only [hmd1]
        constructor
        · exact Or.inl
        · rintro (h | ⟨pc1b, hpc1b, hub, -⟩)
          · exact h
          · rw [hparse] at hpc1b
            cases hpc1b
            rw [hu1] at hub
            cases hub
      · rw [finishParsedCommand, if_neg hu1] at hfin
        obtain ⟨pc2, hmerge, hpc⟩ := Option.map_eq_some'.1 hfin
        subst hpc
        obtain ⟨hmd2, hup2⟩ := mergePreprocessorOptions_flags E wd pc1 pc2 hmerge
        refine ⟨?_, by simp only [hup2, hup1]⟩
        simp only [hmd2, hmd1]
        constructor
        · rintro (h | h)
          · exact Or.inl h
          · exact Or.inr ⟨pc1, hparse, by simpa using hu1, h⟩
        · rintro (h | ⟨pc1b, hpc1b, -, h⟩)
          · exact Or.inl h
          · rw [hparse] at hpc1b
            cases hpc1b
            exact Or.inr h

set_option maxRecDepth 100000 in
/-- C12 at `gcc -c hello.c -Wp,-MMD -Werror=missing-include-dirs`: both flags are set; the
parser reached `-Werror=missing-include-dirs` in the command line, and `-MD` or `-MMD` in the
command line or in the reparse of the pass-through tokens. -/
theorem C12_interferes_with_deps_witness :
    ∃ pc, createParsedCommand sampleEnv
        ["gcc".toList, "-c".toList, "hello.c".toList, "-Wp,-MMD".toList,
          "-Werror=missing-include-dirs".toList] [] = some pc ∧
      pc.d_md_option_set = true ∧ pc.d_upload_all_include_dirs = true ∧
      pc.d_command = ["gcc".toList, "-c".toList, "hello.c".toList,
        "-Werror=missing-include-dirs".toList, "-Xpreprocessor".toList, "-MMD".toList] ∧
      pc.d_dependenciesCommand = ["gcc".toList, "-c".toList, "hello.c".toList,
        "-M".toList] ∧
      ((∃ t ∈ ["-MD".toList, "-MMD".toList],
          ReachesToken sampleEnv GccRules [] (ParsedCommand.construct sampleEnv
            ["gcc".toList, "-c".toList, "hello.c".toList, "-Wp,-MMD".toList,
              "-Werror=missing-include-dirs".toList] []) t) ∨
        (∃ pc1, parseCommand sampleEnv GccRules [] (ParsedCommand.construct sampleEnv
            ["gcc".toList, "-c".toList, "hello.c".toList, "-Wp,-MMD".toList,
              "-Werror=missing-include-dirs".toList] []) = some pc1 ∧
          pc1.d_containsUnsupportedOptions = false ∧
          ∃ t ∈ ["-MD".toList, "-MMD".toList],
            ReachesToken sampleEnv GccPreprocessorRules []
              (queueOnly pc1.d_preProcessorOptions) t)) ∧
      (∃ t ∈ ["-Wmissing-include-dirs".toList, "-Werror=missing-include-dirs".toList],
        ReachesToken sampleEnv GccRules [] (ParsedCommand.construct sampleEnv
          ["gcc".toList, "-c".toList, "hello.c".toList, "-Wp,-MMD".toList,
            "-Werror=missing-include-dirs".toList] []) t) := by
  have hrun : (createParsedCommand sampleEnv
      ["gcc".toList, "-c".toList, "hello.c".toList, "-Wp,-MMD".toList,
        "-Werror=missing-include-dirs".toList] []).map
      (fun pc => (pc.d_md_option_set, pc.d_upload_all_include_dirs, pc.d_command,
        pc.d_dependenciesCommand))
      = some (true, true, ["gcc".toList, "-c".toList, "hello.c".toList,
        "-Werror=missing-include-dirs".toList, "-Xpreprocessor".toList, "-MMD".toList],
        ["gcc".toList, "-c".toList, "hello.c".toList, "-M".toList]) := by decide
  obtain ⟨pc, hpc, hfields⟩ := Option.map_eq_some'.1 hrun
  simp only [Prod.mk.injEq] at hfields
  obtain ⟨hmd, hup, hc, hd⟩ := hfields
  obtain ⟨h1, h2⟩ := (C12_interferes_with_deps sampleEnv (fun _ => List.Perm.refl _) []).2.2
    _ pc (by decide) hpc
  exact ⟨pc, hpc, hmd, hup, hc, hd, h1.1 hmd, h2.1 hup⟩

/-! ## Preprocessor pass-through -/

/-- A token that begins with a plain flag `k` of the table, where no key of the table is a
shorter leading part of `k` and no other key begins with `k`: the rule of `k`, by the exact
hit or by the scan, in whatever order the scan visits the table. -/
theorem matchCompilerOptions_prefix (E : Env) (hE : E.IteratesEntries)
    (T : CompilerParseRulesMap) (k p : Str) (r : ParseRule) (hdash : k.head? = some '-')
    (hplain : PlainFlag k) (hk : (k, r) ∈ T)
    (hshort : ∀ b ∈ T, b.1.length < k.length → k.take b.1.length ≠ b.1)
    (hlong : ∀ b ∈ T, b.1.take k.length = k → b = (k, r)) :
    matchCompilerOptions E (k ++ p) T = some (k, r) := by
  cases k with
  | nil => simp at hdash
  | cons ch k2 =>
    have hch : ch = '-' := by simpa using hdash
    subst hch
    simp only [matchCompilerOptions, List.cons_append]
    cases hfind : T.find? (fun b => decide (b.1 = strippedOption ('-' :: (k2 ++ p)))) with
    | some kv =>
      have hmem : kv ∈ T := List.mem_of_find?_eq_some hfind
      have hkey : kv.1 = strippedOption ('-' :: (k2 ++ p)) := by
        simpa using List.find?_some hfind
      have htake := strippedOption_take ('-' :: k2) p hplain
      rw [List.cons_append, ← hkey] at htake
      have := hlong kv hmem htake
      simp only
      rw [← hkey, this]
    | none =>
      simp only
      refine find?_eq_some_of_unique _ _ ('-' :: k2, r) ((hE T).mem_iff.2 hk) (by simp) ?_
      intro b hb hp
      have hbT : b ∈ T := (hE T).mem_iff.1 hb
      have hp2 : ('-' :: (k2 ++ p)).take b.1.length = b.1 := by simpa using hp
      by_cases hlen : b.1.length < ('-' :: k2).length
      · exfalso
        refine hshort b hbT hlen ?_
        rw [← List.cons_append, List.take_append_of_le_length (Nat.le_of_lt hlen)] at hp2
        exact hp2
      · have h1 := take_of_key _ _ ('-' :: k2).length hp2 (Nat.le_of_not_lt hlen)
        refine hlong b hbT ?_
        rw [h1, ← List.cons_append]
        simp

set_option maxRecDepth 100000 in
/-- What the table `GccRules` holds for `-Wp,`: the pass-through rule, no key is a shorter
leading part of `-Wp,`, and no other key begins with `-Wp,`. -/
theorem GccRules_Wp :
    ("-Wp,".toList, ParseRule.parseIsPreprocessorArgOption) ∈ GccRules ∧
      (∀ b ∈ GccRules, b.1.length < "-Wp,".toList.length →
        "-Wp,".toList.take b.1.length ≠ b.1) ∧
      (∀ b ∈ GccRules, b.1.take "-Wp,".toList.length = "-Wp,".toList →
        b = ("-Wp,".toList, ParseRule.parseIsPreprocessorArgOption)) := by
  decide

set_option maxRecDepth 100000 in
/-- What the table `GccRules` holds for `-Xpreprocessor`. -/
theorem GccRules_Xpreprocessor :
    ("-Xpreprocessor".toList, ParseRule.parseIsPreprocessorArgOption) ∈ GccRules ∧
      ∀ b ∈ GccRules, b.1 = "-Xpreprocessor".toList →
        b = ("-Xpreprocessor".toList, ParseRule.parseIsPreprocessorArgOption) := by
  decide

set_option maxRecDepth 100000 in
/-- The input-path flags of `GccPreprocessorRules`. -/
theorem GccPreprocessorRules_input_path :
    ∀ k ∈ ["-include".toList, "-imacros".toList, "-I".toList, "-iquote".toList,
        "-isystem".toList, "-idirafter".toList, "-iprefix".toList, "-isysroot".toList],
      k.head? = some '-' ∧ strippedOption k = k ∧
        (k, ParseRule.parseIsInputPathOption) ∈ GccPreprocessorRules ∧
        ∀ b ∈ GccPreprocessorRules, b.1 = k → b = (k, ParseRule.parseIsInputPathOption) := by
  decide

/-- What `parseStageOptionList` adds does not depend on what `*result` holds. -/
theorem parseStageOptionList_append (option : Str) (result : List Str) :
    parseStageOptionList option result = result ++ parseStageOptionList option [] := by
  have h : ∀ (option : Str) (quoted : Bool) (current : Str) (acc : List Str),
      option.foldl parseStageOptionListStep (quoted, current, result ++ acc)
        = ((option.foldl parseStageOptionListStep (quoted, current, acc)).1,
            (option.foldl parseStageOptionListStep (quoted, current, acc)).2.1,
            result ++ (option.foldl parseStageOptionListStep (quoted, current, acc)).2.2) := by
    intro option
    induction option with
    | nil => intro quoted current acc; rfl
    | cons ch rest ih =>
      intro quoted current acc
      simp only [List.foldl_cons]
      have hs : parseStageOptionListStep (quoted, current, result ++ acc) ch
          = ((parseStageOptionListStep (quoted, current, acc) ch).1,
              (parseStageOptionListStep (quoted, current, acc) ch).2.1,
              result ++ (parseStageOptionListStep (quoted, current, acc) ch).2.2) := by
        unfold parseStageOptionListStep
        split_ifs <;> simp
      rw [hs, ih]
  have h0 := h option false [] []
  simp only [List.append_nil] at h0
  simp only [parseStageOptionList, h0, List.append_assoc]

/-- Without a single quote in it, the list is split at its commas. -/
theorem parseStageOptionList_splitOn (option : Str) (hq : '\'' ∉ option) :
    parseStageOptionList option [] = option.splitOn ',' := by
  have h : ∀ (option : Str), '\'' ∉ option → ∀ (current : Str) (acc : List Str),
      (option.foldl parseStageOptionListStep (false, current, acc)).2.2 ++
          [(option.foldl parseStageOptionListStep (false, current, acc)).2.1]
        = acc ++ List.splitOnP.go (fun x => x == ',') option current.reverse := by
    intro option
    induction option with
    | nil =>
      intro _ current acc
      simp [List.splitOnP.go]
    | cons ch rest ih =>
      intro hq current acc
      have hch : ch ≠ '\'' := fun h => hq (by simp [h])
      have hrest : '\'' ∉ rest := fun h => hq (by simp [h])
      simp only [List.foldl_cons, List.splitOnP.go]
      by_cases hc : ch = ','
      · subst hc
        have hs : parseStageOptionListStep (false, current, acc) ','
            = (false, [], acc ++ [current]) := by
          simp [parseStageOptionListStep]
        rw [hs, ih hrest]
        simp
      · have hs : parseStageOptionListStep (false, current, acc) ch
            = (false, current ++ [ch], acc) := by
          simp [parseStageOptionListStep, hch, hc]
        rw [hs, ih hrest]
        simp [hc]
  have h0 := h option hq [] []
  simp only [List.nil_append, List.reverse_nil] at h0
  simp only [parseStageOptionList, h0, List.splitOn, List.splitOnP]

/-- One iteration at a token `-Wp,body` under `GccRules`. -/
theorem parseCommandStep_Wp (E : Env) (hE : E.IteratesEntries) (wd : Str) (c : ParsedCommand)
    (body : Str) (q : List Str) (hq : c.d_originalCommand = ("-Wp,".toList ++ body) :: q) :
    parseCommandStep E GccRules wd c = some
      { c with
        d_preProcessorOptions := c.d_preProcessorOptions ++ parseStageOptionList body []
        d_originalCommand := q } := by
  have hm : matchCompilerOptions E ("-Wp,".toList ++ body) GccRules
      = some ("-Wp,".toList, .parseIsPreprocessorArgOption) :=
    matchCompilerOptions_prefix E hE GccRules _ body _ (by decide) (by decide) GccRules_Wp.1
      GccRules_Wp.2.1 GccRules_Wp.2.2
  rw [parseCommandStep_matched E GccRules wd c _ q _ _ hq hm]
  simp only [ParseRule.apply, parseIsPreprocessorArgOption, hq, if_true,
    List.drop_left]
  rw [parseStageOptionList_append]

/-- One iteration at the tokens `-Xpreprocessor`, `tok` under `GccRules`. -/
theorem parseCommandStep_Xpreprocessor (E : Env) (wd : Str) (c : ParsedCommand)
    (tok : Str) (q : List Str) (hq : c.d_originalCommand = "-Xpreprocessor".toList :: tok :: q) :
    parseCommandStep E GccRules wd c = some
      { c with
        d_preProcessorOptions := c.d_preProcessorOptions ++ [tok]
        d_originalCommand := q } := by
  have hm : matchCompilerOptions E "-Xpreprocessor".toList GccRules
      = some ("-Xpreprocessor".toList, .parseIsPreprocessorArgOption) :=
    matchCompilerOptions_exact E GccRules _ _ _ (by decide) (by decide)
      GccRules_Xpreprocessor.1 GccRules_Xpreprocessor.2
  rw [parseCommandStep_matched E GccRules wd c _ _ _ _ hq hm]
  have hne : ¬ "-Xpreprocessor".toList = "-Wp,".toList := by decide
  simp only [ParseRule.apply, parseIsPreprocessorArgOption, hq, if_neg hne, if_true]

/-- C15, amended: in the gcc dialect, a token `-Wp,body` is taken off the work queue and adds
to the collected preprocessor options the pieces of `body` between the commas that stand
outside single quotes, the single quotes left out (for a `body` without a single quote: `body`
split at its commas); the tokens `-Xpreprocessor`, `tok` are taken off and add `tok`; neither
adds to `command` or `dependencies_command`, and the collected options keep the order of
argv. In the reparse under `GccPreprocessorRules` an input-path flag followed by a path adds
the flag and the rewritten path to `command`, the flag and the local path to
`dependencies_command`. When the command line holds no unsupported option, the result of
`createParsedCommand` is the result of the main parse with, for every token `t` of the
`command` (resp. `dependencies_command`) of the reparse, the pair `-Xpreprocessor`, `t`
appended behind all other tokens of `command` (resp. of `dependencies_command`, and before
the default tail), and with the products and deps products of the reparse added. -/
theorem C15_preprocessor_passthrough (E : Env) (hE : E.IteratesEntries) (wd : Str) :
    (∀ (c : ParsedCommand) (body : Str) (q : List Str),
      c.d_originalCommand = ("-Wp,".toList ++ body) :: q →
      parseCommandStep E GccRules wd c = some
        { c with
          d_preProcessorOptions := c.d_preProcessorOptions ++ parseStageOptionList body []
          d_originalCommand := q }) ∧
    (∀ body : Str, '\'' ∉ body → parseStageOptionList body [] = body.splitOn ',') ∧
    (∀ (c : ParsedCommand) (tok : Str) (q : List Str),
      c.d_originalCommand = "-Xpreprocessor".toList :: tok :: q →
      parseCommandStep E GccRules wd c = some
        { c with
          d_preProcessorOptions := c.d_preProcessorOptions ++ [tok]
          d_originalCommand := q }) ∧
    (∀ (c : ParsedCommand) (k p : Str) (q : List Str),
      k ∈ ["-include".toList, "-imacros".toList, "-I".toList, "-iquote".toList,
        "-isystem".toList, "-idirafter".toList, "-iprefix".toList, "-isysroot".toList] →
      c.d_originalCommand = k :: p :: q →
      ∃ c2, parseCommandStep E GccPreprocessorRules wd c = some c2 ∧
        c2.d_command = c.d_command ++ [k, E.modifyPathForRemote p wd true] ∧
        c2.d_dependenciesCommand = c.d_dependenciesCommand ++ [k, p] ∧
        c2.d_originalCommand = q) ∧
    (∀ (argv : List Str) (pc1 pre : ParsedCommand), argv ≠ [] →
      GccDialect E (ParsedCommand.construct E argv wd).d_compiler →
      parseCommand E GccRules wd (ParsedCommand.construct E argv wd) = some pc1 →
      pc1.d_containsUnsupportedOptions = false →
      parseCommand E GccPreprocessorRules wd (queueOnly pc1.d_preProcessorOptions)
        = some pre →
      ∃ pc, createParsedCommand E argv wd = some pc ∧
        pc.d_command = pc1.d_command ++ withXpreprocessor pre.d_command ∧
        pc.d_dependenciesCommand = pc1.d_dependenciesCommand ++
          withXpreprocessor pre.d_dependenciesCommand ++ pc1.d_defaultDepsCommand ∧
        pc.d_commandProducts = pc1.d_commandProducts ∪ pre.d_commandProducts ∧
        pc.d_commandDepsProducts
          = pc1.d_commandDepsProducts ∪ pre.d_commandDepsProducts) := by
  refine ⟨?_, ?_, ?_, ?_, ?_⟩
  · intro c body q hq
    exact parseCommandStep_Wp E hE wd c body q hq
  · intro body hbody
    exact parseStageOptionList_splitOn body hbody
  · intro c tok q hq
    exact parseCommandStep_Xpreprocessor E wd c tok q hq
  · intro c k p q hk hq
    obtain ⟨h1, h2, h3, h4⟩ := GccPreprocessorRules_input_path k hk
    have hm := matchCompilerOptions_exact E GccPreprocessorRules k k _ h1 h2 h3 h4
    obtain ⟨c2, g1, g2, g3, -, -, -, g7⟩ :=
      parseGccOption_split E wd k true false false c p q hq
    exact ⟨c2, by rw [parseCommandStep_matched E _ wd c _ _ _ _ hq hm]; exact g1, g2,
      by simpa using g3, g7⟩
  · intro argv pc1 pre hne hgcc hparse hu hpre
    simp only [createParsedCommand, if_neg hne]
    rw [rulesToUse_gcc E _ hgcc, hparse, Option.some_bind, finishParsedCommand,
      if_neg (by simp [hu])]
    by_cases hlen : pc1.d_preProcessorOptions.length > 0
    · have hmerge : mergePreprocessorOptions E wd pc1 = some
          { pc1 with
            d_command := pc1.d_command ++ withXpreprocessor pre.d_command
            d_dependenciesCommand := pc1.d_dependenciesCommand ++
              withXpreprocessor pre.d_dependenciesCommand
            d_commandProducts := pc1.d_commandProducts ∪ pre.d_commandProducts
            d_commandDepsProducts := pc1.d_commandDepsProducts ∪ pre.d_commandDepsProducts
            d_md_option_set := pre.d_md_option_set || pc1.d_md_option_set } := by
        unfold mergePreprocessorOptions
        rw [if_pos hlen]
        show (parseCommand E GccPreprocessorRules wd
          (queueOnly pc1.d_preProcessorOptions)).map _ = _
        rw [hpre]
        rfl
      rw [hmerge]
      exact ⟨_, rfl, rfl, rfl, rfl, rfl⟩
    · have hmerge : mergePreprocessorOptions E wd pc1 = some pc1 := by
        unfold mergePreprocessorOptions
        rw [if_neg hlen]
      have hq : (queueOnly pc1.d_preProcessorOptions).d_originalCommand = [] := by
        simpa [queueOnly] using hlen
      rw [parseCommand_nil E _ wd _ hq] at hpre
      cases hpre
      rw [hmerge]
      refine ⟨_, rfl, ?_, ?_, ?_, ?_⟩ <;>
        simp [queueOnly, ParsedCommand.empty, withXpreprocessor]

set_option maxRecDepth 100000 in
/-- C15, amended, at the test `testPreprocessor`, project root `/home/nobody/`, working
directory `/home/nobody/test`: the token `-Wp,-I,/home/nobody/evenmoreheaders` adds `-I` and
the path to the collected options, and the command line of the test gives the `command`, the
`dependencies_command` and the products that the test expects. -/
theorem C15_preprocessor_passthrough_witness :
    (parseCommandStep sampleEnv GccRules "/home/nobody/test".toList
        (queueOnly ["-Wp,-I,/home/nobody/evenmoreheaders".toList])).map
        (fun c2 => (c2.d_preProcessorOptions, c2.d_command, c2.d_dependenciesCommand,
          c2.d_originalCommand))
      = some (["-I".toList, "/home/nobody/evenmoreheaders".toList], [], [], []) ∧
    (createParsedCommand sampleEnv
        ["gcc".toList, "-c".toList, "/home/nobody/test/hello.c".toList, "-o".toList,
          "/home/nobody/test/hello.o".toList, "-I/home/nobody/headers".toList, "-I".toList,
          "/home/nobody/test/moreheaders/".toList,
          "-Wp,-I,/home/nobody/evenmoreheaders".toList, "-Xpreprocessor".toList,
          "-I".toList, "-Xpreprocessor".toList, "/usr/include/something".toList]
        "/home/nobody/test".toList).map
        (fun pc => (pc.d_command, pc.d_dependenciesCommand, pc.d_commandProducts))
      = some (
        ["gcc".toList, "-c".toList, "hello.c".toList, "-o".toList, "hello.o".toList,
          "-I../headers".toList, "-I".toList, "moreheaders".toList,
          "-Xpreprocessor".toList, "-I".toList, "-Xpreprocessor".toList,
          "../evenmoreheaders".toList, "-Xpreprocessor".toList, "-I".toList,
          "-Xpreprocessor".toList, "/usr/include/something".toList],
        ["gcc".toList, "-c".toList, "/home/nobody/test/hello.c".toList,
          "-I/home/nobody/headers".toList, "-I".toList,
          "/home/nobody/test/moreheaders/".toList,
          "-Xpreprocessor".toList, "-I".toList, "-Xpreprocessor".toList,
          "/home/nobody/evenmoreheaders".toList, "-Xpreprocessor".toList, "-I".toList,
          "-Xpreprocessor".toList, "/usr/include/something".toList, "-M".toList],
        {"hello.o".toList}) := by
  constructor
  · rw [(C15_preprocessor_passthrough sampleEnv (fun _ => List.Perm.refl _)
      "/home/nobody/test".toList).1 (queueOnly ["-Wp,-I,/home/nobody/evenmoreheaders".toList])
      "-I,/home/nobody/evenmoreheaders".toList [] rfl]
    decide
  · decide

set_option maxRecDepth 100000 in
/-- C15 as stated fails at the token `-Wp,-DX='a,b'`: split at its commas the body gives the
two tokens `-DX='a` and `b'`, and the code collects the one token `-DX=a,b`, which
`gcc -c hello.c -Wp,-DX='a,b'` then carries behind one `-Xpreprocessor`. -/
theorem C15_quoted_comma_counterexample :
    "-DX='a,b'".toList.splitOn ',' = ["-DX='a".toList, "b'".toList] ∧
    (parseCommandStep sampleEnv GccRules []
        (queueOnly ["-Wp,-DX='a,b'".toList])).map (fun c2 => c2.d_preProcessorOptions)
      = some ["-DX=a,b".toList] ∧
    (createParsedCommand sampleEnv
        ["gcc".toList, "-c".toList, "hello.c".toList, "-Wp,-DX='a,b'".toList] []).map
        (fun pc => pc.d_command)
      = some ["gcc".toList, "-c".toList, "hello.c".toList, "-Xpreprocessor".toList,
          "-DX=a,b".toList] := by
  decide

/-! ## The compiler path -/

/-- What `createParsedCommand` does after `parseCommand` adds behind what the two commands
hold. -/
theorem finishParsedCommand_grows (E : Env) (argv : List Str) (wd : Str)
    (pc1 pc : ParsedCommand) (h : finishParsedCommand E argv wd pc1 = some pc) :
    StepGrows pc1 pc := by
  unfold finishParsedCommand at h
  split_ifs at h
  · cases h
    exact ⟨List.prefix_refl _, List.prefix_refl _⟩
  · obtain ⟨pc2, hmerge, hpc⟩ := Option.map_eq_some'.1 h
    subst hpc
    unfold mergePreprocessorOptions at hmerge
    split_ifs at hmerge
    · obtain ⟨pre, -, hpc2⟩ := Option.map_eq_some'.1 hmerge
      subst hpc2
      exact ⟨List.prefix_append _ _, by
        simp only [List.append_assoc]
        exact List.prefix_append _ _⟩
    · cases hmerge
      exact ⟨List.prefix_refl _, List.prefix_append _ _⟩

/-- The first token of a list that begins with the one-token list `[a]`. -/
theorem head?_of_singleton_prefix (a : Str) (l : List Str) (h : [a] <+: l) :
    l.head? = some a := by
  obtain ⟨t, rfl⟩ := h
  rfl

/-- C17, amended: for every result of `createParsedCommand` on an argv with a non-empty first
token `a0`, the first token of `command` is `modifyPathForRemote(a0, wd, normalize = false)`
and the first token of `dependencies_command` is `a0` unchanged. -/
theorem C17_compiler_path (E : Env) (a0 : Str) (rest : List Str) (wd : Str)
    (pc : ParsedCommand) (hne : a0 ≠ [])
    (h : createParsedCommand E (a0 :: rest) wd = some pc) :
    pc.d_command.head? = some (E.modifyPathForRemote a0 wd false) ∧
      pc.d_dependenciesCommand.head? = some a0 := by
  simp only [createParsedCommand, List.cons_ne_nil, if_false] at h
  obtain ⟨pc1, hparse, hfin⟩ := Option.bind_eq_some.1 h
  obtain ⟨-, -, -, -, hc, hd, -⟩ := construct_fields E a0 rest wd hne
  have g1 := parseCommand_grows E _ wd _ pc1 hparse
  have g2 := finishParsedCommand_grows E _ wd pc1 pc hfin
  constructor
  · refine head?_of_singleton_prefix _ _ ?_
    rw [← hc]
    exact g1.command.trans g2.command
  · refine head?_of_singleton_prefix _ _ ?_
    rw [← hd]
    exact g1.dependenciesCommand.trans g2.dependenciesCommand

set_option maxRecDepth 100000 in
/-- C17, amended, at `./gcc -c hello.c` in `/home/nobody/`: the leading `./` stays in
`command` and in `dependencies_command`. -/
theorem C17_compiler_path_witness :
    ∃ pc, createParsedCommand sampleEnv
        ["./gcc".toList, "-c".toList, "hello.c".toList] "/home/nobody/".toList = some pc ∧
      pc.d_command.head? = some "./gcc".toList ∧
      pc.d_dependenciesCommand.head? = some "./gcc".toList := by
  have hrun : (createParsedCommand sampleEnv
      ["./gcc".toList, "-c".toList, "hello.c".toList] "/home/nobody/".toList).isSome
        = true := by decide
  obtain ⟨pc, hpc⟩ := Option.isSome_iff_exists.1 hrun
  obtain ⟨h1, h2⟩ := C17_compiler_path sampleEnv "./gcc".toList
    ["-c".toList, "hello.c".toList] "/home/nobody/".toList pc (by decide) hpc
  exact ⟨pc, hpc, by rw [h1]; decide, h2⟩

set_option maxRecDepth 100000 in
/-- C17 as stated fails at the command line of the test `testInputPathsAndGCC`,
`gcc -c /home/nobody/test/hello.c -I/home/nobody/test/include/user.h` in `/home/nobody/`: the
first token of `command` is the bare name `gcc`, without a `/`, as the test expects, and the
first token of argv has no `/` either. -/
theorem C17_bare_name_counterexample :
    (createParsedCommand sampleEnv
        ["gcc".toList, "-c".toList, "/home/nobody/test/hello.c".toList,
          "-I/home/nobody/test/include/user.h".toList] "/home/nobody/".toList).map
        (fun pc => pc.d_command)
      = some ["gcc".toList, "-c".toList, "test/hello.c".toList,
          "-Itest/include/user.h".toList] ∧
    '/' ∉ "gcc".toList := by
  decide

/-! ## commandBasename -/

/-- The loop that steps back over version characters, begun at `n`, leaves the first `n`
characters without their trailing run of version characters. -/
theorem dropVersionCharacters_take (basename : Str) (n : Nat) (hn : n ≤ basename.length) :
    basename.take (dropVersionCharacters basename n)
      = (basename.take n).rdropWhile is_version_character := by
  induction n with
  | zero => simp [dropVersionCharacters, List.rdropWhile]
  | succ n ih =>
    have hlt : n < basename.length := hn
    have hget : basename.getD n ' ' = basename[n] := by
      simp [List.getD, List.getElem?_eq_getElem hlt]
    have htake : basename.take (n + 1) = basename.take n ++ [basename[n]] := by
      rw [List.take_succ, List.getElem?_eq_getElem hlt]
      rfl
    rw [htake, List.rdropWhile_concat, dropVersionCharacters, hget]
    split_ifs with hv
    · exact ih (Nat.le_of_lt hlt)
    · exact htake

/-- The part of a path behind its last `/`. -/
theorem takeWhile_after_slash (d b : Str) (hb : '/' ∉ b) :
    ((d ++ '/' :: b).reverse.takeWhile (fun c => c != '/')).reverse = b ∧
      (b.reverse.takeWhile (fun c => c != '/')).reverse = b := by
  have hall : ∀ a ∈ b.reverse, (fun c => c != '/') a = true := by
    intro a ha
    have : a ≠ '/' := fun h => hb (by rw [← h]; exact List.mem_reverse.1 ha)
    simpa using this
  constructor
  · rw [List.reverse_append, List.reverse_cons, List.append_assoc,
      List.takeWhile_append_of_pos hall]
    simp
  · have := @List.takeWhile_append_of_pos Char (fun c => c != '/') b.reverse [] hall
    simp only [List.append_nil, List.takeWhile_nil] at this
    rw [this, List.reverse_reverse]

/-- A trailing run of characters that satisfy `p` is dropped whole. -/
theorem rdropWhile_append_all (p : Char → Bool) (n v : Str) (hv : ∀ c ∈ v, p c = true) :
    (n ++ v).rdropWhile p = n.rdropWhile p := by
  unfold List.rdropWhile
  rw [List.reverse_append, List.dropWhile_append_of_pos]
  intro a ha
  exact hv a (List.mem_reverse.1 ha)

/-- A name that does not end in `_r`, followed by version characters, does not end in
`_r`. -/
theorem not_suffix_r_append (n v : Str) (hn : ¬ "_r".toList <:+ n)
    (hv : ∀ c ∈ v, is_version_character c = true) : ¬ "_r".toList <:+ n ++ v := by
  rcases List.eq_nil_or_concat v with h0 | ⟨v2, c, hc⟩
  · subst h0
    simpa using hn
  · subst hc
    rintro ⟨t, ht⟩
    have hlast := congrArg List.getLast? ht
    have h1 : (t ++ "_r".toList).getLast? = some 'r' := by
      have : t ++ "_r".toList = (t ++ ['_']) ++ ['r'] := by simp
      rw [this, List.getLast?_concat]
    have h2 : (n ++ v2.concat c).getLast? = some c := by
      rw [List.concat_eq_append, ← List.append_assoc, List.getLast?_concat]
    rw [h1, h2] at hlast
    have hcr : c = 'r' := by simpa using hlast.symm
    have := hv c (by simp)
    rw [hcr] at this
    exact absurd this (by decide)

/-- The two tests on `_r` in `commandBasename`, by leading and trailing parts. -/
theorem commandBasename_tests (basename : Str) :
    (basename.drop (basename.length - 2) = ['_', 'r'] ↔ "_r".toList <:+ basename) ∧
      ((3 < basename.length ∧ (basename.drop (basename.length - 3)).take 2 = ['_', 'r']) ↔
        (3 < basename.length ∧ "_r".toList <:+ basename.dropLast)) := by
  constructor
  · rw [List.suffix_iff_eq_drop]
    exact eq_comm
  · refine and_congr_right (fun hlen => ?_)
    rw [List.suffix_iff_eq_drop, List.dropLast_eq_take, List.drop_take]
    have h1 : (basename.take (basename.length - 1)).length = basename.length - 1 := by
      simp
    have h2 : "_r".toList.length = 2 := rfl
    rw [h1, h2]
    have h3 : basename.length - 1 - 2 = basename.length - 3 := by omega
    have h4 : basename.length - 1 - (basename.length - 3) = 2 := by omega
    rw [h3, h4]
    exact eq_comm

/-- The result of `commandBasename` by the part `basename` of the path behind its last
`/`. -/
theorem commandBasename_of_basename (path basename : Str)
    (hpath : path = basename ∨ ∃ d, path = d ++ '/' :: basename) (hb : '/' ∉ basename) :
    commandBasename path =
      (if 2 < basename.length ∧ "_r".toList <:+ basename then
          basename.take (basename.length - 2)
        else if 3 < basename.length ∧ "_r".toList <:+ basename.dropLast then
          basename.take (basename.length - 3)
        else basename).rdropWhile is_version_character := by
  have hbase : (path.reverse.takeWhile (fun c => c != '/')).reverse = basename := by
    rcases hpath with h | ⟨d, h⟩
    · rw [h]; exact (takeWhile_after_slash [] basename hb).2
    · rw [h]; exact (takeWhile_after_slash d basename hb).1
  obtain ⟨t1, t2⟩ := commandBasename_tests basename
  simp only [commandBasename, hbase, List.length_cons, List.length_nil, gt_iff_lt, t1, t2]
  split_ifs
  · exact dropVersionCharacters_take basename _ (Nat.sub_le _ _)
  · exact dropVersionCharacters_take basename _ (Nat.sub_le _ _)
  · rw [dropVersionCharacters_take basename _ (Nat.le_refl _), List.take_length]

/-- C18, amended: `commandBasename(path)` is, for every path with the part `b` behind its
last `/`: `b` without its trailing `_r` when `b` is longer than 2 characters and ends in `_r`;
otherwise `b` without its last three characters when `b` is longer than 3 characters and has
`_r` right before its last character; otherwise `b`; and of that, what is left without its
trailing run of characters in `[0-9.-]`. Consequently, for every directory prefix `d`, every
non-empty name `n` without `/` that ends neither in a version character nor in `_r`, and
every version string `v`: `commandBasename(d/n v _r) = n`, and `commandBasename(d/n v) = n`
unless `v` is empty and `n` is longer than 3 characters with `_r` right before its last
character. -/
theorem C18_commandBasename :
    (∀ path b : Str, (path = b ∨ ∃ d, path = d ++ '/' :: b) → '/' ∉ b →
      commandBasename path =
        (if 2 < b.length ∧ "_r".toList <:+ b then b.take (b.length - 2)
          else if 3 < b.length ∧ "_r".toList <:+ b.dropLast then b.take (b.length - 3)
          else b).rdropWhile is_version_character) ∧
    (∀ d n v : Str, n ≠ [] → '/' ∉ n →
      (∀ c, n.getLast? = some c → is_version_character c = false) →
      ¬ "_r".toList <:+ n → (∀ c ∈ v, is_version_character c = true) →
      commandBasename (d ++ '/' :: (n ++ v ++ "_r".toList)) = n ∧
        ((v = [] → 3 < n.length → ¬ "_r".toList <:+ n.dropLast) →
          commandBasename (d ++ '/' :: (n ++ v)) = n)) := by
  refine ⟨commandBasename_of_basename, ?_⟩
  intro d n v hne hslash hlast hr hv
  have hvs : '/' ∉ v := fun h => absurd (hv _ h) (by decide)
  have hstrip : (n ++ v).rdropWhile is_version_character = n := by
    rw [rdropWhile_append_all _ n v hv, List.rdropWhile_eq_self_iff]
    intro hl
    have := hlast _ (List.getLast?_eq_getLast n hl)
    simp [this]
  constructor
  · rw [commandBasename_of_basename _ (n ++ v ++ "_r".toList) (Or.inr ⟨d, rfl⟩)
      (by simp [hslash, hvs])]
    have hlen : 2 < (n ++ v ++ "_r".toList).length := by
      have : 0 < n.length := List.length_pos.2 hne
      simp only [List.length_append]
      have h2 : "_r".toList.length = 2 := rfl
      omega
    rw [if_pos ⟨hlen, List.suffix_append _ _⟩]
    have htake : (n ++ v ++ "_r".toList).take ((n ++ v ++ "_r".toList).length - 2)
        = n ++ v := by
      apply List.take_left'
      simp only [List.length_append]
      have h2 : "_r".toList.length = 2 := rfl
      omega
    rw [htake, hstrip]
  · intro hbranch
    rw [commandBasename_of_basename _ (n ++ v) (Or.inr ⟨d, rfl⟩) (by simp [hslash, hvs])]
    have h1 : ¬ (2 < (n ++ v).length ∧ "_r".toList <:+ n ++ v) :=
      fun h => not_suffix_r_append n v hr hv h.2
    have h2 : ¬ (3 < (n ++ v).length ∧ "_r".toList <:+ (n ++ v).dropLast) := by
      rintro ⟨hlen, hsuf⟩
      rcases List.eq_nil_or_concat v with h0 | ⟨v2, c, hc⟩
      · subst h0
        rw [List.append_nil] at hlen hsuf
        exact hbranch rfl hlen hsuf
      · subst hc
        rw [List.concat_eq_append, ← List.append_assoc, List.dropLast_concat] at hsuf
        refine not_suffix_r_append n v2 hr (fun c2 hc2 => hv c2 ?_) hsuf
        simp [hc2]
    rw [if_neg h1, if_neg h2, hstrip]

/-- C18, amended, at the two paths of the claim: `/usr/bin/gcc-4.7` gives `gcc` and
`./xlc++_r` gives `xlc++`. -/
theorem C18_commandBasename_witness :
    commandBasename "/usr/bin/gcc-4.7".toList = "gcc".toList ∧
      commandBasename "./xlc++_r".toList = "xlc++".toList := by
  constructor
  · exact ((C18_commandBasename.2 "/usr/bin".toList "gcc".toList "-4.7".toList (by decide)
      (by decide) (by decide) (by decide) (by decide)).2 (by decide))
  · exact ((C18_commandBasename.2 ".".toList "xlc++".toList [] (by decide)
      (by decide) (by decide) (by decide) (by decide)).1)

/-- C18 as stated fails at `/usr/bin/cc_rx`: the name `cc_rx` is not empty, has no `/` and
ends neither in a version character nor in `_r`, and with the empty version string the code
gives `cc`, where the description of the claim gives `cc_rx`; and at `./_r` the code gives
`_r`, where the description gives the empty name. -/
theorem C18_r_before_last_counterexample :
    "cc_rx".toList ≠ [] ∧ '/' ∉ "cc_rx".toList ∧
      (∀ c, "cc_rx".toList.getLast? = some c → is_version_character c = false) ∧
      ¬ "_r".toList <:+ "cc_rx".toList ∧
      commandBasename ("/usr/bin".toList ++ '/' :: ("cc_rx".toList ++ [])) = "cc".toList ∧
      commandBasenameAsClaimed ("/usr/bin".toList ++ '/' :: ("cc_rx".toList ++ []))
        = "cc_rx".toList ∧
      commandBasename "./_r".toList = "_r".toList ∧
      commandBasenameAsClaimed "./_r".toList = [] := by
  refine ⟨by decide, by decide, ?_, by decide, by decide, by decide, by decide, by decide⟩
  intro c hc
  have : c = 'x' := by simpa using hc.symm
  rw [this]
  decide

/-! ## Deps::determine_products -/

/-- Behind a list, a run of elements that satisfy `p` is taken whole by `takeWhile` from the
end; in front of one that does not, nothing more is taken. -/
theorem takeWhile_reverse_append (p : Char → Bool) (x y : Str) (hy : ∀ c ∈ y, p c = true) :
    ((x ++ y).reverse.takeWhile p).reverse = (x.reverse.takeWhile p).reverse ++ y := by
  rw [List.reverse_append, List.takeWhile_append_of_pos
    (fun a ha => hy a (List.mem_reverse.1 ha))]
  simp

/-- The file name behind the last `/`. -/
theorem sourceFile_dir (dir name : Str) (hname : '/' ∉ name) :
    sourceFile (dir ++ '/' :: name) = name ∧ sourceFile name = name := by
  constructor
  · rw [sourceFile, if_pos (by simp)]
    exact (takeWhile_after_slash dir name hname).1
  · rw [sourceFile, if_neg hname]

/-- A suffix without `/` stays behind when the directory part is taken off. -/
theorem sourceFile_append (x y : Str) (hy : '/' ∉ y) :
    sourceFile (x ++ y) = sourceFile x ++ y := by
  have hall : ∀ c ∈ y, (fun c => c != '/') c = true := by
    intro c hc
    have : c ≠ '/' := fun h => hy (by rw [← h]; exact hc)
    simpa using this
  have hx : sourceFile x = (x.reverse.takeWhile (fun c => c != '/')).reverse := by
    by_cases h : '/' ∈ x
    · rw [sourceFile, if_pos h]
    · rw [sourceFile, if_neg h, (takeWhile_after_slash [] x h).2]
  have hxy : sourceFile (x ++ y)
      = ((x ++ y).reverse.takeWhile (fun c => c != '/')).reverse := by
    by_cases h : '/' ∈ x ++ y
    · rw [sourceFile, if_pos h]
    · rw [sourceFile, if_neg h, (takeWhile_after_slash [] (x ++ y) h).2]
  rw [hxy, hx, takeWhile_reverse_append _ x y hall]

/-- The parts of a file name before and behind its last `.`. -/
theorem lastDot_parts (x s : Str) (hs : '.' ∉ s) :
    ((x ++ '.' :: s).reverse.takeWhile (fun c => c != '.')).reverse = s ∧
      (((x ++ '.' :: s).reverse.dropWhile (fun c => c != '.')).drop 1).reverse = x := by
  have hall : ∀ a ∈ s.reverse, (fun c => c != '.') a = true := by
    intro a ha
    have : a ≠ '.' := fun h => hs (by rw [← h]; exact List.mem_reverse.1 ha)
    simpa using this
  constructor
  · rw [List.reverse_append, List.reverse_cons, List.append_assoc,
      List.takeWhile_append_of_pos hall]
    simp
  · rw [List.reverse_append, List.reverse_cons, List.append_assoc,
      List.dropWhile_append_of_pos hall]
    simp

/-- The tests on the suffix and the name without it, for a file name `x.s`. -/
theorem suffix_tests (x s : Str) (hs : '.' ∉ s) :
    is_header_file (x ++ '.' :: s) = is_header_file ('.' :: s) ∧
      is_source_file (x ++ '.' :: s) = is_source_file ('.' :: s) ∧
      sourceName (x ++ '.' :: s) = x := by
  have h1 := lastDot_parts x s hs
  have h2 := lastDot_parts [] s hs
  simp only [List.nil_append] at h2
  refine ⟨?_, ?_, ?_⟩
  · simp only [is_header_file, h1.1, h2.1, List.mem_append, List.mem_cons, true_or, or_true,
      if_true]
  · simp only [is_source_file, h1.1, h2.1, List.mem_append, List.mem_cons, true_or, or_true,
      if_true]
  · simp only [sourceName, h1.2, List.mem_append, List.mem_cons, true_or, or_true, if_true]

set_option maxRecDepth 100000 in
/-- The eight source suffixes: none holds a `.` or a `/`, and a file name that ends in one
is a source file and no header file. -/
theorem source_suffixes_tests :
    ∀ s ∈ ["cc".toList, "c".toList, "cp".toList, "cxx".toList, "cpp".toList, "CPP".toList,
        "c++".toList, "C".toList],
      '.' ∉ s ∧ '/' ∉ s ∧ is_source_file ('.' :: s) = true ∧
        is_header_file ('.' :: s) = false := by
  decide

set_option maxRecDepth 100000 in
/-- The nine header suffixes: none holds a `.` or a `/`, and a file name that ends in one
is a header file. -/
theorem header_suffixes_tests :
    ∀ s ∈ ["h".toList, "hh".toList, "H".toList, "hp".toList, "hxx".toList, "hpp".toList,
        "HPP".toList, "h++".toList, "tcc".toList],
      '.' ∉ s ∧ '/' ∉ s ∧ is_header_file ('.' :: s) = true := by
  decide

/-- An input file `x.s` with a source suffix `s`: what the loop tests and uses. -/
theorem source_input (x s : Str)
    (hs : s ∈ ["cc".toList, "c".toList, "cp".toList, "cxx".toList, "cpp".toList,
      "CPP".toList, "c++".toList, "C".toList]) :
    is_header_file (sourceFile (x ++ '.' :: s)) = false ∧
      is_source_file (sourceFile (x ++ '.' :: s)) = true ∧
      sourceName (sourceFile (x ++ '.' :: s)) = sourceFile x := by
  obtain ⟨h1, h2, h3, h4⟩ := source_suffixes_tests s hs
  have hy : '/' ∉ '.' :: s := by
    simp only [List.mem_cons, not_or]
    exact ⟨by decide, h2⟩
  obtain ⟨t1, t2, t3⟩ := suffix_tests (sourceFile x) s h1
  rw [sourceFile_append x _ hy, t1, t2, t3]
  exact ⟨h4, h3, rfl⟩

/-- An input file `x.s` with a header suffix `s`: what the loop tests and uses. -/
theorem header_input (x s : Str)
    (hs : s ∈ ["h".toList, "hh".toList, "H".toList, "hp".toList, "hxx".toList,
      "hpp".toList, "HPP".toList, "h++".toList, "tcc".toList]) :
    is_header_file (sourceFile (x ++ '.' :: s)) = true := by
  obtain ⟨h1, h2, h3⟩ := header_suffixes_tests s hs
  have hy : '/' ∉ '.' :: s := by
    simp only [List.mem_cons, not_or]
    exact ⟨by decide, h2⟩
  rw [sourceFile_append x _ hy, (suffix_tests (sourceFile x) s h1).1]
  exact h3

/-- The loop of `determine_products` over input files for each of which the body adds one
product `g f`. -/
theorem determineProducts_fold (pc : ParsedCommand) (g : Str → Str) (l : List Str)
    (hstep : ∀ f ∈ l, ∀ r, determineProductsStep pc r f = .ok (insert (g f) r))
    (r : Finset Str) :
    l.foldlM (determineProductsStep pc) r = .ok (r ∪ (l.map g).toFinset) := by
  induction l generalizing r with
  | nil => simp [pure, Except.pure]
  | cons f rest ih =>
    rw [List.foldlM_cons, hstep f (by simp) r]
    show List.foldlM (determineProductsStep pc) (insert (g f) r) rest = _
    rw [ih (fun f2 hf2 => hstep f2 (by simp [hf2]))]
    congr 1
    ext a
    simp only [Finset.mem_union, Finset.mem_insert, List.map_cons, List.toFinset_cons]
    tauto

/-- What the body of the loop has done when it did not throw. -/
theorem determineProductsStep_ok (pc : ParsedCommand) (r r2 : Finset Str) (f : Str)
    (h : determineProductsStep pc r f = .ok r2) :
    r ⊆ r2 ∧
      (is_header_file (sourceFile f) = true → sourceFile f ++ ".gch".toList ∈ r2) := by
  unfold determineProductsStep at h
  simp only at h
  split_ifs at h <;> cases h <;>
    refine ⟨fun a ha => by simp [ha], fun hh => by simp_all⟩

/-- What the loop has done when it did not throw. -/
theorem determineProducts_ok (pc : ParsedCommand) (l : List Str) (r products : Finset Str)
    (h : l.foldlM (determineProductsStep pc) r = .ok products) :
    r ⊆ products ∧
      ∀ f ∈ l, is_header_file (sourceFile f) = true →
        sourceFile f ++ ".gch".toList ∈ products := by
  induction l generalizing r with
  | nil =>
    have : r = products := by simpa [pure, Except.pure] using h
    subst this
    exact ⟨Finset.Subset.refl _, fun f hf => by simp at hf⟩
  | cons f rest ih =>
    rw [List.foldlM_cons] at h
    cases hs : determineProductsStep pc r f with
    | error e => rw [hs] at h; cases h
    | ok r2 =>
      rw [hs] at h
      obtain ⟨h1, h2⟩ := determineProductsStep_ok pc r r2 f hs
      obtain ⟨h3, h4⟩ := ih r2 h
      refine ⟨h1.trans h3, ?_⟩
      intro f2 hf2 hh
      rcases List.mem_cons.1 hf2 with h0 | h0
      · rw [h0]
        rw [h0] at hh
        exact h3 (h2 hh)
      · exact h4 f2 h0 hh

/-- C19: for a compiler command without `-MD`/`-MMD` whose input files all end in `.` and a
source suffix, `determine_products` returns exactly the set of `stem(f).o` over the input
files `f`, where `stem(f)` is `sourceName (sourceFile f)`: for an input `dir/name.s` and for
an input `name.s`, with `name` without `/`, it is `name`, whatever `dir` is. -/
theorem C19_source_products :
    (∀ pc : ParsedCommand, pc.is_compiler_command = true → pc.d_md_option_set = false →
      (∀ f ∈ pc.d_inputFiles, ∃ x s, f = x ++ '.' :: s ∧
        s ∈ ["cc".toList, "c".toList, "cp".toList, "cxx".toList, "cpp".toList,
          "CPP".toList, "c++".toList, "C".toList]) →
      determine_products pc = .ok
        (pc.d_inputFiles.map (fun f => sourceName (sourceFile f) ++ ".o".toList)).toFinset) ∧
    (∀ dir name s : Str, '/' ∉ name →
      s ∈ ["cc".toList, "c".toList, "cp".toList, "cxx".toList, "cpp".toList,
        "CPP".toList, "c++".toList, "C".toList] →
      sourceName (sourceFile (dir ++ '/' :: (name ++ '.' :: s))) = name ∧
        sourceName (sourceFile (name ++ '.' :: s)) = name) := by
  constructor
  · intro pc hcc hmd hsrc
    have hcc2 : (!pc.is_compiler_command) = false := by simp [hcc]
    rw [determine_products, hcc2]
    simp only [Bool.false_eq_true, if_false]
    rw [determineProducts_fold pc (fun f => sourceName (sourceFile f) ++ ".o".toList)]
    · simp
    · intro f hf r
      obtain ⟨x, s, hfx, hs⟩ := hsrc f hf
      obtain ⟨h1, h2, -⟩ := source_input x s hs
      rw [← hfx] at h1 h2
      simp [determineProductsStep, hmd, h1, h2]
  · intro dir name s hname hs
    have h1 := (source_input (dir ++ '/' :: name) s hs).2.2
    have h2 := (source_input name s hs).2.2
    rw [(sourceFile_dir dir name hname).1] at h1
    rw [(sourceFile_dir dir name hname).2] at h2
    constructor
    · have hassoc : dir ++ '/' :: (name ++ '.' :: s) = (dir ++ '/' :: name) ++ '.' :: s := by
        simp
      rw [hassoc]
      exact h1
    · exact h2

set_option maxRecDepth 100000 in
/-- C19 at `gcc -c subdirectory/empty.c` and at `gcc -c empty.c`: both give `empty.o`
alone. -/
theorem C19_source_products_witness :
    (∃ pc, createParsedCommand sampleEnv
        ["gcc".toList, "-c".toList, "subdirectory/empty.c".toList] [] = some pc ∧
      determine_products pc = .ok {"empty.o".toList}) ∧
    (∃ pc, createParsedCommand sampleEnv
        ["gcc".toList, "-c".toList, "empty.c".toList] [] = some pc ∧
      determine_products pc = .ok {"empty.o".toList}) := by
  constructor
  · have hrun : (createParsedCommand sampleEnv
        ["gcc".toList, "-c".toList, "subdirectory/empty.c".toList] []).map
        (fun pc => (pc.is_compiler_command, pc.d_md_option_set, pc.d_inputFiles))
          = some (true, false, ["subdirectory/empty.c".toList]) := by decide
    obtain ⟨pc, hpc, hfields⟩ := Option.map_eq_some'.1 hrun
    simp only [Prod.mk.injEq] at hfields
    obtain ⟨hcc, hmd, hin⟩ := hfields
    refine ⟨pc, hpc, ?_⟩
    rw [C19_source_products.1 pc hcc hmd (by
      rw [hin]
      intro f hf
      rw [List.mem_singleton] at hf
      exact ⟨"subdirectory/empty".toList, "c".toList, hf, by decide⟩), hin]
    decide
  · have hrun : (createParsedCommand sampleEnv
        ["gcc".toList, "-c".toList, "empty.c".toList] []).map
        (fun pc => (pc.is_compiler_command, pc.d_md_option_set, pc.d_inputFiles))
          = some (true, false, ["empty.c".toList]) := by decide
    obtain ⟨pc, hpc, hfields⟩ := Option.map_eq_some'.1 hrun
    simp only [Prod.mk.injEq] at hfields
    obtain ⟨hcc, hmd, hin⟩ := hfields
    refine ⟨pc, hpc, ?_⟩
    rw [C19_source_products.1 pc hcc hmd (by
      rw [hin]
      intro f hf
      rw [List.mem_singleton] at hf
      exact ⟨"empty".toList, "c".toList, hf, by decide⟩), hin]
    decide

/-- C20: for a compiler command, every input file that ends in `.` and a header suffix has
its file name, the directory stripped and the extension kept, followed by `.gch` among the
products that `determine_products` returns; without `-MD`/`-MMD` and with header inputs alone
the products are exactly these; the file name of `dir/name` and of `name`, for a `name`
without `/`, is `name`. -/
theorem C20_header_products :
    (∀ (pc : ParsedCommand) (products : Finset Str) (f x s : Str),
      pc.is_compiler_command = true → determine_products pc = .ok products →
      f ∈ pc.d_inputFiles → f = x ++ '.' :: s →
      s ∈ ["h".toList, "hh".toList, "H".toList, "hp".toList, "hxx".toList, "hpp".toList,
        "HPP".toList, "h++".toList, "tcc".toList] →
      sourceFile f ++ ".gch".toList ∈ products) ∧
    (∀ pc : ParsedCommand, pc.is_compiler_command = true → pc.d_md_option_set = false →
      (∀ f ∈ pc.d_inputFiles, ∃ x s, f = x ++ '.' :: s ∧
        s ∈ ["h".toList, "hh".toList, "H".toList, "hp".toList, "hxx".toList, "hpp".toList,
          "HPP".toList, "h++".toList, "tcc".toList]) →
      determine_products pc = .ok
        (pc.d_inputFiles.map (fun f => sourceFile f ++ ".gch".toList)).toFinset) ∧
    (∀ dir name : Str, '/' ∉ name →
      sourceFile (dir ++ '/' :: name) = name ∧ sourceFile name = name) := by
  refine ⟨?_, ?_, sourceFile_dir⟩
  · intro pc products f x s hcc hok hf hfx hs
    have hcc2 : (!pc.is_compiler_command) = false := by simp [hcc]
    rw [determine_products, hcc2] at hok
    simp only [Bool.false_eq_true, if_false] at hok
    refine (determineProducts_ok pc _ ∅ products hok).2 f hf ?_
    rw [hfx]
    exact header_input x s hs
  · intro pc hcc hmd hhdr
    have hcc2 : (!pc.is_compiler_command) = false := by simp [hcc]
    rw [determine_products, hcc2]
    simp only [Bool.false_eq_true, if_false]
    rw [determineProducts_fold pc (fun f => sourceFile f ++ ".gch".toList)]
    · simp
    · intro f hf r
      obtain ⟨x, s, hfx, hs⟩ := hhdr f hf
      have h1 := header_input x s hs
      rw [← hfx] at h1
      simp [determineProductsStep, hmd, h1]

set_option maxRecDepth 100000 in
/-- C20 at `gcc -c empty.h` and at `gcc -c subdirectory/header.h`: the products are
`empty.h.gch` alone and `header.h.gch` alone. -/
theorem C20_header_products_witness :
    (∃ pc, createParsedCommand sampleEnv
        ["gcc".toList, "-c".toList, "empty.h".toList] [] = some pc ∧
      determine_products pc = .ok {"empty.h.gch".toList}) ∧
    (∃ pc, createParsedCommand sampleEnv
        ["gcc".toList, "-c".toList, "subdirectory/header.h".toList] [] = some pc ∧
      determine_products pc = .ok {"header.h.gch".toList}) := by
  constructor
  · have hrun : (createParsedCommand sampleEnv
        ["gcc".toList, "-c".toList, "empty.h".toList] []).map
        (fun pc => (pc.is_compiler_command, pc.d_md_option_set, pc.d_inputFiles))
          = some (true, false, ["empty.h".toList]) := by decide
    obtain ⟨pc, hpc, hfields⟩ := Option.map_eq_some'.1 hrun
    simp only [Prod.mk.injEq] at hfields
    obtain ⟨hcc, hmd, hin⟩ := hfields
    refine ⟨pc, hpc, ?_⟩
    rw [C20_header_products.2.1 pc hcc hmd (by
      rw [hin]
      intro f hf
      rw [List.mem_singleton] at hf
      exact ⟨"empty".toList, "h".toList, hf, by decide⟩), hin]
    decide
  · have hrun : (createParsedCommand sampleEnv
        ["gcc".toList, "-c".toList, "subdirectory/header.h".toList] []).map
        (fun pc => (pc.is_compiler_command, pc.d_md_option_set, pc.d_inputFiles))
          = some (true, false, ["subdirectory/header.h".toList]) := by decide
    obtain ⟨pc, hpc, hfields⟩ := Option.map_eq_some'.1 hrun
    simp only [Prod.mk.injEq] at hfields
    obtain ⟨hcc, hmd, hin⟩ := hfields
    refine ⟨pc, hpc, ?_⟩
    rw [C20_header_products.2.1 pc hcc hmd (by
      rw [hin]
      intro f hf
      rw [List.mem_singleton] at hf
      exact ⟨"subdirectory/header".toList, "h".toList, hf, by decide⟩), hin]
    decide

/-! ## Deps::determine_products: unsupported suffixes and commands that do not compile -/

/-- A file name with a `.` is what stands before its last `.`, the `.`, and what stands
behind it. -/
theorem lastDot_split (name : Str) (h : '.' ∈ name) :
    name = ((name.reverse.dropWhile (fun c => c != '.')).drop 1).reverse ++
      '.' :: (name.reverse.takeWhile (fun c => c != '.')).reverse ∧
    '.' ∉ (name.reverse.takeWhile (fun c => c != '.')).reverse := by
  have hsplit := List.takeWhile_append_dropWhile (fun c => c != '.') name.reverse
  have hno : '.' ∉ name.reverse.takeWhile (fun c => c != '.') := by
    intro hmem
    have := List.mem_takeWhile_imp hmem
    simp at this
  cases hd : name.reverse.dropWhile (fun c => c != '.') with
  | nil =>
    rw [hd, List.append_nil] at hsplit
    rw [hsplit] at hno
    exact absurd (List.mem_reverse.2 h) hno
  | cons c rest =>
    have hc : c = '.' := by
      have := List.head_dropWhile_not (fun c => c != '.') name.reverse (by rw [hd]; simp)
      simp only [hd, List.head_cons] at this
      simpa using this
    subst hc
    rw [hd] at hsplit
    constructor
    · have := congrArg List.reverse hsplit
      rw [List.reverse_reverse, List.reverse_append, List.reverse_cons,
        List.append_assoc] at this
      simp only [List.drop_succ_cons, List.drop_zero]
      rw [List.singleton_append] at this
      exact this.symm
    · intro hmem
      exact hno (List.mem_reverse.1 hmem)

/-- The header test, by the form of the file name. -/
theorem is_header_file_iff (name : Str) :
    is_header_file name = true ↔
      ∃ x s, name = x ++ '.' :: s ∧
        s ∈ ["h".toList, "hh".toList, "H".toList, "hp".toList, "hxx".toList, "hpp".toList,
          "HPP".toList, "h++".toList, "tcc".toList] := by
  constructor
  · intro h
    by_cases hdot : '.' ∈ name
    · obtain ⟨h1, -⟩ := lastDot_split name hdot
      refine ⟨_, _, h1, ?_⟩
      simp only [is_header_file, hdot, if_true, decide_eq_true_eq] at h
      simpa using h
    · simp [is_header_file, hdot] at h
  · rintro ⟨x, s, hname, hs⟩
    obtain ⟨h1, -, h3⟩ := header_suffixes_tests s hs
    rw [hname, (suffix_tests x s h1).1]
    exact h3

/-- The source test, by the form of the file name. -/
theorem is_source_file_iff (name : Str) :
    is_source_file name = true ↔
      ∃ x s, name = x ++ '.' :: s ∧
        s ∈ ["cc".toList, "c".toList, "cp".toList, "cxx".toList, "cpp".toList,
          "CPP".toList, "c++".toList, "C".toList] := by
  constructor
  · intro h
    by_cases hdot : '.' ∈ name
    · obtain ⟨h1, -⟩ := lastDot_split name hdot
      refine ⟨_, _, h1, ?_⟩
      simp only [is_source_file, hdot, if_true, decide_eq_true_eq] at h
      simpa using h
    · simp [is_source_file, hdot] at h
  · rintro ⟨x, s, hname, hs⟩
    obtain ⟨h1, -, h3, -⟩ := source_suffixes_tests s hs
    rw [hname, (suffix_tests x s h1).2.1]
    exact h3

/-- The body of the loop throws exactly for a file name that passes neither test, and then
with the message that names the file. -/
theorem determineProductsStep_cases (pc : ParsedCommand) (r : Finset Str) (f : Str) :
    (is_header_file (sourceFile f) = false ∧ is_source_file (sourceFile f) = false ∧
      determineProductsStep pc r f = .error ("File ".toList ++ sourceFile f ++
        " uses a file suffix unsupported for caching".toList)) ∨
    ((is_header_file (sourceFile f) = true ∨ is_source_file (sourceFile f) = true) ∧
      ∃ r2, determineProductsStep pc r f = .ok r2) := by
  unfold determineProductsStep
  cases hh : is_header_file (sourceFile f) <;> cases hs : is_source_file (sourceFile f) <;>
    simp

/-- The loop throws exactly if some input file passes neither test; the message names the
first such file. -/
theorem determineProducts_error_iff (pc : ParsedCommand) (l : List Str) (r : Finset Str) :
    (∃ msg, l.foldlM (determineProductsStep pc) r = .error msg) ↔
      ∃ f ∈ l, is_header_file (sourceFile f) = false ∧
        is_source_file (sourceFile f) = false := by
  induction l generalizing r with
  | nil => simp [pure, Except.pure]
  | cons f rest ih =>
    rw [List.foldlM_cons]
    rcases determineProductsStep_cases pc r f with ⟨h1, h2, h3⟩ | ⟨h1, r2, h3⟩
    · rw [h3]
      constructor
      · intro _
        exact ⟨f, by simp, h1, h2⟩
      · intro _
        exact ⟨_, rfl⟩
    · rw [h3]
      show (∃ msg, List.foldlM (determineProductsStep pc) r2 rest = .error msg) ↔ _
      rw [ih r2]
      constructor
      · rintro ⟨g, hg, h4, h5⟩
        exact ⟨g, by simp [hg], h4, h5⟩
      · rintro ⟨g, hg, h4, h5⟩
        rcases List.mem_cons.1 hg with h0 | h0
        · subst h0
          rcases h1 with h1 | h1
          · rw [h1] at h4; cases h4
          · rw [h1] at h5; cases h5
        · exact ⟨g, h0, h4, h5⟩

/-- What the loop throws is the message for one of the input files. -/
theorem determineProducts_error_message (pc : ParsedCommand) (l : List Str) (r : Finset Str)
    (msg : Str) (h : l.foldlM (determineProductsStep pc) r = .error msg) :
    ∃ f ∈ l, msg = "File ".toList ++ sourceFile f ++
      " uses a file suffix unsupported for caching".toList := by
  induction l generalizing r with
  | nil => simp [pure, Except.pure] at h
  | cons f rest ih =>
    rw [List.foldlM_cons] at h
    rcases determineProductsStep_cases pc r f with ⟨-, -, h3⟩ | ⟨-, r2, h3⟩
    · rw [h3] at h
      cases h
      exact ⟨f, by simp, rfl⟩
    · rw [h3] at h
      obtain ⟨g, hg, hmsg⟩ := ih r2 h
      exact ⟨g, by simp [hg], hmsg⟩

/-- C22: for a compiler command, `determine_products` throws `invalid_argument` exactly if
some input file's name, its directory stripped, does not end in `.` and a suffix of the header
set or of the source set (a name without `.` among them); then the message is the
unsupported-suffix message for an input file. -/
theorem C22_unsupported_suffix (pc : ParsedCommand) (hcc : pc.is_compiler_command = true) :
    ((∃ msg, determine_products pc = .error msg) ↔
      ∃ f ∈ pc.d_inputFiles, ¬ ∃ x s, sourceFile f = x ++ '.' :: s ∧
        s ∈ ["h".toList, "hh".toList, "H".toList, "hp".toList, "hxx".toList, "hpp".toList,
            "HPP".toList, "h++".toList, "tcc".toList] ++
          ["cc".toList, "c".toList, "cp".toList, "cxx".toList, "cpp".toList,
            "CPP".toList, "c++".toList, "C".toList]) ∧
    (∀ msg, determine_products pc = .error msg →
      ∃ f ∈ pc.d_inputFiles, msg = "File ".toList ++ sourceFile f ++
        " uses a file suffix unsupported for caching".toList) := by
  have hcc2 : (!pc.is_compiler_command) = false := by simp [hcc]
  have hdef : determine_products pc
      = pc.d_inputFiles.foldlM (determineProductsStep pc) ∅ := by
    rw [determine_products, hcc2]
    simp
  rw [hdef]
  refine ⟨?_, fun msg h => determineProducts_error_message pc _ ∅ msg h⟩
  rw [determineProducts_error_iff]
  have htest : ∀ name : Str,
      (is_header_file name = false ∧ is_source_file name = false) ↔
        ¬ ∃ x s, name = x ++ '.' :: s ∧
          s ∈ ["h".toList, "hh".toList, "H".toList, "hp".toList, "hxx".toList,
              "hpp".toList, "HPP".toList, "h++".toList, "tcc".toList] ++
            ["cc".toList, "c".toList, "cp".toList, "cxx".toList, "cpp".toList,
              "CPP".toList, "c++".toList, "C".toList] := by
    intro name
    have e1 := is_header_file_iff name
    have e2 := is_source_file_iff name
    constructor
    · rintro ⟨h1, h2⟩ ⟨x, s, hname, hs⟩
      rcases List.mem_append.1 hs with hs | hs
      · rw [e1.2 ⟨x, s, hname, hs⟩] at h1; cases h1
      · rw [e2.2 ⟨x, s, hname, hs⟩] at h2; cases h2
    · intro hno
      constructor
      · cases hh : is_header_file name
        · rfl
        · obtain ⟨x, s, hname, hs⟩ := e1.1 hh
          exact absurd ⟨x, s, hname, List.mem_append.2 (Or.inl hs)⟩ hno
      · cases hh : is_source_file name
        · rfl
        · obtain ⟨x, s, hname, hs⟩ := e2.1 hh
          exact absurd ⟨x, s, hname, List.mem_append.2 (Or.inr hs)⟩ hno
  constructor
  · rintro ⟨f, hf, h1, h2⟩
    exact ⟨f, hf, (htest _).1 ⟨h1, h2⟩⟩
  · rintro ⟨f, hf, h1⟩
    exact ⟨f, hf, ((htest _).2 h1).1, ((htest _).2 h1).2⟩

set_option maxRecDepth 100000 in
/-- C22 at `gcc -c empty.i`, the command line of the test
`DefaultOutputUnsupportedFileSuffix`: the suffix `i` is in neither set and
`determine_products` throws; so it does for `empty` without `.` and for `empty.Cpp`, while
`cpp` and `CPP` are source suffixes. -/
theorem C22_unsupported_suffix_witness :
    (∃ pc, createParsedCommand sampleEnv
        ["gcc".toList, "-c".toList, "empty.i".toList] [] = some pc ∧
      determine_products pc
        = .error "File empty.i uses a file suffix unsupported for caching".toList ∧
      ∃ f ∈ pc.d_inputFiles, ¬ ∃ x s, sourceFile f = x ++ '.' :: s ∧
        s ∈ ["h".toList, "hh".toList, "H".toList, "hp".toList, "hxx".toList, "hpp".toList,
            "HPP".toList, "h++".toList, "tcc".toList] ++
          ["cc".toList, "c".toList, "cp".toList, "cxx".toList, "cpp".toList,
            "CPP".toList, "c++".toList, "C".toList]) ∧
    (∀ name ∈ ["empty".toList, "empty.Cpp".toList, "dir.c/empty".toList],
      determine_products
          { ParsedCommand.empty with d_compilerCommand := true, d_inputFiles := [name] }
        = .error ("File ".toList ++ sourceFile name ++
            " uses a file suffix unsupported for caching".toList)) ∧
    (∀ name ∈ ["empty.cpp".toList, "empty.CPP".toList],
      determine_products
          { ParsedCommand.empty with d_compilerCommand := true, d_inputFiles := [name] }
        = .ok {"empty.o".toList}) := by
  refine ⟨?_, by decide, by decide⟩
  have hrun : (createParsedCommand sampleEnv
      ["gcc".toList, "-c".toList, "empty.i".toList] []).map
      (fun pc => (pc.is_compiler_command, determine_products pc))
        = some (true,
          .error "File empty.i uses a file suffix unsupported for caching".toList) := by
    decide
  obtain ⟨pc, hpc, hfields⟩ := Option.map_eq_some'.1 hrun
  simp only [Prod.mk.injEq] at hfields
  obtain ⟨hcc, herr⟩ := hfields
  exact ⟨pc, hpc, herr, ((C22_unsupported_suffix pc hcc).1).1 ⟨_, herr⟩⟩

/-- C23: for a parsed command that is no compiler command, `determine_products` returns
exactly the set of `a.out`, whatever the input files and `md_option_set` are, and does not
throw. -/
theorem C23_not_compiler_command (pc : ParsedCommand)
    (h : pc.is_compiler_command = false) :
    determine_products pc = .ok {"a.out".toList} := by
  simp [determine_products, h]

set_option maxRecDepth 100000 in
/-- C23 at `cc empty.c` and `cc subdirectory/empty.c`, the command lines of the tests
`DefaultLinkOutput` and `SubdirectoryLink`. -/
theorem C23_not_compiler_command_witness :
    (∃ pc, createParsedCommand sampleEnv ["cc".toList, "empty.c".toList] [] = some pc ∧
      determine_products pc = .ok {"a.out".toList}) ∧
    (∃ pc, createParsedCommand sampleEnv
        ["cc".toList, "subdirectory/empty.c".toList] [] = some pc ∧
      determine_products pc = .ok {"a.out".toList}) := by
  constructor
  · have hrun : (createParsedCommand sampleEnv ["cc".toList, "empty.c".toList] []).map
        (fun pc => pc.is_compiler_command) = some false := by decide
    obtain ⟨pc, hpc, hcc⟩ := Option.map_eq_some'.1 hrun
    exact ⟨pc, hpc, C23_not_compiler_command pc hcc⟩
  · have hrun : (createParsedCommand sampleEnv
        ["cc".toList, "subdirectory/empty.c".toList] []).map
        (fun pc => pc.is_compiler_command) = some false := by decide
    obtain ⟨pc, hpc, hcc⟩ := Option.map_eq_some'.1 hrun
    exact ⟨pc, hpc, C23_not_compiler_command pc hcc⟩

/-! ## Deps::get_file_info: the possible products -/

/-- With exit code 0 of the dependencies command and no product given in the command,
`get_file_info` returns exactly if `determine_products` does, and the possible products are
the normalized paths of what `determine_products` gives and of the deps products given in the
command. -/
theorem get_file_info_determined (E : Env) (subprocessResult : SubprocessResult)
    (aixFileContents : Str) (pc : ParsedCommand) (h0 : subprocessResult.d_exitCode = 0)
    (hp : pc.d_commandProducts = ∅) :
    (∀ products, determine_products pc = .ok products →
      ∃ info, get_file_info E subprocessResult aixFileContents pc = .ok info ∧
        info.d_possibleProducts
          = (products ∪ pc.d_commandDepsProducts).image E.normalizePath) ∧
    (∀ what, determine_products pc = .error what →
      get_file_info E subprocessResult aixFileContents pc
        = .error (.invalid_argument what)) := by
  have hdeps : (if pc.get_deps_products = ∅ ∧ pc.d_md_option_set = true then
        pc.get_products.image fun product =>
          (if '.' ∈ product then
            ((product.reverse.dropWhile (fun c => c != '.')).drop 1).reverse
          else product) ++ ".d".toList
      else pc.get_deps_products) = pc.d_commandDepsProducts := by
    split_ifs with h
    · rw [ParsedCommand.get_products, hp, Finset.image_empty]
      exact h.1.symm
    · rfl
  have hcard : ¬ pc.get_products.card > 0 := by
    rw [ParsedCommand.get_products, hp]
    simp
  constructor
  · intro products hd
    simp only [get_file_info, h0, ne_eq, not_true_eq_false, if_false, hcard, hd, hdeps]
    exact ⟨_, rfl, rfl⟩
  · intro what hd
    simp only [get_file_info, h0, ne_eq, not_true_eq_false, if_false, hcard, hd]

/-- The loop of `determine_products` over input files for each of which the body adds the
two products `g f` and `d f`. -/
theorem determineProducts_fold_two (pc : ParsedCommand) (g d : Str → Str) (l : List Str)
    (hstep : ∀ f ∈ l, ∀ r,
      determineProductsStep pc r f = .ok (insert (g f) (insert (d f) r)))
    (r : Finset Str) :
    l.foldlM (determineProductsStep pc) r
      = .ok (r ∪ ((l.map g).toFinset ∪ (l.map d).toFinset)) := by
  induction l generalizing r with
  | nil => simp [pure, Except.pure]
  | cons f rest ih =>
    rw [List.foldlM_cons, hstep f (by simp) r]
    show List.foldlM (determineProductsStep pc) (insert (g f) (insert (d f) r)) rest = _
    rw [ih (fun f2 hf2 => hstep f2 (by simp [hf2]))]
    congr 1
    ext a
    simp only [Finset.mem_union, Finset.mem_insert, List.map_cons, List.toFinset_cons]
    tauto

/-- What `determine_products` returns for a compiler command with source inputs: the object
files, and the `.d` files when `-MD`/`-MMD` was given and no deps product was. -/
theorem determine_products_sources (pc : ParsedCommand)
    (hcc : pc.is_compiler_command = true)
    (hsrc : ∀ f ∈ pc.d_inputFiles, ∃ x s, f = x ++ '.' :: s ∧
      s ∈ ["cc".toList, "c".toList, "cp".toList, "cxx".toList, "cpp".toList,
        "CPP".toList, "c++".toList, "C".toList]) :
    determine_products pc = .ok
      ((pc.d_inputFiles.map (fun f => sourceName (sourceFile f) ++ ".o".toList)).toFinset ∪
        (if pc.d_md_option_set = true ∧ pc.d_commandDepsProducts = ∅ then
          (pc.d_inputFiles.map (fun f => sourceName (sourceFile f) ++ ".d".toList)).toFinset
        else ∅)) := by
  have hcc2 : (!pc.is_compiler_command) = false := by simp [hcc]
  rw [determine_products, hcc2]
  simp only [Bool.false_eq_true, if_false]
  by_cases hmd : pc.d_md_option_set = true ∧ pc.d_commandDepsProducts = ∅
  · rw [if_pos hmd, determineProducts_fold_two pc
      (fun f => sourceName (sourceFile f) ++ ".o".toList)
      (fun f => sourceName (sourceFile f) ++ ".d".toList)]
    · simp
    · intro f hf r
      obtain ⟨x, s, hfx, hs⟩ := hsrc f hf
      obtain ⟨h1, h2, -⟩ := source_input x s hs
      rw [← hfx] at h1 h2
      simp only [determineProductsStep, hmd, and_self, if_true, h1, h2, Bool.false_eq_true,
        if_false]
  · rw [if_neg hmd, determineProducts_fold pc
      (fun f => sourceName (sourceFile f) ++ ".o".toList)]
    · simp
    · intro f hf r
      obtain ⟨x, s, hfx, hs⟩ := hsrc f hf
      obtain ⟨h1, h2, -⟩ := source_input x s hs
      rw [← hfx] at h1 h2
      simp only [determineProductsStep, hmd, if_false, h1, h2, Bool.false_eq_true, if_true]

/-- C21, amended: when the dependencies command succeeds and the command is a compiler
command that gives no product, every input file that ends in `.` and a header suffix has its
file name, the directory stripped and the extension kept, followed by `.gch` among the
possible products of `get_file_info` (normalized); `get_file_info` returns when every input
ends in a header or a source suffix; the file name of `dir/name` is `name`. -/
theorem C21_header_gch (E : Env) (subprocessResult : SubprocessResult)
    (aixFileContents : Str) (pc : ParsedCommand) (h0 : subprocessResult.d_exitCode = 0)
    (hcc : pc.is_compiler_command = true) (hp : pc.get_products = ∅) :
    (∀ (info : CommandFileInfo) (f x s : Str),
      get_file_info E subprocessResult aixFileContents pc = .ok info →
      f ∈ pc.d_inputFiles → f = x ++ '.' :: s →
      s ∈ ["h".toList, "hh".toList, "H".toList, "hp".toList, "hxx".toList, "hpp".toList,
        "HPP".toList, "h++".toList, "tcc".toList] →
      E.normalizePath (sourceFile f ++ ".gch".toList) ∈ info.d_possibleProducts) ∧
    ((∀ f ∈ pc.d_inputFiles, ∃ x s, f = x ++ '.' :: s ∧
        s ∈ ["h".toList, "hh".toList, "H".toList, "hp".toList, "hxx".toList, "hpp".toList,
            "HPP".toList, "h++".toList, "tcc".toList] ++
          ["cc".toList, "c".toList, "cp".toList, "cxx".toList, "cpp".toList,
            "CPP".toList, "c++".toList, "C".toList]) →
      ∃ info, get_file_info E subprocessResult aixFileContents pc = .ok info) ∧
    (∀ dir name : Str, '/' ∉ name → sourceFile (dir ++ '/' :: name) = name) := by
  obtain ⟨hok, herr⟩ := get_file_info_determined E subprocessResult aixFileContents pc h0 hp
  have hcc2 : (!pc.is_compiler_command) = false := by simp [hcc]
  have hdef : determine_products pc
      = pc.d_inputFiles.foldlM (determineProductsStep pc) ∅ := by
    rw [determine_products, hcc2]
    simp
  refine ⟨?_, ?_, fun dir name h => (sourceFile_dir dir name h).1⟩
  · intro info f x s hinfo hf hfx hs
    cases hd : determine_products pc with
    | error what =>
      rw [herr what hd] at hinfo
      cases hinfo
    | ok products =>
      obtain ⟨info2, h1, h2⟩ := hok products hd
      rw [h1] at hinfo
      cases hinfo
      rw [h2]
      refine Finset.mem_image_of_mem _ (Finset.mem_union_left _ ?_)
      rw [hdef] at hd
      refine (determineProducts_ok pc _ ∅ products hd).2 f hf ?_
      rw [hfx]
      exact header_input x s hs
  · intro hall
    cases hd : determine_products pc with
    | error what =>
      exfalso
      rw [hdef] at hd
      obtain ⟨f, hf, h1, h2⟩ := (determineProducts_error_iff pc _ ∅).1 ⟨what, hd⟩
      obtain ⟨x, s, hfx, hs⟩ := hall f hf
      rcases List.mem_append.1 hs with hs | hs
      · rw [hfx, header_input x s hs] at h1
        cases h1
      · rw [hfx, (source_input x s hs).2.1] at h2
        cases h2
    | ok products =>
      obtain ⟨info, h1, -⟩ := hok products hd
      exact ⟨info, h1⟩

set_option maxRecDepth 100000 in
/-- C21, amended, at `gcc -c subdirectory/header.h`, the command line of the test
`SubdirectoryPrecompiledHeader`: `header.h.gch` is among the possible products. -/
theorem C21_header_gch_witness :
    ∃ pc info, createParsedCommand sampleEnv
        ["gcc".toList, "-c".toList, "subdirectory/header.h".toList] [] = some pc ∧
      get_file_info sampleEnv ⟨0, [], []⟩ [] pc = .ok info ∧
      "header.h.gch".toList ∈ info.d_possibleProducts := by
  have hrun : (createParsedCommand sampleEnv
      ["gcc".toList, "-c".toList, "subdirectory/header.h".toList] []).map
      (fun pc => (pc.is_compiler_command, pc.get_products, pc.d_inputFiles))
        = some (true, ∅, ["subdirectory/header.h".toList]) := by decide
  obtain ⟨pc, hpc, hfields⟩ := Option.map_eq_some'.1 hrun
  simp only [Prod.mk.injEq] at hfields
  obtain ⟨hcc, hp, hin⟩ := hfields
  obtain ⟨h1, h2, -⟩ := C21_header_gch sampleEnv ⟨0, [], []⟩ [] pc rfl hcc hp
  obtain ⟨info, hinfo⟩ := h2 (by
    rw [hin]
    intro f hf
    rw [List.mem_singleton] at hf
    exact ⟨"subdirectory/header".toList, "h".toList, hf, by decide⟩)
  refine ⟨pc, info, hpc, hinfo, ?_⟩
  have := h1 info "subdirectory/header.h".toList "subdirectory/header".toList "h".toList
    hinfo (by rw [hin]; simp) rfl (by decide)
  have hname : sampleEnv.normalizePath
      (sourceFile "subdirectory/header.h".toList ++ ".gch".toList)
        = "header.h.gch".toList := by decide
  rw [hname] at this
  exact this

set_option maxRecDepth 100000 in
/-- C21 as stated fails at `gcc -c subdirectory/header.h`: the possible products are
`header.h.gch` alone, as the test `SubdirectoryPrecompiledHeader` expects, and `header.gch`,
the stem followed by `.gch`, is not among them. -/
theorem C21_stem_gch_counterexample :
    (createParsedCommand sampleEnv
        ["gcc".toList, "-c".toList, "subdirectory/header.h".toList] []).map
        (fun pc => (pc.get_products,
          (get_file_info sampleEnv ⟨0, [], []⟩ [] pc).map (fun info => info.d_possibleProducts)))
      = some (∅, .ok {"header.h.gch".toList}) ∧
    "header.gch".toList ∉ ({"header.h.gch".toList} : Finset Str) := by
  decide

/-- C24, amended: when the dependencies command succeeds, for a compiler command with source
inputs and no product given in the command, `get_file_info` returns and its possible products
are, normalized: with no deps product given, the `stem(f).o` of the inputs and, if
`md_option_set`, their `stem(f).d`; with deps products given (`-MF`), the `stem(f).o`
together with these deps products, and nothing else (no `stem(f).d` is added). -/
theorem C24_predicted_products (E : Env) (subprocessResult : SubprocessResult)
    (aixFileContents : Str) (pc : ParsedCommand) (h0 : subprocessResult.d_exitCode = 0)
    (hcc : pc.is_compiler_command = true) (hp : pc.get_products = ∅)
    (hsrc : ∀ f ∈ pc.d_inputFiles, ∃ x s, f = x ++ '.' :: s ∧
      s ∈ ["cc".toList, "c".toList, "cp".toList, "cxx".toList, "cpp".toList,
        "CPP".toList, "c++".toList, "C".toList]) :
    ∃ info, get_file_info E subprocessResult aixFileContents pc = .ok info ∧
      (pc.get_deps_products = ∅ →
        info.d_possibleProducts =
          ((pc.d_inputFiles.map
              (fun f => sourceName (sourceFile f) ++ ".o".toList)).toFinset ∪
            (if pc.d_md_option_set = true then
              (pc.d_inputFiles.map
                (fun f => sourceName (sourceFile f) ++ ".d".toList)).toFinset
            else ∅)).image E.normalizePath) ∧
      (pc.get_deps_products ≠ ∅ →
        info.d_possibleProducts =
          ((pc.d_inputFiles.map
              (fun f => sourceName (sourceFile f) ++ ".o".toList)).toFinset ∪
            pc.get_deps_products).image E.normalizePath) := by
  obtain ⟨hok, -⟩ := get_file_info_determined E subprocessResult aixFileContents pc h0 hp
  obtain ⟨info, h1, h2⟩ := hok _ (determine_products_sources pc hcc hsrc)
  refine ⟨info, h1, ?_, ?_⟩
  · intro hd
    have hd2 : pc.d_commandDepsProducts = ∅ := hd
    rw [h2, hd2]
    simp
  · intro hd
    have hd2 : ¬ pc.d_commandDepsProducts = ∅ := hd
    rw [h2]
    simp only [hd2, and_false, if_false, Finset.union_empty]
    rfl

set_option maxRecDepth 100000 in
/-- C24, amended, at the command lines of the tests `DefaultCompileMDOutput` and
`DefaultCompileMDMFOutput`: `gcc -c empty.c -MD` gives `empty.o` and `empty.d`, and
`gcc -c empty.c -MD -MF outputfile` gives `empty.o` and `outputfile`. -/
theorem C24_predicted_products_witness :
    (∃ pc info, createParsedCommand sampleEnv
        ["gcc".toList, "-c".toList, "empty.c".toList, "-MD".toList] [] = some pc ∧
      get_file_info sampleEnv ⟨0, [], []⟩ [] pc = .ok info ∧
      info.d_possibleProducts = {"empty.o".toList, "empty.d".toList}) ∧
    (∃ pc info, createParsedCommand sampleEnv
        ["gcc".toList, "-c".toList, "empty.c".toList, "-MD".toList, "-MF".toList,
          "outputfile".toList] [] = some pc ∧
      get_file_info sampleEnv ⟨0, [], []⟩ [] pc = .ok info ∧
      info.d_possibleProducts = {"empty.o".toList, "outputfile".toList}) := by
  have hsrc : ∀ f ∈ ["empty.c".toList], ∃ x s, f = x ++ '.' :: s ∧
      s ∈ ["cc".toList, "c".toList, "cp".toList, "cxx".toList, "cpp".toList,
        "CPP".toList, "c++".toList, "C".toList] := by
    intro f hf
    rw [List.mem_singleton] at hf
    exact ⟨"empty".toList, "c".toList, hf, by decide⟩
  constructor
  · have hrun : (createParsedCommand sampleEnv
        ["gcc".toList, "-c".toList, "empty.c".toList, "-MD".toList] []).map
        (fun pc => ((pc.is_compiler_command, pc.get_products, pc.d_inputFiles),
          (pc.get_deps_products, pc.d_md_option_set)))
          = some ((true, ∅, ["empty.c".toList]), (∅, true)) := by decide
    obtain ⟨pc, hpc, hfields⟩ := Option.map_eq_some'.1 hrun
    simp only [Prod.mk.injEq] at hfields
    obtain ⟨⟨hcc, hp, hin⟩, hd, hmd⟩ := hfields
    obtain ⟨info, h1, h2, -⟩ :=
      C24_predicted_products sampleEnv ⟨0, [], []⟩ [] pc rfl hcc hp (by rw [hin]; exact hsrc)
    refine ⟨pc, info, hpc, h1, ?_⟩
    rw [h2 hd, hin, hmd]
    decide
  · have hrun : (createParsedCommand sampleEnv
        ["gcc".toList, "-c".toList, "empty.c".toList, "-MD".toList, "-MF".toList,
          "outputfile".toList] []).map
        (fun pc => (pc.is_compiler_command, pc.get_products, pc.d_inputFiles,
          pc.get_deps_products))
          = some (true, ∅, ["empty.c".toList], {"outputfile".toList}) := by decide
    obtain ⟨pc, hpc, hfields⟩ := Option.map_eq_some'.1 hrun
    simp only [Prod.mk.injEq] at hfields
    obtain ⟨hcc, hp, hin, hd⟩ := hfields
    obtain ⟨info, h1, -, h3⟩ :=
      C24_predicted_products sampleEnv ⟨0, [], []⟩ [] pc rfl hcc hp (by rw [hin]; exact hsrc)
    refine ⟨pc, info, hpc, h1, ?_⟩
    rw [h3 (by rw [hd]; decide), hin, hd]
    decide

set_option maxRecDepth 100000 in
/-- C24 as stated fails at `gcc -c empty.c -MD -MF empty.d`: a deps-output file is given and
the possible products are `empty.o` and that file, which is `stem(f).d` for the input
`empty.c`. -/
theorem C24_deps_file_named_stem_counterexample :
    (createParsedCommand sampleEnv
        ["gcc".toList, "-c".toList, "empty.c".toList, "-MD".toList, "-MF".toList,
          "empty.d".toList] []).map
        (fun pc => (pc.get_deps_products,
          (get_file_info sampleEnv ⟨0, [], []⟩ [] pc).map (fun info => info.d_possibleProducts)))
      = some ({"empty.d".toList}, .ok {"empty.o".toList, "empty.d".toList}) ∧
    sourceName (sourceFile "empty.c".toList) ++ ".d".toList
      ∈ ({"empty.o".toList, "empty.d".toList} : Finset Str) := by
  decide

set_option maxRecDepth 100000 in
/-- C25: at `gcc -c empty.c -MD -o out.dir/build` the product `out.dir/build` has a file name
without extension, and `get_file_info` cuts the path at its last `.`, which stands in the
directory part: the deps product is `out.d`, not `out.dir/build.d`. At the command lines of
the tests `PreprocessorArgument` and `PreprocessorArgumentMF` the possible products are
`build.o`, `build.d` and `build.o`, `mmfile`. -/
theorem C25_deps_product_cut_in_directory :
    (createParsedCommand sampleEnv
        ["gcc".toList, "-c".toList, "empty.c".toList, "-MD".toList, "-o".toList,
          "out.dir/build".toList] []).map
        (fun pc => ((pc.get_products, pc.d_md_option_set),
          (get_file_info sampleEnv ⟨0, [], []⟩ [] pc).map (fun info => info.d_possibleProducts)))
      = some (({"out.dir/build".toList}, true),
          .ok {"out.dir/build".toList, "out.d".toList}) ∧
    (createParsedCommand sampleEnv
        ["gcc".toList, "-c".toList, "empty.c".toList, "-Wp,-MMD".toList, "-o".toList,
          "build.o".toList] []).map
        (fun pc =>
          (get_file_info sampleEnv ⟨0, [], []⟩ [] pc).map (fun info => info.d_possibleProducts))
      = some (.ok {"build.o".toList, "build.d".toList}) ∧
    (createParsedCommand sampleEnv
        ["gcc".toList, "-c".toList, "empty.c".toList, "-Wp,-MMD,-MF,mmfile".toList,
          "-o".toList, "build.o".toList] []).map
        (fun pc =>
          (get_file_info sampleEnv ⟨0, [], []⟩ [] pc).map (fun info => info.d_possibleProducts))
      = some (.ok {"build.o".toList, "mmfile".toList}) := by
  decide

/-! ## Deps::crtbegin_from_clang_v -/

set_option maxRecDepth 1000000 in
/-- C26: the regular expression of `crtbegin_from_clang_v` is not tied to the beginning of a
line. In a text whose only line of the form `Selected GCC installation: P` has `P = /usr`,
with the one line `Selected multilib: .;@m64` behind it, and with the words
`Selected GCC installation: /opt` in the middle of an earlier line, the result is
`/opt/crtbegin.o`, not `/usr/crtbegin.o`; and a text without any line that starts with
`Selected GCC installation: ` or `Selected multilib: ` gives `/a/b/crtbegin.o`, not the empty
string. On the two texts of the test `ClangCrtbegin` the results are the expected ones. -/
theorem C26_crtbegin_not_anchored :
    crtbegin_from_clang_v
        ("note: Selected GCC installation: /opt\n" ++ "Selected GCC installation: /usr\n" ++
          "Selected multilib: .;@m64\n").toList = "/opt/crtbegin.o".toList ∧
    crtbegin_from_clang_v
        ("x Selected GCC installation: /a\n" ++ "y Selected multilib: b;\n").toList
      = "/a/b/crtbegin.o".toList ∧
    crtbegin_from_clang_v (clang_v_common ++ "Selected multilib: .;@m64\n".toList)
      = "/usr/lib/gcc/x86_64-linux-gnu/5.4.0/crtbegin.o".toList ∧
    crtbegin_from_clang_v (clang_v_common ++ "Selected multilib: foo;@m64\n".toList)
      = "/usr/lib/gcc/x86_64-linux-gnu/5.4.0/foo/crtbegin.o".toList := by
  decide

/-! ## main -/

/-- C27: `main` returns 100 when no command is given (`argc <= 1`) and for every first
argument that begins with `-` and is none of `--help`, `-h`, `--version`, `-v`, `--deps`; it
returns 0 for each of these five; in all these cases `ExecutionContext::execute`, which
parses and runs the command, is not called. -/
theorem C27_usage (HELP version : Str) (execute : List Str → Except Exception Int) :
    (∀ argv : List Str, argv.length ≤ 1 →
      (main HELP version execute argv).finish = .returned 100 ∧
        ∀ command, MainEvent.execute command ∉ (main HELP version execute argv).events) ∧
    (∀ (argv0 argv1 : Str) (rest : List Str), argv1.head? = some '-' →
      argv1 ∉ ["--help".toList, "-h".toList, "--version".toList, "-v".toList,
        "--deps".toList] →
      (main HELP version execute (argv0 :: argv1 :: rest)).finish = .returned 100 ∧
        ∀ command,
          MainEvent.execute command ∉ (main HELP version execute (argv0 :: argv1 :: rest)).events) ∧
    (∀ (argv0 argv1 : Str) (rest : List Str),
      argv1 ∈ ["--help".toList, "-h".toList, "--version".toList, "-v".toList,
        "--deps".toList] →
      (main HELP version execute (argv0 :: argv1 :: rest)).finish = .returned 0 ∧
        ∀ command,
          MainEvent.execute command ∉ (main HELP version execute (argv0 :: argv1 :: rest)).events) := by
  refine ⟨?_, ?_, ?_⟩
  · intro argv hlen
    match argv, hlen with
    | [], _ => exact ⟨rfl, fun command h => by simp [main] at h⟩
    | [_], _ => exact ⟨rfl, fun command h => by simp [main] at h⟩
    | _ :: _ :: _, h => simp at h
  · intro argv0 argv1 rest hdash hnot
    simp only [List.mem_cons, List.mem_singleton, List.not_mem_nil, or_false, not_or] at hnot
    obtain ⟨h1, h2, h3, h4, h5⟩ := hnot
    simp only [main, h1, h2, h3, h4, h5, or_self, if_false, hdash, if_true]
    exact ⟨rfl, fun command h => by simp at h⟩
  · intro argv0 argv1 rest hmem
    simp only [List.mem_cons, List.mem_singleton, List.not_mem_nil, or_false] at hmem
    simp only [main]
    split_ifs <;> first | exact ⟨rfl, fun command h => by simp at h⟩ | (exfalso; tauto)

/-- C27 at `recc`, `recc -x`, `recc --deps gcc` and `recc -v`. -/
theorem C27_usage_witness :
    (main [] [] (fun _ => .ok 0) ["recc".toList]).finish = .returned 100 ∧
    (main [] [] (fun _ => .ok 0) ["recc".toList, "-x".toList]).finish = .returned 100 ∧
    (main [] [] (fun _ => .ok 0) ["recc".toList, "--deps".toList, "gcc".toList]).finish
      = .returned 0 ∧
    (main [] [] (fun _ => .ok 0) ["recc".toList, "-v".toList]).finish = .returned 0 :=
  ⟨((C27_usage [] [] (fun _ => .ok 0)).1 ["recc".toList] (by decide)).1,
    ((C27_usage [] [] (fun _ => .ok 0)).2.1 "recc".toList "-x".toList [] (by decide)
      (by decide)).1,
    ((C27_usage [] [] (fun _ => .ok 0)).2.2 "recc".toList "--deps".toList ["gcc".toList]
      (by decide)).1,
    ((C27_usage [] [] (fun _ => .ok 0)).2.2 "recc".toList "-v".toList [] (by decide)).1⟩

/-- C28: once a command is dispatched (a first argument that does not begin with `-`), the
process ends as follows: `main` returns the value that `ExecutionContext::execute` returns;
it returns 100 if `execute` throws `invalid_argument`; `exit(130)` is called if it throws a
gRPC error with status `CANCELLED`; `main` returns 102 for every other gRPC error and 101 for
every other exception. -/
theorem C28_exit_codes (HELP version : Str) (execute : List Str → Except Exception Int)
    (argv0 argv1 : Str) (rest : List Str) (hcommand : argv1.head? ≠ some '-') :
    (main HELP version execute (argv0 :: argv1 :: rest)).events
      = [.setup_logger_from_environment (some argv0), .setup_signal_handler,
          .execute (argv1 :: rest)] ∧
    (∀ status, execute (argv1 :: rest) = .ok status →
      (main HELP version execute (argv0 :: argv1 :: rest)).finish = .returned status) ∧
    (∀ what, execute (argv1 :: rest) = .error (.invalid_argument what) →
      (main HELP version execute (argv0 :: argv1 :: rest)).finish = .returned 100) ∧
    (∀ what, execute (argv1 :: rest) = .error (.GrpcError .CANCELLED what) →
      (main HELP version execute (argv0 :: argv1 :: rest)).finish = .exited 130) ∧
    (∀ error_code what, error_code ≠ .CANCELLED →
      execute (argv1 :: rest) = .error (.GrpcError error_code what) →
      (main HELP version execute (argv0 :: argv1 :: rest)).finish = .returned 102) ∧
    (∀ e, execute (argv1 :: rest) = .error e → e.isInvalidArgument = false →
      (∀ error_code what, e ≠ .GrpcError error_code what) →
      (main HELP version execute (argv0 :: argv1 :: rest)).finish = .returned 101) := by
  have hnot : argv1 ≠ "--help".toList ∧ argv1 ≠ "-h".toList ∧ argv1 ≠ "--version".toList ∧
      argv1 ≠ "-v".toList ∧ argv1 ≠ "--deps".toList := by
    refine ⟨?_, ?_, ?_, ?_, ?_⟩ <;> (intro h; rw [h] at hcommand; exact hcommand rfl)
  obtain ⟨h1, h2, h3, h4, h5⟩ := hnot
  have hmain : main HELP version execute (argv0 :: argv1 :: rest)
      = { events := [.setup_logger_from_environment (some argv0), .setup_signal_handler,
            .execute (argv1 :: rest)]
          finish := mainDispatch execute (argv1 :: rest) } := by
    simp only [main, h1, h2, h3, h4, h5, or_self, if_false, hcommand, List.head?_cons]
  rw [hmain]
  refine ⟨rfl, ?_, ?_, ?_, ?_, ?_⟩
  · intro status h
    simp only [mainDispatch, h]
  · intro what h
    simp only [mainDispatch, h]
    rfl
  · intro what h
    simp only [mainDispatch, h, if_true]
  · intro error_code what hne h
    simp only [mainDispatch, h, if_neg hne]
    rfl
  · intro e h hinv hgrpc
    simp only [mainDispatch, h]
    cases e with
    | invalid_argument what => cases hinv
    | GrpcError error_code what => exact absurd rfl (hgrpc error_code what)
    | subprocess_failed_error c => rfl
    | runtime_error what => rfl
    | out_of_range what => rfl
    | exception what => rfl

/-- C28 at `recc gcc -c hello.c`, for a run of the command that returns 3 and for runs that
throw. -/
theorem C28_exit_codes_witness :
    (main [] [] (fun _ => .ok 3)
      ["recc".toList, "gcc".toList, "-c".toList, "hello.c".toList]).finish = .returned 3 ∧
    (main [] [] (fun _ => .error (.invalid_argument []))
      ["recc".toList, "gcc".toList, "-c".toList, "hello.c".toList]).finish = .returned 100 ∧
    (main [] [] (fun _ => .error (.GrpcError .CANCELLED []))
      ["recc".toList, "gcc".toList, "-c".toList, "hello.c".toList]).finish = .exited 130 ∧
    (main [] [] (fun _ => .error (.GrpcError .UNAVAILABLE []))
      ["recc".toList, "gcc".toList, "-c".toList, "hello.c".toList]).finish = .returned 102 ∧
    (main [] [] (fun _ => .error (.runtime_error []))
      ["recc".toList, "gcc".toList, "-c".toList, "hello.c".toList]).finish = .returned 101 :=
  ⟨(C28_exit_codes [] [] (fun _ => .ok 3) "recc".toList "gcc".toList
      ["-c".toList, "hello.c".toList] (by decide)).2.1 3 rfl,
    (C28_exit_codes [] [] (fun _ => .error (.invalid_argument [])) "recc".toList "gcc".toList
      ["-c".toList, "hello.c".toList] (by decide)).2.2.1 [] rfl,
    (C28_exit_codes [] [] (fun _ => .error (.GrpcError .CANCELLED [])) "recc".toList
      "gcc".toList ["-c".toList, "hello.c".toList] (by decide)).2.2.2.1 [] rfl,
    (C28_exit_codes [] [] (fun _ => .error (.GrpcError .UNAVAILABLE [])) "recc".toList
      "gcc".toList ["-c".toList, "hello.c".toList] (by decide)).2.2.2.2.1 .UNAVAILABLE []
      (by decide) rfl,
    (C28_exit_codes [] [] (fun _ => .error (.runtime_error [])) "recc".toList "gcc".toList
      ["-c".toList, "hello.c".toList] (by decide)).2.2.2.2.2 (.runtime_error []) rfl rfl
      (fun _ _ h => by cases h)⟩

/-! ## ExecutionContext::execute -/

/-- `bind` of a run is `Run.bind`. -/
theorem Run.bind_eq {α β : Type} (r : Run α) (f : α → Run β) : r >>= f = r.bind f := rfl

/-- `pure` of a run is `Run.pure`. -/
theorem Run.pure_eq {α : Type} (a : α) : (pure a : Run α) = Run.pure a := rfl

/-- A piece that gives a value, then the rest. -/
theorem Run.bind_ok {α β : Type} (events : List Event) (a : α) (f : α → Run β) :
    Run.bind ⟨events, .ok a⟩ f = ⟨events ++ (f a).events, (f a).outcome⟩ := rfl

/-- A piece that throws ends the run. -/
theorem Run.bind_error {α β : Type} (events : List Event) (e : Exception) (f : α → Run β) :
    Run.bind ⟨events, .error e⟩ f = ⟨events, .error e⟩ := rfl

/-- A `try` block that gives a value. -/
theorem Run.tryCatch_ok {α : Type} (events : List Event) (a : α)
    (handler : Exception → Run α) :
    Run.tryCatch ⟨events, .ok a⟩ handler = ⟨events, .ok a⟩ := rfl

/-- A `try` block that throws. -/
theorem Run.tryCatch_error {α : Type} (events : List Event) (e : Exception)
    (handler : Exception → Run α) :
    Run.tryCatch (⟨events, .error e⟩ : Run α) handler
      = ⟨events ++ (handler e).events, (handler e).outcome⟩ := rfl

/-- The configuration is read without an exception: one log line. -/
theorem executeConfigure_ok (W : ExecutionWorld)
    (hconf : W.parse_config_variables = .ok ())
    (hstats : W.get_statsdpublisher_from_config = .ok ()) :
    executeConfigure W
      = ⟨[.log .DEBUG ("RECC_REAPI_VERSION == '".toList ++ W.RECC_REAPI_VERSION ++
          "'".toList)], .ok ()⟩ := by
  simp only [executeConfigure, hconf, hstats]
  rfl

/-- The `-x` rule writes nothing but warnings. -/
theorem parseOptionSetsGccLanguageLog_log (E : Env) (option : Str) (command : ParsedCommand) :
    ∀ e ∈ parseOptionSetsGccLanguageLog E option command, ∃ m, e = .log .WARNING m := by
  intro e he
  unfold parseOptionSetsGccLanguageLog at he
  cases hq : command.d_originalCommand with
  | nil =>
    rw [hq] at he
    cases he
  | cons originalCommandOption rest =>
    rw [hq] at he
    simp only at he
    split_ifs at he
    · exact ⟨_, List.eq_of_mem_singleton he⟩
    · cases he
    · exact ⟨_, List.eq_of_mem_singleton he⟩
    · cases he
    · exact ⟨_, List.eq_of_mem_singleton he⟩

/-- An iteration of the loop of `parseCommand` writes nothing but warnings. -/
theorem parseCommandStepLog_log (E : Env) (parseRules : CompilerParseRulesMap)
    (command : ParsedCommand) :
    ∀ e ∈ parseCommandStepLog E parseRules command, ∃ m, e = .log .WARNING m := by
  intro e he
  unfold parseCommandStepLog at he
  cases hq : command.d_originalCommand with
  | nil =>
    rw [hq] at he
    cases he
  | cons currToken rest =>
    rw [hq] at he
    simp only at he
    cases hm : matchCompilerOptions E currToken parseRules with
    | none =>
      rw [hm] at he
      simp only at he
      split_ifs at he
      · exact ⟨_, List.eq_of_mem_singleton he⟩
      · cases he
    | some optionModifier =>
      rw [hm] at he
      simp only at he
      split_ifs at he
      · exact parseOptionSetsGccLanguageLog_log E _ _ e he
      · cases he

/-- The loop of `parseCommand` writes nothing but warnings. -/
theorem parseCommandLoopLog_log (E : Env) (parseRules : CompilerParseRulesMap) (wd : Str)
    (fuel : Nat) (command : ParsedCommand) :
    ∀ e ∈ parseCommandLoopLog E parseRules wd fuel command, ∃ m, e = .log .WARNING m := by
  induction fuel generalizing command with
  | zero =>
    intro e he
    cases he
  | succ fuel ih =>
    intro e he
    unfold parseCommandLoopLog at he
    cases hq : command.d_originalCommand with
    | nil =>
      rw [hq] at he
      cases he
    | cons currToken rest =>
      rw [hq] at he
      simp only [List.mem_append] at he
      rcases he with he | he
      · exact parseCommandStepLog_log E parseRules command e he
      · cases hs : parseCommandStep E parseRules wd command with
        | none =>
          rw [hs] at he
          cases he
        | some next =>
          rw [hs] at he
          exact ih next e he

/-- The parser writes nothing but warnings. -/
theorem createParsedCommandLog_log (E : Env) (command : List Str) (wd : Str) :
    ∀ e ∈ createParsedCommandLog E command wd, ∃ m, e = .log .WARNING m := by
  intro e he
  unfold createParsedCommandLog at he
  split_ifs at he
  · cases he
  · simp only [List.mem_append] at he
    rcases he with he | he
    · exact parseCommandLoopLog_log E _ wd _ _ e he
    · cases hp : parseCommand E (rulesToUse E (ParsedCommand.construct E command wd).d_compiler)
          wd (ParsedCommand.construct E command wd) with
      | none =>
        rw [hp] at he
        cases he
      | some parsedCommand =>
        rw [hp] at he
        simp only at he
        split_ifs at he
        · cases he
        · exact parseCommandLoopLog_log E _ wd _ _ e he
        · cases he

/-- The parsing of the command as a run: the line of `vectorFromArgv`, then the warnings of
the parser. -/
theorem executeParse_eq (W : ExecutionWorld) (argv : List Str) :
    executeParse W argv
      = ⟨.log .DEBUG (vectorFromArgvLog argv) ::
          createParsedCommandLog W.E argv W.getCurrentWorkingDirectory, .ok ()⟩ := rfl

/-- `execute` when the configuration is read and the command is parsed. -/
theorem execute_parsed (W : ExecutionWorld) (argv : List Str) (command : ParsedCommand)
    (hconf : W.parse_config_variables = .ok ())
    (hstats : W.get_statsdpublisher_from_config = .ok ())
    (hparse : createParsedCommand W.E argv W.getCurrentWorkingDirectory = some command) :
    execute W argv = some
      ⟨[.log .DEBUG ("RECC_REAPI_VERSION == '".toList ++ W.RECC_REAPI_VERSION ++ "'".toList),
          .log .DEBUG (vectorFromArgvLog argv)] ++
          createParsedCommandLog W.E argv W.getCurrentWorkingDirectory ++
          (executeCommand W argv command).events, (executeCommand W argv command).outcome⟩ := by
  simp only [execute, executeConfigure_ok W hconf hstats, hparse, Option.map_some',
    executeParse_eq, Run.bind_ok, List.singleton_append, List.cons_append, List.nil_append,
    List.append_assoc]

/-- `execute` when the configuration is read and the command is parsed: log lines, then the
statements behind the parsing. -/
theorem execute_parsed_log (W : ExecutionWorld) (argv : List Str) (command : ParsedCommand)
    (hconf : W.parse_config_variables = .ok ())
    (hstats : W.get_statsdpublisher_from_config = .ok ())
    (hparse : createParsedCommand W.E argv W.getCurrentWorkingDirectory = some command) :
    ∃ before, execute W argv = some
        ⟨before ++ (executeCommand W argv command).events,
          (executeCommand W argv command).outcome⟩ ∧
      ∀ e ∈ before, ∃ level m, e = .log level m := by
  refine ⟨_, execute_parsed W argv command hconf hstats hparse, fun e he => ?_⟩
  simp only [List.mem_append, List.mem_cons, List.mem_singleton, List.not_mem_nil,
    or_false] at he
  rcases he with (h | h) | h
  · exact ⟨_, _, h⟩
  · exact ⟨_, _, h⟩
  · obtain ⟨m, hm⟩ := createParsedCommandLog_log W.E argv _ e h
    exact ⟨_, m, hm⟩

/-- Log lines are no local run. -/
theorem filter_isLocalRun_of_log (events : List Event)
    (h : ∀ e ∈ events, ∃ level m, e = .log level m) :
    events.filter Event.isLocalRun = [] := by
  rw [List.filter_eq_nil_iff]
  intro e he
  obtain ⟨level, m, rfl⟩ := h e he
  simp [Event.isLocalRun]

/-- The command is not sent to a remote service: it is no compiler command and
`RECC_FORCE_REMOTE` is not set, so no `Action` is built, and it is run locally unless
`RECC_NO_EXECUTE` is set. -/
theorem executeCommand_local (W : ExecutionWorld) (argv : List Str) (command : ParsedCommand)
    (hcc : command.is_compiler_command = false) (hforce : W.RECC_FORCE_REMOTE = false)
    (hno : W.RECC_NO_EXECUTE = false) :
    executeCommand W argv command
      = ⟨[.log .INFO ("Not a compiler command, so running locally. (Use " ++
            "RECC_FORCE_REMOTE=1 to force remote execution)").toList,
          .Subprocess_execute argv false false],
        (W.Subprocess_execute argv false false).map (fun r => r.d_exitCode)⟩ := by
  simp only [executeCommand, hcc, hforce, hno, Bool.or_self, Bool.false_eq_true, if_false,
    execLocally, call]
  cases h : W.Subprocess_execute argv false false with
  | error e => rfl
  | ok r => rfl

/-- An `Action` is built and `RECC_NO_EXECUTE` is not set: the statements up to the set-up of
the channels, then `executeRemote`. -/
theorem executeCommand_remote (W : ExecutionWorld) (argv : List Str) (command : ParsedCommand)
    (built : BuildActionResult) (action : Action)
    (hremote : (command.is_compiler_command || W.RECC_FORCE_REMOTE) = true)
    (hbuild : W.BuildAction command W.getCurrentWorkingDirectory = .ok built)
    (haction : built.actionPtr = some action) (hno : W.RECC_NO_EXECUTE = false) :
    executeCommand W argv command
      = ⟨[.BuildAction command.get_command W.getCurrentWorkingDirectory,
            .counterMetric "recc.input_size_bytes".toList
              (calculateTotalSize built.blobs built.digest_to_filepaths),
            .d_actionDigest (W.make_digest_action action),
            .log .DEBUG ("Action Digest: ".toList ++
              W.showDigest (W.make_digest_action action) ++ " Action Contents: ".toList ++
              action.ShortDebugString)] ++
          (executeRemote W argv command action (W.make_digest_action action) built.blobs
            built.digest_to_filepaths built.products).events,
        (executeRemote W argv command action (W.make_digest_action action) built.blobs
          built.digest_to_filepaths built.products).outcome⟩ := by
  simp only [executeCommand, hremote, if_true, call, hbuild]
  simp only [bind, Run.bind, Run.tryCatch, pure, Run.pure, emit, log, haction, hno,
    Bool.false_eq_true, if_false, List.append_nil, List.nil_append, List.cons_append,
    List.append_assoc, List.singleton_append]

/-- C29: when the configuration is read without an exception, for every argv whose parsed
command is no compiler command, with `RECC_FORCE_REMOTE` and `RECC_NO_EXECUTE` unset,
`execute` writes the log lines of the configuration and of the parsing (the line of
`vectorFromArgv` and the warnings of the parser), the line `Not a compiler command`, and runs
the original argv locally, once, and does nothing else: no `Action` is built and no remote
service is called; it returns the exit code of the local run (and throws what the local run
throws). -/
theorem C29_local_path (W : ExecutionWorld) (argv : List Str) (command : ParsedCommand)
    (hconf : W.parse_config_variables = .ok ())
    (hstats : W.get_statsdpublisher_from_config = .ok ())
    (hparse : createParsedCommand W.E argv W.getCurrentWorkingDirectory = some command)
    (hcc : command.is_compiler_command = false) (hforce : W.RECC_FORCE_REMOTE = false)
    (hno : W.RECC_NO_EXECUTE = false) :
    ∃ run, execute W argv = some run ∧
      run.events
        = [.log .DEBUG ("RECC_REAPI_VERSION == '".toList ++ W.RECC_REAPI_VERSION ++
              "'".toList),
            .log .DEBUG (vectorFromArgvLog argv)] ++
          createParsedCommandLog W.E argv W.getCurrentWorkingDirectory ++
          [.log .INFO ("Not a compiler command, so running locally. (Use " ++
              "RECC_FORCE_REMOTE=1 to force remote execution)").toList,
            .Subprocess_execute argv false false] ∧
      (∀ level m, Event.log level m ∈
          createParsedCommandLog W.E argv W.getCurrentWorkingDirectory → level = .WARNING) ∧
      run.events.filter Event.isLocalRun = [.Subprocess_execute argv false false] ∧
      (∀ e ∈ run.events, e.isRemote = false ∧ ∀ d cwd, e ≠ .BuildAction d cwd) ∧
      run.outcome = (W.Subprocess_execute argv false false).map (fun r => r.d_exitCode) ∧
      (∀ r, W.Subprocess_execute argv false false = .ok r →
        run.outcome = .ok r.d_exitCode) := by
  refine ⟨_, execute_parsed W argv command hconf hstats hparse, ?_⟩
  rw [executeCommand_local W argv command hcc hforce hno]
  have hlog := createParsedCommandLog_log W.E argv W.getCurrentWorkingDirectory
  refine ⟨rfl, ?_, ?_, ?_, rfl, ?_⟩
  · intro level m h
    obtain ⟨m2, hm⟩ := hlog _ h
    cases hm
    rfl
  · have hnone : (createParsedCommandLog W.E argv W.getCurrentWorkingDirectory).filter
        Event.isLocalRun = [] := by
      rw [List.filter_eq_nil_iff]
      intro e he
      obtain ⟨m, rfl⟩ := hlog e he
      simp [Event.isLocalRun]
    simp only [List.filter_append, hnone, List.append_nil]
    rfl
  · intro e he
    simp only [List.mem_append, List.mem_cons, List.mem_singleton, List.not_mem_nil,
      or_false] at he
    rcases he with ((h | h) | h) | (h | h)
    · subst h
      exact ⟨rfl, fun d cwd h => by cases h⟩
    · subst h
      exact ⟨rfl, fun d cwd h => by cases h⟩
    · obtain ⟨m, rfl⟩ := hlog e h
      exact ⟨rfl, fun d cwd h => by cases h⟩
    · subst h
      exact ⟨rfl, fun d cwd h => by cases h⟩
    · subst h
      exact ⟨rfl, fun d cwd h => by cases h⟩
  · intro r hr
    simp only [hr]
    rfl

set_option maxRecDepth 100000 in
/-- C29 at `gcc hello.c -o hello`, a link command, with a local run that ends with exit code
3: four events, the line of `vectorFromArgv` among them and no warning of the parser; and at
`gcc -c -`, where the parser warns that standard input is not supported. -/
theorem C29_local_path_witness :
    (∃ run, execute { sampleWorld with Subprocess_execute := fun _ _ _ => .ok ⟨3, [], []⟩ }
        ["gcc".toList, "hello.c".toList, "-o".toList, "hello".toList] = some run ∧
      run.events
        = [.log .DEBUG "RECC_REAPI_VERSION == '2.0'".toList,
            .log .DEBUG ("Parsing command:\nargv[1] = gcc\nargv[2] = hello.c\n" ++
              "argv[3] = -o\nargv[4] = hello\n").toList,
            .log .INFO ("Not a compiler command, so running locally. (Use " ++
              "RECC_FORCE_REMOTE=1 to force remote execution)").toList,
            .Subprocess_execute
              ["gcc".toList, "hello.c".toList, "-o".toList, "hello".toList] false false] ∧
      run.outcome = .ok 3) ∧
    (∃ run, execute sampleWorld ["gcc".toList, "-c".toList, "-".toList] = some run ∧
      run.events
        = [.log .DEBUG "RECC_REAPI_VERSION == '2.0'".toList,
            .log .DEBUG
              "Parsing command:\nargv[1] = gcc\nargv[2] = -c\nargv[3] = -\n".toList,
            .log .WARNING "recc does not support standard input".toList,
            .log .INFO ("Not a compiler command, so running locally. (Use " ++
              "RECC_FORCE_REMOTE=1 to force remote execution)").toList,
            .Subprocess_execute ["gcc".toList, "-c".toList, "-".toList] false false] ∧
      run.outcome = .ok 0) := by
  have hrun : (createParsedCommand sampleEnv
      ["gcc".toList, "hello.c".toList, "-o".toList, "hello".toList]
      "/home/nobody/".toList).map (fun pc => pc.is_compiler_command) = some false := by
    decide
  have hrun2 : (createParsedCommand sampleEnv ["gcc".toList, "-c".toList, "-".toList]
      "/home/nobody/".toList).map (fun pc => pc.is_compiler_command) = some false := by
    decide
  obtain ⟨command, hpc, hcc⟩ := Option.map_eq_some'.1 hrun
  obtain ⟨command2, hpc2, hcc2⟩ := Option.map_eq_some'.1 hrun2
  constructor
  · obtain ⟨run, h1, h2, -, -, -, -, h5⟩ := C29_local_path
      { sampleWorld with Subprocess_execute := fun _ _ _ => .ok ⟨3, [], []⟩ }
      ["gcc".toList, "hello.c".toList, "-o".toList, "hello".toList] command rfl rfl hpc hcc
      rfl rfl
    refine ⟨run, h1, ?_, h5 ⟨3, [], []⟩ rfl⟩
    rw [h2]
    decide
  · obtain ⟨run, h1, h2, -, -, -, -, h5⟩ := C29_local_path sampleWorld
      ["gcc".toList, "-c".toList, "-".toList] command2 rfl rfl hpc2 hcc2 rfl rfl
    refine ⟨run, h1, ?_, h5 ⟨0, [], []⟩ rfl⟩
    rw [h2]
    decide

/-! ## ExecutionContext::execute: the query of the action cache -/

/-- The channels are set up and the action cache reports a hit: the result goes to the
download. -/
theorem executeRemote_hit (W : ExecutionWorld) (argv : List Str) (command : ParsedCommand)
    (action : Action) (actionDigest : Digest) (blobs digest_to_filepaths : digest_string_map)
    (products : List Str) (cached : ActionResult)
    (hchannels : W.get_channels_from_config = .ok ())
    (hfunction : W.configured_digest_function = .ok ())
    (hcas : W.casClient_init = .ok ()) (hre : W.reClient_init = .ok ())
    (hskip : W.RECC_SKIP_CACHE = false)
    (hfetch : W.fetchFromActionCache actionDigest command.get_products = .ok (true, cached)) :
    executeRemote W argv command action actionDigest blobs digest_to_filepaths products
      = ⟨[.get_channels_from_config, .casClient_init, .reClient_init,
            .fetchFromActionCache actionDigest command.get_products,
            .counterMetric "recc.action_cache_hit".toList 1,
            .log .INFO ("Action Cache hit for [".toList ++ W.showDigest actionDigest ++
              "]".toList)] ++
          (executeDownload W cached products).events,
        (executeDownload W cached products).outcome⟩ := by
  simp only [executeRemote, call, hchannels, hfunction, hcas, hre, hskip, hfetch]
  simp only [bind, Run.bind, Run.tryCatch, pure, Run.pure, emit, log,
    Bool.false_eq_true, if_false, if_true, Bool.not_false, Bool.not_true, List.append_nil,
    List.nil_append, List.cons_append, List.append_assoc, List.singleton_append]

/-- The channels are set up and the query of the action cache is skipped: the upload and the
call of `Execute` follow. -/
theorem executeRemote_skip (W : ExecutionWorld) (argv : List Str) (command : ParsedCommand)
    (action : Action) (actionDigest : Digest) (blobs digest_to_filepaths : digest_string_map)
    (products : List Str)
    (hchannels : W.get_channels_from_config = .ok ())
    (hfunction : W.configured_digest_function = .ok ())
    (hcas : W.casClient_init = .ok ()) (hre : W.reClient_init = .ok ())
    (honly : W.RECC_CACHE_ONLY = false) (hskip : W.RECC_SKIP_CACHE = true) :
    executeRemote W argv command action actionDigest blobs digest_to_filepaths products
      = ⟨[.get_channels_from_config, .casClient_init, .reClient_init] ++
          (executeUpload W actionDigest (blobs.assign actionDigest action.SerializeAsString)
            digest_to_filepaths products).events,
        (executeUpload W actionDigest (blobs.assign actionDigest action.SerializeAsString)
          digest_to_filepaths products).outcome⟩ := by
  simp only [executeRemote, call, hchannels, hfunction, hcas, hre, hskip, honly]
  simp only [bind, Run.bind, Run.tryCatch, pure, Run.pure, emit, log,
    Bool.false_eq_true, if_false, if_true, Bool.not_false, Bool.not_true, List.append_nil,
    List.nil_append, List.cons_append, List.append_assoc, List.singleton_append]

/-- The channels are set up and the action cache does not hold the action: the upload and
the call of `Execute` follow. -/
theorem executeRemote_not_cached (W : ExecutionWorld) (argv : List Str)
    (command : ParsedCommand) (action : Action) (actionDigest : Digest)
    (blobs digest_to_filepaths : digest_string_map) (products : List Str)
    (result : ActionResult)
    (hchannels : W.get_channels_from_config = .ok ())
    (hfunction : W.configured_digest_function = .ok ())
    (hcas : W.casClient_init = .ok ()) (hre : W.reClient_init = .ok ())
    (honly : W.RECC_CACHE_ONLY = false) (hskip : W.RECC_SKIP_CACHE = false)
    (hfetch : W.fetchFromActionCache actionDigest command.get_products
      = .ok (false, result)) :
    executeRemote W argv command action actionDigest blobs digest_to_filepaths products
      = ⟨[.get_channels_from_config, .casClient_init, .reClient_init,
            .fetchFromActionCache actionDigest command.get_products,
            .counterMetric "recc.action_cache_miss".toList 1] ++
          (executeUpload W actionDigest (blobs.assign actionDigest action.SerializeAsString)
            digest_to_filepaths products).events,
        (executeUpload W actionDigest (blobs.assign actionDigest action.SerializeAsString)
          digest_to_filepaths products).outcome⟩ := by
  simp only [executeRemote, call, hchannels, hfunction, hcas, hre, hskip, honly, hfetch]
  simp only [bind, Run.bind, Run.tryCatch, pure, Run.pure, emit, log,
    Bool.false_eq_true, if_false, if_true, Bool.not_false, Bool.not_true, List.append_nil,
    List.nil_append, List.cons_append, List.append_assoc, List.singleton_append]

/-- The channels are set up and the query of the action cache throws: the exception is
written to the log, and the upload and the call of `Execute` follow. -/
theorem executeRemote_probe_error (W : ExecutionWorld) (argv : List Str)
    (command : ParsedCommand) (action : Action) (actionDigest : Digest)
    (blobs digest_to_filepaths : digest_string_map) (products : List Str) (e : Exception)
    (hchannels : W.get_channels_from_config = .ok ())
    (hfunction : W.configured_digest_function = .ok ())
    (hcas : W.casClient_init = .ok ()) (hre : W.reClient_init = .ok ())
    (honly : W.RECC_CACHE_ONLY = false) (hskip : W.RECC_SKIP_CACHE = false)
    (hfetch : W.fetchFromActionCache actionDigest command.get_products = .error e) :
    executeRemote W argv command action actionDigest blobs digest_to_filepaths products
      = ⟨[.get_channels_from_config, .casClient_init, .reClient_init,
            .fetchFromActionCache actionDigest command.get_products,
            .log .ERROR ("Error while querying action cache at \"".toList ++
              W.RECC_ACTION_CACHE_SERVER ++ "\": ".toList ++ e.what)] ++
          (executeUpload W actionDigest (blobs.assign actionDigest action.SerializeAsString)
            digest_to_filepaths products).events,
        (executeUpload W actionDigest (blobs.assign actionDigest action.SerializeAsString)
          digest_to_filepaths products).outcome⟩ := by
  simp only [executeRemote, call, hchannels, hfunction, hcas, hre, hskip, honly, hfetch]
  simp only [bind, Run.bind, Run.tryCatch, pure, Run.pure, emit, log,
    Bool.false_eq_true, if_false, if_true, Bool.not_false, Bool.not_true, List.append_nil,
    List.nil_append, List.cons_append, List.append_assoc, List.singleton_append]

/-- The upload begins with the query for the missing blobs. -/
theorem uploadResources_events (W : ExecutionWorld)
    (blobs digest_to_filepaths : digest_string_map) :
    ∃ rest, (uploadResources W blobs digest_to_filepaths).events
      = .findMissingBlobs (blobs.map Prod.fst ++ digest_to_filepaths.map Prod.fst) :: rest := by
  simp only [uploadResources, call, bind, Run.bind]
  cases W.findMissingBlobs (blobs.map Prod.fst ++ digest_to_filepaths.map Prod.fst) with
  | error e => exact ⟨_, rfl⟩
  | ok missingDigests => exact ⟨_, rfl⟩

/-- An action that is not cached: the missing blobs are asked for, and when the upload
succeeds `Execute` is called. -/
theorem executeUpload_events (W : ExecutionWorld) (actionDigest : Digest)
    (blobs digest_to_filepaths : digest_string_map) (products : List Str) :
    Event.findMissingBlobs (blobs.map Prod.fst ++ digest_to_filepaths.map Prod.fst)
        ∈ (executeUpload W actionDigest blobs digest_to_filepaths products).events ∧
      ((uploadResources W blobs digest_to_filepaths).outcome = .ok () →
        Event.executeAction actionDigest W.RECC_SKIP_CACHE
          ∈ (executeUpload W actionDigest blobs digest_to_filepaths products).events) := by
  obtain ⟨rest, hrest⟩ := uploadResources_events W blobs digest_to_filepaths
  generalize hu : uploadResources W blobs digest_to_filepaths = upload at hrest
  obtain ⟨uevents, uoutcome⟩ := upload
  simp only at hrest
  subst hrest
  cases uoutcome with
  | error e =>
    refine ⟨?_, fun h => by cases h⟩
    simp only [executeUpload, hu, bind, Run.bind, Run.tryCatch, log, emit, throwException,
      List.mem_append, List.mem_cons, true_or, or_true]
  | ok u =>
    have hexec : ∃ rest2, (executeAction W actionDigest W.RECC_SKIP_CACHE).events
        = .executeAction actionDigest W.RECC_SKIP_CACHE :: rest2 := by
      simp only [executeAction, call, bind, Run.bind]
      cases W.executeAction actionDigest W.RECC_SKIP_CACHE with
      | error e => exact ⟨_, rfl⟩
      | ok r => exact ⟨_, rfl⟩
    obtain ⟨rest2, hrest2⟩ := hexec
    generalize he : executeAction W actionDigest W.RECC_SKIP_CACHE = exec at hrest2
    obtain ⟨eevents, eoutcome⟩ := exec
    simp only at hrest2
    subst hrest2
    constructor
    · simp only [executeUpload, hu, bind, Run.bind, Run.tryCatch, log, emit,
        List.mem_append, List.mem_cons, true_or, or_true]
    · intro _
      cases eoutcome with
      | error e =>
        simp only [executeUpload, hu, he, bind, Run.bind, Run.tryCatch, log, emit,
          throwException, List.mem_append, List.mem_cons, true_or, or_true]
      | ok r =>
        simp only [executeUpload, hu, he, bind, Run.bind, Run.tryCatch, log, emit, pure,
          Run.pure, List.mem_append, List.mem_cons, true_or, or_true]

/-- All events of two pieces, one after the other. -/
theorem Run.all_bind {α β : Type} (P : Event → Prop) (r : Run α) (f : α → Run β)
    (hr : ∀ e ∈ r.events, P e) (hf : ∀ a, ∀ e ∈ (f a).events, P e) :
    ∀ e ∈ (r.bind f).events, P e := by
  intro e he
  unfold Run.bind at he
  cases ho : r.outcome with
  | error x =>
    rw [ho] at he
    exact hr e he
  | ok a =>
    rw [ho] at he
    rcases List.mem_append.1 he with h | h
    · exact hr e h
    · exact hf a e h

/-- All events of a `try` block with its `catch` clause. -/
theorem Run.all_tryCatch {α : Type} (P : Event → Prop) (body : Run α)
    (handler : Exception → Run α)
    (hb : ∀ e ∈ body.events, P e) (hh : ∀ x, ∀ e ∈ (handler x).events, P e) :
    ∀ e ∈ (body.tryCatch handler).events, P e := by
  intro e he
  unfold Run.tryCatch at he
  cases ho : body.outcome with
  | error x =>
    rw [ho] at he
    rcases List.mem_append.1 he with h | h
    · exact hb e h
    · exact hh x e h
  | ok a =>
    rw [ho] at he
    exact hb e he

/-- A piece that is one event. -/
theorem Run.all_emit (P : Event → Prop) (event : Event) (h : P event) :
    ∀ e ∈ (emit event).events, P e := by
  intro e he
  simp only [emit, List.mem_singleton] at he
  subst he
  exact h

/-- A call that leaves the program is one event. -/
theorem Run.all_call {α : Type} (P : Event → Prop) (event : Event)
    (answer : Except Exception α) (h : P event) :
    ∀ e ∈ (call event answer).events, P e := by
  intro e he
  simp only [call, List.mem_singleton] at he
  subst he
  exact h

/-- A `throw` has no event. -/
theorem Run.all_throw {α : Type} (P : Event → Prop) (x : Exception) :
    ∀ e ∈ (throwException x : Run α).events, P e := by
  intro e he
  simp [throwException] at he

/-- A value has no event. -/
theorem Run.all_pure {α : Type} (P : Event → Prop) (a : α) :
    ∀ e ∈ (Run.pure a).events, P e := by
  intro e he
  simp [Run.pure] at he

/-- The download holds no event of the upload or of the call of `Execute`. -/
theorem executeDownload_no_upload (W : ExecutionWorld) (result : ActionResult)
    (products : List Str) :
    ∀ e ∈ (executeDownload W result products).events, e.isUploadOrExecute = false := by
  unfold executeDownload writeFilesToDisk
  refine Run.all_bind _ _ _ (Run.all_emit _ _ rfl) (fun _ => ?_)
  simp only []
  split_ifs <;>
    repeat' (first
      | exact Run.all_throw _ _
      | exact Run.all_emit _ _ rfl
      | exact Run.all_call _ _ _ rfl
      | exact Run.all_pure _ _
      | refine Run.all_tryCatch _ _ _ ?_ (fun _ => ?_)
      | refine Run.all_bind _ _ _ ?_ (fun _ => ?_))

/-- A value of two pieces, one after the other, is a value of the second. -/
theorem Run.value_bind {α β : Type} (Q : β → Prop) (r : Run α) (f : α → Run β)
    (hf : ∀ a, ∀ v, (f a).outcome = .ok v → Q v) :
    ∀ v, (r.bind f).outcome = .ok v → Q v := by
  intro v h
  unfold Run.bind at h
  cases ho : r.outcome with
  | error x =>
    rw [ho] at h
    cases h
  | ok a =>
    rw [ho] at h
    exact hf a v h

/-- A value of a `try` block with its `catch` clause is a value of the block or of the
clause. -/
theorem Run.value_tryCatch {α : Type} (Q : α → Prop) (body : Run α)
    (handler : Exception → Run α)
    (hb : ∀ v, body.outcome = .ok v → Q v)
    (hh : ∀ x, ∀ v, (handler x).outcome = .ok v → Q v) :
    ∀ v, (body.tryCatch handler).outcome = .ok v → Q v := by
  intro v h
  unfold Run.tryCatch at h
  cases ho : body.outcome with
  | error x =>
    rw [ho] at h
    exact hh x v h
  | ok a =>
    rw [ho] at h
    exact hb v h

/-- A `throw` has no value. -/
theorem Run.value_throw {α : Type} (Q : α → Prop) (x : Exception) :
    ∀ v, (throwException x : Run α).outcome = .ok v → Q v := by
  intro v h
  cases h

/-- The value of `pure`. -/
theorem Run.value_pure {α : Type} (Q : α → Prop) (a : α) (h : Q a) :
    ∀ v, (Run.pure a).outcome = .ok v → Q v := by
  intro v hv
  cases hv
  exact h

/-- A result with exit code 0 and no output file, while products are expected: the
exception is thrown before anything is downloaded. -/
theorem executeDownload_guard (W : ExecutionWorld) (result : ActionResult)
    (products : List Str)
    (hguard : result.exit_code = 0 ∧ result.output_files.length = 0 ∧ products.length ≠ 0) :
    executeDownload W result products
      = ⟨[.d_actionResult result],
          .error (.runtime_error
            "Action produced none of the of the expected output_files".toList)⟩ := by
  unfold executeDownload
  simp only [if_pos hguard]
  rfl

/-- A value that the download returns is the exit code of the result. -/
theorem executeDownload_value (W : ExecutionWorld) (result : ActionResult)
    (products : List Str) :
    ∀ v, (executeDownload W result products).outcome = .ok v → v = result.exit_code := by
  unfold executeDownload
  refine Run.value_bind _ _ _ (fun _ => ?_)
  simp only []
  split_ifs <;>
    repeat' (first
      | exact Run.value_throw _ _
      | exact Run.value_pure _ _ rfl
      | refine Run.value_tryCatch _ _ _ ?_ (fun _ => ?_)
      | refine Run.value_bind _ _ _ (fun _ => ?_))

/-- The download of a result that passes the check, when the directory opens and the
outputs are fetched without an exception: the outputs are downloaded and the exit code of
the result is returned. -/
theorem executeDownload_returns (W : ExecutionWorld) (result : ActionResult)
    (products : List Str)
    (hguard : ¬(result.exit_code = 0 ∧ result.output_files.length = 0 ∧
      products.length ≠ 0))
    (hroot : W.open_root ".".toList = true) (hfetch : ∀ r, W.downloadOutputs r = .ok ()) :
    (executeDownload W result products).outcome = .ok result.exit_code ∧
      ∃ r, Event.downloadOutputs r ∈ (executeDownload W result products).events := by
  unfold executeDownload writeFilesToDisk
  simp only [if_neg hguard, hroot, if_true, hfetch, call]
  constructor
  · split_ifs <;> rfl
  · split_ifs <;>
      (simp only [bind, Run.bind, Run.tryCatch, pure, Run.pure, emit, log, List.append_nil,
        List.nil_append, List.cons_append, List.append_assoc, List.singleton_append]
       exact ⟨_, List.mem_cons_of_mem _ (List.mem_cons_of_mem _ (List.mem_cons_self _ _))⟩)

/-- The channels are set up and the action cache reports no hit (the query is skipped, or
answers that the action is not cached, or throws): the upload and the call of `Execute`
follow, and an exception of the query is written to the log. -/
theorem executeRemote_miss (W : ExecutionWorld) (argv : List Str) (command : ParsedCommand)
    (action : Action) (actionDigest : Digest) (blobs digest_to_filepaths : digest_string_map)
    (products : List Str)
    (hchannels : W.get_channels_from_config = .ok ())
    (hfunction : W.configured_digest_function = .ok ())
    (hcas : W.casClient_init = .ok ()) (hre : W.reClient_init = .ok ())
    (honly : W.RECC_CACHE_ONLY = false)
    (hmiss : ¬(W.RECC_SKIP_CACHE = false ∧ ∃ cached,
      W.fetchFromActionCache actionDigest command.get_products = .ok (true, cached))) :
    ∃ before,
      executeRemote W argv command action actionDigest blobs digest_to_filepaths products
        = ⟨before ++
            (executeUpload W actionDigest (blobs.assign actionDigest action.SerializeAsString)
              digest_to_filepaths products).events,
          (executeUpload W actionDigest (blobs.assign actionDigest action.SerializeAsString)
            digest_to_filepaths products).outcome⟩ ∧
      ∀ x, W.RECC_SKIP_CACHE = false →
        W.fetchFromActionCache actionDigest command.get_products = .error x →
        Event.log .ERROR ("Error while querying action cache at \"".toList ++
          W.RECC_ACTION_CACHE_SERVER ++ "\": ".toList ++ x.what) ∈ before := by
  cases hskip : W.RECC_SKIP_CACHE with
  | true =>
    exact ⟨_, executeRemote_skip W argv command action actionDigest blobs digest_to_filepaths
      products hchannels hfunction hcas hre honly hskip, fun x h => by cases h⟩
  | false =>
    cases hfetch : W.fetchFromActionCache actionDigest command.get_products with
    | error x =>
      refine ⟨_, executeRemote_probe_error W argv command action actionDigest blobs
        digest_to_filepaths products x hchannels hfunction hcas hre honly hskip hfetch,
        fun y _ hy => ?_⟩
      cases hy
      simp
    | ok answer =>
      obtain ⟨hit, result⟩ := answer
      cases hit with
      | true => exact absurd ⟨hskip, result, hfetch⟩ hmiss
      | false =>
        exact ⟨_, executeRemote_not_cached W argv command action actionDigest blobs
          digest_to_filepaths products result hchannels hfunction hcas hre honly hskip hfetch,
          fun x _ h => by cases h⟩

/-- The events of the last piece of a run come after all the others. -/
theorem Run.events_before (first second third last : List Event) :
    ∃ before, first ++ (second ++ (third ++ last)) = before ++ last :=
  ⟨first ++ (second ++ third), by simp only [List.append_assoc]⟩

/-- C30, amended. ExecutionContext::execute, cache probe: when an Action was built, neither
NO_EXECUTE nor CACHE_ONLY is set and the channels and clients are set up without an
exception, the run holds an event of the blob upload or of Execute if and only if the
action-cache probe did not report a hit, where a skipped probe (SKIP_CACHE) and a probe
that raised any error both count as a miss (the error is logged, not propagated: the
outcome is that of the upload, Execute and download). On a miss the missing blobs are asked
for and, when the upload raises no error, Execute is called. On a hit the cached
ActionResult goes to the download statements: a value returned is its exit code; when it
has exit code 0 and no output files while products are expected, a runtime_error is raised
and nothing is downloaded; otherwise, when the directory opens and the outputs are fetched
without an error, the outputs are downloaded and its exit code is the value returned. -/
theorem C30_cache_probe (W : ExecutionWorld) (argv : List Str) (command : ParsedCommand)
    (built : BuildActionResult) (action : Action)
    (hconf : W.parse_config_variables = .ok ())
    (hstats : W.get_statsdpublisher_from_config = .ok ())
    (hparse : createParsedCommand W.E argv W.getCurrentWorkingDirectory = some command)
    (hremote : (command.is_compiler_command || W.RECC_FORCE_REMOTE) = true)
    (hbuild : W.BuildAction command W.getCurrentWorkingDirectory = .ok built)
    (haction : built.actionPtr = some action)
    (hno : W.RECC_NO_EXECUTE = false) (honly : W.RECC_CACHE_ONLY = false)
    (hchannels : W.get_channels_from_config = .ok ())
    (hfunction : W.configured_digest_function = .ok ())
    (hcas : W.casClient_init = .ok ()) (hre : W.reClient_init = .ok ()) :
    ∃ run, execute W argv = some run ∧
      ((∃ e ∈ run.events, e.isUploadOrExecute = true) ↔
        ¬(W.RECC_SKIP_CACHE = false ∧ ∃ cached,
          W.fetchFromActionCache (W.make_digest_action action) command.get_products
            = .ok (true, cached))) ∧
      (¬(W.RECC_SKIP_CACHE = false ∧ ∃ cached,
          W.fetchFromActionCache (W.make_digest_action action) command.get_products
            = .ok (true, cached)) →
        (∃ digests, Event.findMissingBlobs digests ∈ run.events) ∧
        ((uploadResources W
            (built.blobs.assign (W.make_digest_action action) action.SerializeAsString)
            built.digest_to_filepaths).outcome = .ok () →
          Event.executeAction (W.make_digest_action action) W.RECC_SKIP_CACHE
            ∈ run.events) ∧
        run.outcome = (executeUpload W (W.make_digest_action action)
          (built.blobs.assign (W.make_digest_action action) action.SerializeAsString)
          built.digest_to_filepaths built.products).outcome) ∧
      (∀ x, W.RECC_SKIP_CACHE = false →
        W.fetchFromActionCache (W.make_digest_action action) command.get_products
          = .error x →
        Event.log .ERROR ("Error while querying action cache at \"".toList ++
          W.RECC_ACTION_CACHE_SERVER ++ "\": ".toList ++ x.what) ∈ run.events) ∧
      (∀ cached, W.RECC_SKIP_CACHE = false →
        W.fetchFromActionCache (W.make_digest_action action) command.get_products
          = .ok (true, cached) →
        (∃ before, run.events = before ++ (executeDownload W cached built.products).events) ∧
        run.outcome = (executeDownload W cached built.products).outcome ∧
        (∀ v, run.outcome = .ok v → v = cached.exit_code) ∧
        (cached.exit_code = 0 ∧ cached.output_files.length = 0 ∧ built.products.length ≠ 0 →
          run.outcome = .error (.runtime_error
              "Action produced none of the of the expected output_files".toList) ∧
            ∀ r, Event.downloadOutputs r ∉ run.events) ∧
        (¬(cached.exit_code = 0 ∧ cached.output_files.length = 0 ∧
            built.products.length ≠ 0) →
          W.open_root ".".toList = true → (∀ r, W.downloadOutputs r = .ok ()) →
          run.outcome = .ok cached.exit_code ∧
            ∃ r, Event.downloadOutputs r ∈ run.events)) := by
  obtain ⟨pre, hrun, hpre⟩ := execute_parsed_log W argv command hconf hstats hparse
  rw [executeCommand_remote W argv command built action hremote hbuild haction hno] at hrun
  refine ⟨_, hrun, ?_⟩
  simp only []
  by_cases hhit : W.RECC_SKIP_CACHE = false ∧ ∃ cached,
      W.fetchFromActionCache (W.make_digest_action action) command.get_products
        = .ok (true, cached)
  · obtain ⟨hskip, cached, hfetch⟩ := hhit
    have hR := executeRemote_hit W argv command action (W.make_digest_action action)
      built.blobs built.digest_to_filepaths built.products cached hchannels hfunction hcas
      hre hskip hfetch
    rw [hR]
    simp only []
    have hnone := executeDownload_no_upload W cached built.products
    refine ⟨?_, fun h => absurd ⟨hskip, cached, hfetch⟩ h, ?_, ?_⟩
    · refine iff_of_false ?_ (fun h => h ⟨hskip, cached, hfetch⟩)
      rintro ⟨e, he, hup⟩
      simp only [List.mem_cons, List.mem_append, List.mem_singleton, List.not_mem_nil,
        or_false] at he
      rcases he with h | (h | h | h | h) | (h | h | h | h | h | h) | h
      all_goals first
        | (subst h; cases hup)
        | (rw [hnone e h] at hup; cases hup)
        | (obtain ⟨level, m, rfl⟩ := hpre e h; cases hup)
    · intro x _ hx
      rw [hfetch] at hx
      cases hx
    · intro cached2 _ hfetch2
      rw [hfetch] at hfetch2
      cases hfetch2
      refine ⟨Run.events_before _ _ _ _, rfl,
        executeDownload_value W cached built.products,
        fun hguard => ?_, fun hguard hroot hdown => ?_⟩
      · rw [executeDownload_guard W cached built.products hguard]
        refine ⟨rfl, fun r hr => ?_⟩
        simp at hr
        obtain ⟨level, m, h⟩ := hpre _ hr
        cases h
      · obtain ⟨hvalue, r, hr⟩ :=
          executeDownload_returns W cached built.products hguard hroot hdown
        exact ⟨hvalue, r, by simp [hr]⟩
  · obtain ⟨before, hR, hlog⟩ := executeRemote_miss W argv command action
      (W.make_digest_action action) built.blobs built.digest_to_filepaths built.products
      hchannels hfunction hcas hre honly hhit
    rw [hR]
    simp only []
    obtain ⟨hmissing, hexecute⟩ := executeUpload_events W (W.make_digest_action action)
      (built.blobs.assign (W.make_digest_action action) action.SerializeAsString)
      built.digest_to_filepaths built.products
    have hmem : ∀ e, e ∈ (executeUpload W (W.make_digest_action action)
        (built.blobs.assign (W.make_digest_action action) action.SerializeAsString)
        built.digest_to_filepaths built.products).events →
        e ∈ pre ++
          ([.BuildAction command.get_command W.getCurrentWorkingDirectory,
            .counterMetric "recc.input_size_bytes".toList
              (calculateTotalSize built.blobs built.digest_to_filepaths),
            .d_actionDigest (W.make_digest_action action),
            .log .DEBUG ("Action Digest: ".toList ++
              W.showDigest (W.make_digest_action action) ++ " Action Contents: ".toList ++
              action.ShortDebugString)] ++
          (before ++ (executeUpload W (W.make_digest_action action)
            (built.blobs.assign (W.make_digest_action action) action.SerializeAsString)
            built.digest_to_filepaths built.products).events)) := by
      intro e he
      exact List.mem_append_right _ (List.mem_append_right _ (List.mem_append_right _ he))
    refine ⟨iff_of_true ⟨_, hmem _ hmissing, rfl⟩ hhit,
      fun _ => ⟨⟨_, hmem _ hmissing⟩, fun hup => hmem _ (hexecute hup), trivial⟩,
      fun x hskip hx => ?_, fun cached hskip hfetch => absurd ⟨hskip, cached, hfetch⟩ hhit⟩
    exact List.mem_append_right _
      (List.mem_append_right _ (List.mem_append_left _ (hlog x hskip hx)))

set_option maxRecDepth 100000 in
/-- C30, amended, at `gcc -c hello.c`: with a hit whose result holds `hello.o` no event of
the upload or of `Execute` occurs and the exit code 0 of the cached result is returned;
with an action that is not cached `Execute` is called. -/
theorem C30_cache_probe_witness :
    (∃ run,
      execute
          { sampleWorld with
            fetchFromActionCache := fun _ _ =>
              .ok (true,
                { ActionResult.empty with
                  output_files := [⟨"hello.o".toList, ⟨[], 0⟩, false⟩] }) }
          ["gcc".toList, "-c".toList, "hello.c".toList] = some run ∧
        (¬∃ e ∈ run.events, e.isUploadOrExecute = true) ∧ run.outcome = .ok 0) ∧
      ∃ run,
        execute sampleWorld ["gcc".toList, "-c".toList, "hello.c".toList] = some run ∧
          Event.executeAction ⟨"action".toList, 6⟩ false ∈ run.events := by
  have hrun : (createParsedCommand sampleEnv ["gcc".toList, "-c".toList, "hello.c".toList]
      "/home/nobody/".toList).map (fun pc => pc.is_compiler_command) = some true := by
    decide
  obtain ⟨command, hpc, hcc⟩ := Option.map_eq_some'.1 hrun
  constructor
  · obtain ⟨run, h1, h2, -, -, h5⟩ := C30_cache_probe
      { sampleWorld with
        fetchFromActionCache := fun _ _ =>
          .ok (true,
            { ActionResult.empty with output_files := [⟨"hello.o".toList, ⟨[], 0⟩, false⟩] }) }
      ["gcc".toList, "-c".toList, "hello.c".toList] command _ _ rfl rfl hpc
      (by rw [hcc]; rfl) rfl rfl rfl rfl rfl rfl rfl rfl
    obtain ⟨-, -, -, -, h6⟩ := h5 _ rfl rfl
    exact ⟨run, h1, fun h => h2.1 h ⟨rfl, _, rfl⟩,
      (h6 (by decide) rfl (fun _ => rfl)).1⟩
  · obtain ⟨run, h1, -, h3, -, -⟩ := C30_cache_probe sampleWorld
      ["gcc".toList, "-c".toList, "hello.c".toList] command _ _ rfl rfl hpc
      (by rw [hcc]; rfl) rfl rfl rfl rfl rfl rfl rfl rfl
    have hmiss : ¬(sampleWorld.RECC_SKIP_CACHE = false ∧ ∃ cached,
        sampleWorld.fetchFromActionCache
          (sampleWorld.make_digest_action ⟨"action".toList, "action".toList⟩)
          command.get_products = .ok (true, cached)) := by
      rintro ⟨-, cached, h⟩
      cases h
    exact ⟨run, h1, (h3 hmiss).2.1 (by decide)⟩

set_option maxRecDepth 100000 in
/-- C30, as the claim states it, fails: the action cache reports a hit with a result that
has exit code 0 and no output file, for `gcc -c hello.c` whose action expects `hello.o`.
Neither the upload nor `Execute` is called, but the result is not downloaded and no exit
code is returned: `execute` throws a runtime_error. -/
theorem C30_cached_result_without_outputs_counterexample :
    (execute
        { sampleWorld with fetchFromActionCache := fun _ _ => .ok (true, ActionResult.empty) }
        ["gcc".toList, "-c".toList, "hello.c".toList]).map
      (fun run => (run.events.filter Event.isRemote, run.outcome))
      = some ([.get_channels_from_config, .casClient_init, .reClient_init,
          .fetchFromActionCache ⟨"action".toList, 6⟩ ∅],
        .error (.runtime_error
          "Action produced none of the of the expected output_files".toList)) := by
  decide

/-! ## Unsupported options behind `-Wp,` and `-Xpreprocessor` -/

set_option maxRecDepth 100000 in
/-- C37: at `gcc -c hello.c -Wp,-M` and at `gcc -c hello.c -Xpreprocessor -MM` the parse of
the preprocessor options under `GccPreprocessorRules` sets `d_containsUnsupportedOptions`,
but `createParsedCommand` does not read that flag of the preprocessor command: it returns
`contains_unsupported_options = false` and `is_compiler_command = true`. The same options
given directly, `gcc -c hello.c -M`, give `true` and `false`. -/
theorem C37_preprocessor_unsupported_dropped :
    (createParsedCommand sampleEnv
        ["gcc".toList, "-c".toList, "hello.c".toList, "-Wp,-M".toList] []).map
      (fun pc => (pc.d_containsUnsupportedOptions, pc.is_compiler_command))
      = some (false, true) ∧
    (createParsedCommand sampleEnv
        ["gcc".toList, "-c".toList, "hello.c".toList, "-Xpreprocessor".toList,
          "-MM".toList] []).map
      (fun pc => (pc.d_containsUnsupportedOptions, pc.is_compiler_command))
      = some (false, true) ∧
    (parseCommand sampleEnv GccPreprocessorRules [] (queueOnly ["-M".toList])).map
      (fun pc => pc.d_containsUnsupportedOptions) = some true ∧
    (parseCommand sampleEnv GccPreprocessorRules [] (queueOnly ["-MM".toList])).map
      (fun pc => pc.d_containsUnsupportedOptions) = some true ∧
    (createParsedCommand sampleEnv
        ["gcc".toList, "-c".toList, "hello.c".toList, "-M".toList] []).map
      (fun pc => (pc.d_containsUnsupportedOptions, pc.is_compiler_command))
      = some (true, false) := by
  decide

/-! ## Deps::dependencies_from_make_rules: texts put together -/

/-- The insertion of a file name commutes with a union from the left. -/
theorem insertIfNonEmpty_union (current_filename : Str) (R result : Finset Str) :
    insertIfNonEmpty current_filename (R ∪ result)
      = R ∪ insertIfNonEmpty current_filename result := by
  unfold insertIfNonEmpty
  split_ifs
  · exact (Finset.union_insert _ _ _).symm
  · rfl

/-- One iteration started with more names in `result`: the same names are there at its end,
and nothing else differs. -/
theorem makeRulesStep_union (b : Bool) (R : Finset Str) (s : MakeRulesState) (c : Char) :
    makeRulesStep b { s with result := R ∪ s.result } c
      = { makeRulesStep b s c with result := R ∪ (makeRulesStep b s c).result } := by
  unfold makeRulesStep
  split_ifs <;> simp only [insertIfNonEmpty_union]

/-- The loop started with more names in `result`. -/
theorem makeRulesRun_union (b : Bool) (R : Finset Str) (s : MakeRulesState) (x : Str) :
    makeRulesRun b { s with result := R ∪ s.result } x
      = { makeRulesRun b s x with result := R ∪ (makeRulesRun b s x).result } := by
  induction x generalizing s with
  | nil => rfl
  | cons c x ih =>
    rw [makeRulesRun_cons, makeRulesRun_cons, makeRulesStep_union]
    exact ih (makeRulesStep b s c)

/-- The number of backslashes at the end of a text. -/
theorem trailing_backslashes_snoc (a : Str) (c : Char) :
    ((a ++ [c]).reverse.takeWhile (fun x => x == '\\')).length
      = if c = '\\' then (a.reverse.takeWhile (fun x => x == '\\')).length + 1 else 0 := by
  rw [List.reverse_append, List.reverse_singleton, List.singleton_append]
  by_cases hc : c = '\\'
  · simp [hc]
  · simp [hc]

/-- After a text, read from a state outside an escape, the loop is inside an escape exactly
if the text ends with an odd number of backslashes. -/
theorem makeRulesRun_saw_backslash (b : Bool) (s : MakeRulesState)
    (hs : s.saw_backslash = false) (a : Str) :
    (makeRulesRun b s a).saw_backslash = true ↔
      (a.reverse.takeWhile (fun x => x == '\\')).length % 2 = 1 := by
  induction a using List.reverseRecOn with
  | nil => simp [makeRulesRun_nil, hs]
  | append_singleton a c ih =>
    rw [makeRulesRun_append, makeRulesRun_cons, makeRulesRun_nil, trailing_backslashes_snoc]
    generalize makeRulesRun b s a = t at ih
    by_cases hc : c = '\\'
    · rw [if_pos hc]
      cases ht : t.saw_backslash with
      | true =>
        have := ih.1 ht
        simp only [makeRulesStep, ht, if_true]
        constructor
        · intro h
          cases h
        · intro h
          omega
      | false =>
        have : ¬(a.reverse.takeWhile (fun x => x == '\\')).length % 2 = 1 := fun h => by
          have := ih.2 h
          rw [ht] at this
          cases this
        simp only [makeRulesStep, ht, hc, Bool.false_eq_true, if_false, if_true, true_iff]
        omega
    · rw [if_neg hc]
      have hfalse : (makeRulesStep b t c).saw_backslash = false := by
        unfold makeRulesStep
        split_ifs <;> first | rfl | (simp_all)
      rw [hfalse]
      simp

/-- The state after a text that does not end inside an escape, and the newline behind it. -/
theorem makeRulesRun_line (b : Bool) (a : Str)
    (ha : (a.reverse.takeWhile (fun x => x == '\\')).length % 2 = 0) :
    makeRulesRun b makeRulesInit (a ++ ['\n'])
      = ⟨dependencies_from_make_rules a b, false, false, []⟩ := by
  rw [makeRulesRun_append, makeRulesRun_cons, makeRulesRun_nil]
  have hbs : (makeRulesRun b makeRulesInit a).saw_backslash = false := by
    cases h : (makeRulesRun b makeRulesInit a).saw_backslash with
    | false => rfl
    | true =>
      have := (makeRulesRun_saw_backslash b makeRulesInit rfl a).1 h
      omega
  unfold dependencies_from_make_rules makeRulesFinish
  generalize makeRulesRun b makeRulesInit a = t at hbs ⊢
  obtain ⟨R, col, bs, cur⟩ := t
  simp only at hbs
  subst hbs
  exact run_newline b R col cur

/-- What the loop keeps: no newline in the current file name, and the names found are
non-empty and without newline. -/
theorem makeRulesStep_names (b : Bool) (s : MakeRulesState) (c : Char)
    (hcur : '\n' ∉ s.current_filename)
    (hres : ∀ x ∈ s.result, x ≠ [] ∧ '\n' ∉ x) :
    '\n' ∉ (makeRulesStep b s c).current_filename ∧
      ∀ x ∈ (makeRulesStep b s c).result, x ≠ [] ∧ '\n' ∉ x := by
  have hins : ∀ x ∈ insertIfNonEmpty s.current_filename s.result, x ≠ [] ∧ '\n' ∉ x := by
    intro x hx
    unfold insertIfNonEmpty at hx
    split_ifs at hx with h
    · rcases Finset.mem_insert.1 hx with h2 | h2
      · rw [h2]
        exact ⟨h, hcur⟩
      · exact hres x h2
    · exact hres x hx
  unfold makeRulesStep
  split_ifs <;> simp_all <;> (rintro rfl; simp_all)

/-- The names of the loop, after any text. -/
theorem makeRulesRun_names (b : Bool) (x : Str) (s : MakeRulesState)
    (hcur : '\n' ∉ s.current_filename)
    (hres : ∀ x ∈ s.result, x ≠ [] ∧ '\n' ∉ x) :
    '\n' ∉ (makeRulesRun b s x).current_filename ∧
      ∀ y ∈ (makeRulesRun b s x).result, y ≠ [] ∧ '\n' ∉ y := by
  induction x generalizing s with
  | nil => exact ⟨hcur, hres⟩
  | cons c x ih =>
    rw [makeRulesRun_cons]
    exact ih _ (makeRulesStep_names b s c hcur hres).1 (makeRulesStep_names b s c hcur hres).2

/-- Without a colon in the text nothing is collected. -/
theorem makeRulesRun_no_colon (b : Bool) (x : Str) (hx : ':' ∉ x) (s : MakeRulesState)
    (hcol : s.saw_colon_on_line = false) (hcur : s.current_filename = [])
    (hres : s.result = ∅) :
    (makeRulesRun b s x).current_filename = [] ∧ (makeRulesRun b s x).result = ∅ := by
  induction x generalizing s with
  | nil => exact ⟨hcur, hres⟩
  | cons c x ih =>
    have hc : c ≠ ':' := fun h => hx (by simp [h])
    have hrest : ':' ∉ x := fun h => hx (by simp [h])
    rw [makeRulesRun_cons]
    have hstep : (makeRulesStep b s c).saw_colon_on_line = false ∧
        (makeRulesStep b s c).current_filename = [] ∧ (makeRulesStep b s c).result = ∅ := by
      unfold makeRulesStep
      split_ifs <;> simp_all [insertIfNonEmpty]
    exact ih hrest _ hstep.1 hstep.2.1 hstep.2.2

/-- C38: in both formats `dependencies_from_make_rules` distributes over texts put together
with a newline: for `a` that ends with an even number of backslashes,
`parse(a + '\n' + b) = parse(a) ∪ parse(b)`; for every `a`, `parse(a + '\n') = parse(a)`.
Every element of every result is non-empty and holds no newline, and a text without `:`
gives the empty set. -/
theorem C38_make_rules_newline (is_sun_format : Bool) :
    (∀ a b : Str, (a.reverse.takeWhile (fun x => x == '\\')).length % 2 = 0 →
      dependencies_from_make_rules (a ++ '\n' :: b) is_sun_format
        = dependencies_from_make_rules a is_sun_format ∪
          dependencies_from_make_rules b is_sun_format) ∧
    (∀ a : Str, dependencies_from_make_rules (a ++ ['\n']) is_sun_format
      = dependencies_from_make_rules a is_sun_format) ∧
    (∀ rules : Str, ∀ x ∈ dependencies_from_make_rules rules is_sun_format,
      x ≠ [] ∧ '\n' ∉ x) ∧
    (∀ rules : Str, ':' ∉ rules → dependencies_from_make_rules rules is_sun_format = ∅) := by
  refine ⟨fun a b ha => ?_, fun a => ?_, fun rules x hx => ?_, fun rules hrules => ?_⟩
  · have hsplit : a ++ '\n' :: b = (a ++ ['\n']) ++ b := by simp
    have hstart : (⟨dependencies_from_make_rules a is_sun_format, false, false, []⟩ :
        MakeRulesState)
        = { makeRulesInit with
            result := dependencies_from_make_rules a is_sun_format ∪ makeRulesInit.result } := by
      simp [makeRulesInit]
    have hrun : makeRulesRun is_sun_format makeRulesInit (a ++ '\n' :: b)
        = { makeRulesRun is_sun_format makeRulesInit b with
            result := dependencies_from_make_rules a is_sun_format ∪
              (makeRulesRun is_sun_format makeRulesInit b).result } := by
      rw [hsplit, makeRulesRun_append, makeRulesRun_line is_sun_format a ha, hstart,
        makeRulesRun_union]
    show makeRulesFinish (makeRulesRun is_sun_format makeRulesInit (a ++ '\n' :: b)) = _
    rw [hrun]
    exact insertIfNonEmpty_union _ _ _
  · by_cases ha : (a.reverse.takeWhile (fun x => x == '\\')).length % 2 = 0
    · show makeRulesFinish (makeRulesRun is_sun_format makeRulesInit (a ++ ['\n'])) = _
      rw [makeRulesRun_line is_sun_format a ha]
      simp [makeRulesFinish, insertIfNonEmpty]
    · have hbs : (makeRulesRun is_sun_format makeRulesInit a).saw_backslash = true :=
        (makeRulesRun_saw_backslash is_sun_format makeRulesInit rfl a).2 (by omega)
      unfold dependencies_from_make_rules
      rw [makeRulesRun_append, makeRulesRun_cons, makeRulesRun_nil]
      generalize makeRulesRun is_sun_format makeRulesInit a = t at hbs
      simp [makeRulesStep, hbs, makeRulesFinish]
  · obtain ⟨hcur, hres⟩ := makeRulesRun_names is_sun_format rules makeRulesInit
      (by simp [makeRulesInit]) (by simp [makeRulesInit])
    unfold dependencies_from_make_rules makeRulesFinish insertIfNonEmpty at hx
    split_ifs at hx with h
    · rcases Finset.mem_insert.1 hx with h2 | h2
      · rw [h2]
        exact ⟨h, hcur⟩
      · exact hres x h2
    · exact hres x hx
  · obtain ⟨hcur, hres⟩ := makeRulesRun_no_colon is_sun_format rules hrules makeRulesInit
      rfl rfl rfl
    unfold dependencies_from_make_rules makeRulesFinish insertIfNonEmpty
    rw [hcur, hres]
    simp

set_option maxRecDepth 100000 in
/-- C38 at `a.o: a.c \` followed by a newline and ` a.h`, where the first text ends in one
backslash and the union fails, at `a.o: a.c` followed by a newline and `b.o: b.c`, and at a
text without colon. -/
theorem C38_make_rules_newline_witness :
    dependencies_from_make_rules ("a.o: a.c".toList ++ '\n' :: "b.o: b.c".toList) false
      = dependencies_from_make_rules "a.o: a.c".toList false ∪
        dependencies_from_make_rules "b.o: b.c".toList false ∧
    dependencies_from_make_rules ("a.o: a.c".toList ++ '\n' :: "b.o: b.c".toList) false
      = {"a.c".toList, "b.c".toList} ∧
    dependencies_from_make_rules "a.o a.c".toList true = ∅ ∧
    dependencies_from_make_rules ("a.o: a.c \\".toList ++ '\n' :: " a.h".toList) false
      = {"a.c".toList, "a.h".toList} ∧
    dependencies_from_make_rules "a.o: a.c \\".toList false ∪
      dependencies_from_make_rules " a.h".toList false = {"a.c".toList} :=
  ⟨(C38_make_rules_newline false).1 _ _ (by decide), by decide,
    (C38_make_rules_newline true).2.2.2 _ (by decide), by decide, by decide⟩

/-! ## ParseRuleHelper::parseStageOptionList -/

/-- Joining with a further item behind the others. -/
theorem intercalate_snoc (sep : Str) (pre : List Str) (x : Str) (h : pre ≠ []) :
    sep.intercalate (pre ++ [x]) = sep.intercalate pre ++ sep ++ x := by
  induction pre with
  | nil => exact absurd rfl h
  | cons p q ih =>
    cases q with
    | nil => simp [List.intercalate, List.intersperse]
    | cons r t =>
      have ih2 := ih (by simp)
      simp only [List.intercalate, List.cons_append, List.intersperse_cons_cons,
        List.flatten_cons, List.append_assoc] at ih2 ⊢
      rw [ih2]

/-- Joining when the last item grows. -/
theorem intercalate_last_append (sep : Str) (pre : List Str) (x y : Str) :
    sep.intercalate (pre ++ [x ++ y]) = sep.intercalate (pre ++ [x]) ++ y := by
  by_cases h : pre = []
  · subst h
    simp [List.intercalate, List.intersperse]
  · rw [intercalate_snoc sep pre _ h, intercalate_snoc sep pre _ h]
    simp

/-- The loop outside quotes, over characters without a single quote: it ends outside quotes,
every comma has closed one item, and the items with the open one, joined by commas behind
any items `pre`, are the join with the open item at the start followed by the
characters. -/
theorem stageLoop_unquoted (s : Str) (hq : '\'' ∉ s) (current : Str) (acc : List Str) :
    ∃ items last,
      s.foldl parseStageOptionListStep (false, current, acc) = (false, last, acc ++ items) ∧
      items.length = s.count ',' ∧
      ∀ pre : List Str, [','].intercalate (pre ++ (items ++ [last]))
        = [','].intercalate (pre ++ [current]) ++ s := by
  induction s generalizing current acc with
  | nil => exact ⟨[], current, by simp, rfl, by simp⟩
  | cons ch rest ih =>
    have hch : ch ≠ '\'' := fun h => hq (by simp [h])
    have hrest : '\'' ∉ rest := fun h => hq (by simp [h])
    by_cases hc : ch = ','
    · subst hc
      obtain ⟨items, last, hfold, hlen, hjoin⟩ := ih hrest [] (acc ++ [current])
      refine ⟨current :: items, last, ?_, ?_, fun pre => ?_⟩
      · have hs : parseStageOptionListStep (false, current, acc) ','
            = (false, [], acc ++ [current]) := by
          simp [parseStageOptionListStep]
        rw [List.foldl_cons, hs, hfold]
        simp
      · simp [hlen]
      · have h := hjoin (pre ++ [current])
        rw [intercalate_snoc _ _ _ (by simp)] at h
        simp only [List.append_assoc, List.singleton_append, List.cons_append,
          List.append_nil] at h ⊢
        exact h
    · obtain ⟨items, last, hfold, hlen, hjoin⟩ := ih hrest (current ++ [ch]) acc
      refine ⟨items, last, ?_, ?_, fun pre => ?_⟩
      · have hs : parseStageOptionListStep (false, current, acc) ch
            = (false, current ++ [ch], acc) := by
          simp [parseStageOptionListStep, hch, hc]
        rw [List.foldl_cons, hs, hfold]
      · rw [hlen, List.count_cons_of_ne (fun h => hc h.symm)]
      · rw [hjoin pre, intercalate_last_append]
        simp

/-- The loop inside quotes, over characters without a single quote: every character, a comma
too, goes to the open item. -/
theorem stageLoop_quoted (s : Str) (hq : '\'' ∉ s) (current : Str) (acc : List Str) :
    s.foldl parseStageOptionListStep (true, current, acc) = (true, current ++ s, acc) := by
  induction s generalizing current with
  | nil => simp
  | cons ch rest ih =>
    have hch : ch ≠ '\'' := fun h => hq (by simp [h])
    have hrest : '\'' ∉ rest := fun h => hq (by simp [h])
    have hs : parseStageOptionListStep (true, current, acc) ch
        = (true, current ++ [ch], acc) := by
      simp [parseStageOptionListStep, hch]
    rw [List.foldl_cons, hs, ih hrest]
    simp

/-- The loop never puts a single quote into an item. -/
theorem stageLoop_no_quote (s : Str) (quoted : Bool) (current : Str) (acc : List Str)
    (hcurrent : '\'' ∉ current) (hacc : ∀ item ∈ acc, '\'' ∉ item) :
    '\'' ∉ (s.foldl parseStageOptionListStep (quoted, current, acc)).2.1 ∧
      ∀ item ∈ (s.foldl parseStageOptionListStep (quoted, current, acc)).2.2, '\'' ∉ item := by
  induction s generalizing quoted current acc with
  | nil => exact ⟨hcurrent, hacc⟩
  | cons ch rest ih =>
    rw [List.foldl_cons]
    unfold parseStageOptionListStep
    split_ifs with h1 h2
    · exact ih _ _ _ hcurrent hacc
    · refine ih _ _ _ (by simp) ?_
      intro item hitem
      rcases List.mem_append.1 hitem with h | h
      · exact hacc item h
      · rw [List.mem_singleton.1 h]
        exact hcurrent
    · refine ih _ _ _ ?_ hacc
      intro h
      rcases List.mem_append.1 h with h | h
      · exact hcurrent h
      · exact h1 (List.mem_singleton.1 h).symm

/-- C40: `parseStageOptionList(s, result)` leaves the items of `result` in place and appends
items behind them. For `s` without a single quote it appends exactly (number of commas of
`s`) + 1 items, and these joined by `,` give back `s`; the empty string appends one empty
item. For every `s` no appended item contains a single quote. A comma between an opening and
a closing single quote does not split: for `a`, `b`, `c` without single quote, the text
`a'b'c` appends (commas of `a`) + (commas of `c`) + 1 items, which joined by `,` are
`abc`. -/
theorem C40_parseStageOptionList (result : List Str) :
    (∀ s : Str, '\'' ∉ s →
      ∃ items, parseStageOptionList s result = result ++ items ∧
        items.length = s.count ',' + 1 ∧ [','].intercalate items = s) ∧
    parseStageOptionList [] result = result ++ [[]] ∧
    (∀ s : Str, ∃ items, parseStageOptionList s result = result ++ items ∧
      ∀ item ∈ items, '\'' ∉ item) ∧
    (∀ a b c : Str, '\'' ∉ a → '\'' ∉ b → '\'' ∉ c →
      ∃ items, parseStageOptionList (a ++ '\'' :: b ++ '\'' :: c) result = result ++ items ∧
        items.length = a.count ',' + c.count ',' + 1 ∧
        [','].intercalate items = a ++ b ++ c) := by
  refine ⟨fun s hq => ?_, rfl, fun s => ?_, fun a b c ha hb hc => ?_⟩
  · obtain ⟨items, last, hfold, hlen, hjoin⟩ := stageLoop_unquoted s hq [] []
    refine ⟨items ++ [last], ?_, by simp [hlen], by simpa using hjoin []⟩
    rw [parseStageOptionList_append]
    simp only [parseStageOptionList, hfold, List.nil_append]
  · refine ⟨parseStageOptionList s [], parseStageOptionList_append s result, ?_⟩
    obtain ⟨h1, h2⟩ := stageLoop_no_quote s false [] [] (by simp) (by simp)
    intro item hitem
    simp only [parseStageOptionList] at hitem
    rcases List.mem_append.1 hitem with h | h
    · exact h2 item h
    · rw [List.mem_singleton.1 h]
      exact h1
  · obtain ⟨items1, last1, hfold1, hlen1, hjoin1⟩ := stageLoop_unquoted a ha [] []
    obtain ⟨items2, last2, hfold2, hlen2, hjoin2⟩ :=
      stageLoop_unquoted c hc (last1 ++ b) ([] ++ items1)
    have hopen : parseStageOptionListStep (false, last1, [] ++ items1) '\''
        = (true, last1, [] ++ items1) := by
      simp [parseStageOptionListStep]
    have hclose : parseStageOptionListStep (true, last1 ++ b, [] ++ items1) '\''
        = (false, last1 ++ b, [] ++ items1) := by
      simp [parseStageOptionListStep]
    have hfold : (a ++ '\'' :: b ++ '\'' :: c).foldl parseStageOptionListStep (false, [], [])
        = (false, last2, [] ++ items1 ++ items2) := by
      rw [List.append_assoc, List.foldl_append, hfold1, List.cons_append, List.foldl_cons,
        hopen, List.foldl_append, stageLoop_quoted b hb, List.foldl_cons, hclose, hfold2]
    refine ⟨items1 ++ items2 ++ [last2], ?_, by simp [hlen1, hlen2]; omega, ?_⟩
    · rw [parseStageOptionList_append]
      simp only [parseStageOptionList, hfold, List.nil_append]
    · have h1 := hjoin1 []
      have h2 := hjoin2 items1
      rw [intercalate_last_append] at h2
      simp only [List.nil_append] at h1 h2
      rw [List.append_assoc, h2, h1]
      simp [List.intercalate, List.intersperse]

/-- C40 at `-MD,-MF,x.d` behind the item `-I`, and at `-D'x,y',-MD`: three items are
appended, and two (`-Dx,y` and `-MD`). -/
theorem C40_parseStageOptionList_witness :
    (∃ items,
      parseStageOptionList "-MD,-MF,x.d".toList ["-I".toList] = ["-I".toList] ++ items ∧
        items.length = "-MD,-MF,x.d".toList.count ',' + 1 ∧
        [','].intercalate items = "-MD,-MF,x.d".toList) ∧
    (∃ items,
      parseStageOptionList ("-D".toList ++ '\'' :: "x,y".toList ++ '\'' :: ",-MD".toList) []
          = [] ++ items ∧
        items.length = "-D".toList.count ',' + ",-MD".toList.count ',' + 1 ∧
        [','].intercalate items = "-D".toList ++ "x,y".toList ++ ",-MD".toList) ∧
    parseStageOptionList "-MD,-MF,x.d".toList ["-I".toList]
      = ["-I".toList, "-MD".toList, "-MF".toList, "x.d".toList] ∧
    parseStageOptionList ("-D".toList ++ '\'' :: "x,y".toList ++ '\'' :: ",-MD".toList) []
      = ["-Dx,y".toList, "-MD".toList] :=
  ⟨(C40_parseStageOptionList _).1 _ (by decide),
    (C40_parseStageOptionList _).2.2.2 _ _ _ (by decide) (by decide) (by decide),
    by decide, by decide⟩

/-! ## ParsedCommandFactory::parseCommand: the loop ends -/

/-- With a token in the work queue `appendAndRemoveOption` returns, and takes one token
off. -/
theorem appendAndRemoveOption_defined (E : Env) (wd : Str)
    (isPath toDeps isOutput depsOutput : Bool) (c : ParsedCommand) (t : Str) (rest : List Str)
    (hq : c.d_originalCommand = t :: rest) :
    ∃ c2, appendAndRemoveOption E wd isPath toDeps isOutput depsOutput c = some c2 ∧
      c2.d_originalCommand = rest := by
  unfold appendAndRemoveOption
  simp only [hq]
  cases isPath <;> exact ⟨_, rfl, rfl⟩

/-- With a token in the work queue, and a token behind it when the first one is the option
itself, `parseGccOption` returns. -/
theorem parseGccOption_defined (E : Env) (wd option : Str) (toDeps isOutput depsOutput : Bool)
    (c : ParsedCommand) (t : Str) (rest : List Str) (hq : c.d_originalCommand = t :: rest)
    (hrest : t = option → rest ≠ []) :
    ∃ c2, parseGccOption E wd option toDeps isOutput depsOutput c = some c2 := by
  unfold parseGccOption
  simp only [hq]
  by_cases h : t = option
  · rw [if_pos h]
    obtain ⟨c1, h1, hq1⟩ := appendAndRemoveOption_defined E wd false toDeps false false c t
      rest hq
    obtain ⟨next, rest2, hnext⟩ := List.exists_cons_of_ne_nil (hrest h)
    obtain ⟨c2, h2, -⟩ := appendAndRemoveOption_defined E wd true toDeps isOutput depsOutput
      c1 next rest2 (hq1.trans hnext)
    exact ⟨c2, by rw [h1]; exact h2⟩
  · rw [if_neg h]
    exact ⟨_, rfl⟩

/-- An iteration of the loop returns when a token is behind the first one, or when the first
one does not read the token behind it. -/
theorem parseCommandStep_defined (E : Env) (rules : CompilerParseRulesMap) (wd : Str)
    (c : ParsedCommand) (t : Str) (rest : List Str) (hq : c.d_originalCommand = t :: rest)
    (h : rest ≠ [] ∨ takesFollowingToken E rules t = false) :
    ∃ c2, parseCommandStep E rules wd c = some c2 := by
  unfold parseCommandStep
  simp only [hq]
  unfold takesFollowingToken at h
  cases hmatch : matchCompilerOptions E t rules with
  | none =>
    simp only []
    split_ifs
    · exact ⟨_, rfl⟩
    · obtain ⟨c2, h2, -⟩ := appendAndRemoveOption_defined E wd false true false false c t
        rest hq
      exact ⟨c2, h2⟩
    · exact ⟨_, rfl⟩
  | some optionModifier =>
    obtain ⟨option, rule⟩ := optionModifier
    rw [hmatch] at h
    simp only [] at h ⊢
    have hfamily : rule.takesArgument = true → t = option → rest ≠ [] := by
      intro hr ht
      rcases h with h | h
      · exact h
      · simp [hr, ht] at h
    cases rule with
    | parseInterfersWithDepsOption =>
      simp only [ParseRule.apply, parseInterfersWithDepsOption, hq]
      exact ⟨_, rfl⟩
    | parseIsInputPathOption =>
      exact parseGccOption_defined E wd option true false false c t rest hq (hfamily rfl)
    | parseIsEqualInputPathOption =>
      exact parseGccOption_defined E wd option true false false c t rest hq (hfamily rfl)
    | parseIsCompileOption =>
      obtain ⟨c2, h2, -⟩ := appendAndRemoveOption_defined E wd false true false false
        { c with d_compilerCommand := true } t rest hq
      exact ⟨c2, h2⟩
    | parseOptionRedirectsOutput =>
      exact parseGccOption_defined E wd option false true false c t rest hq (hfamily rfl)
    | parseOptionRedirectsDepsOutput =>
      exact parseGccOption_defined E wd option false true true c t rest hq (hfamily rfl)
    | parseOptionDepsRuleTarget =>
      exact parseGccOption_defined E wd option false false false c t rest hq (hfamily rfl)
    | parseIsPreprocessorArgOption =>
      simp only [ParseRule.apply, parseIsPreprocessorArgOption, hq]
      split_ifs with h1 h2
      · exact ⟨_, rfl⟩
      · have hrest : rest ≠ [] := by
          rcases h with h | h
          · exact h
          · simp [ParseRule.takesArgument, h2] at h
        obtain ⟨next, rest2, hnext⟩ := List.exists_cons_of_ne_nil hrest
        rw [hnext]
        exact ⟨_, rfl⟩
      · exact ⟨_, rfl⟩
    | parseIsMacro =>
      simp only [ParseRule.apply, parseIsMacro, hq]
      split_ifs with h1
      · obtain ⟨next, rest2, hnext⟩ := List.exists_cons_of_ne_nil (hfamily rfl h1)
        rw [hnext]
        exact ⟨_, rfl⟩
      · exact ⟨_, rfl⟩
    | parseOptionSetsGccLanguage =>
      simp only [ParseRule.apply, parseOptionSetsGccLanguage, hq]
      by_cases h1 : t = option ∧ rest = []
      · rw [if_pos h1]
        exact ⟨_, rfl⟩
      · rw [if_neg h1]
        exact parseGccOption_defined E wd option true false false _ t rest rfl
          (fun ht hrest => h1 ⟨ht, hrest⟩)
    | parseOptionIsUnsupported => exact ⟨_, rfl⟩

/-- The work queue at the head of the loop is an end piece of the work queue at the start. -/
theorem parserReaches_suffix (E : Env) (rules : CompilerParseRulesMap) (wd : Str)
    (c s : ParsedCommand) (h : ParserReaches E rules wd c s) :
    s.d_originalCommand <:+ c.d_originalCommand := by
  induction h with
  | start => exact List.suffix_refl _
  | next s s2 _ hstep ih =>
    obtain ⟨pre, -, hpre⟩ := (parseCommandStep_keeps E rules wd s s2 hstep).1.queue
    exact List.IsSuffix.trans ⟨pre, hpre.symm⟩ ih

/-- The last token of an end piece that is not empty. -/
theorem getLast?_of_suffix (q1 q2 : List Str) (h : q1 <:+ q2) (hne : q1 ≠ []) :
    q2.getLast? = q1.getLast? := by
  obtain ⟨pre, rfl⟩ := h
  exact List.getLast?_append_of_ne_nil pre hne

/-- A match of the table is an entry of the table, under the option that the function gets:
the token cut at `=` with whitespace erased, or a key that the token begins with. -/
theorem matchCompilerOptions_entry (E : Env) (hE : E.IteratesEntries)
    (rules : CompilerParseRulesMap) (t option : Str) (rule : ParseRule)
    (h : matchCompilerOptions E t rules = some (option, rule)) :
    (option, rule) ∈ rules ∧ (strippedOption t = option ∨ option <+: t) := by
  unfold matchCompilerOptions at h
  split at h
  · rename_i rest
    simp only [] at h
    split at h
    · rename_i entry hfind
      have hkey : entry.1 = strippedOption ('-' :: rest) := by
        simpa using List.find?_some hfind
      have hmem := List.mem_of_find?_eq_some hfind
      simp only [Option.some.injEq, Prod.mk.injEq] at h
      obtain ⟨h1, h2⟩ := h
      refine ⟨?_, Or.inl h1⟩
      rw [← h1, ← h2, ← hkey]
      exact hmem
    · have hmem := ((hE rules).mem_iff).1 (List.mem_of_find?_eq_some h)
      have hkey : ('-' :: rest).take option.length = option := by
        simpa using List.find?_some h
      exact ⟨hmem, Or.inr ⟨_, (by rw [← hkey]; exact List.take_append_drop _ _ :
        ('-' :: rest).take option.length ++ ('-' :: rest).drop option.length = '-' :: rest)
        |> fun h3 => by rw [hkey] at h3; exact h3⟩⟩
  · cases h

/-- A token that is none of the keys of `argumentKeys` and that the table does not match to
`-Xpreprocessor` does not read the token behind it. -/
theorem takesFollowingToken_of_keys (E : Env) (hE : E.IteratesEntries)
    (rules : CompilerParseRulesMap) (t : Str) (hkeys : t ∉ argumentKeys rules)
    (hpre : matchCompilerOptions E t rules
      ≠ some ("-Xpreprocessor".toList, .parseIsPreprocessorArgOption)) :
    takesFollowingToken E rules t = false := by
  unfold takesFollowingToken
  cases hmatch : matchCompilerOptions E t rules with
  | none => rfl
  | some optionModifier =>
    obtain ⟨option, rule⟩ := optionModifier
    simp only [Bool.or_eq_false_iff, Bool.and_eq_false_imp, decide_eq_true_eq,
      decide_eq_false_iff_not]
    constructor
    · intro hr ht
      apply hkeys
      have hmem := (matchCompilerOptions_entry E hE rules t option rule hmatch).1
      unfold argumentKeys
      exact List.mem_map.2 ⟨(option, rule), List.mem_filter.2 ⟨hmem, hr⟩, ht.symm⟩
    · intro hr ho
      apply hpre
      rw [hmatch, hr, ho]

/-- The loop ends when the last token does not read a token behind it. -/
theorem parseCommand_defined (E : Env) (rules : CompilerParseRulesMap) (wd : Str) (n : Nat) :
    ∀ c : ParsedCommand, c.d_originalCommand.length ≤ n →
      (∀ t, c.d_originalCommand.getLast? = some t → takesFollowingToken E rules t = false) →
      ∃ result, parseCommand E rules wd c = some result ∧ result.d_originalCommand = [] ∧
        ParserReaches E rules wd c result := by
  induction n with
  | zero =>
    intro c hn _
    have hq : c.d_originalCommand = [] := List.length_eq_zero.1 (Nat.le_zero.1 hn)
    exact ⟨c, parseCommand_nil E rules wd c hq, hq, .start⟩
  | succ n ih =>
    intro c hn hlast
    cases hq : c.d_originalCommand with
    | nil => exact ⟨c, parseCommand_nil E rules wd c hq, hq, .start⟩
    | cons t rest =>
      have hstep : ∃ c1, parseCommandStep E rules wd c = some c1 := by
        refine parseCommandStep_defined E rules wd c t rest hq ?_
        by_cases hrest : rest = []
        · right
          exact hlast t (by rw [hq, hrest]; rfl)
        · exact Or.inl hrest
      obtain ⟨c1, hc1⟩ := hstep
      have hlen := parseCommandStep_length E rules wd c c1 hc1
      obtain ⟨pre, -, hpre⟩ := (parseCommandStep_keeps E rules wd c c1 hc1).1.queue
      have hlast1 : ∀ t, c1.d_originalCommand.getLast? = some t →
          takesFollowingToken E rules t = false := by
        intro t1 ht1
        have hne : c1.d_originalCommand ≠ [] := fun h => by rw [h] at ht1; cases ht1
        exact hlast t1 (by rw [hpre, List.getLast?_append_of_ne_nil pre hne]; exact ht1)
      obtain ⟨result, hres, hempty, hreach⟩ := ih c1 (by omega) hlast1
      refine ⟨result, ?_, hempty, parserReaches_head E rules wd c c1 result hc1 hreach⟩
      rw [parseCommand_cons E rules wd c t rest hq, hc1]
      exact hres

/-- C39, amended: `parseCommand` terminates for every finite work queue and every rule
table, the gcc, gcc-preprocessor, Sun and AIX tables among them. Under the precondition that
the last token of the queue is not one at which the parse function reads the token behind it
(`takesFollowingToken`), the loop returns with an empty queue, and every iteration reads
the front of a non-empty queue, returns, and leaves the queue strictly shorter. The
precondition holds for a last token that is none of the keys of the table with a macro,
input-path, output or deps-target function (`argumentKeys`) and that the table does not
match to `-Xpreprocessor`; the table matches a token to `-Xpreprocessor` only when the token,
cut at `=` and whitespace erased, is `-Xpreprocessor` or the token begins with it. -/
theorem C39_parseCommand_terminates (E : Env) (hE : E.IteratesEntries) :
    (∀ (parseRules : CompilerParseRulesMap) (workingDirectory : Str)
        (command : ParsedCommand),
      (∀ t, command.d_originalCommand.getLast? = some t →
        takesFollowingToken E parseRules t = false) →
      (∃ result, parseCommand E parseRules workingDirectory command = some result ∧
        result.d_originalCommand = [] ∧
        ParserReaches E parseRules workingDirectory command result) ∧
      ∀ s, ParserReaches E parseRules workingDirectory command s →
        s.d_originalCommand ≠ [] →
        ∃ s2, parseCommandStep E parseRules workingDirectory s = some s2 ∧
          s2.d_originalCommand.length < s.d_originalCommand.length) ∧
    (∀ (parseRules : CompilerParseRulesMap) (t : Str), t ∉ argumentKeys parseRules →
      matchCompilerOptions E t parseRules
        ≠ some ("-Xpreprocessor".toList, .parseIsPreprocessorArgOption) →
      takesFollowingToken E parseRules t = false) ∧
    (∀ (parseRules : CompilerParseRulesMap) (t : Str),
      matchCompilerOptions E t parseRules
        = some ("-Xpreprocessor".toList, .parseIsPreprocessorArgOption) →
      strippedOption t = "-Xpreprocessor".toList ∨ "-Xpreprocessor".toList <+: t) ∧
    argumentKeys GccRules
      = ["-D".toList, "-o".toList, "-MF".toList, "-MT".toList, "-MQ".toList,
          "-include".toList, "-imacros".toList, "-I".toList, "-iquote".toList,
          "-isystem".toList, "-idirafter".toList, "-iprefix".toList, "-isysroot".toList,
          "--sysroot".toList] ∧
    argumentKeys GccPreprocessorRules
      = ["-o".toList, "-MF".toList, "-MT".toList, "-MQ".toList, "-include".toList,
          "-imacros".toList, "-I".toList, "-iquote".toList, "-isystem".toList,
          "-idirafter".toList, "-iprefix".toList, "-isysroot".toList, "--sysroot".toList] ∧
    argumentKeys SunCPPRules
      = ["-D".toList, "-o".toList, "-xMF".toList, "-I".toList, "-include".toList] ∧
    argumentKeys AixRules
      = ["-D".toList, "-o".toList, "-MF".toList, "-qexpfile".toList, "-qinclude".toList,
          "-I".toList, "-qcinc".toList] := by
  refine ⟨fun parseRules wd command hlast => ⟨?_, fun s hs hne => ?_⟩,
    fun parseRules t => takesFollowingToken_of_keys E hE parseRules t,
    fun parseRules t h => (matchCompilerOptions_entry E hE parseRules t _ _ h).2,
    by decide, by decide, by decide, by decide⟩
  · exact parseCommand_defined E parseRules wd _ command (Nat.le_refl _) hlast
  · obtain ⟨t, rest, hq⟩ := List.exists_cons_of_ne_nil hne
    have hsuffix := parserReaches_suffix E parseRules wd command s hs
    have hstep : ∃ s2, parseCommandStep E parseRules wd s = some s2 := by
      refine parseCommandStep_defined E parseRules wd s t rest hq ?_
      by_cases hrest : rest = []
      · right
        refine hlast t ?_
        rw [getLast?_of_suffix _ _ hsuffix hne, hq, hrest]
        rfl
      · exact Or.inl hrest
    obtain ⟨s2, hs2⟩ := hstep
    exact ⟨s2, hs2, parseCommandStep_length E parseRules wd s s2 hs2⟩

set_option maxRecDepth 100000 in
/-- C39, amended, at the queue `-c hello.c -I include -o hello.o` under the gcc table: the
loop returns with an empty queue. -/
theorem C39_parseCommand_terminates_witness :
    sampleEnv.IteratesEntries ∧
    takesFollowingToken sampleEnv GccRules "hello.o".toList = false ∧
    ∃ result,
      parseCommand sampleEnv GccRules []
          (queueOnly ["-c".toList, "hello.c".toList, "-I".toList, "include".toList,
            "-o".toList, "hello.o".toList]) = some result ∧
        result.d_originalCommand = [] ∧
        ParserReaches sampleEnv GccRules []
          (queueOnly ["-c".toList, "hello.c".toList, "-I".toList, "include".toList,
            "-o".toList, "hello.o".toList]) result :=
  ⟨fun _ => List.Perm.refl _, by decide,
    ((C39_parseCommand_terminates sampleEnv (fun _ => List.Perm.refl _)).1 GccRules []
      (queueOnly ["-c".toList, "hello.c".toList, "-I".toList, "include".toList,
        "-o".toList, "hello.o".toList])
      (fun t ht => by
        have h : t = "hello.o".toList := by
          simpa [queueOnly] using ht.symm
        rw [h]
        decide)).1⟩

set_option maxRecDepth 100000 in
/-- C39 as stated fails under the gcc table at a queue whose last token is
`-Xpreprocessorfoo`, which is none of the options that the claim lists: the table matches it
to `-Xpreprocessor`, and the iteration takes it off and reads the front of the queue, which
is empty. So it does under the Sun table at `-xMF` and under the AIX table at `-qexpfile`. -/
theorem C39_last_token_counterexample :
    "-Xpreprocessorfoo".toList ∉
      ["-D".toList, "-Xpreprocessor".toList, "-I".toList, "-include".toList,
        "-imacros".toList, "-iquote".toList, "-isystem".toList, "-idirafter".toList,
        "-iprefix".toList, "-isysroot".toList, "--sysroot".toList, "-o".toList,
        "-MF".toList, "-MT".toList, "-MQ".toList] ∧
    matchCompilerOptions sampleEnv "-Xpreprocessorfoo".toList GccRules
      = some ("-Xpreprocessor".toList, .parseIsPreprocessorArgOption) ∧
    (parseCommandStep sampleEnv GccRules []
      (queueOnly ["-Xpreprocessorfoo".toList])).isNone = true ∧
    (parseCommand sampleEnv GccRules []
      (queueOnly ["-c".toList, "hello.c".toList, "-Xpreprocessorfoo".toList])).isNone
      = true ∧
    (createParsedCommand sampleEnv
      ["gcc".toList, "-c".toList, "hello.c".toList, "-Xpreprocessorfoo".toList] []).isNone
      = true ∧
    (parseCommand sampleEnv SunCPPRules [] (queueOnly ["-xMF".toList])).isNone = true ∧
    (parseCommand sampleEnv AixRules [] (queueOnly ["-qexpfile".toList])).isNone = true := by
  decide

/-! ## FileUtils::hasPathPrefix -/

/-- The last character of segments joined by `/`, when the last segment is not empty. -/
theorem getLast?_intercalate (segments : List Str) (last : Str) (hlast : last ≠ []) :
    (['/'].intercalate (segments ++ [last])).getLast? = last.getLast? := by
  by_cases h : segments = []
  · subst h
    simp [List.intercalate, List.intersperse]
  · rw [intercalate_snoc _ _ _ h, List.getLast?_append_of_ne_nil _ hlast]

/-- The first character of segments joined by `/` is `/` exactly if the first segment is
empty and another one follows. -/
theorem head?_intercalate (segments : List Str) (hs : ∀ s ∈ segments, '/' ∉ s)
    (hlast : ∀ s, segments.getLast? = some s → s ≠ []) :
    (['/'].intercalate segments).head? = some '/' ↔ segments.head? = some [] := by
  cases segments with
  | nil => simp [List.intercalate]
  | cons x rest =>
    cases rest with
    | nil =>
      have hx : x ≠ [] := hlast x rfl
      have hslash : '/' ∉ x := hs x (by simp)
      cases x with
      | nil => exact absurd rfl hx
      | cons c cs =>
        simp only [List.intercalate, List.intersperse, List.flatten, List.append_nil,
          List.head?_cons, Option.some.injEq, reduceCtorEq, iff_false]
        intro hc
        exact hslash (by simp [hc])
    | cons y ys =>
      cases x with
      | nil => simp [List.intercalate, List.intersperse]
      | cons c cs =>
        have hslash : '/' ∉ c :: cs := hs _ (by simp)
        simp only [List.intercalate, List.intersperse_cons_cons, List.flatten_cons,
          List.cons_append, List.head?_cons, Option.some.injEq, reduceCtorEq, iff_false]
        intro hc
        exact hslash (by simp [hc])

/-- The segments of a path written as segments joined by `/`, with or without a `/` at its
end. -/
theorem prefixSegments_intercalate (segments : List Str) (last : Str)
    (hs : ∀ s ∈ segments ++ [last], '/' ∉ s) (hlast : last ≠ []) :
    prefixSegments (['/'].intercalate (segments ++ [last])) = segments ++ [last] ∧
      prefixSegments (['/'].intercalate (segments ++ [last]) ++ ['/'])
        = segments ++ [last] := by
  have hend : (['/'].intercalate (segments ++ [last])).getLast? ≠ some '/' := by
    rw [getLast?_intercalate segments last hlast]
    intro h
    exact hs last (by simp) (List.mem_of_getLast?_eq_some h)
  constructor
  · unfold prefixSegments
    rw [if_neg hend]
    exact List.splitOn_intercalate _ _ hs (by simp)
  · unfold prefixSegments
    rw [if_pos (by simp), List.dropLast_concat]
    exact List.splitOn_intercalate _ _ hs (by simp)

/-- Whether a path written as segments, with or without a `/` at its end, is absolute. -/
theorem head?_path_of_segments (segments : List Str) (last : Str)
    (hs : ∀ s ∈ segments ++ [last], '/' ∉ s) (hlast : last ≠ []) :
    ((['/'].intercalate (segments ++ [last])).head? = some '/'
        ↔ (segments ++ [last]).head? = some []) ∧
      ((['/'].intercalate (segments ++ [last]) ++ ['/']).head? = some '/'
        ↔ (segments ++ [last]).head? = some []) := by
  have h1 := head?_intercalate (segments ++ [last]) hs
    (fun s h => by
      rw [List.getLast?_concat] at h
      cases h
      exact hlast)
  have hne : ['/'].intercalate (segments ++ [last]) ≠ [] := by
    intro h
    have := getLast?_intercalate segments last hlast
    rw [h] at this
    rw [List.getLast?_eq_getLast _ hlast] at this
    cases this
  refine ⟨h1, ?_⟩
  rw [← h1]
  cases hj : ['/'].intercalate (segments ++ [last]) with
  | nil => exact absurd hj hne
  | cons c cs => simp

/-- C36: `hasPathPrefix(path, prefix)` is true exactly if the segments of `prefix`, a `/` at
the end of either argument ignored, are the leading segments of `path` and both are absolute
or both relative; an absolute path has no relative prefix. For paths written as segments
without `/`, the last one not empty, joined by `/`, with or without a `/` at the end, it is
true exactly if the segments of `prefix` are leading segments of those of `path`: the test
is on segments, not on the characters. -/
theorem C36_hasPathPrefix :
    (∀ path pathPrefix : Str,
      hasPathPrefix path pathPrefix = true ↔
        ((path.head? = some '/' ↔ pathPrefix.head? = some '/') ∧
          prefixSegments pathPrefix <+: prefixSegments path)) ∧
    (∀ path pathPrefix : Str, path.head? = some '/' → pathPrefix.head? ≠ some '/' →
      hasPathPrefix path pathPrefix = false) ∧
    (∀ (P Q : List Str) (x y : Str), (∀ s ∈ P ++ [x], '/' ∉ s) → (∀ s ∈ Q ++ [y], '/' ∉ s) →
      x ≠ [] → y ≠ [] →
      ∀ path ∈ [['/'].intercalate (P ++ [x]), ['/'].intercalate (P ++ [x]) ++ ['/']],
      ∀ pathPrefix ∈ [['/'].intercalate (Q ++ [y]), ['/'].intercalate (Q ++ [y]) ++ ['/']],
        (hasPathPrefix path pathPrefix = true ↔ Q ++ [y] <+: P ++ [x])) := by
  have hiff : ∀ path pathPrefix : Str,
      hasPathPrefix path pathPrefix = true ↔
        ((path.head? = some '/' ↔ pathPrefix.head? = some '/') ∧
          prefixSegments pathPrefix <+: prefixSegments path) := by
    intro path pathPrefix
    unfold hasPathPrefix
    rw [Bool.and_eq_true, decide_eq_true_eq, decide_eq_true_eq]
  refine ⟨hiff, fun path pathPrefix habs hrel => ?_, ?_⟩
  · cases h : hasPathPrefix path pathPrefix with
    | false => rfl
    | true => exact absurd (((hiff path pathPrefix).1 h).1.1 habs) hrel
  · intro P Q x y hP hQ hx hy path hpath pathPrefix hpre
    obtain ⟨hP1, hP2⟩ := prefixSegments_intercalate P x hP hx
    obtain ⟨hQ1, hQ2⟩ := prefixSegments_intercalate Q y hQ hy
    obtain ⟨hPa, hPb⟩ := head?_path_of_segments P x hP hx
    obtain ⟨hQa, hQb⟩ := head?_path_of_segments Q y hQ hy
    have hsegP : prefixSegments path = P ++ [x] := by
      simp only [List.mem_cons, List.mem_singleton, List.not_mem_nil, or_false] at hpath
      rcases hpath with h | h <;> rw [h] <;> assumption
    have hsegQ : prefixSegments pathPrefix = Q ++ [y] := by
      simp only [List.mem_cons, List.mem_singleton, List.not_mem_nil, or_false] at hpre
      rcases hpre with h | h <;> rw [h] <;> assumption
    have habsP : path.head? = some '/' ↔ (P ++ [x]).head? = some [] := by
      simp only [List.mem_cons, List.mem_singleton, List.not_mem_nil, or_false] at hpath
      rcases hpath with h | h <;> rw [h] <;> assumption
    have habsQ : pathPrefix.head? = some '/' ↔ (Q ++ [y]).head? = some [] := by
      simp only [List.mem_cons, List.mem_singleton, List.not_mem_nil, or_false] at hpre
      rcases hpre with h | h <;> rw [h] <;> assumption
    rw [hiff, hsegP, hsegQ, habsP, habsQ]
    refine ⟨fun h => h.2, fun h => ⟨?_, h⟩⟩
    obtain ⟨rest, hrest⟩ := h
    have hhead : (P ++ [x]).head? = (Q ++ [y]).head? := by
      rw [← hrest]
      cases Q <;> rfl
    rw [hhead]

set_option maxRecDepth 100000 in
/-- C36 at the paths of the tests `HasPathPrefixTest.AbsolutePaths` and
`HasPathPrefixTest.RelativePaths` (fileutils.t.cpp:50-94), with their expected values, and at
`/a/boo` against `/a/b`, where the characters of the one begin the other. -/
theorem C36_hasPathPrefix_witness :
    (hasPathPrefix "/a/boo".toList "/a/b".toList = true ↔
      ["".toList, "a".toList, "b".toList] <+: ["".toList, "a".toList, "boo".toList]) ∧
    "/a/b".toList <+: "/a/boo".toList ∧
    (∀ p ∈ [("/a/b/c/", "/a/b"), ("/a/b/c/", "/a/b/"), ("/a/b/c", "/a/b"),
          ("/a/b/c", "/a/b/"), ("/a/../b/", "/a"), ("/a/../b/", "/a/"), ("/a/../b", "/a"),
          ("/a/../b", "/a/"), ("a/b/c/", "a/b"), ("a/b/c/", "a/b/"), ("a/b/c", "a/b"),
          ("a/b/c", "a/b/"), ("/a/b/c", "/a/b/c"), ("a/../b/", "a"), ("a/../b/", "a/"),
          ("a/../b", "a"), ("a/../b", "a/")],
      hasPathPrefix p.1.toList p.2.toList = true) ∧
    (∀ p ∈ [("/a/c/d", "/a/b/"), ("/a/boo", "/a/b/"), ("/a/boo", "/a/b"),
          ("/a/boo", "/a/b/a/boo"), ("/a/boo", "/a/b/a/boo/"), ("a/c/d", "a/b/"),
          ("a/boo", "a/b/"), ("a/boo", "a/b"), ("a/boo", "a/b/a/boo"),
          ("a/boo", "a/b/a/boo/"), ("/a/b/c/", "a/b/"), ("/a/b/c/", "a/b"),
          ("/a/b/c", "a/b/"), ("/a/b/c", "a/b")],
      hasPathPrefix p.1.toList p.2.toList = false) :=
  ⟨C36_hasPathPrefix.2.2 ["".toList, "a".toList] ["".toList, "a".toList] "boo".toList
      "b".toList (by decide) (by decide) (by decide) (by decide) _ (List.mem_cons_self _ _) _
      (List.mem_cons_self _ _),
    by decide, by decide, by decide⟩

/-! ## ExecutionContext::uploadResources -/

/-- A digest has a value in a map exactly if it is a key of the map. -/
theorem digest_string_map_at?_eq_none (map : digest_string_map) (key : Digest) :
    map.at? key = none ↔ key ∉ map.map Prod.fst := by
  unfold digest_string_map.at?
  rw [Option.map_eq_none', List.find?_eq_none]
  constructor
  · intro h hmem
    obtain ⟨entry, hentry, hkey⟩ := List.mem_map.1 hmem
    exact h entry hentry (by simpa using hkey)
  · intro h entry hentry hkey
    exact h (List.mem_map.2 ⟨entry, hentry, by simpa using hkey⟩)

/-- The upload requests for digests that are all keys of one of the maps: one request for
each digest, in their order, with the data of `blobs` for a key of `blobs`, and else with the
path of `digest_to_filepaths`. -/
theorem uploadRequests_ok (blobs digest_to_filepaths : digest_string_map)
    (missingDigests : List Digest)
    (h : ∀ digest ∈ missingDigests,
      digest ∈ blobs.map Prod.fst ++ digest_to_filepaths.map Prod.fst) :
    ∃ upload_requests,
      uploadRequests blobs digest_to_filepaths missingDigests = .ok upload_requests ∧
      List.Forall₂
        (fun digest request =>
          (∃ data, blobs.at? digest = some data ∧ request = UploadRequest.data digest data) ∨
            (blobs.at? digest = none ∧ ∃ path, digest_to_filepaths.at? digest = some path ∧
              request = UploadRequest.from_path digest path))
        missingDigests upload_requests := by
  induction missingDigests with
  | nil => exact ⟨[], rfl, .nil⟩
  | cons digest rest ih =>
    obtain ⟨requests, hrequests, hall⟩ := ih (fun d hd => h d (List.mem_cons_of_mem _ hd))
    unfold uploadRequests
    cases hblob : blobs.at? digest with
    | some data =>
      simp only [hrequests]
      exact ⟨_, rfl, .cons (Or.inl ⟨data, hblob, rfl⟩) hall⟩
    | none =>
      cases hfile : digest_to_filepaths.at? digest with
      | some path =>
        simp only [hrequests]
        exact ⟨_, rfl, .cons (Or.inr ⟨hblob, path, hfile, rfl⟩) hall⟩
      | none =>
        exfalso
        rcases List.mem_append.1 (h digest (List.mem_cons_self _ _)) with hm | hm
        · exact (digest_string_map_at?_eq_none blobs digest).1 hblob hm
        · exact (digest_string_map_at?_eq_none digest_to_filepaths digest).1 hfile hm

/-- The upload requests when some digest is a key of neither map: the exception. -/
theorem uploadRequests_error (blobs digest_to_filepaths : digest_string_map)
    (missingDigests : List Digest)
    (h : ∃ digest ∈ missingDigests,
      digest ∉ blobs.map Prod.fst ++ digest_to_filepaths.map Prod.fst) :
    uploadRequests blobs digest_to_filepaths missingDigests
      = .error (.runtime_error "FindMissingBlobs returned non-existent digest".toList) := by
  induction missingDigests with
  | nil =>
    obtain ⟨d, hd, -⟩ := h
    cases hd
  | cons digest rest ih =>
    unfold uploadRequests
    by_cases hhead : digest ∈ blobs.map Prod.fst ++ digest_to_filepaths.map Prod.fst
    · have hrest : ∃ d ∈ rest, d ∉ blobs.map Prod.fst ++ digest_to_filepaths.map Prod.fst := by
        obtain ⟨d, hd, hnot⟩ := h
        rcases List.mem_cons.1 hd with h1 | h1
        · exact absurd (h1 ▸ hhead) hnot
        · exact ⟨d, h1, hnot⟩
      rw [ih hrest]
      cases blobs.at? digest with
      | some data => rfl
      | none =>
        cases digest_to_filepaths.at? digest with
        | some path => rfl
        | none => rfl
    · have hblob : blobs.at? digest = none :=
        (digest_string_map_at?_eq_none blobs digest).2
          (fun hm => hhead (List.mem_append_left _ hm))
      have hfile : digest_to_filepaths.at? digest = none :=
        (digest_string_map_at?_eq_none digest_to_filepaths digest).2
          (fun hm => hhead (List.mem_append_right _ hm))
      simp only [hblob, hfile]

/-- C33: `uploadResources(blobs, digest_to_filepaths)` asks `FindMissingBlobs` for the keys
of `blobs` followed by the keys of `digest_to_filepaths`. When a digest it returns is a key of
neither map, a runtime error is thrown and `uploadBlobs` is not called. Else `uploadBlobs` is
called with one request for each returned digest, in the returned order, with the data of
`blobs` if the digest is a key of `blobs` and else with the path of `digest_to_filepaths`;
when it returns, the counters are recorded: the hits are the number of digests asked for less
the number returned, the misses the number returned. -/
theorem C33_uploadResources (W : ExecutionWorld)
    (blobs digest_to_filepaths : digest_string_map) (digestsToUpload : List Digest)
    (hkeys : digestsToUpload = blobs.map Prod.fst ++ digest_to_filepaths.map Prod.fst) :
    (∃ rest, (uploadResources W blobs digest_to_filepaths).events
      = .findMissingBlobs digestsToUpload :: rest) ∧
    (∀ missingDigests, W.findMissingBlobs digestsToUpload = .ok missingDigests →
      ((∃ digest ∈ missingDigests, digest ∉ digestsToUpload) →
        uploadResources W blobs digest_to_filepaths
          = ⟨[.findMissingBlobs digestsToUpload],
              .error (.runtime_error
                "FindMissingBlobs returned non-existent digest".toList)⟩) ∧
      ((∀ digest ∈ missingDigests, digest ∈ digestsToUpload) →
        ∃ upload_requests,
          List.Forall₂
            (fun digest request =>
              (∃ data, blobs.at? digest = some data ∧
                  request = UploadRequest.data digest data) ∨
                (blobs.at? digest = none ∧ ∃ path,
                  digest_to_filepaths.at? digest = some path ∧
                  request = UploadRequest.from_path digest path))
            missingDigests upload_requests ∧
          (W.uploadBlobs upload_requests = .ok () →
            uploadResources W blobs digest_to_filepaths
              = ⟨[.findMissingBlobs digestsToUpload, .uploadBlobs upload_requests,
                    .counterMetric "recc.upload_blobs_cache_hit".toList
                      ((digestsToUpload.length : Int) - missingDigests.length),
                    .counterMetric "recc.upload_blobs_cache_miss".toList
                      missingDigests.length],
                  .ok ()⟩) ∧
          ∀ x, W.uploadBlobs upload_requests = .error x →
            uploadResources W blobs digest_to_filepaths
              = ⟨[.findMissingBlobs digestsToUpload, .uploadBlobs upload_requests],
                  .error x⟩)) := by
  subst hkeys
  refine ⟨uploadResources_events W blobs digest_to_filepaths,
    fun missingDigests hfind => ⟨fun hbad => ?_, fun hgood => ?_⟩⟩
  · simp only [uploadResources, call, hfind, bind, Run.bind,
      uploadRequests_error blobs digest_to_filepaths missingDigests hbad]
    rfl
  · obtain ⟨requests, hrequests, hall⟩ :=
      uploadRequests_ok blobs digest_to_filepaths missingDigests hgood
    refine ⟨requests, hall, fun hup => ?_, fun x hup => ?_⟩
    · simp only [uploadResources, call, hfind, bind, Run.bind, hrequests, hup]
      rfl
    · simp only [uploadResources, call, hfind, bind, Run.bind, hrequests, hup]
      rfl

set_option maxRecDepth 100000 in
/-- C33 at the inline map with the key `a` and the file-backed map with the keys `a` and `b`:
when every digest is reported missing, `a` is uploaded with its inline data and `b` from its
path; when the digest `z`, a key of neither map, is reported, the runtime error is thrown
and nothing is uploaded. -/
theorem C33_uploadResources_witness :
    (∃ rest,
      (uploadResources sampleWorld [(⟨"a".toList, 1⟩, "data".toList)]
          [(⟨"a".toList, 1⟩, "/p".toList), (⟨"b".toList, 2⟩, "/q".toList)]).events
        = .findMissingBlobs [⟨"a".toList, 1⟩, ⟨"a".toList, 1⟩, ⟨"b".toList, 2⟩] :: rest) ∧
    uploadResources { sampleWorld with findMissingBlobs := fun _ => .ok [⟨"z".toList, 0⟩] }
        [(⟨"a".toList, 1⟩, "data".toList)]
        [(⟨"a".toList, 1⟩, "/p".toList), (⟨"b".toList, 2⟩, "/q".toList)]
      = ⟨[.findMissingBlobs [⟨"a".toList, 1⟩, ⟨"a".toList, 1⟩, ⟨"b".toList, 2⟩]],
          .error (.runtime_error "FindMissingBlobs returned non-existent digest".toList)⟩ ∧
    (uploadResources sampleWorld [(⟨"a".toList, 1⟩, "data".toList)]
        [(⟨"a".toList, 1⟩, "/p".toList), (⟨"b".toList, 2⟩, "/q".toList)]).events
      = [.findMissingBlobs [⟨"a".toList, 1⟩, ⟨"a".toList, 1⟩, ⟨"b".toList, 2⟩],
          .uploadBlobs [.data ⟨"a".toList, 1⟩ "data".toList,
            .data ⟨"a".toList, 1⟩ "data".toList, .from_path ⟨"b".toList, 2⟩ "/q".toList],
          .counterMetric "recc.upload_blobs_cache_hit".toList 0,
          .counterMetric "recc.upload_blobs_cache_miss".toList 3] :=
  ⟨(C33_uploadResources sampleWorld _ _ _ rfl).1,
    ((C33_uploadResources
      { sampleWorld with findMissingBlobs := fun _ => .ok [⟨"z".toList, 0⟩] }
      [(⟨"a".toList, 1⟩, "data".toList)]
      [(⟨"a".toList, 1⟩, "/p".toList), (⟨"b".toList, 2⟩, "/q".toList)] _ rfl).2 _ rfl).1
      ⟨_, List.mem_cons_self _ _, by decide⟩,
    by decide⟩

/-! ## ExecutionContext::execute: no-execute mode and the exceptions of the action builder -/

/-- `RECC_NO_EXECUTE` is set and the action builder, if it is called, returns: the statements
of `execute` behind the parsing end with the value 0, and no command is run and no remote
service called. -/
theorem executeCommand_no_execute (W : ExecutionWorld) (argv : List Str)
    (command : ParsedCommand) (hno : W.RECC_NO_EXECUTE = true)
    (hbuild : (command.is_compiler_command || W.RECC_FORCE_REMOTE) = true →
      ∃ built, W.BuildAction command W.getCurrentWorkingDirectory = .ok built) :
    (executeCommand W argv command).outcome = .ok 0 ∧
      ∀ e ∈ (executeCommand W argv command).events,
        e.isLocalRun = false ∧ e.isRemote = false := by
  cases hremote : (command.is_compiler_command || W.RECC_FORCE_REMOTE) with
  | false =>
    have hrun : executeCommand W argv command
        = ⟨[.log .INFO ("Not a compiler command, so running locally. (Use " ++
              "RECC_FORCE_REMOTE=1 to force remote execution)").toList,
            .log .INFO
              "Command would have run locally but RECC_NO_EXECUTE is enabled, exiting.".toList],
          .ok 0⟩ := by
      simp only [executeCommand, hremote, hno, Bool.false_eq_true, if_false, if_true]
      rfl
    rw [hrun]
    refine ⟨rfl, fun e he => ?_⟩
    simp only [List.mem_cons, List.mem_singleton, List.not_mem_nil, or_false] at he
    rcases he with h | h <;> (subst h; exact ⟨rfl, rfl⟩)
  | true =>
    obtain ⟨built, hbuilt⟩ := hbuild hremote
    cases haction : built.actionPtr with
    | none =>
      have hrun : executeCommand W argv command
          = ⟨[.BuildAction command.get_command W.getCurrentWorkingDirectory,
              .counterMetric "recc.input_size_bytes".toList
                (calculateTotalSize built.blobs built.digest_to_filepaths),
              .log .INFO
                "Command would have run locally but RECC_NO_EXECUTE is enabled, exiting.".toList],
            .ok 0⟩ := by
        simp only [executeCommand, hremote, if_true, call, hbuilt]
        simp only [bind, Run.bind, Run.tryCatch, pure, Run.pure, emit, log, haction, hno,
          if_true, List.append_nil, List.nil_append, List.cons_append,
          List.append_assoc, List.singleton_append]
      rw [hrun]
      refine ⟨rfl, fun e he => ?_⟩
      simp only [List.mem_cons, List.mem_singleton, List.not_mem_nil, or_false] at he
      rcases he with h | h | h <;> (subst h; exact ⟨rfl, rfl⟩)
    | some action =>
      have hrun : executeCommand W argv command
          = ⟨[.BuildAction command.get_command W.getCurrentWorkingDirectory,
              .counterMetric "recc.input_size_bytes".toList
                (calculateTotalSize built.blobs built.digest_to_filepaths),
              .d_actionDigest (W.make_digest_action action),
              .log .DEBUG ("Action Digest: ".toList ++
                W.showDigest (W.make_digest_action action) ++ " Action Contents: ".toList ++
                action.ShortDebugString),
              .log .INFO "RECC_NO_EXECUTE is enabled, exiting.".toList],
            .ok 0⟩ := by
        simp only [executeCommand, hremote, if_true, call, hbuilt]
        simp only [bind, Run.bind, Run.tryCatch, pure, Run.pure, emit, log, haction, hno,
          if_true, List.append_nil, List.nil_append, List.cons_append,
          List.append_assoc, List.singleton_append]
      rw [hrun]
      refine ⟨rfl, fun e he => ?_⟩
      simp only [List.mem_cons, List.mem_singleton, List.not_mem_nil, or_false] at he
      rcases he with h | h | h | h | h <;> (subst h; exact ⟨rfl, rfl⟩)

/-- C35: when `RECC_NO_EXECUTE` is set, the configuration is read without an exception and
the action builder, if it is called, throws nothing, `execute` returns 0 for every argv that
is parsed, whether an `Action` was built or not; no command is run locally and no remote
service (action cache, CAS, execution service) is called. -/
theorem C35_no_execute (W : ExecutionWorld) (argv : List Str) (command : ParsedCommand)
    (hconf : W.parse_config_variables = .ok ())
    (hstats : W.get_statsdpublisher_from_config = .ok ())
    (hparse : createParsedCommand W.E argv W.getCurrentWorkingDirectory = some command)
    (hno : W.RECC_NO_EXECUTE = true)
    (hbuild : (command.is_compiler_command || W.RECC_FORCE_REMOTE) = true →
      ∃ built, W.BuildAction command W.getCurrentWorkingDirectory = .ok built) :
    ∃ run, execute W argv = some run ∧ run.outcome = .ok 0 ∧
      ∀ e ∈ run.events, e.isLocalRun = false ∧ e.isRemote = false := by
  obtain ⟨hout, hev⟩ := executeCommand_no_execute W argv command hno hbuild
  obtain ⟨pre, hrun, hpre⟩ := execute_parsed_log W argv command hconf hstats hparse
  refine ⟨_, hrun, hout, fun e he => ?_⟩
  rcases List.mem_append.1 he with h | h
  · obtain ⟨level, m, rfl⟩ := hpre e h
    exact ⟨rfl, rfl⟩
  · exact hev e h

set_option maxRecDepth 100000 in
/-- C35 at `gcc -c hello.c`, for which an `Action` is built, and at `ls`, for which none is
built, with `RECC_NO_EXECUTE` set. -/
theorem C35_no_execute_witness :
    (∃ run, execute { sampleWorld with RECC_NO_EXECUTE := true }
        ["gcc".toList, "-c".toList, "hello.c".toList] = some run ∧ run.outcome = .ok 0 ∧
      ∀ e ∈ run.events, e.isLocalRun = false ∧ e.isRemote = false) ∧
    (∃ run, execute { sampleWorld with RECC_NO_EXECUTE := true } ["ls".toList] = some run ∧
      run.outcome = .ok 0 ∧ ∀ e ∈ run.events, e.isLocalRun = false ∧ e.isRemote = false) ∧
    (execute { sampleWorld with RECC_NO_EXECUTE := true }
        ["gcc".toList, "-c".toList, "hello.c".toList]).map (fun run => run.events.length)
      = some 7 ∧
    (execute { sampleWorld with RECC_NO_EXECUTE := true } ["ls".toList]).map
      (fun run => run.events.length) = some 4 := by
  have h1 : (createParsedCommand sampleEnv ["gcc".toList, "-c".toList, "hello.c".toList]
      "/home/nobody/".toList).isSome = true := by decide
  have h2 : (createParsedCommand sampleEnv ["ls".toList] "/home/nobody/".toList).isSome
      = true := by decide
  obtain ⟨c1, hc1⟩ := Option.isSome_iff_exists.1 h1
  obtain ⟨c2, hc2⟩ := Option.isSome_iff_exists.1 h2
  exact ⟨C35_no_execute { sampleWorld with RECC_NO_EXECUTE := true } _ c1 rfl rfl hc1 rfl
      (fun _ => ⟨_, rfl⟩),
    C35_no_execute { sampleWorld with RECC_NO_EXECUTE := true } _ c2 rfl rfl hc2 rfl
      (fun _ => ⟨_, rfl⟩),
    by decide, by decide⟩

/-- The action builder throws `invalid_argument`: the statements of `execute` behind the
parsing write the error to the log and throw the exception again; no command is run. -/
theorem executeCommand_invalid_argument (W : ExecutionWorld) (argv : List Str)
    (command : ParsedCommand) (what argv0 : Str) (rest : List Str)
    (hremote : (command.is_compiler_command || W.RECC_FORCE_REMOTE) = true)
    (hbuild : W.BuildAction command W.getCurrentWorkingDirectory
      = .error (.invalid_argument what))
    (hcommand : command.get_command = argv0 :: rest) :
    executeCommand W argv command
      = ⟨[.BuildAction command.get_command W.getCurrentWorkingDirectory,
          .log .ERROR ("Invalid `argv[0]` value in command: \"".toList ++ argv0 ++
            ("\". The Remote Execution API requires it to specify " ++
              "either a relative or absolute path to an executable.").toList)],
        .error (.invalid_argument what)⟩ := by
  simp only [executeCommand, hremote, if_true, call, hbuild]
  simp only [bind, Run.bind, Run.tryCatch, pure, Run.pure, emit, log, throwException,
    Exception.isInvalidArgument, if_true, hcommand, List.append_nil, List.nil_append,
    List.cons_append, List.append_assoc, List.singleton_append]

/-- The action builder throws: the statements of `execute` behind the parsing throw, and no
command is run. -/
theorem executeCommand_build_error (W : ExecutionWorld) (argv : List Str)
    (command : ParsedCommand) (x : Exception)
    (hremote : (command.is_compiler_command || W.RECC_FORCE_REMOTE) = true)
    (hbuild : W.BuildAction command W.getCurrentWorkingDirectory = .error x) :
    (∃ y, (executeCommand W argv command).outcome = .error y) ∧
      ∀ e ∈ (executeCommand W argv command).events, e.isLocalRun = false := by
  have hrun : executeCommand W argv command
      = ⟨.BuildAction command.get_command W.getCurrentWorkingDirectory ::
          (if x.isInvalidArgument = true then
            match command.get_command with
            | [] => []
            | argv0 :: _ =>
              [.log .ERROR ("Invalid `argv[0]` value in command: \"".toList ++ argv0 ++
                ("\". The Remote Execution API requires it to specify " ++
                  "either a relative or absolute path to an executable.").toList)]
          else []),
        .error (if x.isInvalidArgument = true then
          match command.get_command with
          | [] => .out_of_range "vector::at".toList
          | _ :: _ => x
          else x)⟩ := by
    simp only [executeCommand, hremote, if_true, call, hbuild]
    simp only [bind, Run.bind, Run.tryCatch, pure, Run.pure, emit, log, throwException]
    cases hx : x.isInvalidArgument with
    | false =>
      simp only [Bool.false_eq_true, if_false, List.append_nil]
    | true =>
      cases hc : command.get_command with
      | nil => simp only [if_true, List.append_nil]
      | cons argv0 rest => simp only [if_true, List.append_nil, List.singleton_append]
  rw [hrun]
  refine ⟨⟨_, rfl⟩, fun e he => ?_⟩
  rcases List.mem_cons.1 he with h | h
  · subst h
    rfl
  · split_ifs at h with hx
    · cases hc : command.get_command with
      | nil =>
        rw [hc] at h
        cases h
      | cons argv0 rest =>
        rw [hc] at h
        rw [List.mem_singleton.1 h]
        rfl
    · cases h

/-- The action builder returns a null pointer and `RECC_NO_EXECUTE` is not set: the command
is run locally. -/
theorem executeCommand_no_action (W : ExecutionWorld) (argv : List Str)
    (command : ParsedCommand) (built : BuildActionResult)
    (hremote : (command.is_compiler_command || W.RECC_FORCE_REMOTE) = true)
    (hbuild : W.BuildAction command W.getCurrentWorkingDirectory = .ok built)
    (haction : built.actionPtr = none) (hno : W.RECC_NO_EXECUTE = false) :
    executeCommand W argv command
      = ⟨[.BuildAction command.get_command W.getCurrentWorkingDirectory,
          .counterMetric "recc.input_size_bytes".toList
            (calculateTotalSize built.blobs built.digest_to_filepaths),
          .Subprocess_execute argv false false],
        (W.Subprocess_execute argv false false).map (fun r => r.d_exitCode)⟩ := by
  simp only [executeCommand, hremote, if_true, call, hbuild]
  simp only [bind, Run.bind, Run.tryCatch, pure, Run.pure, emit, log, haction, hno,
    Bool.false_eq_true, if_false, execLocally, call, List.append_nil, List.nil_append,
    List.cons_append, List.append_assoc, List.singleton_append]
  cases h : W.Subprocess_execute argv false false with
  | error e => rfl
  | ok r => rfl

/-- C34, amended: for a command that goes to the action builder, when the configuration is
read and the command parsed. If the action builder throws `invalid_argument`, `execute`
throws: no command is run locally; the exception is the `invalid_argument` of the action
builder (when the command holds a token, which is written to the log with the error), and
`main` returns 100. If the action builder returns no `Action` (a null pointer) and
`RECC_NO_EXECUTE` is not set, `execute` runs the original argv locally, once, and returns
the exit code of that run, which `main` returns. -/
theorem C34_action_builder_failure (W : ExecutionWorld) (argv : List Str)
    (command : ParsedCommand)
    (hconf : W.parse_config_variables = .ok ())
    (hstats : W.get_statsdpublisher_from_config = .ok ())
    (hparse : createParsedCommand W.E argv W.getCurrentWorkingDirectory = some command)
    (hremote : (command.is_compiler_command || W.RECC_FORCE_REMOTE) = true) :
    (∀ what, W.BuildAction command W.getCurrentWorkingDirectory
        = .error (.invalid_argument what) →
      ∃ run, execute W argv = some run ∧ (∃ y, run.outcome = .error y) ∧
        (∀ e ∈ run.events, e.isLocalRun = false) ∧
        (command.get_command ≠ [] →
          run.outcome = .error (.invalid_argument what) ∧
          ∀ executeFn : List Str → Except Exception Int, executeFn argv = run.outcome →
            mainDispatch executeFn argv = .returned RC_USAGE)) ∧
    (∀ built, W.BuildAction command W.getCurrentWorkingDirectory = .ok built →
      built.actionPtr = none → W.RECC_NO_EXECUTE = false →
      ∃ run, execute W argv = some run ∧
        run.events.filter Event.isLocalRun = [.Subprocess_execute argv false false] ∧
        run.outcome = (W.Subprocess_execute argv false false).map (fun r => r.d_exitCode) ∧
        ∀ r, W.Subprocess_execute argv false false = .ok r →
          ∀ executeFn : List Str → Except Exception Int, executeFn argv = run.outcome →
            mainDispatch executeFn argv = .returned r.d_exitCode) := by
  obtain ⟨pre, hrun, hpre⟩ := execute_parsed_log W argv command hconf hstats hparse
  refine ⟨fun what hbuild => ⟨_, hrun, ?_, ?_, ?_⟩,
    fun built hbuild haction hno => ⟨_, hrun, ?_, ?_, ?_⟩⟩
  · exact (executeCommand_build_error W argv command _ hremote hbuild).1
  · intro e he
    rcases List.mem_append.1 he with h | h
    · obtain ⟨level, m, rfl⟩ := hpre e h
      rfl
    · exact (executeCommand_build_error W argv command _ hremote hbuild).2 e h
  · intro hne
    obtain ⟨argv0, rest, hcommand⟩ := List.exists_cons_of_ne_nil hne
    simp only [executeCommand_invalid_argument W argv command what argv0 rest hremote hbuild
      hcommand]
    refine ⟨trivial, fun executeFn hfn => ?_⟩
    simp only [mainDispatch, hfn]
  · rw [executeCommand_no_action W argv command built hremote hbuild haction hno]
    simp only [List.filter_append, filter_isLocalRun_of_log pre hpre, List.nil_append]
    rfl
  · rw [executeCommand_no_action W argv command built hremote hbuild haction hno]
  · intro r hr executeFn hfn
    rw [executeCommand_no_action W argv command built hremote hbuild haction hno] at hfn
    simp only [hr, Except.map] at hfn
    simp only [mainDispatch, hfn]

set_option maxRecDepth 100000 in
/-- C34, amended, at `gcc -c hello.c`: with an action builder that throws
`invalid_argument` nothing is run and `execute` throws it; with one that returns a null
pointer the command is run locally and its exit code 3 returned. -/
theorem C34_action_builder_failure_witness :
    (∃ run,
      execute
          { sampleWorld with BuildAction := fun _ _ => .error (.invalid_argument "bad".toList) }
          ["gcc".toList, "-c".toList, "hello.c".toList] = some run ∧
        (∃ y, run.outcome = .error y) ∧ (∀ e ∈ run.events, e.isLocalRun = false)) ∧
    (∃ run,
      execute
          { sampleWorld with
            BuildAction := fun _ _ => .ok ⟨none, [], [], []⟩
            Subprocess_execute := fun _ _ _ => .ok ⟨3, [], []⟩ }
          ["gcc".toList, "-c".toList, "hello.c".toList] = some run ∧
        run.events.filter Event.isLocalRun
          = [.Subprocess_execute ["gcc".toList, "-c".toList, "hello.c".toList] false false] ∧
        run.outcome = .ok 3) := by
  have hrun : (createParsedCommand sampleEnv ["gcc".toList, "-c".toList, "hello.c".toList]
      "/home/nobody/".toList).map (fun pc => pc.is_compiler_command) = some true := by
    decide
  obtain ⟨command, hpc, hcc⟩ := Option.map_eq_some'.1 hrun
  constructor
  · obtain ⟨run, h1, h2, h3, -⟩ := (C34_action_builder_failure
      { sampleWorld with BuildAction := fun _ _ => .error (.invalid_argument "bad".toList) }
      ["gcc".toList, "-c".toList, "hello.c".toList] command rfl rfl hpc
      (by rw [hcc]; rfl)).1 _ rfl
    exact ⟨run, h1, h2, h3⟩
  · obtain ⟨run, h1, h2, h3, -⟩ := (C34_action_builder_failure
      { sampleWorld with
        BuildAction := fun _ _ => .ok ⟨none, [], [], []⟩
        Subprocess_execute := fun _ _ _ => .ok ⟨3, [], []⟩ }
      ["gcc".toList, "-c".toList, "hello.c".toList] command rfl rfl hpc
      (by rw [hcc]; rfl)).2 _ rfl rfl rfl
    exact ⟨run, h1, h2, h3⟩

set_option maxRecDepth 100000 in
/-- C34 as stated fails at `gcc -c empty.i`, a compiler command whose product prediction
throws the unsupported-suffix `invalid_argument`: when the action builder throws it, `execute`
runs nothing locally and throws it again, and `main` returns 100. -/
theorem C34_invalid_argument_counterexample :
    (createParsedCommand sampleEnv ["gcc".toList, "-c".toList, "empty.i".toList]
        "/home/nobody/".toList).map
      (fun pc => (pc.is_compiler_command, determine_products pc))
      = some (true, .error "File empty.i uses a file suffix unsupported for caching".toList) ∧
    (execute
        { sampleWorld with
          BuildAction := fun _ _ => .error (.invalid_argument
            "File empty.i uses a file suffix unsupported for caching".toList) }
        ["gcc".toList, "-c".toList, "empty.i".toList]).map
      (fun run => (run.events.filter Event.isLocalRun, run.outcome))
      = some ([], .error (.invalid_argument
          "File empty.i uses a file suffix unsupported for caching".toList)) ∧
    (main [] []
      (fun command =>
        match execute
            { sampleWorld with
              BuildAction := fun _ _ => .error (.invalid_argument
                "File empty.i uses a file suffix unsupported for caching".toList) }
            command with
        | some run => run.outcome
        | none => .error (.exception []))
      ["recc".toList, "gcc".toList, "-c".toList, "empty.i".toList]).finish
      = .returned 100 := by
  decide

/-! ## ExecutionContext::execute: the cache-only mode -/

/-- The entries of a map after an assignment. -/
theorem digest_string_map_mem_assign (map : digest_string_map) (key : Digest) (value : Str)
    (entry : Digest × Str) (h : entry ∈ map.assign key value) :
    entry ∈ map ∨ entry = (key, value) := by
  unfold digest_string_map.assign at h
  split_ifs at h
  · obtain ⟨old, hold, heq⟩ := List.mem_map.1 h
    split_ifs at heq
    · exact Or.inr heq.symm
    · exact Or.inl (heq ▸ hold)
  · rcases List.mem_append.1 h with h1 | h1
    · exact Or.inl h1
    · exact Or.inr (List.mem_singleton.1 h1)

/-- The loop over the products, when the files that exist can be read: it returns; the exit
code is kept, one output file is added for each product that is a regular file, and the
entries added to the file-backed map are paths of such products. -/
theorem addOutputFiles_ok (W : ExecutionWorld) (products : List Str)
    (hfiles : ∀ p ∈ products, W.isRegularFile p = true → ∃ file, W.File p = .ok file)
    (digest_to_filepaths : digest_string_map) (actionResult : ActionResult) :
    ∃ filepaths result,
      addOutputFiles W products (digest_to_filepaths, actionResult) = .ok (filepaths, result) ∧
      result.exit_code = actionResult.exit_code ∧
      result.output_files.length
        = actionResult.output_files.length + (products.filter W.isRegularFile).length ∧
      ∀ entry ∈ filepaths, entry ∈ digest_to_filepaths ∨
        (entry.2 ∈ products ∧ W.isRegularFile entry.2 = true) := by
  induction products generalizing digest_to_filepaths actionResult with
  | nil => exact ⟨_, _, rfl, rfl, by simp, fun entry h => Or.inl h⟩
  | cons p rest ih =>
    have hrest : ∀ q ∈ rest, W.isRegularFile q = true → ∃ file, W.File q = .ok file :=
      fun q hq => hfiles q (List.mem_cons_of_mem _ hq)
    unfold addOutputFiles
    cases hreg : W.isRegularFile p with
    | false =>
      obtain ⟨filepaths, result, h1, h2, h3, h4⟩ := ih hrest digest_to_filepaths actionResult
      refine ⟨filepaths, result, by simpa using h1, h2, ?_, fun entry he => ?_⟩
      · rw [h3, List.filter_cons_of_neg (by simp [hreg])]
      · rcases h4 entry he with h | h
        · exact Or.inl h
        · exact Or.inr ⟨List.mem_cons_of_mem _ h.1, h.2⟩
    | true =>
      obtain ⟨file, hfile⟩ := hfiles p (List.mem_cons_self _ _) hreg
      obtain ⟨filepaths, result, h1, h2, h3, h4⟩ := ih hrest
        (digest_to_filepaths.assign file.1 p)
        { actionResult with
          output_files := actionResult.output_files ++
            [({ path := p, digest := file.1, is_executable := file.2 } : OutputFile)] }
      refine ⟨filepaths, result, by simpa [hfile] using h1, h2, ?_, fun entry he => ?_⟩
      · rw [h3, List.filter_cons_of_pos (by simp [hreg])]
        simp only [List.length_append, List.length_singleton, List.length_cons,
          List.length_nil]
        omega
      · rcases h4 entry he with h | h
        · rcases digest_string_map_mem_assign _ _ _ _ h with h5 | h5
          · exact Or.inl h5
          · exact Or.inr ⟨by rw [h5]; exact List.mem_cons_self _ _, by rw [h5]; exact hreg⟩
        · exact Or.inr ⟨List.mem_cons_of_mem _ h.1, h.2⟩

/-- The local run with its action result, when the run returns and the files that exist can
be read: the command is run once with both streams piped, the exit code of the action
result is that of the run, it has one output file for each product that is a regular file,
and the file-backed map holds paths of such products only. -/
theorem execLocallyWithActionResult_ok (W : ExecutionWorld) (argv : List Str)
    (blobs : digest_string_map) (products : List Str) (r : SubprocessResult)
    (hsub : W.Subprocess_execute argv true true = .ok r)
    (hfiles : ∀ p ∈ products, W.isRegularFile p = true → ∃ file, W.File p = .ok file) :
    ∃ result blobs2 filepaths,
      execLocallyWithActionResult W argv blobs [] products
        = ⟨[.Subprocess_execute argv true true, .cout r.d_stdOut, .cerr r.d_stdErr],
            .ok (result, blobs2, filepaths)⟩ ∧
      result.exit_code = r.d_exitCode ∧
      result.output_files.length = (products.filter W.isRegularFile).length ∧
      ∀ entry ∈ filepaths, entry.2 ∈ products ∧ W.isRegularFile entry.2 = true := by
  obtain ⟨filepaths, result, h1, h2, h3, h4⟩ := addOutputFiles_ok W products hfiles []
    { { ActionResult.empty with exit_code := r.d_exitCode } with
      stdout_digest := some (W.make_digest r.d_stdOut)
      stderr_digest := some (W.make_digest r.d_stdErr) }
  refine ⟨result,
    (blobs.assign (W.make_digest r.d_stdOut) r.d_stdOut).assign (W.make_digest r.d_stdErr)
      r.d_stdErr,
    filepaths, ?_, h2, by simpa [ActionResult.empty] using h3, fun entry he => ?_⟩
  · simp only [execLocallyWithActionResult, call, hsub]
    simp only [bind, Run.bind, emit, h1, pure, Run.pure, List.append_nil, List.nil_append,
      List.cons_append, List.singleton_append]
  · rcases h4 entry he with h | h
    · cases h
    · exact h

/-- The cache-only mode without the upload of the local build: the command is run locally,
streams not piped. -/
theorem executeCacheOnly_disabled (W : ExecutionWorld) (argv : List Str)
    (actionDigest : Digest) (blobs : digest_string_map) (products : List Str)
    (hoff : (W.RECC_CACHE_UPLOAD_LOCAL_BUILD && !W.RECC_ACTION_UNCACHEABLE) = false) :
    executeCacheOnly W argv actionDigest blobs products
      = ⟨[.log .INFO
            "Action not cached and running in cache-only mode, executing locally".toList,
          .Subprocess_execute argv false false],
        (W.Subprocess_execute argv false false).map (fun r => r.d_exitCode)⟩ := by
  simp only [executeCacheOnly, hoff, Bool.not_false, if_true, execLocally, call]
  cases h : W.Subprocess_execute argv false false with
  | error e => rfl
  | ok r => rfl

/-- The cache-only mode with the upload of the local build, when the local run returns its
action result: the exit code of the local run is returned whatever the upload does. The
events behind the local run are a warning and the stored result when the local build is not
uploaded; else the events of `uploadResources`, followed by a warning when it throws, and
by the call of `UpdateActionResult`, a log line and the stored result when it returns. -/
theorem executeCacheOnly_enabled (W : ExecutionWorld) (argv : List Str)
    (actionDigest : Digest) (blobs : digest_string_map) (products : List Str)
    (events : List Event) (result : ActionResult) (blobs2 filepaths : digest_string_map)
    (hon : (W.RECC_CACHE_UPLOAD_LOCAL_BUILD && !W.RECC_ACTION_UNCACHEABLE) = true)
    (hlocal : execLocallyWithActionResult W argv blobs [] products
      = ⟨events, .ok (result, blobs2, filepaths)⟩) :
    ∃ tail,
      executeCacheOnly W argv actionDigest blobs products
        = ⟨.log .INFO
              "Action not cached and running in cache-only mode, executing locally".toList ::
            (events ++ tail),
          .ok result.exit_code⟩ ∧
      (((result.exit_code ≠ 0 ∧ W.RECC_CACHE_UPLOAD_FAILED_BUILD = false) ∨
          result.output_files.length ≠ products.length) →
        ∃ message, tail = [.log .WARNING message, .d_actionResult result]) ∧
      (¬((result.exit_code ≠ 0 ∧ W.RECC_CACHE_UPLOAD_FAILED_BUILD = false) ∨
          result.output_files.length ≠ products.length) →
        ∃ after,
          tail = .log .DEBUG "Uploading local build...".toList ::
            ((uploadResources W blobs2 filepaths).events ++ after) ∧
          (∀ e, (uploadResources W blobs2 filepaths).outcome = .error e →
            after = [.log .WARNING ("Error while uploading local build to CAS at \"".toList ++
              W.RECC_CAS_SERVER ++ "\": ".toList ++ e.what)]) ∧
          ((uploadResources W blobs2 filepaths).outcome = .ok () →
            ∃ line, after = [.updateActionCache actionDigest result, line,
                .d_actionResult result] ∧
              (W.updateActionCache actionDigest result = .ok () →
                line = .log .INFO "Action cache updated".toList) ∧
              ∀ e, W.updateActionCache actionDigest result = .error e →
                line = .log .WARNING
                  ("Error while calling `UpdateActionCache()` on \"".toList ++
                    W.RECC_ACTION_CACHE_SERVER ++ "\": ".toList ++ e.what))) := by
  by_cases hgate1 : result.exit_code ≠ 0 ∧ W.RECC_CACHE_UPLOAD_FAILED_BUILD = false
  · refine ⟨[.log .WARNING ("Not uploading actionResult due to exit_code = ".toList ++
          showInt result.exit_code ++ ", RECC_CACHE_UPLOAD_FAILED_BUILD = ".toList ++
          (if W.RECC_CACHE_UPLOAD_FAILED_BUILD then "true".toList else "false".toList)),
        .d_actionResult result], ?_, fun _ => ⟨_, rfl⟩,
      fun h => absurd (Or.inl hgate1) h⟩
    simp only [executeCacheOnly, hon, Bool.not_true, Bool.false_eq_true, if_false, hlocal]
    simp only [bind, Run.bind, Run.tryCatch, pure, Run.pure, emit, log, hgate1.1, hgate1.2,
      ne_eq, not_false_eq_true, Bool.not_false, and_self, if_true, Bool.false_eq_true,
      if_false, List.append_nil, List.nil_append, List.cons_append, List.append_assoc,
      List.singleton_append]
  · have hg1 : ¬(result.exit_code ≠ 0 ∧ (!W.RECC_CACHE_UPLOAD_FAILED_BUILD) = true) := by
      intro h
      exact hgate1 ⟨h.1, by simpa using h.2⟩
    by_cases hgate2 : result.output_files.length ≠ products.length
    · refine ⟨[.log .WARNING ("Not uploading actionResult due to ".toList ++
            showInt ((products.length : Int) - result.output_files.length) ++
            " of the requested output files not being found".toList),
          .d_actionResult result], ?_, fun _ => ⟨_, rfl⟩,
        fun h => absurd (Or.inr hgate2) h⟩
      simp only [executeCacheOnly, hon, Bool.not_true, Bool.false_eq_true, if_false, hlocal]
      simp only [bind, Run.bind, Run.tryCatch, pure, Run.pure, emit, log, hg1, hgate2,
        ne_eq, not_false_eq_true, if_true, if_false, List.append_nil, List.nil_append,
        List.cons_append, List.append_assoc, List.singleton_append]
    · have hnot : ¬((result.exit_code ≠ 0 ∧ W.RECC_CACHE_UPLOAD_FAILED_BUILD = false) ∨
          result.output_files.length ≠ products.length) := fun h => h.elim hgate1 hgate2
      generalize hU : uploadResources W blobs2 filepaths = upload
      obtain ⟨uevents, uoutcome⟩ := upload
      cases uoutcome with
      | error e =>
        refine ⟨.log .DEBUG "Uploading local build...".toList ::
            (uevents ++ [.log .WARNING ("Error while uploading local build to CAS at \"".toList ++
              W.RECC_CAS_SERVER ++ "\": ".toList ++ e.what)]),
          ?_, fun h => absurd h hnot, fun _ => ⟨_, rfl, fun e2 h2 => ?_, fun h2 => ?_⟩⟩
        · simp only [executeCacheOnly, hon, Bool.not_true, Bool.false_eq_true, if_false, hlocal]
          simp only [bind, Run.bind, Run.tryCatch, pure, Run.pure, emit, log, hg1, hgate2,
            hU, if_false, Bool.not_false, if_true, List.append_nil, List.nil_append,
            List.cons_append, List.append_assoc, List.singleton_append]
        · cases h2
          rfl
        · cases h2
      | ok u =>
        cases hupdate : W.updateActionCache actionDigest result with
        | error e =>
          refine ⟨.log .DEBUG "Uploading local build...".toList ::
              (uevents ++ [.updateActionCache actionDigest result,
                .log .WARNING ("Error while calling `UpdateActionCache()` on \"".toList ++
                  W.RECC_ACTION_CACHE_SERVER ++ "\": ".toList ++ e.what),
                .d_actionResult result]),
            ?_, fun h => absurd h hnot, fun _ => ⟨_, rfl, fun e2 h2 => ?_, fun _ =>
              ⟨_, rfl, fun h3 => ?_, fun e3 h3 => ?_⟩⟩⟩
          · simp only [executeCacheOnly, hon, Bool.not_true, Bool.false_eq_true, if_false,
              hlocal]
            simp only [bind, Run.bind, Run.tryCatch, pure, Run.pure, emit, log, call, hg1,
              hgate2, hU, hupdate, if_false, Bool.not_true, Bool.false_eq_true,
              List.append_nil, List.nil_append, List.cons_append, List.append_assoc,
              List.singleton_append]
          · cases h2
          · cases h3
          · cases h3
            rfl
        | ok v =>
          refine ⟨.log .DEBUG "Uploading local build...".toList ::
              (uevents ++ [.updateActionCache actionDigest result,
                .log .INFO "Action cache updated".toList, .d_actionResult result]),
            ?_, fun h => absurd h hnot, fun _ => ⟨_, rfl, fun e2 h2 => ?_, fun _ =>
              ⟨_, rfl, fun _ => rfl, fun e3 h3 => ?_⟩⟩⟩
          · simp only [executeCacheOnly, hon, Bool.not_true, Bool.false_eq_true, if_false,
              hlocal]
            simp only [bind, Run.bind, Run.tryCatch, pure, Run.pure, emit, log, call, hg1,
              hgate2, hU, hupdate, if_false, Bool.not_true, Bool.false_eq_true,
              List.append_nil, List.nil_append, List.cons_append, List.append_assoc,
              List.singleton_append]
          · cases h2
          · cases h3

/-- What `uploadResources` does, by the answers of the CAS. -/
theorem uploadResources_cases (W : ExecutionWorld)
    (blobs digest_to_filepaths : digest_string_map) :
    (∃ x, W.findMissingBlobs (blobs.map Prod.fst ++ digest_to_filepaths.map Prod.fst)
        = .error x ∧
      uploadResources W blobs digest_to_filepaths
        = ⟨[.findMissingBlobs (blobs.map Prod.fst ++ digest_to_filepaths.map Prod.fst)],
            .error x⟩) ∨
    (∃ x, uploadResources W blobs digest_to_filepaths
        = ⟨[.findMissingBlobs (blobs.map Prod.fst ++ digest_to_filepaths.map Prod.fst)],
            .error x⟩ ∧
      ∀ y, W.findMissingBlobs (blobs.map Prod.fst ++ digest_to_filepaths.map Prod.fst)
        ≠ .error y) ∨
    (∃ missingDigests upload_requests,
      W.findMissingBlobs (blobs.map Prod.fst ++ digest_to_filepaths.map Prod.fst)
        = .ok missingDigests ∧
      uploadRequests blobs digest_to_filepaths missingDigests = .ok upload_requests ∧
      ((∃ x, W.uploadBlobs upload_requests = .error x ∧
          uploadResources W blobs digest_to_filepaths
            = ⟨[.findMissingBlobs (blobs.map Prod.fst ++ digest_to_filepaths.map Prod.fst),
                .uploadBlobs upload_requests], .error x⟩) ∨
        (W.uploadBlobs upload_requests = .ok () ∧
          uploadResources W blobs digest_to_filepaths
            = ⟨[.findMissingBlobs (blobs.map Prod.fst ++ digest_to_filepaths.map Prod.fst),
                .uploadBlobs upload_requests,
                .counterMetric "recc.upload_blobs_cache_hit".toList
                  (((blobs.map Prod.fst ++ digest_to_filepaths.map Prod.fst).length : Int) -
                    missingDigests.length),
                .counterMetric "recc.upload_blobs_cache_miss".toList missingDigests.length],
              .ok ()⟩))) := by
  cases hfind : W.findMissingBlobs (blobs.map Prod.fst ++ digest_to_filepaths.map Prod.fst) with
  | error x =>
    left
    refine ⟨x, rfl, ?_⟩
    simp only [uploadResources, call, hfind, bind, Run.bind]
  | ok missingDigests =>
    right
    cases hrequests : uploadRequests blobs digest_to_filepaths missingDigests with
    | error x =>
      left
      refine ⟨x, ?_, fun y hy => by cases hy⟩
      simp only [uploadResources, call, hfind, bind, Run.bind, hrequests]
      rfl
    | ok upload_requests =>
      right
      refine ⟨missingDigests, upload_requests, rfl, hrequests, ?_⟩
      cases hup : W.uploadBlobs upload_requests with
      | error x =>
        left
        refine ⟨x, rfl, ?_⟩
        simp only [uploadResources, call, hfind, bind, Run.bind, hrequests, hup]
        rfl
      | ok u =>
        right
        refine ⟨rfl, ?_⟩
        simp only [uploadResources, call, hfind, bind, Run.bind, hrequests, hup]
        rfl

/-- A request to upload from a path comes from the file-backed map. -/
theorem uploadRequests_from_path (blobs digest_to_filepaths : digest_string_map)
    (missingDigests : List Digest) (upload_requests : List UploadRequest)
    (h : uploadRequests blobs digest_to_filepaths missingDigests = .ok upload_requests)
    (digest : Digest) (path : Str)
    (hmem : UploadRequest.from_path digest path ∈ upload_requests) :
    (digest, path) ∈ digest_to_filepaths := by
  induction missingDigests generalizing upload_requests with
  | nil =>
    cases h
    cases hmem
  | cons d rest ih =>
    unfold uploadRequests at h
    cases hrest : uploadRequests blobs digest_to_filepaths rest with
    | error x =>
      rw [hrest] at h
      cases hb : blobs.at? d with
      | some data =>
        rw [hb] at h
        cases h
      | none =>
        rw [hb] at h
        cases hf : digest_to_filepaths.at? d with
        | some p =>
          rw [hf] at h
          cases h
        | none =>
          rw [hf] at h
          cases h
    | ok requests =>
      rw [hrest] at h
      cases hb : blobs.at? d with
      | some data =>
        rw [hb] at h
        cases h
        rcases List.mem_cons.1 hmem with h1 | h1
        · cases h1
        · exact ih requests hrest h1
      | none =>
        rw [hb] at h
        cases hf : digest_to_filepaths.at? d with
        | some p =>
          rw [hf] at h
          cases h
          rcases List.mem_cons.1 hmem with h1 | h1
          · cases h1
            unfold digest_string_map.at? at hf
            obtain ⟨entry, hentry, hp⟩ := Option.map_eq_some'.1 hf
            have hkey : entry.1 = digest := by simpa using List.find?_some hentry
            have hm := List.mem_of_find?_eq_some hentry
            rw [← hkey, ← hp]
            exact hm
          · exact ih requests hrest h1
        | none =>
          rw [hf] at h
          cases h

/-- The channels are set up, the action cache reports no hit and `RECC_CACHE_ONLY` is set:
the statements of the cache-only mode follow the query. -/
theorem executeRemote_cache_only (W : ExecutionWorld) (argv : List Str)
    (command : ParsedCommand) (action : Action) (actionDigest : Digest)
    (blobs digest_to_filepaths : digest_string_map) (products : List Str)
    (hchannels : W.get_channels_from_config = .ok ())
    (hfunction : W.configured_digest_function = .ok ())
    (hcas : W.casClient_init = .ok ()) (hre : W.reClient_init = .ok ())
    (honly : W.RECC_CACHE_ONLY = true)
    (hmiss : ¬(W.RECC_SKIP_CACHE = false ∧ ∃ cached,
      W.fetchFromActionCache actionDigest command.get_products = .ok (true, cached))) :
    ∃ before,
      executeRemote W argv command action actionDigest blobs digest_to_filepaths products
        = ⟨before ++
            (executeCacheOnly W argv actionDigest
              (blobs.assign actionDigest action.SerializeAsString) products).events,
          (executeCacheOnly W argv actionDigest
            (blobs.assign actionDigest action.SerializeAsString) products).outcome⟩ ∧
      ∀ e ∈ before, e.isUploadOrExecute = false ∧ e.isLocalRun = false ∧
        e.isUploadOrUpdate = false := by
  cases hskip : W.RECC_SKIP_CACHE with
  | true =>
    refine ⟨[.get_channels_from_config, .casClient_init, .reClient_init], ?_, ?_⟩
    · simp only [executeRemote, call, hchannels, hfunction, hcas, hre, hskip, honly]
      simp only [bind, Run.bind, Run.tryCatch, pure, Run.pure, emit, log,
        Bool.false_eq_true, if_false, if_true, Bool.not_false, Bool.not_true,
        List.append_nil, List.nil_append, List.cons_append, List.append_assoc,
        List.singleton_append]
    · intro e he
      simp only [List.mem_cons, List.mem_singleton, List.not_mem_nil, or_false] at he
      rcases he with h | h | h <;> (subst h; exact ⟨rfl, rfl, rfl⟩)
  | false =>
    cases hfetch : W.fetchFromActionCache actionDigest command.get_products with
    | error x =>
      refine ⟨[.get_channels_from_config, .casClient_init, .reClient_init,
        .fetchFromActionCache actionDigest command.get_products,
        .log .ERROR ("Error while querying action cache at \"".toList ++
          W.RECC_ACTION_CACHE_SERVER ++ "\": ".toList ++ x.what)], ?_, ?_⟩
      · simp only [executeRemote, call, hchannels, hfunction, hcas, hre, hskip, honly, hfetch]
        simp only [bind, Run.bind, Run.tryCatch, pure, Run.pure, emit, log,
          Bool.false_eq_true, if_false, if_true, Bool.not_false, Bool.not_true,
          List.append_nil, List.nil_append, List.cons_append, List.append_assoc,
          List.singleton_append]
      · intro e he
        simp only [List.mem_cons, List.mem_singleton, List.not_mem_nil, or_false] at he
        rcases he with h | h | h | h | h <;> (subst h; exact ⟨rfl, rfl, rfl⟩)
    | ok answer =>
      obtain ⟨hit, result⟩ := answer
      cases hit with
      | true => exact absurd ⟨hskip, result, hfetch⟩ hmiss
      | false =>
        refine ⟨[.get_channels_from_config, .casClient_init, .reClient_init,
          .fetchFromActionCache actionDigest command.get_products,
          .counterMetric "recc.action_cache_miss".toList 1], ?_, ?_⟩
        · simp only [executeRemote, call, hchannels, hfunction, hcas, hre, hskip, honly,
            hfetch]
          simp only [bind, Run.bind, Run.tryCatch, pure, Run.pure, emit, log,
            Bool.false_eq_true, if_false, if_true, Bool.not_false, Bool.not_true,
            List.append_nil, List.nil_append, List.cons_append, List.append_assoc,
            List.singleton_append]
        · intro e he
          simp only [List.mem_cons, List.mem_singleton, List.not_mem_nil, or_false] at he
          rcases he with h | h | h | h | h <;> (subst h; exact ⟨rfl, rfl, rfl⟩)

/-- `execute` in the cache-only mode after a miss: what comes before the statements of the
cache-only mode holds no upload, no call of `Execute` or of `UpdateActionResult`, and no
local run. -/
theorem execute_cache_only (W : ExecutionWorld) (argv : List Str) (command : ParsedCommand)
    (built : BuildActionResult) (action : Action)
    (hconf : W.parse_config_variables = .ok ())
    (hstats : W.get_statsdpublisher_from_config = .ok ())
    (hparse : createParsedCommand W.E argv W.getCurrentWorkingDirectory = some command)
    (hremote : (command.is_compiler_command || W.RECC_FORCE_REMOTE) = true)
    (hbuild : W.BuildAction command W.getCurrentWorkingDirectory = .ok built)
    (haction : built.actionPtr = some action)
    (hno : W.RECC_NO_EXECUTE = false) (honly : W.RECC_CACHE_ONLY = true)
    (hchannels : W.get_channels_from_config = .ok ())
    (hfunction : W.configured_digest_function = .ok ())
    (hcas : W.casClient_init = .ok ()) (hre : W.reClient_init = .ok ())
    (hmiss : ¬(W.RECC_SKIP_CACHE = false ∧ ∃ cached,
      W.fetchFromActionCache (W.make_digest_action action) command.get_products
        = .ok (true, cached))) :
    ∃ before,
      execute W argv = some
        ⟨before ++
          (executeCacheOnly W argv (W.make_digest_action action)
            (built.blobs.assign (W.make_digest_action action) action.SerializeAsString)
            built.products).events,
        (executeCacheOnly W argv (W.make_digest_action action)
          (built.blobs.assign (W.make_digest_action action) action.SerializeAsString)
          built.products).outcome⟩ ∧
      ∀ e ∈ before, e.isUploadOrExecute = false ∧ e.isLocalRun = false ∧
        e.isUploadOrUpdate = false := by
  obtain ⟨before, hR, hbefore⟩ := executeRemote_cache_only W argv command action
    (W.make_digest_action action) built.blobs built.digest_to_filepaths built.products
    hchannels hfunction hcas hre honly hmiss
  obtain ⟨pre, hrun, hpre⟩ := execute_parsed_log W argv command hconf hstats hparse
  rw [executeCommand_remote W argv command built action hremote hbuild haction hno, hR]
    at hrun
  refine ⟨pre ++
    ([.BuildAction command.get_command W.getCurrentWorkingDirectory,
      .counterMetric "recc.input_size_bytes".toList
        (calculateTotalSize built.blobs built.digest_to_filepaths),
      .d_actionDigest (W.make_digest_action action),
      .log .DEBUG ("Action Digest: ".toList ++
        W.showDigest (W.make_digest_action action) ++ " Action Contents: ".toList ++
        action.ShortDebugString)] ++ before), ?_, ?_⟩
  · rw [hrun]
    simp only [List.cons_append, List.nil_append, List.append_assoc]
  · intro e he
    rcases List.mem_append.1 he with h | h
    · obtain ⟨level, m, rfl⟩ := hpre e h
      exact ⟨rfl, rfl, rfl⟩
    · rcases List.mem_append.1 h with h1 | h1
      · simp only [List.mem_cons, List.mem_singleton, List.not_mem_nil, or_false] at h1
        rcases h1 with h2 | h2 | h2 | h2 <;> (subst h2; exact ⟨rfl, rfl, rfl⟩)
      · exact hbefore e h1

/-- The cache-only mode with the upload of the local build, by the gate and the answers of
the CAS and of the action cache: the events behind the local run. -/
theorem executeCacheOnly_leaves (W : ExecutionWorld) (argv : List Str)
    (actionDigest : Digest) (blobs : digest_string_map) (products : List Str)
    (r : SubprocessResult)
    (hon : (W.RECC_CACHE_UPLOAD_LOCAL_BUILD && !W.RECC_ACTION_UNCACHEABLE) = true)
    (hsub : W.Subprocess_execute argv true true = .ok r)
    (hfiles : ∀ p ∈ products, W.isRegularFile p = true → ∃ file, W.File p = .ok file) :
    ∃ (result : ActionResult) (blobs2 filepaths : digest_string_map) (tail : List Event),
      executeCacheOnly W argv actionDigest blobs products
        = ⟨[.log .INFO
              "Action not cached and running in cache-only mode, executing locally".toList,
            .Subprocess_execute argv true true, .cout r.d_stdOut, .cerr r.d_stdErr] ++ tail,
          .ok r.d_exitCode⟩ ∧
      result.exit_code = r.d_exitCode ∧
      result.output_files.length = (products.filter W.isRegularFile).length ∧
      (∀ entry ∈ filepaths, entry.2 ∈ products ∧ W.isRegularFile entry.2 = true) ∧
      ((((result.exit_code ≠ 0 ∧ W.RECC_CACHE_UPLOAD_FAILED_BUILD = false) ∨
            result.output_files.length ≠ products.length) ∧
          ∃ message, tail = [.log .WARNING message, .d_actionResult result]) ∨
        (¬((result.exit_code ≠ 0 ∧ W.RECC_CACHE_UPLOAD_FAILED_BUILD = false) ∨
            result.output_files.length ≠ products.length) ∧
          ((∃ x, tail = [.log .DEBUG "Uploading local build...".toList,
                .findMissingBlobs (blobs2.map Prod.fst ++ filepaths.map Prod.fst),
                .log .WARNING ("Error while uploading local build to CAS at \"".toList ++
                  W.RECC_CAS_SERVER ++ "\": ".toList ++ x.what)] ∧
              ∀ y, W.findMissingBlobs (blobs2.map Prod.fst ++ filepaths.map Prod.fst)
                = .error y → y = x) ∨
            ∃ missingDigests upload_requests,
              W.findMissingBlobs (blobs2.map Prod.fst ++ filepaths.map Prod.fst)
                = .ok missingDigests ∧
              uploadRequests blobs2 filepaths missingDigests = .ok upload_requests ∧
              ((∃ x, W.uploadBlobs upload_requests = .error x ∧
                  tail = [.log .DEBUG "Uploading local build...".toList,
                    .findMissingBlobs (blobs2.map Prod.fst ++ filepaths.map Prod.fst),
                    .uploadBlobs upload_requests,
                    .log .WARNING ("Error while uploading local build to CAS at \"".toList ++
                      W.RECC_CAS_SERVER ++ "\": ".toList ++ x.what)]) ∨
                (W.uploadBlobs upload_requests = .ok () ∧
                  ∃ hits misses level message,
                    tail = [.log .DEBUG "Uploading local build...".toList,
                      .findMissingBlobs (blobs2.map Prod.fst ++ filepaths.map Prod.fst),
                      .uploadBlobs upload_requests,
                      .counterMetric "recc.upload_blobs_cache_hit".toList hits,
                      .counterMetric "recc.upload_blobs_cache_miss".toList misses,
                      .updateActionCache actionDigest result, .log level message,
                      .d_actionResult result] ∧
                    ∀ x, W.updateActionCache actionDigest result = .error x →
                      level = .WARNING ∧
                      message = "Error while calling `UpdateActionCache()` on \"".toList ++
                        W.RECC_ACTION_CACHE_SERVER ++ "\": ".toList ++ x.what))))) := by
  obtain ⟨result, blobs2, filepaths, hlocal, hexit, hlen, hpaths⟩ :=
    execLocallyWithActionResult_ok W argv blobs products r hsub hfiles
  obtain ⟨tail, hrun, hfail, hpass⟩ := executeCacheOnly_enabled W argv actionDigest blobs
    products _ result blobs2 filepaths hon hlocal
  refine ⟨result, blobs2, filepaths, tail, ?_, hexit, hlen, hpaths, ?_⟩
  · rw [hrun, hexit]
    rfl
  · by_cases hgate : (result.exit_code ≠ 0 ∧ W.RECC_CACHE_UPLOAD_FAILED_BUILD = false) ∨
        result.output_files.length ≠ products.length
    · exact Or.inl ⟨hgate, hfail hgate⟩
    · right
      refine ⟨hgate, ?_⟩
      obtain ⟨after, htail, herror, hok⟩ := hpass hgate
      rcases uploadResources_cases W blobs2 filepaths with
        ⟨x, hfind, hU⟩ | ⟨x, hU, hfind⟩ | ⟨missingDigests, requests, hfound, hrequests, hcases⟩
      · left
        refine ⟨x, ?_, fun y hy => ?_⟩
        · rw [htail, herror x (by rw [hU]), hU]
          rfl
        · rw [hfind] at hy
          cases hy
          rfl
      · left
        refine ⟨x, ?_, fun y hy => absurd hy (hfind y)⟩
        rw [htail, herror x (by rw [hU]), hU]
        rfl
      · right
        refine ⟨missingDigests, requests, hfound, hrequests, ?_⟩
        rcases hcases with ⟨x, hup, hU⟩ | ⟨hup, hU⟩
        · left
          refine ⟨x, hup, ?_⟩
          rw [htail, herror x (by rw [hU]), hU]
          rfl
        · right
          obtain ⟨line, hafter, hline1, hline2⟩ := hok (by rw [hU])
          refine ⟨hup, ?_⟩
          cases hupdate : W.updateActionCache actionDigest result with
          | ok u =>
            refine ⟨((blobs2.map Prod.fst ++ filepaths.map Prod.fst).length : Int) -
                missingDigests.length, missingDigests.length, .INFO,
              "Action cache updated".toList, ?_, fun x hx => by cases hx⟩
            rw [htail, hafter, hline1 hupdate, hU]
            rfl
          | error x =>
            refine ⟨((blobs2.map Prod.fst ++ filepaths.map Prod.fst).length : Int) -
                missingDigests.length, missingDigests.length, .WARNING,
              "Error while calling `UpdateActionCache()` on \"".toList ++
                W.RECC_ACTION_CACHE_SERVER ++ "\": ".toList ++ x.what, ?_, fun y hy => ?_⟩
            · rw [htail, hafter, hline2 x hupdate, hU]
              rfl
            · cases hy
              exact ⟨rfl, rfl⟩

/-- C31, amended: in the cache-only mode after a miss of the action cache (the query skipped,
the action not cached, or the query thrown), when the channels and clients are set up, the
local run returns and, where the local build is to be uploaded, `buildboxcommon::File` reads
without an exception the products that are regular files after the run: `Execute` is not
called, the original argv is run locally exactly once, and `execute` returns the exit code of
that run, for every answer of `FindMissingBlobs`, `uploadBlobs` and `UpdateActionResult`; an
exception of one of these calls is written to the log as a warning. -/
theorem C31_cache_only (W : ExecutionWorld) (argv : List Str) (command : ParsedCommand)
    (built : BuildActionResult) (action : Action)
    (hconf : W.parse_config_variables = .ok ())
    (hstats : W.get_statsdpublisher_from_config = .ok ())
    (hparse : createParsedCommand W.E argv W.getCurrentWorkingDirectory = some command)
    (hremote : (command.is_compiler_command || W.RECC_FORCE_REMOTE) = true)
    (hbuild : W.BuildAction command W.getCurrentWorkingDirectory = .ok built)
    (haction : built.actionPtr = some action)
    (hno : W.RECC_NO_EXECUTE = false) (honly : W.RECC_CACHE_ONLY = true)
    (hchannels : W.get_channels_from_config = .ok ())
    (hfunction : W.configured_digest_function = .ok ())
    (hcas : W.casClient_init = .ok ()) (hre : W.reClient_init = .ok ())
    (hmiss : ¬(W.RECC_SKIP_CACHE = false ∧ ∃ cached,
      W.fetchFromActionCache (W.make_digest_action action) command.get_products
        = .ok (true, cached)))
    (r : SubprocessResult)
    (hlocal : W.Subprocess_execute argv
      (W.RECC_CACHE_UPLOAD_LOCAL_BUILD && !W.RECC_ACTION_UNCACHEABLE)
      (W.RECC_CACHE_UPLOAD_LOCAL_BUILD && !W.RECC_ACTION_UNCACHEABLE) = .ok r)
    (hfiles : (W.RECC_CACHE_UPLOAD_LOCAL_BUILD && !W.RECC_ACTION_UNCACHEABLE) = true →
      ∀ p ∈ built.products, W.isRegularFile p = true → ∃ file, W.File p = .ok file) :
    ∃ run, execute W argv = some run ∧
      (∀ actionDigest skipCache, Event.executeAction actionDigest skipCache ∉ run.events) ∧
      run.events.filter Event.isLocalRun
        = [.Subprocess_execute argv
            (W.RECC_CACHE_UPLOAD_LOCAL_BUILD && !W.RECC_ACTION_UNCACHEABLE)
            (W.RECC_CACHE_UPLOAD_LOCAL_BUILD && !W.RECC_ACTION_UNCACHEABLE)] ∧
      run.outcome = .ok r.d_exitCode ∧
      (∀ digests x, Event.findMissingBlobs digests ∈ run.events →
        W.findMissingBlobs digests = .error x →
        Event.log .WARNING ("Error while uploading local build to CAS at \"".toList ++
          W.RECC_CAS_SERVER ++ "\": ".toList ++ x.what) ∈ run.events) ∧
      (∀ requests x, Event.uploadBlobs requests ∈ run.events →
        W.uploadBlobs requests = .error x →
        Event.log .WARNING ("Error while uploading local build to CAS at \"".toList ++
          W.RECC_CAS_SERVER ++ "\": ".toList ++ x.what) ∈ run.events) ∧
      (∀ actionDigest result x, Event.updateActionCache actionDigest result ∈ run.events →
        W.updateActionCache actionDigest result = .error x →
        Event.log .WARNING ("Error while calling `UpdateActionCache()` on \"".toList ++
          W.RECC_ACTION_CACHE_SERVER ++ "\": ".toList ++ x.what) ∈ run.events) := by
  obtain ⟨before, hrun, hbefore⟩ := execute_cache_only W argv command built action hconf
    hstats hparse hremote hbuild haction hno honly hchannels hfunction hcas hre hmiss
  have hb1 : ∀ d s, Event.executeAction d s ∉ before := fun d s h => by
    have := (hbefore _ h).1
    cases this
  have hb2 : before.filter Event.isLocalRun = [] :=
    List.filter_eq_nil_iff.2 (fun e he => by rw [(hbefore e he).2.1]; exact Bool.false_ne_true)
  have hb3 : ∀ digests, Event.findMissingBlobs digests ∉ before := fun d h => by
    have := (hbefore _ h).2.2
    cases this
  have hb4 : ∀ requests, Event.uploadBlobs requests ∉ before := fun d h => by
    have := (hbefore _ h).2.2
    cases this
  have hb5 : ∀ d a, Event.updateActionCache d a ∉ before := fun d a h => by
    have := (hbefore _ h).2.2
    cases this
  refine ⟨_, hrun, ?_⟩
  cases hpipe : (W.RECC_CACHE_UPLOAD_LOCAL_BUILD && !W.RECC_ACTION_UNCACHEABLE) with
  | false =>
    rw [hpipe] at hlocal
    rw [executeCacheOnly_disabled W argv _ _ _ hpipe, hlocal]
    simp only [List.mem_append, List.mem_cons, List.mem_singleton, List.not_mem_nil,
      reduceCtorEq, or_false, false_or, List.filter_append, hb2, List.nil_append,
      List.filter_cons, List.filter_nil, Event.isLocalRun, if_true, if_false,
      Bool.false_eq_true, Except.map]
    exact ⟨fun d s => hb1 d s, trivial, trivial, fun d x h => absurd h (hb3 d),
      fun q x h => absurd h (hb4 q), fun d a x h => absurd h (hb5 d a)⟩
  | true =>
    rw [hpipe] at hlocal
    obtain ⟨result, blobs2, filepaths, tail, hC, -, -, -, hleaf⟩ :=
      executeCacheOnly_leaves W argv (W.make_digest_action action)
        (built.blobs.assign (W.make_digest_action action) action.SerializeAsString)
        built.products r hpipe hlocal (hfiles hpipe)
    rw [hC]
    rcases hleaf with ⟨-, message, htail⟩ | ⟨-, ⟨x0, htail, hx0⟩ |
      ⟨missingDigests, requests, hfound, -, ⟨x0, hup, htail⟩ |
        ⟨hup, hits, misses, level, message, htail, hline⟩⟩⟩
    · subst htail
      simp only [List.mem_append, List.mem_cons, List.mem_singleton, List.not_mem_nil,
        reduceCtorEq, or_false, false_or, List.filter_append, hb2, List.nil_append,
        List.filter_cons, List.filter_nil, Event.isLocalRun, if_true, if_false,
        Bool.false_eq_true, List.append_nil]
      exact ⟨fun d s => hb1 d s, trivial, trivial, fun d x h => absurd h (hb3 d),
        fun q x h => absurd h (hb4 q), fun d a x h => absurd h (hb5 d a)⟩
    · subst htail
      simp only [List.mem_append, List.mem_cons, List.mem_singleton, List.not_mem_nil,
        reduceCtorEq, or_false, false_or, List.filter_append, hb2, List.nil_append,
        List.filter_cons, List.filter_nil, Event.isLocalRun, if_true, if_false,
        Bool.false_eq_true, List.append_nil, Event.findMissingBlobs.injEq]
      refine ⟨fun d s => hb1 d s, trivial, trivial, fun d x h hx => ?_,
        fun q x h => absurd h (hb4 q), fun d a x h => absurd h (hb5 d a)⟩
      rcases h with h | h
      · exact absurd h (hb3 d)
      · subst h
        rw [hx0 x hx]
        exact Or.inr (Or.inr (Or.inr rfl))
    · subst htail
      simp only [List.mem_append, List.mem_cons, List.mem_singleton, List.not_mem_nil,
        reduceCtorEq, or_false, false_or, List.filter_append, hb2, List.nil_append,
        List.filter_cons, List.filter_nil, Event.isLocalRun, if_true, if_false,
        Bool.false_eq_true, List.append_nil, Event.findMissingBlobs.injEq, Event.uploadBlobs.injEq]
      refine ⟨fun d s => hb1 d s, trivial, trivial, fun d x h hx => ?_,
        fun q x h hx => ?_, fun d a x h => absurd h (hb5 d a)⟩
      · rcases h with h | h
        · exact absurd h (hb3 d)
        · subst h
          rw [hfound] at hx
          cases hx
      · rcases h with h | h
        · exact absurd h (hb4 q)
        · subst h
          rw [hup] at hx
          cases hx
          exact Or.inr (Or.inr (Or.inr rfl))
    · subst htail
      simp only [List.mem_append, List.mem_cons, List.mem_singleton, List.not_mem_nil,
        reduceCtorEq, or_false, false_or, List.filter_append, hb2, List.nil_append,
        List.filter_cons, List.filter_nil, Event.isLocalRun, if_true, if_false,
        Bool.false_eq_true, List.append_nil, Event.findMissingBlobs.injEq,
        Event.uploadBlobs.injEq, Event.updateActionCache.injEq, Event.log.injEq]
      refine ⟨fun d s => hb1 d s, trivial, trivial, fun d x h hx => ?_,
        fun q x h hx => ?_, fun d a x h hx => ?_⟩
      · rcases h with h | h
        · exact absurd h (hb3 d)
        · subst h
          rw [hfound] at hx
          cases hx
      · rcases h with h | h
        · exact absurd h (hb4 q)
        · subst h
          rw [hup] at hx
          cases hx
      · rcases h with h | ⟨h1, h2⟩
        · exact absurd h (hb5 d a)
        · subst h1 h2
          obtain ⟨hlevel, hmessage⟩ := hline x hx
          exact Or.inr (Or.inr (Or.inr ⟨hlevel.symm, hmessage.symm⟩))

set_option maxRecDepth 100000 in
/-- C31 at `gcc -c hello.c` in the cache-only mode with the upload of the local build, a local
run that ends with exit code 3 and an action cache that refuses the update: the command is
run once, and 3 is returned. -/
theorem C31_cache_only_witness :
    ∃ run,
      execute
          { sampleWorld with
            RECC_CACHE_ONLY := true
            RECC_CACHE_UPLOAD_LOCAL_BUILD := true
            Subprocess_execute := fun _ _ _ => .ok ⟨3, [], []⟩
            updateActionCache := fun _ _ => .error (.GrpcError .UNAVAILABLE "down".toList) }
          ["gcc".toList, "-c".toList, "hello.c".toList] = some run ∧
        run.events.filter Event.isLocalRun
          = [.Subprocess_execute ["gcc".toList, "-c".toList, "hello.c".toList] true true] ∧
        run.outcome = .ok 3 := by
  have hrun : (createParsedCommand sampleEnv ["gcc".toList, "-c".toList, "hello.c".toList]
      "/home/nobody/".toList).map (fun pc => pc.is_compiler_command) = some true := by
    decide
  obtain ⟨command, hpc, hcc⟩ := Option.map_eq_some'.1 hrun
  obtain ⟨run, h1, -, h3, h4, -⟩ := C31_cache_only
    { sampleWorld with
      RECC_CACHE_ONLY := true
      RECC_CACHE_UPLOAD_LOCAL_BUILD := true
      Subprocess_execute := fun _ _ _ => .ok ⟨3, [], []⟩
      updateActionCache := fun _ _ => .error (.GrpcError .UNAVAILABLE "down".toList) }
    ["gcc".toList, "-c".toList, "hello.c".toList] command _ _ rfl rfl hpc
    (by rw [hcc]; rfl) rfl rfl rfl rfl rfl rfl rfl rfl
    (by rintro ⟨-, cached, h⟩; cases h) ⟨3, [], []⟩ rfl (fun _ p _ _ => ⟨_, rfl⟩)
  exact ⟨run, h1, h3, h4⟩

set_option maxRecDepth 100000 in
/-- C31 as stated fails at `gcc -c hello.c` in the cache-only mode with the upload of the local
build, when `buildboxcommon::File` throws on the product `hello.o`, a regular file after the
run: the constructor is called in `execLocallyWithActionResult`, outside every `try` block
(executioncontext.cpp:103). The command has been run locally, once, with exit code 0;
nothing is uploaded; `execute` does not return that exit code but throws the exception, and
`main` returns 101. -/
theorem C31_unreadable_product_counterexample :
    (execute
        { sampleWorld with
          RECC_CACHE_ONLY := true
          RECC_CACHE_UPLOAD_LOCAL_BUILD := true
          File := fun _ => .error (.runtime_error "Failed to open file".toList) }
        ["gcc".toList, "-c".toList, "hello.c".toList]).map
      (fun run => (run.events.filter Event.isLocalRun,
        run.events.filter Event.isUploadOrUpdate, run.outcome))
      = some ([.Subprocess_execute ["gcc".toList, "-c".toList, "hello.c".toList] true true],
          [], .error (.runtime_error "Failed to open file".toList)) ∧
    sampleWorld.Subprocess_execute ["gcc".toList, "-c".toList, "hello.c".toList] true true
      = .ok ⟨0, [], []⟩ ∧
    sampleWorld.isRegularFile "hello.o".toList = true ∧
    (main [] []
      (fun command =>
        match execute
            { sampleWorld with
              RECC_CACHE_ONLY := true
              RECC_CACHE_UPLOAD_LOCAL_BUILD := true
              File := fun _ => .error (.runtime_error "Failed to open file".toList) }
            command with
        | some run => run.outcome
        | none => .error (.exception []))
      ["recc".toList, "gcc".toList, "-c".toList, "hello.c".toList]).finish
      = .returned 101 := by
  decide

/-- C32: in the cache-only mode after a miss, when the channels and clients are set up, the
local run returns and the products that exist can be read: `uploadResources` or
`UpdateActionResult` is called exactly if `RECC_CACHE_UPLOAD_LOCAL_BUILD` is set,
`RECC_ACTION_UNCACHEABLE` is not set, the local exit code is 0 or
`RECC_CACHE_UPLOAD_FAILED_BUILD` is set, and every product is a regular file after the run;
`UpdateActionResult` is called only after `FindMissingBlobs` and `uploadBlobs` have returned;
and a file that is uploaded from its path is a product of the command that is a regular
file: the file-backed map of the input files is not uploaded. -/
theorem C32_upload_gate (W : ExecutionWorld) (argv : List Str) (command : ParsedCommand)
    (built : BuildActionResult) (action : Action)
    (hconf : W.parse_config_variables = .ok ())
    (hstats : W.get_statsdpublisher_from_config = .ok ())
    (hparse : createParsedCommand W.E argv W.getCurrentWorkingDirectory = some command)
    (hremote : (command.is_compiler_command || W.RECC_FORCE_REMOTE) = true)
    (hbuild : W.BuildAction command W.getCurrentWorkingDirectory = .ok built)
    (haction : built.actionPtr = some action)
    (hno : W.RECC_NO_EXECUTE = false) (honly : W.RECC_CACHE_ONLY = true)
    (hchannels : W.get_channels_from_config = .ok ())
    (hfunction : W.configured_digest_function = .ok ())
    (hcas : W.casClient_init = .ok ()) (hre : W.reClient_init = .ok ())
    (hmiss : ¬(W.RECC_SKIP_CACHE = false ∧ ∃ cached,
      W.fetchFromActionCache (W.make_digest_action action) command.get_products
        = .ok (true, cached)))
    (r : SubprocessResult)
    (hlocal : W.Subprocess_execute argv true true = .ok r)
    (hfiles : ∀ p ∈ built.products, W.isRegularFile p = true → ∃ file, W.File p = .ok file) :
    ∃ run, execute W argv = some run ∧
      ((∃ e ∈ run.events, e.isUploadOrUpdate = true) ↔
        (W.RECC_CACHE_UPLOAD_LOCAL_BUILD = true ∧ W.RECC_ACTION_UNCACHEABLE = false ∧
          (r.d_exitCode = 0 ∨ W.RECC_CACHE_UPLOAD_FAILED_BUILD = true) ∧
          ∀ p ∈ built.products, W.isRegularFile p = true)) ∧
      (∀ actionDigest result, Event.updateActionCache actionDigest result ∈ run.events →
        ∃ digests missingDigests upload_requests,
          Event.findMissingBlobs digests ∈ run.events ∧
          W.findMissingBlobs digests = .ok missingDigests ∧
          Event.uploadBlobs upload_requests ∈ run.events ∧
          W.uploadBlobs upload_requests = .ok ()) ∧
      (∀ upload_requests, Event.uploadBlobs upload_requests ∈ run.events →
        ∀ digest path, UploadRequest.from_path digest path ∈ upload_requests →
          path ∈ built.products ∧ W.isRegularFile path = true) := by
  obtain ⟨before, hrun, hbefore⟩ := execute_cache_only W argv command built action hconf
    hstats hparse hremote hbuild haction hno honly hchannels hfunction hcas hre hmiss
  have hb0 : ¬∃ e ∈ before, e.isUploadOrUpdate = true := by
    rintro ⟨e, he, h⟩
    rw [(hbefore e he).2.2] at h
    cases h
  have hb4 : ∀ requests, Event.uploadBlobs requests ∉ before := fun d h => by
    have := (hbefore _ h).2.2
    cases this
  have hb5 : ∀ d a, Event.updateActionCache d a ∉ before := fun d a h => by
    have := (hbefore _ h).2.2
    cases this
  refine ⟨_, hrun, ?_⟩
  cases hpipe : (W.RECC_CACHE_UPLOAD_LOCAL_BUILD && !W.RECC_ACTION_UNCACHEABLE) with
  | false =>
    rw [executeCacheOnly_disabled W argv _ _ _ hpipe]
    refine ⟨iff_of_false ?_ ?_, fun d a h => ?_, fun q h => ?_⟩
    · rintro ⟨e, he, h⟩
      rcases List.mem_append.1 he with h1 | h1
      · exact hb0 ⟨e, h1, h⟩
      · simp only [List.mem_cons, List.mem_singleton, List.not_mem_nil, or_false] at h1
        rcases h1 with h2 | h2 <;> (subst h2; cases h)
    · rintro ⟨h1, h2, -⟩
      rw [h1, h2] at hpipe
      cases hpipe
    · simp only [List.mem_append, List.mem_cons, List.mem_singleton, List.not_mem_nil,
        reduceCtorEq, or_false] at h
      exact absurd h (hb5 d a)
    · simp only [List.mem_append, List.mem_cons, List.mem_singleton, List.not_mem_nil,
        reduceCtorEq, or_false] at h
      exact absurd h (hb4 q)
  | true =>
    have hflags : W.RECC_CACHE_UPLOAD_LOCAL_BUILD = true ∧ W.RECC_ACTION_UNCACHEABLE = false := by
      simpa using hpipe
    obtain ⟨result, blobs2, filepaths, tail, hC, hexit, hlen, hpaths, hleaf⟩ :=
      executeCacheOnly_leaves W argv (W.make_digest_action action)
        (built.blobs.assign (W.make_digest_action action) action.SerializeAsString)
        built.products r hpipe hlocal hfiles
    rw [hC]
    have hgate : ¬((result.exit_code ≠ 0 ∧ W.RECC_CACHE_UPLOAD_FAILED_BUILD = false) ∨
          result.output_files.length ≠ built.products.length) ↔
        ((r.d_exitCode = 0 ∨ W.RECC_CACHE_UPLOAD_FAILED_BUILD = true) ∧
          ∀ p ∈ built.products, W.isRegularFile p = true) := by
      rw [hexit, hlen, ← List.filter_length_eq_length]
      cases W.RECC_CACHE_UPLOAD_FAILED_BUILD <;> simp
    have hfind : ∀ (rest : List Event),
        tail = .log .DEBUG "Uploading local build...".toList ::
          .findMissingBlobs (blobs2.map Prod.fst ++ filepaths.map Prod.fst) :: rest →
        ∃ e ∈ before ++
            ([.log .INFO
                "Action not cached and running in cache-only mode, executing locally".toList,
              .Subprocess_execute argv true true, .cout r.d_stdOut, .cerr r.d_stdErr] ++ tail),
          e.isUploadOrUpdate = true := by
      intro rest hrest
      refine ⟨.findMissingBlobs (blobs2.map Prod.fst ++ filepaths.map Prod.fst), ?_, rfl⟩
      rw [hrest]
      exact List.mem_append_right _ (List.mem_append_right _
        (List.mem_cons_of_mem _ (List.mem_cons_self _ _)))
    rcases hleaf with ⟨hfail, message, htail⟩ | ⟨hpass, ⟨x0, htail, -⟩ |
      ⟨missingDigests, requests, hfound, hrequests, ⟨x0, hup, htail⟩ |
        ⟨hup, hits, misses, level, message, htail, -⟩⟩⟩
    · refine ⟨iff_of_false ?_ (fun h => (hgate.2 h.2.2) hfail), fun d a h => ?_,
        fun q h => ?_⟩
      · rintro ⟨e, he, h⟩
        rcases List.mem_append.1 he with h1 | h1
        · exact hb0 ⟨e, h1, h⟩
        · rw [htail] at h1
          simp only [List.mem_append, List.mem_cons, List.mem_singleton, List.not_mem_nil,
            or_false] at h1
          rcases h1 with (h2 | h2 | h2 | h2) | h2 | h2 <;> (subst h2; cases h)
      · rw [htail] at h
        simp only [List.mem_append, List.mem_cons, List.mem_singleton, List.not_mem_nil,
          reduceCtorEq, or_false] at h
        exact absurd h (hb5 d a)
      · rw [htail] at h
        simp only [List.mem_append, List.mem_cons, List.mem_singleton, List.not_mem_nil,
          reduceCtorEq, or_false] at h
        exact absurd h (hb4 q)
    · refine ⟨iff_of_true (hfind _ htail) ⟨hflags.1, hflags.2, hgate.1 hpass⟩,
        fun d a h => ?_, fun q h => ?_⟩
      · rw [htail] at h
        simp only [List.mem_append, List.mem_cons, List.mem_singleton, List.not_mem_nil,
          reduceCtorEq, or_false] at h
        exact absurd h (hb5 d a)
      · rw [htail] at h
        simp only [List.mem_append, List.mem_cons, List.mem_singleton, List.not_mem_nil,
          reduceCtorEq, or_false] at h
        exact absurd h (hb4 q)
    · refine ⟨iff_of_true (hfind _ htail) ⟨hflags.1, hflags.2, hgate.1 hpass⟩,
        fun d a h => ?_, fun q h dg path hmem => ?_⟩
      · rw [htail] at h
        simp only [List.mem_append, List.mem_cons, List.mem_singleton, List.not_mem_nil,
          reduceCtorEq, or_false] at h
        exact absurd h (hb5 d a)
      · rw [htail] at h
        simp only [List.mem_append, List.mem_cons, List.mem_singleton, List.not_mem_nil,
          reduceCtorEq, or_false, false_or, Event.uploadBlobs.injEq] at h
        rcases h with h | h
        · exact absurd h (hb4 q)
        · subst h
          exact hpaths _ (uploadRequests_from_path blobs2 filepaths missingDigests q
            hrequests dg path hmem)
    · refine ⟨iff_of_true (hfind _ htail) ⟨hflags.1, hflags.2, hgate.1 hpass⟩,
        fun d a h => ?_, fun q h dg path hmem => ?_⟩
      · refine ⟨blobs2.map Prod.fst ++ filepaths.map Prod.fst, missingDigests, requests,
          ?_, hfound, ?_, hup⟩
        · rw [htail]
          exact List.mem_append_right _ (List.mem_append_right _
            (List.mem_cons_of_mem _ (List.mem_cons_self _ _)))
        · rw [htail]
          exact List.mem_append_right _ (List.mem_append_right _
            (List.mem_cons_of_mem _ (List.mem_cons_of_mem _ (List.mem_cons_self _ _))))
      · rw [htail] at h
        simp only [List.mem_append, List.mem_cons, List.mem_singleton, List.not_mem_nil,
          reduceCtorEq, or_false, false_or, Event.uploadBlobs.injEq] at h
        rcases h with h | h
        · exact absurd h (hb4 q)
        · subst h
          exact hpaths _ (uploadRequests_from_path blobs2 filepaths missingDigests q
            hrequests dg path hmem)

set_option maxRecDepth 100000 in
/-- C32 at `gcc -c hello.c` in the cache-only mode with the upload of the local build: when
the product `hello.o` is a regular file after the run the local build is uploaded, and when
it is not, nothing is uploaded and the action cache is not updated. -/
theorem C32_upload_gate_witness :
    (∃ run,
      execute
          { sampleWorld with RECC_CACHE_ONLY := true, RECC_CACHE_UPLOAD_LOCAL_BUILD := true }
          ["gcc".toList, "-c".toList, "hello.c".toList] = some run ∧
        ∃ e ∈ run.events, e.isUploadOrUpdate = true) ∧
    (∃ run,
      execute
          { sampleWorld with
            RECC_CACHE_ONLY := true
            RECC_CACHE_UPLOAD_LOCAL_BUILD := true
            isRegularFile := fun _ => false }
          ["gcc".toList, "-c".toList, "hello.c".toList] = some run ∧
        ¬∃ e ∈ run.events, e.isUploadOrUpdate = true) := by
  have hrun : (createParsedCommand sampleEnv ["gcc".toList, "-c".toList, "hello.c".toList]
      "/home/nobody/".toList).map (fun pc => pc.is_compiler_command) = some true := by
    decide
  obtain ⟨command, hpc, hcc⟩ := Option.map_eq_some'.1 hrun
  constructor
  · obtain ⟨run, h1, h2, -⟩ := C32_upload_gate
      { sampleWorld with RECC_CACHE_ONLY := true, RECC_CACHE_UPLOAD_LOCAL_BUILD := true }
      ["gcc".toList, "-c".toList, "hello.c".toList] command _ _ rfl rfl hpc
      (by rw [hcc]; rfl) rfl rfl rfl rfl rfl rfl rfl rfl
      (by rintro ⟨-, cached, h⟩; cases h) ⟨0, [], []⟩ rfl (fun p _ _ => ⟨_, rfl⟩)
    exact ⟨run, h1, h2.2 ⟨rfl, rfl, Or.inl rfl, fun p _ => rfl⟩⟩
  · obtain ⟨run, h1, h2, -⟩ := C32_upload_gate
      { sampleWorld with
        RECC_CACHE_ONLY := true
        RECC_CACHE_UPLOAD_LOCAL_BUILD := true
        isRegularFile := fun _ => false }
      ["gcc".toList, "-c".toList, "hello.c".toList] command _ _ rfl rfl hpc
      (by rw [hcc]; rfl) rfl rfl rfl rfl rfl rfl rfl rfl
      (by rintro ⟨-, cached, h⟩; cases h) ⟨0, [], []⟩ rfl (fun p _ _ => ⟨_, rfl⟩)
    refine ⟨run, h1, fun h => ?_⟩
    have := (h2.1 h).2.2.2 "hello.o".toList (List.mem_singleton.2 rfl)
    cases this

end recc
